import Mathlib

/-!
# Distributed flood fill of pi2 (`pilib/othercommands.h`)

A shallow embedding of `FloodFillBlockCommand` and `FloodFillCommand`:
the seed files, the per-block job `run`, the predicate `needsToRunBlock`
and the outer loop of `runDistributed`.

Conventions of the embedding.

* `coord_t` (64 bit) is modelled by `Int`.
* `int32_t` is the type of the integers in `[-2^31, 2^31)`; a narrowing cast
  and every arithmetic operation on it reduce modulo `2^32` (`wrap32`). A
  theorem that relates a 32 bit coordinate to a 64 bit one names the range in
  which the cast keeps the value.
* A loop whose exit depends on the input takes a `fuel` argument and yields
  `none` when the fuel runs out; the theorems give the fuel that suffices.
* A seed file named `<prefix>_<z>` is the pair `(prefix, z)`; the file system
  holds the seed files only.
* The pixel type `pixel_t` is a type parameter `P`. Its `operator!=`, its
  `operator==` and the conversion of a colour to `double` and back are the
  operations of the class `PixelType`; a theorem that needs them to be exact
  assumes `ExactPixel`, which holds for the integer pixel types of at most 32
  bits and fails for `float32_t` (NaN) and for the 64 bit integer types.
-/

namespace Pi2

/-! ## Machine integers and vectors -/

/-- Two's complement reduction of an integer to 32 bits. -/
def wrap32 (v : Int) : Int := (v + 2147483648) % 4294967296 - 2147483648

/-- The C++ type `int32_t`. -/
structure int32_t where
  val : Int
  lo : -2147483648 ≤ val
  hi : val < 2147483648

/-- The cast `(int32_t)v`. -/
def toInt32 (v : Int) : int32_t :=
  ⟨wrap32 v, by unfold wrap32; omega, by unfold wrap32; omega⟩

instance : DecidableEq int32_t := fun a b =>
  if h : a.val = b.val then
    isTrue (by cases a; cases b; simp only [int32_t.mk.injEq]; exact h)
  else
    isFalse (fun e => h (by rw [e]))

instance : Add int32_t := ⟨fun a b => toInt32 (a.val + b.val)⟩

instance : Sub int32_t := ⟨fun a b => toInt32 (a.val - b.val)⟩

/-- The type `Vec3c`: a point or size with `coord_t` components. -/
structure Vec3c where
  x : Int
  y : Int
  z : Int
deriving DecidableEq

/-- The type `Vec3sc`: a point with `int32_t` components. -/
structure Vec3sc where
  x : int32_t
  y : int32_t
  z : int32_t
deriving DecidableEq

/-- The constructor `Vec3sc(x, y, z)` applied to integer constants. -/
def Vec3sc.ofInts (x y z : Int) : Vec3sc := ⟨toInt32 x, toInt32 y, toInt32 z⟩

/-- The converting constructor `Vec3sc(const Vec3c&)`. -/
def Vec3sc.ofVec3c (p : Vec3c) : Vec3sc := ⟨toInt32 p.x, toInt32 p.y, toInt32 p.z⟩

instance : Add Vec3sc := ⟨fun p q => ⟨p.x + q.x, p.y + q.y, p.z + q.z⟩⟩

/-- The enumeration `Connectivity`; `Unsupported` stands for every value of
the underlying integer type that is not one of the two enumerators. -/
inductive Connectivity where
  | NearestNeighbours
  | AllNeighbours
  | Unsupported
deriving DecidableEq

/-! ## Seed files -/

/-- The name `<prefix>_<z>` of a seed file. -/
structure FileName where
  pre : String
  z : Int
deriving DecidableEq

/-- The files on disk: each name is bound to the bytes of its body. -/
abbrev FileSystem := List (FileName × List Nat)

/-- Modelled from the spec: `fileExists` of itl2 (not in this file). -/
def fileExists (fs : FileSystem) (f : FileName) : Bool :=
  fs.any (fun e => decide (e.1 = f))

/-- The body of a file, if the file exists. -/
def fileBody (fs : FileSystem) (f : FileName) : Option (List Nat) :=
  (fs.find? (fun e => decide (e.1 = f))).map Prod.snd

/-- Modelled from the spec: `deleteFile` of itl2 (not in this file). -/
def deleteFile (fs : FileSystem) (f : FileName) : FileSystem :=
  fs.filter (fun e => !decide (e.1 = f))

/-- Creating or truncating a file and writing its body. -/
def storeFile (fs : FileSystem) (f : FileName) (body : List Nat) : FileSystem :=
  (f, body) :: deleteFile fs f

/-- Modelled from the spec: `buildFileList(prefix + "_*")` of itl2 (not in this
file), the names of the files under a prefix. -/
def buildFileList (fs : FileSystem) (p : String) : List FileName :=
  (fs.filter (fun e => decide (e.1.pre = p))).map Prod.fst

/-- The four bytes that `out.write((char*)&v, sizeof(int32_t))` emits
(little endian). -/
def int32Bytes (v : int32_t) : List Nat :=
  let u := (v.val % 4294967296).toNat
  [u % 256, u / 256 % 256, u / 65536 % 256, u / 16777216 % 256]

/-- The value that `in.read((char*)&v, sizeof(int32_t))` stores, together with
the rest of the stream; `none` when fewer than four bytes are left. -/
def readInt32 : List Nat → Option (int32_t × List Nat)
  | b0 :: b1 :: b2 :: b3 :: rest =>
    some (toInt32 ((b0 % 256 + 256 * (b1 % 256) + 65536 * (b2 % 256)
      + 16777216 * (b3 % 256) : Nat) : Int), rest)
  | _ => none

namespace FloodFillBlockCommand

/-- Source: `readPoint(in, val, z)`. -/
def readPoint (inp : List Nat) (z : int32_t) : Option (Vec3sc × List Nat) :=
  match readInt32 inp with
  | none => none
  | some (x, rest) =>
    match readInt32 rest with
    | none => none
    | some (y, rest2) => some (⟨x, y, z⟩, rest2)

/-- Source: `writePoint(out, p)`. -/
def writePoint (p : Vec3sc) : List Nat := int32Bytes p.x ++ int32Bytes p.y

end FloodFillBlockCommand

/-- Modelled from the spec: `writeListFile` of itl2 `io/vectorio.h` (not in
this file). The body of a list file is the flat sequence of its records, each
written by `writeElem`. -/
def writeListFile {T : Type} (fs : FileSystem) (f : FileName) (list : List T)
    (writeElem : T → List Nat) : FileSystem :=
  storeFile fs f (list.flatMap writeElem)

/-- Reading records from a stream until it is exhausted or a record is
incomplete. -/
def readRecords {T : Type} (readElem : List Nat → Option (T × List Nat)) :
    Nat → List Nat → List T
  | 0, _ => []
  | fuel + 1, inp =>
    match readElem inp with
    | none => []
    | some (v, rest) => v :: readRecords readElem fuel rest

/-- Modelled from the spec: `readListFile` of itl2 `io/vectorio.h` (not in this
file). Appends the records of the file to `output`. -/
def readListFile {T : Type} (fs : FileSystem) (f : FileName) (output : List T)
    (readElem : List Nat → Option (T × List Nat)) : List T :=
  match fileBody fs f with
  | none => output
  | some body => output ++ readRecords readElem body.length body

namespace FloodFillBlockCommand

/-- Source: `readInputFile(infile, z, output)`. -/
def readInputFile (fs : FileSystem) (infile : FileName) (z : int32_t)
    (output : List Vec3sc) : List Vec3sc :=
  if fileExists fs infile then
    readListFile fs infile output (fun inp => readPoint inp z)
  else
    output

/-- Source: `writeOutputFile(outfile, list)`. -/
def writeOutputFile (fs : FileSystem) (outfile : FileName) (list : List Vec3sc) :
    FileSystem :=
  writeListFile fs outfile list writePoint

end FloodFillBlockCommand

/-! ## Images and the per-block job -/

/-- The class `Image<pixel_t>`: the dimensions of a block held in memory and its
pixel accessor `in(x, y, z)`. -/
structure Image (P : Type) where
  width : Nat
  height : Nat
  depth : Nat
  pix : Int → Int → Int → P

/-- The fill kernel `floodfill(image, seeds, origColor, fillColor, stopColor,
connectivity)` of itl2: it is not part of this file and stays a parameter. It
works in place, so it yields the pixel values after the fill and leaves the
dimensions alone. -/
abbrev FloodFillKernel (P : Type) :=
  Image P → List Vec3sc → P → P → P → Connectivity → Int → Int → Int → P

/-- The operations of the pixel type `pixel_t` that the flood fill commands
use; none of them is part of this file, so they stay parameters. `ne` is
`operator!=` (line 812) and `eq` is `operator==` (line 954): for `float32_t` a
NaN compares unequal to every value, itself included. `viaDouble` is the
conversion `pixelRound<pixel_t>((double)c)` that a colour goes through when
`runDistributed` hands it to the block command as a `double` (line 974) and the
block command rounds it back (lines 742-743): for the 64-bit integer types it
changes values above 2^53. -/
class PixelType (P : Type) where
  ne : P → P → Bool
  eq : P → P → Bool
  viaDouble : P → P

/-- A pixel type on which `!=` and `==` decide whether two values are the same
and every colour survives the conversion to `double` and back, as the integer
pixel types of at most 32 bits do. -/
class ExactPixel (P : Type) [PixelType P] : Prop where
  ne_iff : ∀ a b : P, PixelType.ne a b = true ↔ a ≠ b
  eq_iff : ∀ a b : P, PixelType.eq a b = true ↔ a = b
  viaDouble_eq : ∀ c : P, PixelType.viaDouble c = c

/-- The argument list of `floodfillblock` after the image, as `run` holds it in
its local variables: `origColor` and `fillColor` are the two `double` arguments
after `pixelRound<pixel_t>` (lines 742-743). -/
structure BlockArgs (P : Type) where
  seedsSourcePrefix : String
  seedsTargetPrefix : String
  startPoint : Vec3c
  origColor : P
  fillColor : P
  connectivity : Connectivity
  origSize : Vec3c
  blockOrigin : Vec3c

/-- The two `std::logic_error`s thrown by the seed derivation. -/
inductive LogicError where
  | unsupportedBlockShape
  | unsupportedConnectivity
deriving DecidableEq

/-- What a block job leaves behind: the block image, the files and the
exception that ended it, if any. -/
structure RunResult (P : Type) where
  image : Image P
  files : FileSystem
  error : Option LogicError

/-- The state of the seed derivation loop. -/
structure DeriveState where
  n : Nat
  beginNewSeeds : List Vec3sc
  endNewSeeds : List Vec3sc
deriving DecidableEq

namespace FloodFillBlockCommand

variable {P : Type} [PixelType P]

/-- Source `run`, lines 751-759: the seeds read from the three source files,
converted to block coordinates. -/
def loadSeeds (fs : FileSystem) (seedsSourcePrefix : String) (startPoint : Vec3c)
    (blockStartZ blockEndZ : int32_t) : List Vec3sc :=
  let seeds0 := readInputFile fs ⟨seedsSourcePrefix, blockStartZ.val⟩ blockStartZ []
  let seeds1 := readInputFile fs ⟨seedsSourcePrefix, startPoint.z⟩ (toInt32 startPoint.z) seeds0
  let seeds2 := readInputFile fs ⟨seedsSourcePrefix, blockEndZ.val⟩ blockEndZ seeds1
  seeds2.map (fun seed => { seed with z := seed.z - blockStartZ })

/-- The two inner loops of the snapshot: the values of plane `z`, `y` outer and
`x` inner. -/
def planeValues (img : Image P) (z : Int) : List P :=
  (List.range img.height).flatMap (fun (y : Nat) =>
    (List.range img.width).map (fun (x : Nat) => img.pix (x : Int) (y : Int) z))

/-- Source `run`, lines 764-773: the loop
`for (z = 0; z < in.depth(); z += in.depth() - 1)` that fills `edgeValues`.
`none` when the loop is still running after `fuel` tests of its condition. -/
def snapshotLoop (img : Image P) : Nat → Int → List P → Option (List P)
  | 0, _, _ => none
  | fuel + 1, z, edgeValues =>
    if z < (img.depth : Int) then
      snapshotLoop img fuel (z + ((img.depth : Int) - 1)) (edgeValues ++ planeValues img z)
    else
      some edgeValues

/-- Source `run`, lines 815-834: the seeds pushed for one changed pixel. -/
def pushNewSeeds (connectivity : Connectivity) (p : Vec3sc) (newSeeds : List Vec3sc) :
    Except LogicError (List Vec3sc) :=
  match connectivity with
  | Connectivity.NearestNeighbours => Except.ok (newSeeds ++ [p + Vec3sc.ofInts 0 0 0])
  | Connectivity.AllNeighbours =>
    Except.ok (newSeeds ++
      [p + Vec3sc.ofInts (-1) (-1) 0, p + Vec3sc.ofInts 0 (-1) 0, p + Vec3sc.ofInts 1 (-1) 0,
       p + Vec3sc.ofInts (-1) 0 0, p + Vec3sc.ofInts 0 0 0, p + Vec3sc.ofInts 1 0 0,
       p + Vec3sc.ofInts (-1) 1 0, p + Vec3sc.ofInts 0 1 0, p + Vec3sc.ofInts 1 1 0])
  | Connectivity.Unsupported => Except.error LogicError.unsupportedConnectivity

/-- Source `run`, line 812: the test `edgeValues[n] != in(x, y, z)` with the
`operator!=` of the pixel type. An index beyond the snapshot counts as
unequal. -/
def edgeDiffers (edgeValues : List P) (n : Nat) (value : P) : Bool :=
  match edgeValues[n]? with
  | some snapshot => PixelType.ne snapshot value
  | none => true

/-- Source `run`, lines 810-837: the body of the innermost loop, on the counter
`n` and the list `*newSeeds`. -/
def visitPixel (img : Image P) (edgeValues : List P) (connectivity : Connectivity)
    (origSize : Vec3c) (z : Int) (dz newZ : int32_t) (y x : Nat) (st : Nat × List Vec3sc) :
    Except LogicError (Nat × List Vec3sc) :=
  if dz.val ≠ 0 ∧ 0 ≤ newZ.val ∧ newZ.val < origSize.z then
    if edgeDiffers edgeValues st.1 (img.pix (x : Int) (y : Int) z) = true then
      match pushNewSeeds connectivity ⟨toInt32 x, toInt32 y, newZ⟩ st.2 with
      | Except.error e => Except.error e
      | Except.ok s => Except.ok (st.1 + 1, s)
    else
      Except.ok (st.1 + 1, st.2)
  else
    Except.ok (st.1 + 1, st.2)

/-- Source `run`, lines 808-838: the loop over `x`. -/
def visitRow (img : Image P) (edgeValues : List P) (connectivity : Connectivity)
    (origSize : Vec3c) (z : Int) (dz newZ : int32_t) (y : Nat) (st : Nat × List Vec3sc) :
    Except LogicError (Nat × List Vec3sc) :=
  (List.range img.width).foldlM
    (fun s x => visitPixel img edgeValues connectivity origSize z dz newZ y x s) st

/-- Source `run`, lines 806-839: the loop over `y`. -/
def visitPlane (img : Image P) (edgeValues : List P) (connectivity : Connectivity)
    (origSize : Vec3c) (z : Int) (dz newZ : int32_t) (st : Nat × List Vec3sc) :
    Except LogicError (Nat × List Vec3sc) :=
  (List.range img.height).foldlM
    (fun s y => visitRow img edgeValues connectivity origSize z dz newZ y s) st

/-- Source `run`, lines 785-840: the loop
`for (z = 0; z < in.depth(); z += in.depth() - 1)` that derives the new seeds.
`none` when the loop is still running after `fuel` tests of its condition;
otherwise the state reached, and the exception if one was thrown. -/
def deriveLoop (img : Image P) (edgeValues : List P) (connectivity : Connectivity)
    (origSize : Vec3c) (blockStartZ : int32_t) :
    Nat → Int → DeriveState → Option (DeriveState × Option LogicError)
  | 0, _, _ => none
  | fuel + 1, z, st =>
    if z < (img.depth : Int) then
      if z ≤ 0 then
        let dz := toInt32 (-1)
        let newZ := toInt32 z + blockStartZ + dz
        match visitPlane img edgeValues connectivity origSize z dz newZ
            (st.n, st.beginNewSeeds) with
        | Except.error e => some (st, some e)
        | Except.ok r =>
          deriveLoop img edgeValues connectivity origSize blockStartZ fuel
            (z + ((img.depth : Int) - 1)) { st with n := r.1, beginNewSeeds := r.2 }
      else if z ≥ (img.depth : Int) - 1 then
        let dz := toInt32 1
        let newZ := toInt32 z + blockStartZ + dz
        match visitPlane img edgeValues connectivity origSize z dz newZ
            (st.n, st.endNewSeeds) with
        | Except.error e => some (st, some e)
        | Except.ok r =>
          deriveLoop img edgeValues connectivity origSize blockStartZ fuel
            (z + ((img.depth : Int) - 1)) { st with n := r.1, endNewSeeds := r.2 }
      else
        some (st, some LogicError.unsupportedBlockShape)
    else
      some (st, none)

/-- Source `run`, lines 842-850: the two conditional writes. -/
def persist (fs : FileSystem) (seedsTargetPrefix : String) (blockStartZ blockEndZ : int32_t)
    (beginNewSeeds endNewSeeds : List Vec3sc) : FileSystem :=
  let fs1 :=
    if beginNewSeeds.length > 0 then
      writeOutputFile fs ⟨seedsTargetPrefix, (blockStartZ - toInt32 1).val⟩ beginNewSeeds
    else fs
  if endNewSeeds.length > 0 then
    writeOutputFile fs1 ⟨seedsTargetPrefix, (blockEndZ + toInt32 1).val⟩ endNewSeeds
  else fs1

/-- Source `run`, line 748: the local `blockStartZ`. -/
def blockStartZ (args : BlockArgs P) : int32_t := toInt32 args.blockOrigin.z

/-- Source `run`, line 749: the local `blockEndZ`. -/
def blockEndZ (img : Image P) (args : BlockArgs P) : int32_t :=
  toInt32 ((blockStartZ args).val + (img.depth : Int) - 1)

/-- Source `run`, lines 751-759: the local `seeds` at the call of the kernel. -/
def kernelSeeds (fs : FileSystem) (img : Image P) (args : BlockArgs P) : List Vec3sc :=
  loadSeeds fs args.seedsSourcePrefix args.startPoint (blockStartZ args) (blockEndZ img args)

/-- Source `run`, line 776: the block after the call
`floodfill(in, seeds, origColor, fillColor, fillColor, connectivity)`. -/
def filledBlock (floodfill : FloodFillKernel P) (fs : FileSystem) (img : Image P)
    (args : BlockArgs P) : Image P :=
  { img with pix := floodfill img (kernelSeeds fs img args) args.origColor args.fillColor
                      args.fillColor args.connectivity }

/-- Source `run`, lines 748-840: everything before the two writes. Yields the
final state of the seed derivation and the exception thrown, if any; `none`
when one of the two loops over `z` does not end within `fuel` tests of its
condition. -/
def deriveNewSeeds (floodfill : FloodFillKernel P) (fuel : Nat) (fs : FileSystem)
    (img : Image P) (args : BlockArgs P) : Option (DeriveState × Option LogicError) :=
  match snapshotLoop img fuel 0 [] with
  | none => none
  | some edgeValues =>
    deriveLoop (filledBlock floodfill fs img args) edgeValues args.connectivity args.origSize
      (blockStartZ args) fuel 0 ⟨0, [], []⟩

/-- Source: `FloodFillBlockCommand::run(in, args)`. `none` when one of its two
loops over `z` does not end within `fuel` tests of its condition. -/
def run (floodfill : FloodFillKernel P) (fuel : Nat) (fs : FileSystem) (img : Image P)
    (args : BlockArgs P) : Option (RunResult P) :=
  match deriveNewSeeds floodfill fuel fs img args with
  | none => none
  | some (_, some e) => some ⟨filledBlock floodfill fs img args, fs, some e⟩
  | some (st, none) =>
    some ⟨filledBlock floodfill fs img args,
      persist fs args.seedsTargetPrefix (blockStartZ args) (blockEndZ img args)
        st.beginNewSeeds st.endNewSeeds,
      none⟩

/-- Source `run`, line 844: the file `seedsTargetPrefix + "_" + toString(blockStartZ - 1)`. -/
def beginTarget (args : BlockArgs P) : FileName :=
  ⟨args.seedsTargetPrefix, (blockStartZ args - toInt32 1).val⟩

/-- Source `run`, line 849: the file `seedsTargetPrefix + "_" + toString(blockEndZ + 1)`. -/
def endTarget (img : Image P) (args : BlockArgs P) : FileName :=
  ⟨args.seedsTargetPrefix, (blockEndZ img args + toInt32 1).val⟩

/-- Source: `FloodFillBlockCommand::needsToRunBlock`; of its arguments only the
source prefix, the start point, `readStart` and `readSize` are used. -/
def needsToRunBlock (fs : FileSystem) (seedsSourcePrefix : String) (startPoint : Vec3c)
    (readStart readSize : Vec3c) : Bool :=
  let blockStartZ := toInt32 readStart.z
  let blockEndZ := toInt32 (blockStartZ.val + readSize.z - 1)
  if fileExists fs ⟨seedsSourcePrefix, blockStartZ.val⟩ ||
      fileExists fs ⟨seedsSourcePrefix, blockEndZ.val⟩ then
    true
  else if blockStartZ.val ≤ startPoint.z ∧ startPoint.z ≤ blockEndZ.val then
    fileExists fs ⟨seedsSourcePrefix, startPoint.z⟩
  else
    false

end FloodFillBlockCommand

/-! ## The distributed command -/

/-- The class `DistributedImage<pixel_t>`: the whole image, of which only the
dimensions and single pixels are looked at here. -/
structure DistributedImage (P : Type) where
  dimensions : Vec3c
  pix : Int → Int → Int → P

/-- Modelled from the spec: `DistributedImage::isInImage` (not in this file). -/
def DistributedImage.isInImage {P : Type} (img : DistributedImage P) (p : Vec3c) : Bool :=
  decide (0 ≤ p.x ∧ p.x < img.dimensions.x ∧ 0 ≤ p.y ∧ p.y < img.dimensions.y ∧
    0 ≤ p.z ∧ p.z < img.dimensions.z)

/-- Modelled from the spec: `DistributedImage::getPixel` (not in this file). -/
def DistributedImage.getPixel {P : Type} (img : DistributedImage P) (p : Vec3c) : P :=
  img.pix p.x p.y p.z

/-- The image and the seed files, the two things a dispatch acts on. -/
abbrev World (P : Type) := DistributedImage P × FileSystem

/-- The argument `distributor`: `runDistributed(distributor, args)` of
`FloodFillBlockCommand` hands the argument list to `distributor.distribute`,
which runs the block jobs. The job executor is not part of this file and stays
a parameter. -/
abbrev Distributor (P : Type) := BlockArgs P → World P → World P

/-- The variables of the outer loop at the start of an iteration. -/
structure LoopState (P : Type) where
  seedsSourceFilenamePrefix : String
  seedsTargetFilenamePrefix : String
  world : World P

namespace FloodFillCommand

variable {P : Type} [PixelType P]

/-- Source `runDistributed`, lines 973-975: the argument list of the dispatch.
The two colours are handed over as `(double)origColor` and `(double)fillColor`
and rounded back by the block command, so the block command holds
`viaDouble origColor` and `viaDouble fillColor`. -/
def dispatchArgs (startPoint : Vec3c) (origColor fillColor : P) (connectivity : Connectivity)
    (s : LoopState P) : BlockArgs P :=
  ⟨s.seedsSourceFilenamePrefix, s.seedsTargetFilenamePrefix, startPoint,
    PixelType.viaDouble origColor, PixelType.viaDouble fillColor,
    connectivity, s.world.1.dimensions, ⟨0, 0, 0⟩⟩

/-- Source `runDistributed`, lines 979-981: deleting every file under the source
prefix. -/
def deleteSources (fs : FileSystem) (seedsSourcePrefix : String) : FileSystem :=
  (buildFileList fs seedsSourcePrefix).foldl deleteFile fs

/-- Source `runDistributed`, lines 969-988: one pass through the body of
`while(true)`. `Sum.inr` is the `break`, `Sum.inl` the state after the swap. -/
def loopBody (distribute : Distributor P) (startPoint : Vec3c) (origColor fillColor : P)
    (connectivity : Connectivity) (s : LoopState P) : LoopState P ⊕ World P :=
  let w1 := distribute (dispatchArgs startPoint origColor fillColor connectivity s) s.world
  let fs2 := deleteSources w1.2 s.seedsSourceFilenamePrefix
  let items := buildFileList fs2 s.seedsTargetFilenamePrefix
  if items.length ≤ 0 then
    Sum.inr (w1.1, fs2)
  else
    Sum.inl ⟨s.seedsTargetFilenamePrefix, s.seedsSourceFilenamePrefix, (w1.1, fs2)⟩

/-- Source `runDistributed`, lines 967-989: the loop `while(true)`. `none` when
it is still running after `fuel` iterations. -/
def outerLoop (distribute : Distributor P) (startPoint : Vec3c) (origColor fillColor : P)
    (connectivity : Connectivity) : Nat → LoopState P → Option (World P)
  | 0, _ => none
  | fuel + 1, s =>
    match loopBody distribute startPoint origColor fillColor connectivity s with
    | Sum.inr w => some w
    | Sum.inl s1 => outerLoop distribute startPoint origColor fillColor connectivity fuel s1

/-- The state of the loop at the start of dispatch number `k + 1`, if the loop
gets that far. -/
def dispatchStart (distribute : Distributor P) (startPoint : Vec3c) (origColor fillColor : P)
    (connectivity : Connectivity) : Nat → LoopState P → Option (LoopState P)
  | 0, s => some s
  | k + 1, s =>
    match loopBody distribute startPoint origColor fillColor connectivity s with
    | Sum.inr _ => none
    | Sum.inl s1 => dispatchStart distribute startPoint origColor fillColor connectivity k s1

/-- Source `runDistributed`, lines 962-963: the list `seeds` of the initial seed
file. -/
def initialSeeds (startPoint : Vec3c) : List Vec3sc := [] ++ [Vec3sc.ofVec3c startPoint]

/-- Source `runDistributed`, line 964: the file
`seedsSourceFilenamePrefix + "_" + toString(startPoint.z)`. -/
def initialSeedFile (seedsSourceFilenamePrefix : String) (startPoint : Vec3c) : FileName :=
  ⟨seedsSourceFilenamePrefix, startPoint.z⟩

/-- Source `runDistributed`, lines 957-966: the variables of the loop when it is
entered, after the initial seed file has been written. -/
def initialLoopState (seedsSourceFilenamePrefix seedsTargetFilenamePrefix : String)
    (w : World P) (startPoint : Vec3c) : LoopState P :=
  ⟨seedsSourceFilenamePrefix, seedsTargetFilenamePrefix,
    (w.1, FloodFillBlockCommand.writeOutputFile w.2
      (initialSeedFile seedsSourceFilenamePrefix startPoint) (initialSeeds startPoint))⟩

/-- Source: `FloodFillCommand::runDistributed(distributor, args)`. The two
prefixes are the results of the calls of `createTempFilename`, which is not part
of this file. `none` when the loop is still running after `fuel` iterations. -/
def runDistributed (distribute : Distributor P) (seedsSourceFilenamePrefix : String)
    (seedsTargetFilenamePrefix : String) (fuel : Nat) (w : World P) (startPoint : Vec3c)
    (fillColor : P) (connectivity : Connectivity) : Option (List String × World P) :=
  if !w.1.isInImage startPoint then
    some ([], w)
  else
    let origColor := w.1.getPixel startPoint
    if PixelType.eq origColor fillColor = true then
      some ([], w)
    else
      match outerLoop distribute startPoint origColor fillColor connectivity fuel
          (initialLoopState seedsSourceFilenamePrefix seedsTargetFilenamePrefix w
            startPoint) with
      | none => none
      | some w2 => some ([], w2)

end FloodFillCommand

/-! ## The seed lists in closed form, and what the specification says of them -/

/-- The footprint of a point at the neighbouring `z`: the point itself for
`NearestNeighbours`, the nine points `(x + dx, y + dy, z)` with `dx`, `dy` in
`-1, 0, 1` for `AllNeighbours`. -/
def footprint (connectivity : Connectivity) (p : Vec3sc) : List Vec3sc :=
  match connectivity with
  | Connectivity.NearestNeighbours => [p]
  | Connectivity.AllNeighbours =>
    ([-1, 0, 1] : List Int).flatMap (fun dy =>
      ([-1, 0, 1] : List Int).map (fun dx => ⟨p.x + toInt32 dx, p.y + toInt32 dy, p.z⟩))
  | Connectivity.Unsupported => []

/-- The pixels `(x, y)` of a plane in row-major order, `y` outer and `x`
inner. -/
def planePixels (width height : Nat) : List (Nat × Nat) :=
  (List.range height).flatMap (fun (y : Nat) => (List.range width).map (fun (x : Nat) => (x, y)))

/-- The pixels of plane `z`, in row-major order, whose value before the fill
compares unequal, by the `!=` of the pixel type, to the value after it. -/
def unequalPixels {P : Type} [PixelType P] (before after : Image P) (z : Int) :
    List (Nat × Nat) :=
  (planePixels before.width before.height).filter
    (fun q => PixelType.ne (before.pix (q.1 : Int) (q.2 : Int) z)
      (after.pix (q.1 : Int) (q.2 : Int) z))

/-- The seeds that the pixel `(x, y)` of plane `z` contributes. -/
def pixelContribution {P : Type} [PixelType P] (connectivity : Connectivity)
    (origSize : Vec3c) (before after : Image P) (z : Int) (dz newZ : int32_t) (y x : Nat) :
    List Vec3sc :=
  if (dz.val ≠ 0 ∧ 0 ≤ newZ.val ∧ newZ.val < origSize.z) ∧
      PixelType.ne (before.pix (x : Int) (y : Int) z) (after.pix (x : Int) (y : Int) z)
        = true then
    footprint connectivity ⟨toInt32 (x : Int), toInt32 (y : Int), newZ⟩
  else
    []

/-- The new seeds of a boundary plane `z` with neighbouring global coordinate
`newZ`: the footprints of the pixels of `unequalPixels` if `newZ` lies in the
`z` extent of the original image, nothing otherwise. -/
def expectedNewSeeds {P : Type} [PixelType P] (connectivity : Connectivity)
    (origSize : Vec3c) (before after : Image P) (z : Int) (newZ : int32_t) : List Vec3sc :=
  if 0 ≤ newZ.val ∧ newZ.val < origSize.z then
    (unequalPixels before after z).flatMap
      (fun q => footprint connectivity ⟨toInt32 (q.1 : Int), toInt32 (q.2 : Int), newZ⟩)
  else
    []

/-- What the specification says of the new seeds `newSeeds` of one boundary
plane with `changed` changed pixels and neighbouring coordinate `newZ`: nine
seeds per changed pixel for `AllNeighbours` and one for `NearestNeighbours`,
all of them at `newZ`, and for a single changed pixel its footprint. -/
def FootprintCount (connectivity : Connectivity) (changed : List (Nat × Nat))
    (newZ : int32_t) (newSeeds : List Vec3sc) : Prop :=
  (connectivity = Connectivity.AllNeighbours → newSeeds.length = 9 * changed.length) ∧
  (connectivity = Connectivity.NearestNeighbours → newSeeds.length = changed.length) ∧
  (∀ p ∈ newSeeds, p.z = newZ) ∧
  (∀ x y : Nat, changed = [(x, y)] →
    (connectivity = Connectivity.NearestNeighbours →
      newSeeds = [⟨toInt32 (x : Int), toInt32 (y : Int), newZ⟩]) ∧
    (connectivity = Connectivity.AllNeighbours →
      newSeeds =
        [⟨toInt32 (x : Int) + toInt32 (-1), toInt32 (y : Int) + toInt32 (-1), newZ⟩,
         ⟨toInt32 (x : Int) + toInt32 0, toInt32 (y : Int) + toInt32 (-1), newZ⟩,
         ⟨toInt32 (x : Int) + toInt32 1, toInt32 (y : Int) + toInt32 (-1), newZ⟩,
         ⟨toInt32 (x : Int) + toInt32 (-1), toInt32 (y : Int) + toInt32 0, newZ⟩,
         ⟨toInt32 (x : Int) + toInt32 0, toInt32 (y : Int) + toInt32 0, newZ⟩,
         ⟨toInt32 (x : Int) + toInt32 1, toInt32 (y : Int) + toInt32 0, newZ⟩,
         ⟨toInt32 (x : Int) + toInt32 (-1), toInt32 (y : Int) + toInt32 1, newZ⟩,
         ⟨toInt32 (x : Int) + toInt32 0, toInt32 (y : Int) + toInt32 1, newZ⟩,
         ⟨toInt32 (x : Int) + toInt32 1, toInt32 (y : Int) + toInt32 1, newZ⟩]))

/-- The records `(x, y)` of the body of a seed file, in file order. -/
def fileRecords (body : List Nat) : List (int32_t × int32_t) :=
  (readRecords (fun inp => FloodFillBlockCommand.readPoint inp (toInt32 0)) body.length body).map
    (fun p => (p.x, p.y))

/-- The block-local seeds that the file addressed to `k` under `pre` hands to
a block starting at `blockStartZ`: the record `(x, y)` becomes
`(x, y, k - blockStartZ)`; a file that does not exist hands over nothing. -/
def seedsAddressedTo (fs : FileSystem) (pre : String) (k : Int) (blockStartZ : int32_t) :
    List Vec3sc :=
  match fileBody fs ⟨pre, k⟩ with
  | none => []
  | some body => (fileRecords body).map (fun r => ⟨r.1, r.2, toInt32 k - blockStartZ⟩)

/-- What the specification says of the list `list` written to the seed file
`f` of an image with `z` extent `origSizeZ`: every seed has the `z` of the
address, the address lies in `[0, origSizeZ)`, and reading the file back with
the `z` of the address returns the list. -/
def SeedsMatchAddress (origSizeZ : Int) (f : FileName) (list : List Vec3sc) : Prop :=
  (∀ p ∈ list, p.z.val = f.z ∧ 0 ≤ f.z ∧ f.z < origSizeZ) ∧
  (∀ fs : FileSystem,
    FloodFillBlockCommand.readInputFile (FloodFillBlockCommand.writeOutputFile fs f list) f
      (toInt32 f.z) [] = list)

/-- A seed in block coordinates lies inside the block. -/
def Image.contains {P : Type} (img : Image P) (s : Vec3sc) : Prop :=
  0 ≤ s.x.val ∧ s.x.val < (img.width : Int) ∧ 0 ≤ s.y.val ∧ s.y.val < (img.height : Int) ∧
    0 ≤ s.z.val ∧ s.z.val < (img.depth : Int)

/-! ## A small block, used to instantiate the theorems -/

/-- The pixel type of the samples: natural numbers as the values of an unsigned
integer pixel type of at most 32 bits, for which `!=` and `==` decide equality
and the conversion to `double` and back changes nothing. -/
instance : PixelType Nat := ⟨fun a b => decide (a ≠ b), fun a b => decide (a = b), fun c => c⟩

instance : ExactPixel Nat :=
  ⟨fun _ _ => decide_eq_true_iff, fun _ _ => decide_eq_true_iff, fun _ => rfl⟩

/-- A kernel that recolours exactly the seeded pixels of the original colour. -/
def paintSeeds : FloodFillKernel Nat :=
  fun img seeds origColor fillColor _ _ x y z =>
    if img.pix x y z = origColor ∧
        seeds.any (fun s => decide (s.x.val = x ∧ s.y.val = y ∧ s.z.val = z)) then
      fillColor
    else
      img.pix x y z

/-- A block of width 2, height 2 and depth 2, every pixel of colour 0. -/
def sampleBlock : Image Nat := ⟨2, 2, 2, fun _ _ _ => 0⟩

/-- The files before the sample job: one source seed `(1, 0)` addressed to
`z = 4`. -/
def sampleFiles : FileSystem :=
  FloodFillBlockCommand.writeOutputFile [] ⟨"s1", 4⟩ [Vec3sc.ofInts 1 0 4]

/-- The arguments of the sample job: the block covers `z = 4, 5` of an image of
size 2 x 2 x 8, the fill started at `(0, 0, 0)` and recolours 0 to 7. -/
def sampleArgs (connectivity : Connectivity) : BlockArgs Nat :=
  ⟨"s1", "s2", ⟨0, 0, 0⟩, 0, 7, connectivity, ⟨2, 2, 8⟩, ⟨0, 0, 4⟩⟩

/-- The whole image of the sample: 2 x 2 x 8, every pixel of colour 0. -/
def sampleWhole : DistributedImage Nat := ⟨⟨2, 2, 8⟩, fun _ _ _ => 0⟩

/-- The arguments of a job on the block that covers `z = 0, 1` of the sample
image while the fill started at `(1, 0, 4)`. -/
def sampleSkipArgs : BlockArgs Nat :=
  ⟨"s1", "s2", ⟨1, 0, 4⟩, 0, 7, Connectivity.AllNeighbours, ⟨2, 2, 8⟩, ⟨0, 0, 0⟩⟩

/-- A job executor for the sample: it runs one job, on the block that covers
`z = 4, 5` of the image, when `needsToRunBlock` asks for it, and hands the block
back to the image. -/
def sampleDistribute : Distributor Nat :=
  fun args w =>
    if FloodFillBlockCommand.needsToRunBlock w.2 args.seedsSourcePrefix args.startPoint
        ⟨0, 0, 4⟩ ⟨2, 2, 2⟩ then
      match FloodFillBlockCommand.run paintSeeds 3 w.2
          ⟨2, 2, 2, fun x y z => w.1.pix x y (z + 4)⟩
          { args with blockOrigin := ⟨0, 0, 4⟩ } with
      | none => w
      | some res =>
        (⟨w.1.dimensions, fun x y z =>
            if 0 ≤ x ∧ x < 2 ∧ 0 ≤ y ∧ y < 2 ∧ 4 ≤ z ∧ z < 6 then res.image.pix x y (z - 4)
            else w.1.pix x y z⟩,
          res.files)
    else
      w

/-! ## Commands that are dispatched until nothing changes -/

/-- The operations on `double` that the commands use; the type `D` of the
doubles is a parameter, and so is their rounding. -/
structure DoubleOps (D : Type) where
  ofInt : Int → D
  mul : D → D → D
  round : D → Int

/-- The type `ParamVariant`: one argument of a command. -/
inductive ParamVariant (D : Type) where
  | image
  | real (value : D)
  | coord (value : Int)
  | text (value : String)
  | vec3c (value : Vec3c)
  | connectivity (value : Connectivity)

/-- The commands of `CommandList` that the compound commands dispatch. -/
inductive CommandName where
  | cannyPart1
  | cannyPart2
  | thresholdConstant
  | doubleThreshold
  | grow
  | growLabels
deriving DecidableEq

/-- One call `distributor.distribute(command, args)`. -/
structure Dispatch (D : Type) where
  command : CommandName
  args : List (ParamVariant D)

/-- The job executor behind `distributor.distribute`: it is not part of this
file and stays a parameter. A dispatch takes the state `S` of the images to a
new state and returns the output of the jobs. -/
abbrev JobExecutor (S D : Type) := Dispatch D → S → List String × S

/-- The state of the images together with the dispatches made so far. -/
structure Exec (S D : Type) where
  state : S
  dispatched : List (Dispatch D)

/-- The call `distributor.distribute(command, args)`. -/
def distribute {S D : Type} (executor : JobExecutor S D) (d : Dispatch D) (e : Exec S D) :
    List String × Exec S D :=
  ((executor d e.state).1, ⟨(executor d e.state).2, e.dispatched ++ [d]⟩)

/-- Modelled from the spec: `runDistributed` of a command that is distributed as
it is (`OverlapDistributable`, the threshold commands; not in this file). Like
`FloodFillBlockCommand::runDistributed` it hands the command to the
distributor. -/
def leafRunDistributed {S D : Type} (executor : JobExecutor S D) (command : CommandName)
    (args : List (ParamVariant D)) (e : Exec S D) : List String × Exec S D :=
  distribute executor ⟨command, args⟩ e

/-- The loop `do { output = dispatch; changed = parseTotalCount(output, key); }
while (changed > 0)` of the three convergence drivers. `parseTotalCount` is not
part of this file and stays a parameter. `none` when the loop is still running
after `fuel` dispatches. -/
def dispatchWhileChanged {S D : Type} (executor : JobExecutor S D)
    (parseTotalCount : List String → String → Int) (d : Dispatch D) (key : String) :
    Nat → Exec S D → Option (Exec S D)
  | 0, _ => none
  | fuel + 1, e =>
    let r := distribute executor d e
    let changed := parseTotalCount r.1 key
    if changed > 0 then
      dispatchWhileChanged executor parseTotalCount d key fuel r.2
    else
      some r.2

namespace GrowCommand

/-- Source: `GrowCommand::getMargin`. -/
def getMargin {D : Type} (_args : List (ParamVariant D)) : Vec3c := ⟨3, 3, 3⟩

/-- Source: `GrowCommand::runDistributed(distributor, args)`. -/
def runDistributed {S D : Type} (executor : JobExecutor S D)
    (parseTotalCount : List String → String → Int) (fuel : Nat) (args : List (ParamVariant D))
    (e : Exec S D) : Option (List String × Exec S D) :=
  match dispatchWhileChanged executor parseTotalCount ⟨CommandName.grow, args⟩
      "pixels changed." fuel e with
  | none => none
  | some e1 => some ([], e1)

end GrowCommand

namespace GrowLabelsCommand

/-- Source: `GrowLabelsCommand::getMargin`. -/
def getMargin {D : Type} (_args : List (ParamVariant D)) : Vec3c := ⟨3, 3, 3⟩

/-- Source: `GrowLabelsCommand::runDistributed(distributor, args)`. -/
def runDistributed {S D : Type} (executor : JobExecutor S D)
    (parseTotalCount : List String → String → Int) (fuel : Nat) (args : List (ParamVariant D))
    (e : Exec S D) : Option (List String × Exec S D) :=
  match dispatchWhileChanged executor parseTotalCount ⟨CommandName.growLabels, args⟩
      "pixels changed." fuel e with
  | none => none
  | some e1 => some ([], e1)

end GrowLabelsCommand

namespace CannyPart1Command

/-- Source: `CannyPart1Command::calculateOverlap`. `none` when `args[1]` does not
hold a `double` (`std::get` throws). -/
def calculateOverlap {D : Type} (ops : DoubleOps D) (args : List (ParamVariant D)) :
    Option Vec3c :=
  match args[1]? with
  | some (ParamVariant.real derSigma) =>
    let margin := ops.round (ops.mul (ops.ofInt 3) derSigma) + 4
    some ⟨margin, margin, margin⟩
  | _ => none

end CannyPart1Command

namespace CannyPart2Command

/-- Source: `CannyPart2Command::calculateOverlap`. -/
def calculateOverlap {D : Type} (_args : List (ParamVariant D)) : Vec3c :=
  let margin : Int := 3
  ⟨margin, margin, margin⟩

end CannyPart2Command

namespace CannyCommand

/-- Source: `CannyCommand::runDistributed(distributor, args)`. -/
def runDistributed {S D : Type} (ops : DoubleOps D) (executor : JobExecutor S D)
    (parseTotalCount : List String → String → Int) (fuel : Nat)
    (derSigma loThreshold hiThreshold : D) (e : Exec S D) : Option (List String × Exec S D) :=
  let r1 := leafRunDistributed executor CommandName.cannyPart1
    [ParamVariant.image, ParamVariant.real derSigma, ParamVariant.real loThreshold,
      ParamVariant.real hiThreshold] e
  match dispatchWhileChanged executor parseTotalCount
      ⟨CommandName.cannyPart2, [ParamVariant.image]⟩ "pixels changed" fuel r1.2 with
  | none => none
  | some e2 =>
    let r3 := leafRunDistributed executor CommandName.thresholdConstant
      [ParamVariant.image, ParamVariant.real (ops.ofInt 1)] e2
    some ([], r3.2)

end CannyCommand

namespace DualThresholdCommand

/-- Source: `DualThresholdCommand::runDistributed(distributor, args)`. -/
def runDistributed {S D : Type} (ops : DoubleOps D) (executor : JobExecutor S D)
    (parseTotalCount : List String → String → Int) (fuel : Nat)
    (loThreshold hiThreshold : D) (e : Exec S D) : Option (List String × Exec S D) :=
  let r1 := leafRunDistributed executor CommandName.doubleThreshold
    [ParamVariant.image, ParamVariant.real loThreshold, ParamVariant.real hiThreshold] e
  match GrowCommand.runDistributed executor parseTotalCount fuel
      [ParamVariant.image, ParamVariant.real (ops.ofInt 2), ParamVariant.real (ops.ofInt 1),
        ParamVariant.connectivity Connectivity.NearestNeighbours] r1.2 with
  | none => none
  | some r2 =>
    let r3 := leafRunDistributed executor CommandName.thresholdConstant
      [ParamVariant.image, ParamVariant.real (ops.ofInt 1)] r2.2
    some ([], r3.2)

end DualThresholdCommand

/-- The state of the images after `k` dispatches of `d`. -/
def stateAfter {S D : Type} (executor : JobExecutor S D) (d : Dispatch D) : Nat → S → S
  | 0, s => s
  | k + 1, s => stateAfter executor d k (executor d s).2

/-- The count `c (k + 1)` that dispatch number `k + 1` of `d` reports. -/
def reportedCount {S D : Type} (executor : JobExecutor S D)
    (parseTotalCount : List String → String → Int) (d : Dispatch D) (key : String) (s : S)
    (k : Nat) : Int :=
  parseTotalCount (executor d (stateAfter executor d k s)).1 key

/-- Dispatch number `m + 1` is the first whose count `c m` is not positive. -/
def StopsAt (c : Nat → Int) (m : Nat) : Prop := (∀ k < m, 0 < c k) ∧ c m ≤ 0

/-- A job executor for the samples: the state is the number of pixels that can
still change, a dispatch changes one of them and prints one line for each pixel
that could change. -/
def sampleExecutor : JobExecutor Nat Int := fun _ n => (List.replicate n "changed", n - 1)

/-- A count for the samples: the number of lines of the output. -/
def sampleCount : List String → String → Int := fun output _ => (output.length : Int)

/-- The arithmetic of the doubles that are whole numbers. -/
def sampleOps : DoubleOps Int := ⟨fun i => i, fun a b => a * b, fun a => a⟩

/-- The dispatch of `cannyPart1` with `(image, derivative sigma, lower threshold,
upper threshold)`. -/
def cannyPart1Call {D : Type} (derSigma loThreshold hiThreshold : D) : Dispatch D :=
  ⟨CommandName.cannyPart1, [ParamVariant.image, ParamVariant.real derSigma,
    ParamVariant.real loThreshold, ParamVariant.real hiThreshold]⟩

/-- The dispatch of the edge tracking pass `cannyPart2` with `(image)`. -/
def cannyPart2Call {D : Type} : Dispatch D := ⟨CommandName.cannyPart2, [ParamVariant.image]⟩

/-- The dispatch of the constant threshold with `(image, 1.0)`. -/
def thresholdOneCall {D : Type} (ops : DoubleOps D) : Dispatch D :=
  ⟨CommandName.thresholdConstant, [ParamVariant.image, ParamVariant.real (ops.ofInt 1)]⟩

/-- The dispatch of the double threshold with `(image, lower, upper)`. -/
def doubleThresholdCall {D : Type} (loThreshold hiThreshold : D) : Dispatch D :=
  ⟨CommandName.doubleThreshold, [ParamVariant.image, ParamVariant.real loThreshold,
    ParamVariant.real hiThreshold]⟩

/-- The dispatch of `grow` with `(image, 2.0, 1.0, NearestNeighbours)`. -/
def growTwoToOneCall {D : Type} (ops : DoubleOps D) : Dispatch D :=
  ⟨CommandName.grow, [ParamVariant.image, ParamVariant.real (ops.ofInt 2),
    ParamVariant.real (ops.ofInt 1), ParamVariant.connectivity Connectivity.NearestNeighbours]⟩

/-! ## The reference flood fill -/

/-- Two points are neighbours under the connectivity: they differ by one step
along one axis (`NearestNeighbours`) or by at most one step along each axis
(`AllNeighbours`). -/
def adjacent (connectivity : Connectivity) (p q : Vec3c) : Bool :=
  match connectivity with
  | Connectivity.NearestNeighbours =>
    decide ((q.x = p.x ∧ q.y = p.y ∧ (q.z = p.z + 1 ∨ q.z = p.z - 1)) ∨
      (q.x = p.x ∧ q.z = p.z ∧ (q.y = p.y + 1 ∨ q.y = p.y - 1)) ∨
      (q.y = p.y ∧ q.z = p.z ∧ (q.x = p.x + 1 ∨ q.x = p.x - 1)))
  | Connectivity.AllNeighbours =>
    decide (p.x - 1 ≤ q.x ∧ q.x ≤ p.x + 1 ∧ p.y - 1 ≤ q.y ∧ q.y ≤ p.y + 1 ∧
      p.z - 1 ≤ q.z ∧ q.z ≤ p.z + 1 ∧ ¬ (q.x = p.x ∧ q.y = p.y ∧ q.z = p.z))
  | Connectivity.Unsupported => false

/-- The neighbours of a point under the connectivity. -/
def neighbours (connectivity : Connectivity) (p : Vec3c) : List Vec3c :=
  (([-1, 0, 1] : List Int).flatMap (fun dz =>
    ([-1, 0, 1] : List Int).flatMap (fun dy =>
      ([-1, 0, 1] : List Int).map (fun dx => (⟨p.x + dx, p.y + dy, p.z + dz⟩ : Vec3c))))).filter
    (fun q => adjacent connectivity p q)

/-- The point lies inside the block. -/
def Image.inside {P : Type} (img : Image P) (p : Vec3c) : Bool :=
  decide (0 ≤ p.x ∧ p.x < (img.width : Int) ∧ 0 ≤ p.y ∧ p.y < (img.height : Int) ∧
    0 ≤ p.z ∧ p.z < (img.depth : Int))

/-- The pixels that a flood fill has reached after `k` rounds: round 0 takes the
seeds that lie inside the block and have the original colour, every later round
adds the neighbours inside the block that have the original colour. -/
def reachedWithin {P : Type} [DecidableEq P] (img : Image P) (seeds : List Vec3c)
    (origColor : P) (connectivity : Connectivity) : Nat → Vec3c → Bool
  | 0, p => img.inside p && decide (img.pix p.x p.y p.z = origColor) && decide (p ∈ seeds)
  | k + 1, p =>
    reachedWithin img seeds origColor connectivity k p ||
      (img.inside p && decide (img.pix p.x p.y p.z = origColor) &&
        (neighbours connectivity p).any
          (fun q => reachedWithin img seeds origColor connectivity k q))

/-- The pixels that a flood fill reaches: the seeds inside the block that have
the original colour, and the neighbours of reached pixels that lie inside the
block and have the original colour. -/
inductive Reach {P : Type} (img : Image P) (seeds : List Vec3c) (origColor : P)
    (connectivity : Connectivity) : Vec3c → Prop where
  | seed (p : Vec3c) : p ∈ seeds → img.inside p = true → img.pix p.x p.y p.z = origColor →
      Reach img seeds origColor connectivity p
  | step (p q : Vec3c) : Reach img seeds origColor connectivity p →
      adjacent connectivity p q = true → img.inside q = true →
      img.pix q.x q.y q.z = origColor → Reach img seeds origColor connectivity q

/-- A seed of the kernel as a point with `coord_t` components. -/
def Vec3sc.toVec3c (s : Vec3sc) : Vec3c := ⟨s.x.val, s.y.val, s.z.val⟩

/-- Modelled from the spec: the fill kernel `floodfill(image, seeds, origColor,
fillColor, stopColor, connectivity)` of itl2 (not in this file) as a reference
flood fill on the block: seeds that lie outside the block or do not have the
original colour are ignored, and every pixel reached from the other seeds through
neighbours of the original colour gets the fill colour. As many rounds are made
as the block has pixels. -/
def referenceFloodFill {P : Type} [DecidableEq P] : FloodFillKernel P :=
  fun img seeds origColor fillColor _ connectivity x y z =>
    if reachedWithin img (seeds.map Vec3sc.toVec3c) origColor connectivity
        (img.width * img.height * img.depth) ⟨x, y, z⟩ then
      fillColor
    else
      img.pix x y z

/-- Modelled from the spec: the fill kernel `floodfill(image, start, fillColor,
stopColor, connectivity)` of itl2 (not in this file), the flood fill from one
start point whose colour is the original colour. -/
def referenceFloodFillFrom {P : Type} [DecidableEq P] (img : Image P) (start : Vec3c)
    (fillColor : P) (_ : P) (connectivity : Connectivity) : Int → Int → Int → P :=
  fun x y z =>
    if reachedWithin img [start] (img.pix start.x start.y start.z) connectivity
        (img.width * img.height * img.depth) ⟨x, y, z⟩ then
      fillColor
    else
      img.pix x y z

/-- Source: `FloodFillCommand::run(in, args)`, the flood fill that is not
distributed; the kernel is a parameter. -/
def FloodFillCommand.run {P : Type}
    (floodfill : Image P → Vec3c → P → P → Connectivity → Int → Int → Int → P)
    (img : Image P) (startPoint : Vec3c) (color : P) (connectivity : Connectivity) : Image P :=
  { img with pix := floodfill img startPoint color color connectivity }

/-- The points of a block as a finite set. -/
def Image.box {P : Type} (img : Image P) : Finset Vec3c :=
  ((Finset.range img.width) ×ˢ ((Finset.range img.height) ×ˢ (Finset.range img.depth))).image
    (fun t => (⟨(t.1 : Int), (t.2.1 : Int), (t.2.2 : Int)⟩ : Vec3c))

/-! ## The block job driver -/

/-- Modelled from the spec: the block that the job driver hands to a job whose
output region starts at `originZ` and is `depth` planes deep, with margin 0 and
division along `z` only: the planes `originZ, ..., originZ + depth - 1` of the
whole image. -/
def readBlock {P : Type} (img : DistributedImage P) (originZ : Int) (depth : Nat) : Image P :=
  ⟨img.dimensions.x.toNat, img.dimensions.y.toNat, depth,
    fun x y z => img.pix x y (z + originZ)⟩

/-- Modelled from the spec: the job driver writes the block back to the output
region of the whole image. -/
def writeBlock {P : Type} (img : DistributedImage P) (originZ : Int) (block : Image P) :
    DistributedImage P :=
  ⟨img.dimensions, fun x y z =>
    if 0 ≤ x ∧ x < (block.width : Int) ∧ 0 ≤ y ∧ y < (block.height : Int) ∧
        originZ ≤ z ∧ z < originZ + (block.depth : Int) then
      block.pix x y (z - originZ)
    else
      img.pix x y z⟩

/-- The argument list of a block job: that of the dispatch, with the origin of
the block in the last place. -/
def BlockArgs.atOrigin {P : Type} (args : BlockArgs P) (originZ : Int) : BlockArgs P :=
  { args with blockOrigin := ⟨0, 0, originZ⟩ }

/-- Modelled from the spec: one block job of the job driver (not in this file).
The driver asks `needsToRunBlock` with the read region of the block; if the job
is needed it runs `run` on the block with the block origin as last argument and
writes the block back. A job that throws or does not end leaves the image and
the files as they were. -/
def blockJob {P : Type} [PixelType P] (floodfill : FloodFillKernel P) (fuel : Nat)
    (originZ : Int) (depth : Nat) (args : BlockArgs P) (w : World P) : World P :=
  if FloodFillBlockCommand.needsToRunBlock w.2 args.seedsSourcePrefix args.startPoint
      ⟨0, 0, originZ⟩ ⟨w.1.dimensions.x, w.1.dimensions.y, (depth : Int)⟩ then
    match FloodFillBlockCommand.run floodfill fuel w.2 (readBlock w.1 originZ depth)
        (args.atOrigin originZ) with
    | none => w
    | some res =>
      match res.error with
      | some _ => w
      | none => (writeBlock w.1 originZ res.image, res.files)
  else
    w

/-- The blocks of a division along `z` into consecutive blocks of the given
depths, from `z` on: the origin and the depth of each. -/
def blockOrigins : Int → List Nat → List (Int × Nat)
  | _, [] => []
  | z, d :: ds => (z, d) :: blockOrigins (z + (d : Int)) ds

/-- Modelled from the spec: `distributor.distribute` for `floodfillblock` (not in
this file) on a list of blocks given by origin and depth: one block job after
the other. -/
def distributeList {P : Type} [PixelType P] (floodfill : FloodFillKernel P) (fuel : Nat)
    (bl : List (Int × Nat)) : Distributor P :=
  fun args w => bl.foldl (fun w1 b => blockJob floodfill fuel b.1 b.2 args w1) w

/-- Modelled from the spec: `distributor.distribute` for `floodfillblock` (not in
this file) on an image divided along `z` into consecutive blocks of the given
depths. -/
def distributeBlocks {P : Type} [PixelType P] (floodfill : FloodFillKernel P) (fuel : Nat)
    (depths : List Nat) : Distributor P :=
  distributeList floodfill fuel (blockOrigins 0 depths)

/-- The seed `(x, y)` is recorded in the file addressed to `z` under the
prefix. -/
def Pending (fs : FileSystem) (pre : String) (q : Vec3c) : Prop :=
  ∃ body, fileBody fs ⟨pre, q.z⟩ = some body ∧
    ∃ r ∈ fileRecords body, r.1.val = q.x ∧ r.2.val = q.y

/-- The point `(x, y)` lies in the footprint of the pixel `(px, py)`. -/
def FootXY (connectivity : Connectivity) (px py x y : Int) : Prop :=
  match connectivity with
  | Connectivity.NearestNeighbours => x = px ∧ y = py
  | Connectivity.AllNeighbours => px - 1 ≤ x ∧ x ≤ px + 1 ∧ py - 1 ≤ y ∧ y ≤ py + 1
  | Connectivity.Unsupported => False

/-- What a block job of the distributed flood fill is run under: the
dimensions of the image and the start point fit `int32_t`, the block lies in
the image and is at least two planes deep, the connectivity is one of the two
enumerators, the size argument is the size of the image and the two prefixes
differ. -/
structure BlockSetup {P : Type} (w : World P) (args : BlockArgs P) (o : Int) (d : Nat) :
    Prop where
  hx0 : 0 ≤ w.1.dimensions.x
  hx1 : w.1.dimensions.x < 2147483648
  hy0 : 0 ≤ w.1.dimensions.y
  hy1 : w.1.dimensions.y < 2147483648
  hz1 : w.1.dimensions.z < 2147483648
  ho : 0 ≤ o
  hod : o + (d : Int) ≤ w.1.dimensions.z
  hd : 2 ≤ d
  hsp0 : 0 ≤ args.startPoint.z
  hsp1 : args.startPoint.z < w.1.dimensions.z
  hconn : args.connectivity = Connectivity.NearestNeighbours ∨
    args.connectivity = Connectivity.AllNeighbours
  hsize : args.origSize = w.1.dimensions
  hne : args.seedsSourcePrefix ≠ args.seedsTargetPrefix

/-- The pixels that the job on the block reaches, in the coordinates of the
whole image. -/
def BlockReach {P : Type} (w : World P) (args : BlockArgs P) (o : Int) (d : Nat)
    (p : Vec3c) : Prop :=
  Reach (readBlock w.1 o d)
    ((FloodFillBlockCommand.kernelSeeds w.2 (readBlock w.1 o d) (args.atOrigin o)).map
      Vec3sc.toVec3c)
    args.origColor args.connectivity ⟨p.x, p.y, p.z - o⟩

/-- The pixel lies in the block, in the coordinates of the whole image. -/
def InBlock {P : Type} (w : World P) (o : Int) (d : Nat) (p : Vec3c) : Prop :=
  0 ≤ p.x ∧ p.x < w.1.dimensions.x ∧ 0 ≤ p.y ∧ p.y < w.1.dimensions.y ∧
    o ≤ p.z ∧ p.z < o + (d : Int)

/-- The block after the reference flood fill of the job. -/
def blockAfter {P : Type} [DecidableEq P] [PixelType P] (w : World P) (args : BlockArgs P) (o : Int)
    (d : Nat) : Image P :=
  FloodFillBlockCommand.filledBlock referenceFloodFill w.2 (readBlock w.1 o d) (args.atOrigin o)

/-- The new seeds that the job derives from the first plane of the block. -/
def beginSeeds {P : Type} [DecidableEq P] [PixelType P] (w : World P) (args : BlockArgs P) (o : Int)
    (d : Nat) : List Vec3sc :=
  expectedNewSeeds args.connectivity w.1.dimensions (readBlock w.1 o d) (blockAfter w args o d)
    0 (toInt32 o - toInt32 1)

/-- The new seeds that the job derives from the last plane of the block. -/
def endSeeds {P : Type} [DecidableEq P] [PixelType P] (w : World P) (args : BlockArgs P) (o : Int)
    (d : Nat) : List Vec3sc :=
  expectedNewSeeds args.connectivity w.1.dimensions (readBlock w.1 o d) (blockAfter w args o d)
    ((d : Int) - 1) (toInt32 (o + (d : Int) - 1) + toInt32 1)

/-! ## One dispatch over a division into blocks -/

/-- The point lies in the image. -/
def InImage {P : Type} (img : DistributedImage P) (p : Vec3c) : Prop :=
  0 ≤ p.x ∧ p.x < img.dimensions.x ∧ 0 ≤ p.y ∧ p.y < img.dimensions.y ∧
    0 ≤ p.z ∧ p.z < img.dimensions.z

/-- The point `q` lies in the footprint that the pixel `p` sends to the plane
before or after its own. -/
def FootAdj (connectivity : Connectivity) (p q : Vec3c) : Prop :=
  FootXY connectivity p.x p.y q.x q.y ∧ (q.z = p.z - 1 ∨ q.z = p.z + 1)

/-- Two blocks of a division along `z` into blocks at least two planes deep:
one ends where the other starts, or at least two planes lie between them. -/
def Apart (b c : Int × Nat) : Prop :=
  (b.1 + (b.2 : Int) = c.1 ∨ b.1 + (b.2 : Int) + 2 ≤ c.1) ∨
    (c.1 + (c.2 : Int) = b.1 ∨ c.1 + (c.2 : Int) + 2 ≤ b.1)

/-- The state of a dispatch after the jobs of the blocks `done`, compared with
the state `w0` at its start; `M` is a property that the seeds under the source
prefix have and that passes to the neighbours of the original colour. -/
structure IterInv {P : Type} (w0 w : World P) (args : BlockArgs P) (M : Vec3c → Prop)
    (done : List (Int × Nat)) : Prop where
  files : ∀ f : FileName, f.pre ≠ args.seedsTargetPrefix → fileBody w.2 f = fileBody w0.2 f
  dims : w.1.dimensions = w0.1.dimensions
  untouched : ∀ p : Vec3c, (∀ b ∈ done, ¬ InBlock w0 b.1 b.2 p) →
    w.1.pix p.x p.y p.z = w0.1.pix p.x p.y p.z
  mono : ∀ p : Vec3c, w.1.pix p.x p.y p.z = w0.1.pix p.x p.y p.z ∨
    (w0.1.pix p.x p.y p.z = args.origColor ∧ w.1.pix p.x p.y p.z = args.fillColor ∧ M p)
  closure : ∀ b ∈ done, ∀ p q : Vec3c, InBlock w0 b.1 b.2 p → InBlock w0 b.1 b.2 q →
    adjacent args.connectivity p q = true → w0.1.pix p.x p.y p.z = args.origColor →
    w.1.pix p.x p.y p.z = args.fillColor → w0.1.pix q.x q.y q.z = args.origColor →
    w.1.pix q.x q.y q.z = args.fillColor
  consumed : ∀ b ∈ done, ∀ q : Vec3c, InBlock w0 b.1 b.2 q →
    w0.1.pix q.x q.y q.z = args.origColor → Pending w0.2 args.seedsSourcePrefix q →
    (q.z = b.1 ∨ q.z = args.startPoint.z ∨ q.z = b.1 + (b.2 : Int) - 1) →
    w.1.pix q.x q.y q.z = args.fillColor
  tgtSound : ∀ q : Vec3c, Pending w.2 args.seedsTargetPrefix q →
    Pending w0.2 args.seedsTargetPrefix q ∨
      ∃ p : Vec3c, InImage w0.1 p ∧ w0.1.pix p.x p.y p.z ≠ w.1.pix p.x p.y p.z ∧
        FootAdj args.connectivity p q
  tgtComplete : ∀ b ∈ done, ∀ p q : Vec3c, InBlock w0 b.1 b.2 p →
    w0.1.pix p.x p.y p.z ≠ w.1.pix p.x p.y p.z →
    FootXY args.connectivity p.x p.y q.x q.y →
    ((p.z = b.1 ∧ 1 ≤ b.1 ∧ q.z = b.1 - 1) ∨
      (p.z = b.1 + (b.2 : Int) - 1 ∧ b.1 + (b.2 : Int) < w0.1.dimensions.z ∧
        q.z = b.1 + (b.2 : Int))) →
    Pending w.2 args.seedsTargetPrefix q
  tgtFiles : ∀ k : Int,
    fileBody w.2 ⟨args.seedsTargetPrefix, k⟩ = fileBody w0.2 ⟨args.seedsTargetPrefix, k⟩ ∨
      ∃ x y : Int, Pending w.2 args.seedsTargetPrefix ⟨x, y, k⟩

/-! ## The outer loop over a division into blocks -/

/-- The whole image as one block held in memory. -/
def DistributedImage.toImage {P : Type} (img : DistributedImage P) : Image P :=
  ⟨img.dimensions.x.toNat, img.dimensions.y.toNat, img.dimensions.z.toNat, img.pix⟩

/-- The pixels that a flood fill of the whole image from the start point
reaches. -/
def GlobalReach {P : Type} (img0 : DistributedImage P) (sp : Vec3c) (connectivity : Connectivity)
    (p : Vec3c) : Prop :=
  Reach img0.toImage [sp] (img0.getPixel sp) connectivity p

/-- Every block that holds the point reads the file addressed to its plane. -/
def Readable (bl : List (Int × Nat)) (sp : Vec3c) (q : Vec3c) : Prop :=
  ∀ b ∈ bl, b.1 ≤ q.z → q.z < b.1 + (b.2 : Int) →
    q.z = b.1 ∨ q.z = sp.z ∨ q.z = b.1 + (b.2 : Int) - 1

/-- A division of the image along `z` into blocks at least two planes deep. -/
structure ZPartition {P : Type} (img0 : DistributedImage P) (bl : List (Int × Nat)) :
    Prop where
  pairwise : bl.Pairwise Apart
  inside : ∀ b ∈ bl, 0 ≤ b.1 ∧ b.1 + (b.2 : Int) ≤ img0.dimensions.z ∧ 2 ≤ b.2
  cover : ∀ z : Int, 0 ≤ z → z < img0.dimensions.z → ∃ b ∈ bl, b.1 ≤ z ∧ z < b.1 + (b.2 : Int)

/-- What the run of the distributed flood fill is started under: the
dimensions fit `int32_t`, the start point lies in the image and does not have
the fill colour, and the connectivity is one of the two enumerators. -/
structure FillSetup {P : Type} (img0 : DistributedImage P) (sp : Vec3c) (fill : P)
    (connectivity : Connectivity) : Prop where
  hx1 : img0.dimensions.x < 2147483648
  hy1 : img0.dimensions.y < 2147483648
  hz1 : img0.dimensions.z < 2147483648
  hin : InImage img0 sp
  hcol : img0.getPixel sp ≠ fill
  hconn : connectivity = Connectivity.NearestNeighbours ∨
    connectivity = Connectivity.AllNeighbours

/-- The state of the outer loop at the start of an iteration, compared with
the image `img0` that the flood fill was started on. -/
structure FillInv {P : Type} (img0 : DistributedImage P) (sp : Vec3c) (fill : P)
    (connectivity : Connectivity) (bl : List (Int × Nat)) (s : LoopState P) : Prop where
  dims : s.world.1.dimensions = img0.dimensions
  sound : ∀ p : Vec3c, s.world.1.pix p.x p.y p.z = img0.pix p.x p.y p.z ∨
    (GlobalReach img0 sp connectivity p ∧ s.world.1.pix p.x p.y p.z = fill)
  pendingSound : ∀ q : Vec3c, Pending s.world.2 s.seedsSourceFilenamePrefix q →
    InImage img0 q → img0.pix q.x q.y q.z = img0.getPixel sp →
    GlobalReach img0 sp connectivity q
  frontier : ∀ p q : Vec3c, GlobalReach img0 sp connectivity p →
    s.world.1.pix p.x p.y p.z = fill → adjacent connectivity p q = true → InImage img0 q →
    s.world.1.pix q.x q.y q.z = img0.getPixel sp →
    Pending s.world.2 s.seedsSourceFilenamePrefix q ∧ Readable bl sp q
  start : s.world.1.pix sp.x sp.y sp.z = fill ∨
    Pending s.world.2 s.seedsSourceFilenamePrefix sp
  fresh : ∀ k : Int, fileBody s.world.2 ⟨s.seedsTargetFilenamePrefix, k⟩ = none
  ne : s.seedsSourceFilenamePrefix ≠ s.seedsTargetFilenamePrefix

/-- The number of pixels of the image `img0` that have the colour in `img`. -/
def countColor {P : Type} [DecidableEq P] (img0 img : DistributedImage P) (color : P) : Nat :=
  (img0.toImage.box.filter (fun p => img.pix p.x p.y p.z = color)).card

/-- The state of the outer loop after the dispatch and the deletion of the
source files, with the roles of the two prefixes swapped. -/
def afterDispatch {P : Type} [PixelType P] (distribute : Distributor P) (sp : Vec3c)
    (orig fill : P) (connectivity : Connectivity) (s : LoopState P) : LoopState P :=
  ⟨s.seedsTargetFilenamePrefix, s.seedsSourceFilenamePrefix,
    ((distribute (FloodFillCommand.dispatchArgs sp orig fill connectivity s) s.world).1,
      FloodFillCommand.deleteSources
        (distribute (FloodFillCommand.dispatchArgs sp orig fill connectivity s) s.world).2
        s.seedsSourceFilenamePrefix)⟩

/-- The image `w.1` is the image `img0` after a flood fill from the start
point: the pixels that the flood fill reaches have the fill colour, the others
their colour in `img0`. -/
def FillResult {P : Type} (img0 : DistributedImage P) (sp : Vec3c) (fill : P)
    (connectivity : Connectivity) (w : World P) : Prop :=
  w.1.dimensions = img0.dimensions ∧
    ∀ p : Vec3c, (GlobalReach img0 sp connectivity p → w.1.pix p.x p.y p.z = fill) ∧
      (¬ GlobalReach img0 sp connectivity p → w.1.pix p.x p.y p.z = img0.pix p.x p.y p.z)

/-- The seed list that the job of a single block covering the whole image
hands to the kernel in the first dispatch. -/
def singleBlockSeeds {P : Type} [PixelType P] (src tgt : String) (w : World P) (sp : Vec3c) (fill : P)
    (c : Connectivity) (depth : Nat) : List Vec3sc :=
  FloodFillBlockCommand.kernelSeeds (FloodFillCommand.initialLoopState src tgt w sp).world.2
    (readBlock w.1 0 depth)
    ((FloodFillCommand.dispatchArgs sp (w.1.getPixel sp) fill c
      (FloodFillCommand.initialLoopState src tgt w sp)).atOrigin 0)

/-- The whole image after the kernel has been invoked once on it with the seed
list of the single block, the colour of the start point as original colour, the
fill colour as fill and stop colour, and the connectivity. -/
def singleBlockImage {P : Type} [PixelType P] (floodfill : FloodFillKernel P) (src tgt : String)
    (w : World P) (sp : Vec3c) (fill : P) (c : Connectivity) (depth : Nat) :
    DistributedImage P :=
  writeBlock w.1 0
    { w.1.toImage with
      pix := floodfill w.1.toImage (singleBlockSeeds src tgt w sp fill c depth)
        (w.1.getPixel sp) fill fill c }

/-- A block of width 1, height 1 and depth 1: a single slice. -/
def singleSliceBlock : Image Nat := ⟨1, 1, 1, fun _ _ _ => 0⟩

/-- Source `run`, lines 810 and 812: the neighbouring plane `newZ` lies in the
`z` extent of the original image, and for some pixel of plane `z` of the block
the test `edgeValues[n] != in(x, y, z)` holds between its value in the snapshot
taken before the fill and its value after the fill. This is the condition under
which the seed derivation pushes seeds for the plane. -/
def BoundaryDiffers {P : Type} [PixelType P] (origSize : Vec3c) (before after : Image P)
    (z : Int) (newZ : int32_t) : Prop :=
  (0 ≤ newZ.val ∧ newZ.val < origSize.z) ∧
    ∃ x y : Nat, x < before.width ∧ y < before.height ∧
      PixelType.ne (before.pix (x : Int) (y : Int) z) (after.pix (x : Int) (y : Int) z) = true

/-- Some pixel of plane `z` of the block has another value after the fill than
before it, and the neighbouring plane `newZ` lies in the `z` extent of the
original image. -/
def BoundaryChanged {P : Type} (origSize : Vec3c) (before after : Image P) (z : Int)
    (newZ : int32_t) : Prop :=
  (0 ≤ newZ.val ∧ newZ.val < origSize.z) ∧
    ∃ x y : Nat, x < before.width ∧ y < before.height ∧
      before.pix (x : Int) (y : Int) z ≠ after.pix (x : Int) (y : Int) z

/-- What a fill kernel is assumed to do at most: it changes no pixel but from
the original colour to the fill colour. -/
def OnlyFills {P : Type} (floodfill : FloodFillKernel P) : Prop :=
  ∀ (img : Image P) (seeds : List Vec3sc) (origColor fillColor stopColor : P)
    (connectivity : Connectivity) (x y z : Int),
    floodfill img seeds origColor fillColor stopColor connectivity x y z = img.pix x y z ∨
      (img.pix x y z = origColor ∧
        floodfill img seeds origColor fillColor stopColor connectivity x y z = fillColor)

/-- The state `w` of a dispatch compared with the state `w0` at its start, for
any kernel that only fills: pixels have changed from the original colour to the
fill colour only, and if a file under the target prefix has changed then so has
a pixel of the image. -/
structure DispatchProgress {P : Type} (w0 w : World P) (args : BlockArgs P) : Prop where
  dims : w.1.dimensions = w0.1.dimensions
  mono : ∀ p : Vec3c, w.1.pix p.x p.y p.z = w0.1.pix p.x p.y p.z ∨
    (InImage w0.1 p ∧ w0.1.pix p.x p.y p.z = args.origColor ∧
      w.1.pix p.x p.y p.z = args.fillColor)
  files : (∀ k : Int, fileBody w.2 ⟨args.seedsTargetPrefix, k⟩
      = fileBody w0.2 ⟨args.seedsTargetPrefix, k⟩) ∨
    ∃ p : Vec3c, InImage w0.1 p ∧ w0.1.pix p.x p.y p.z = args.origColor ∧
      w.1.pix p.x p.y p.z = args.fillColor

/-- The state of the outer loop at the start of an iteration, for any kernel:
the image has the dimensions of the image `img0`, the two prefixes differ and no
file exists under the target prefix. -/
structure LoopReady {P : Type} (img0 : DistributedImage P) (s : LoopState P) : Prop where
  dims : s.world.1.dimensions = img0.dimensions
  ne : s.seedsSourceFilenamePrefix ≠ s.seedsTargetFilenamePrefix
  fresh : ∀ k : Int, fileBody s.world.2 ⟨s.seedsTargetFilenamePrefix, k⟩ = none

/-! ## The block matching command that loads the overlapping region only -/

/-- Modelled from the spec: the enumeration `ImageDataType` of itl2 (not in this
file). `run` names the three enumerators `UInt8`, `UInt16` and `Float32`;
`Other` stands for the remaining ones. -/
inductive ImageDataType where
  | UInt8
  | UInt16
  | Float32
  | Other (code : Nat)
deriving DecidableEq

/-- The argument list of `blockmatchmemsave`. The initial shift is a `Vec3d`,
which `run` only hands on, so its type stays a parameter. -/
structure BlockMatchArgs (V : Type) where
  refFile : String
  defFile : String
  xmin : Int
  xmax : Int
  xstep : Int
  ymin : Int
  ymax : Int
  ystep : Int
  zmin : Int
  zmax : Int
  zstep : Int
  initialShift : V
  fname : String
  coarseCompRadius : Vec3c
  coarseBinning : Int
  fineCompRadius : Vec3c
  fineBinning : Int
  normalize : Bool

/-- The exceptions that `BlockMatchPartialLoadCommand::run` throws, in the
order of its `throw` statements. -/
inductive BlockMatchError where
  | referenceInfo
  | deformedInfo
  | dataTypeMismatch
  | coarseBinning
  | fineBinning
  | invalidGrid
  | unsupportedDataType
deriving DecidableEq

/-- What `BlockMatchPartialLoadCommand::run` does to the outside: the call of
the kernel `blockMatchPartialLoad<T, T>` for a pixel type `T`, and the call of
`writeBlockMatchResult` with the file name prefix. -/
inductive BlockMatchEvent where
  | blockMatchPartialLoad (pixelType : ImageDataType) (refFile defFile : String)
  | writeBlockMatchResult (fname : String)
deriving DecidableEq

namespace BlockMatchPartialLoadCommand

/-- Source `run`, lines 275-290: the dispatch on the data type of the reference
image, on the log of the calls made so far. -/
def callKernel {V : Type} (a : BlockMatchArgs V) (refDT : ImageDataType)
    (log : List BlockMatchEvent) : Except BlockMatchError Unit × List BlockMatchEvent :=
  if refDT = ImageDataType.UInt8 then
    (Except.ok (), log ++ [BlockMatchEvent.blockMatchPartialLoad ImageDataType.UInt8
      a.refFile a.defFile])
  else if refDT = ImageDataType.UInt16 then
    (Except.ok (), log ++ [BlockMatchEvent.blockMatchPartialLoad ImageDataType.UInt16
      a.refFile a.defFile])
  else if refDT = ImageDataType.Float32 then
    (Except.ok (), log ++ [BlockMatchEvent.blockMatchPartialLoad ImageDataType.Float32
      a.refFile a.defFile])
  else
    (Except.error BlockMatchError.unsupportedDataType, log)

/-- Source: `BlockMatchPartialLoadCommand::run(args)`, lines 207-293, on the log
of the calls made so far. `getInfo` is `io::getInfo`, which is not part of this
file: it yields the dimensions and the data type of an image file, or nothing.
The construction of the point grids between the checks and the call of the
kernel touches local variables only. -/
def run {V : Type} (getInfo : String → Option (Vec3c × ImageDataType)) (a : BlockMatchArgs V)
    (log : List BlockMatchEvent) : Except BlockMatchError Unit × List BlockMatchEvent :=
  match getInfo a.refFile with
  | none => (Except.error BlockMatchError.referenceInfo, log)
  | some (_, refDT) =>
    match getInfo a.defFile with
    | none => (Except.error BlockMatchError.deformedInfo, log)
    | some (_, defDT) =>
      if refDT ≠ defDT then
        (Except.error BlockMatchError.dataTypeMismatch, log)
      else if a.coarseBinning < 1 then
        (Except.error BlockMatchError.coarseBinning, log)
      else if a.fineBinning < 1 then
        (Except.error BlockMatchError.fineBinning, log)
      else if a.xmin > a.xmax ∨ a.ymin > a.ymax ∨ a.zmin > a.zmax then
        (Except.error BlockMatchError.invalidGrid, log)
      else
        match callKernel a refDT log with
        | (Except.error e, log1) => (Except.error e, log1)
        | (Except.ok _, log1) =>
          (Except.ok (), log1 ++ [BlockMatchEvent.writeBlockMatchResult a.fname])

/-- The six conditions under which the command is said to raise an error. -/
def Rejected {V : Type} (getInfo : String → Option (Vec3c × ImageDataType))
    (a : BlockMatchArgs V) : Prop :=
  (getInfo a.refFile = none ∨ getInfo a.defFile = none) ∨
  (∃ r d, getInfo a.refFile = some r ∧ getInfo a.defFile = some d ∧ r.2 ≠ d.2) ∨
  a.coarseBinning < 1 ∨
  a.fineBinning < 1 ∨
  (a.xmin > a.xmax ∨ a.ymin > a.ymax ∨ a.zmin > a.zmax) ∨
  (∃ r d, getInfo a.refFile = some r ∧ getInfo a.defFile = some d ∧ r.2 = d.2 ∧
    r.2 ≠ ImageDataType.UInt8 ∧ r.2 ≠ ImageDataType.UInt16 ∧ r.2 ≠ ImageDataType.Float32)

end BlockMatchPartialLoadCommand

/-! ## The read and the write region of a block -/

/-- An axis-aligned box: origin and size. -/
structure Region where
  origin : Vec3c
  size : Vec3c

/-- The region lies in an image of the given dimensions: its origin is not
negative and origin plus size does not exceed the dimensions. -/
def Region.Within (r : Region) (imageDimensions : Vec3c) : Prop :=
  (0 ≤ r.origin.x ∧ r.origin.x + r.size.x ≤ imageDimensions.x) ∧
  (0 ≤ r.origin.y ∧ r.origin.y + r.size.y ≤ imageDimensions.y) ∧
  (0 ≤ r.origin.z ∧ r.origin.z + r.size.z ≤ imageDimensions.z)

instance (r : Region) (imageDimensions : Vec3c) : Decidable (r.Within imageDimensions) := by
  unfold Region.Within
  exact inferInstance

/-- The region `r` contains the region `q`. -/
def Region.Contains (r q : Region) : Prop :=
  (r.origin.x ≤ q.origin.x ∧ q.origin.x + q.size.x ≤ r.origin.x + r.size.x) ∧
  (r.origin.y ≤ q.origin.y ∧ q.origin.y + q.size.y ≤ r.origin.y + r.size.y) ∧
  (r.origin.z ≤ q.origin.z ∧ q.origin.z + q.size.z ≤ r.origin.z + r.size.z)

instance (r q : Region) : Decidable (r.Contains q) := by
  unfold Region.Contains
  exact inferInstance

/-- The region expanded by the margin on both sides of every axis, not
clipped. -/
def Region.expand (r : Region) (margin : Vec3c) : Region :=
  ⟨⟨r.origin.x - margin.x, r.origin.y - margin.y, r.origin.z - margin.z⟩,
    ⟨r.size.x + 2 * margin.x, r.size.y + 2 * margin.y, r.size.z + 2 * margin.z⟩⟩

/-- Modelled from the spec: `clip(origin, size, imageDimensions)` (not in this
file), the part of the box that lies in the image: along every axis the interval
from `max origin 0` to `min (origin + size) dimension`. -/
def clip (origin size imageDimensions : Vec3c) : Region :=
  ⟨⟨max origin.x 0, max origin.y 0, max origin.z 0⟩,
    ⟨min (origin.x + size.x) imageDimensions.x - max origin.x 0,
      min (origin.y + size.y) imageDimensions.y - max origin.y 0,
      min (origin.z + size.z) imageDimensions.z - max origin.z 0⟩⟩

/-- Modelled from the spec: `computeRegions(outputRegion, margin,
imageDimensions)` (not in this file), the read region and the write region of
a block: `readRegion = clip(outputRegion.origin - margin, outputRegion.size +
2*margin, imageDimensions)` and `writeRegion = outputRegion`. -/
def computeRegions (outputRegion : Region) (margin imageDimensions : Vec3c) :
    Region × Region :=
  (clip (outputRegion.expand margin).origin (outputRegion.expand margin).size
    imageDimensions, outputRegion)

/-! ## Pixel types on which comparison or conversion is not exact -/

/-- Values of the pixel type `float32_t`: the NaN, and the natural numbers that
a `float32_t` holds exactly. -/
inductive SampleFloat where
  | nan
  | num (n : Nat)
deriving DecidableEq

/-- The operations of `float32_t` on these values, as IEEE 754 has them: under
`!=` a NaN is unequal to every value, itself included, and under `==` it is
equal to none; two numbers compare as numbers. The conversion to `double` and
back changes neither a NaN nor a number. -/
instance : PixelType SampleFloat :=
  ⟨fun a b =>
      match a, b with
      | SampleFloat.num m, SampleFloat.num n => decide (m ≠ n)
      | _, _ => true,
    fun a b =>
      match a, b with
      | SampleFloat.num m, SampleFloat.num n => decide (m = n)
      | _, _ => false,
    fun c => c⟩

/-- Values of the pixel type `uint64_t`. -/
structure SampleUInt64 where
  val : Nat
deriving DecidableEq

/-- The number of binary digits of `n`, for `n` below `2 ^ fuel`. -/
def bitLength : Nat → Nat → Nat
  | 0, _ => 0
  | fuel + 1, n => if n = 0 then 0 else bitLength fuel (n / 2) + 1

/-- The conversion `(double)c` of line 974 for a value `c` of `uint64_t`: the
nearest number with at most 53 significant binary digits, a tie going to the
even one. -/
def nearestDouble (n : Nat) : Nat :=
  let sh := bitLength 64 n - 53
  let q := n / 2 ^ sh
  let r := n % 2 ^ sh
  if 2 * r < 2 ^ sh ∨ (2 * r = 2 ^ sh ∧ q % 2 = 0) then q * 2 ^ sh else (q + 1) * 2 ^ sh

/-- The operations of `uint64_t`: `!=` and `==` are exact. The conversion to
`double` and back is `nearestDouble`; `pixelRound<uint64_t>`, which is not part
of this file, is taken to give back a `double` that holds an integer in the
range of the type and to stop at the largest value of the type. -/
instance : PixelType SampleUInt64 :=
  ⟨fun a b => decide (a.val ≠ b.val), fun a b => decide (a.val = b.val),
    fun c => ⟨min (nearestDouble c.val) 18446744073709551615⟩⟩

/-- A kernel that changes no pixel. -/
def idleKernel {P : Type} : FloodFillKernel P := fun img _ _ _ _ _ => img.pix

/-- A block of `float32_t` pixels of width 1, height 1 and depth 2: the number
0 on the plane `z = 0` and a NaN on the plane `z = 1`. -/
def nanBlock : Image SampleFloat :=
  ⟨1, 1, 2, fun _ _ z => if z = 1 then SampleFloat.nan else SampleFloat.num 0⟩

/-- The arguments of a job on `nanBlock`: the block covers `z = 0, 1` of an
image of size 1 x 1 x 4, the fill started at `(0, 0, 3)` and recolours 0 to
7. -/
def nanArgs (connectivity : Connectivity) : BlockArgs SampleFloat :=
  ⟨"s1", "s2", ⟨0, 0, 3⟩, SampleFloat.num 0, SampleFloat.num 7, connectivity, ⟨1, 1, 4⟩,
    ⟨0, 0, 0⟩⟩

/-- An image of `float32_t` pixels of size 1 x 1 x 4: the number 0 on the planes
`z = 0` and `z = 3`, a NaN on the planes `z = 1` and `z = 2`. -/
def nanBarrier : DistributedImage SampleFloat :=
  ⟨⟨1, 1, 4⟩, fun _ _ z => if z = 1 ∨ z = 2 then SampleFloat.nan else SampleFloat.num 0⟩

/-- The colour `2 ^ 53 + 1` of `uint64_t`, which no `double` holds. -/
def bigColor : SampleUInt64 := ⟨9007199254740993⟩

/-- An image of `uint64_t` pixels of size 1 x 1 x `depth`, every pixel of the
colour `2 ^ 53 + 1`. -/
def bigWhole (depth : Int) : DistributedImage SampleUInt64 :=
  ⟨⟨1, 1, depth⟩, fun _ _ _ => bigColor⟩

/-- An image of `uint64_t` pixels of size 2 x 1 x 4: the column `x = 0` of the
colour `2 ^ 53 + 1`, the column `x = 1` of the colour 5. -/
def bigMixed : DistributedImage SampleUInt64 :=
  ⟨⟨2, 1, 4⟩, fun x _ _ => if x = 0 then bigColor else ⟨5⟩⟩

/-- The state of the outer loop of the flood fill of `nanBarrier` from
`(0, 0, 0)` with the fill colour 7, two blocks of depth 2 and the reference
flood fill as kernel, at the start of dispatch number `k + 1`, should the loop
get that far. -/
def nanBarrierState : Nat → LoopState SampleFloat
  | 0 => FloodFillCommand.initialLoopState "s1" "s2" (nanBarrier, []) ⟨0, 0, 0⟩
  | k + 1 =>
    afterDispatch (distributeBlocks referenceFloodFill 3 [2, 2]) ⟨0, 0, 0⟩
      (nanBarrier.getPixel ⟨0, 0, 0⟩) (SampleFloat.num 7) Connectivity.NearestNeighbours
      (nanBarrierState k)
/-! ## Facts about machine integers and files -/

theorem pixel_ne_iff {P : Type} [PixelType P] [ExactPixel P] (a b : P) :
    PixelType.ne a b = true ↔ a ≠ b := ExactPixel.ne_iff a b

theorem pixel_ne_false {P : Type} [PixelType P] [ExactPixel P] {a b : P} (h : a = b) :
    PixelType.ne a b = false := by
  cases hn : PixelType.ne a b with
  | false => rfl
  | true => exact absurd h ((ExactPixel.ne_iff a b).1 hn)

theorem pixel_ne_false_iff {P : Type} [PixelType P] [ExactPixel P] (a b : P) :
    PixelType.ne a b = false ↔ a = b := by
  constructor
  · intro h
    by_contra hne
    rw [(ExactPixel.ne_iff a b).2 hne] at h
    cases h
  · exact pixel_ne_false

theorem pixel_eq_iff {P : Type} [PixelType P] [ExactPixel P] (a b : P) :
    PixelType.eq a b = true ↔ a = b := ExactPixel.eq_iff a b

theorem pixel_eq_false {P : Type} [PixelType P] [ExactPixel P] {a b : P} (h : a ≠ b) :
    PixelType.eq a b = false := by
  cases hn : PixelType.eq a b with
  | false => rfl
  | true => exact absurd ((ExactPixel.eq_iff a b).1 hn) h

theorem pixel_viaDouble {P : Type} [PixelType P] [ExactPixel P] (c : P) :
    PixelType.viaDouble c = c := ExactPixel.viaDouble_eq c

theorem wrap32_of_range (v : Int) (h1 : -2147483648 ≤ v) (h2 : v < 2147483648) :
    wrap32 v = v := by
  unfold wrap32; omega

theorem int32_ext (a b : int32_t) (h : a.val = b.val) : a = b := by
  cases a; cases b; simp only [int32_t.mk.injEq]; exact h

theorem toInt32_val (a : int32_t) : toInt32 a.val = a :=
  int32_ext _ _ (wrap32_of_range a.val a.lo a.hi)

theorem readInt32_int32Bytes (v : int32_t) (rest : List Nat) :
    readInt32 (int32Bytes v ++ rest) = some (v, rest) := by
  have h1 := v.lo
  have h2 := v.hi
  simp only [int32Bytes, readInt32, List.cons_append, List.nil_append, Option.some.injEq,
    Prod.mk.injEq, and_true]
  apply int32_ext
  simp only [toInt32, wrap32]
  omega

theorem int32_add_def (a b : int32_t) : a + b = toInt32 (a.val + b.val) := rfl

theorem int32_sub_def (a b : int32_t) : a - b = toInt32 (a.val - b.val) := rfl

theorem toInt32_val_eq (v : Int) : (toInt32 v).val = wrap32 v := rfl

theorem int32_add_zero (a : int32_t) : a + toInt32 0 = a := by
  apply int32_ext
  have h1 := a.lo
  have h2 := a.hi
  simp only [int32_add_def, toInt32_val_eq, wrap32]
  omega

theorem vec3sc_add_def (p q : Vec3sc) : p + q = ⟨p.x + q.x, p.y + q.y, p.z + q.z⟩ := rfl

theorem vec3sc_add_ofInts (p : Vec3sc) (dx dy : Int) :
    p + Vec3sc.ofInts dx dy 0 = ⟨p.x + toInt32 dx, p.y + toInt32 dy, p.z⟩ := by
  simp only [vec3sc_add_def, Vec3sc.ofInts, int32_add_zero]

theorem flatMap_ite_eq_filter_flatMap {α β : Type} (c : α → Prop) [DecidablePred c]
    (f : α → List β) (l : List α) :
    l.flatMap (fun a => if c a then f a else []) = (l.filter (fun a => decide (c a))).flatMap f := by
  induction l with
  | nil => rfl
  | cons a rest ih =>
    by_cases h : c a
    · simp [List.flatMap_cons, List.filter_cons, h, ih]
    · simp [List.flatMap_cons, List.filter_cons, h, ih]

theorem fileExists_storeFile (fs : FileSystem) (f : FileName) (body : List Nat) :
    fileExists (storeFile fs f body) f = true := by
  simp [fileExists, storeFile]

theorem fileBody_storeFile (fs : FileSystem) (f : FileName) (body : List Nat) :
    fileBody (storeFile fs f body) f = some body := by
  simp [fileBody, storeFile]

theorem fileBody_eq_none_of_not_exists (fs : FileSystem) (f : FileName)
    (h : fileExists fs f = false) : fileBody fs f = none := by
  unfold fileExists at h
  unfold fileBody
  rw [Option.map_eq_none', List.find?_eq_none]
  intro e he
  have := List.any_eq_false.mp h e he
  simpa using this

theorem fileExists_of_fileBody (fs : FileSystem) (f : FileName) (body : List Nat)
    (h : fileBody fs f = some body) : fileExists fs f = true := by
  cases hx : fileExists fs f with
  | true => rfl
  | false => rw [fileBody_eq_none_of_not_exists fs f hx] at h; cases h

theorem fileBody_deleteFile (fs : FileSystem) (f g : FileName) :
    fileBody (deleteFile fs f) g = if g = f then none else fileBody fs g := by
  induction fs with
  | nil => simp [fileBody, deleteFile]
  | cons e rest ih =>
    simp only [fileBody, deleteFile] at ih ⊢
    by_cases h1 : e.1 = f <;> by_cases h2 : g = f <;> by_cases h3 : e.1 = g <;>
      simp_all [List.filter_cons, List.find?_cons]

theorem fileBody_storeFile_eq (fs : FileSystem) (f g : FileName) (body : List Nat) :
    fileBody (storeFile fs f body) g = if g = f then some body else fileBody fs g := by
  by_cases h : g = f
  · rw [h, fileBody_storeFile, if_pos rfl]
  · have h2 : ¬ f = g := fun e => h e.symm
    have := fileBody_deleteFile fs f g
    rw [if_neg h] at this ⊢
    rw [← this]
    simp only [fileBody, storeFile, List.find?_cons, h2, decide_False]

namespace FloodFillBlockCommand

theorem readPoint_writePoint (p : Vec3sc) (z : int32_t) (rest : List Nat) :
    readPoint (writePoint p ++ rest) z = some (⟨p.x, p.y, z⟩, rest) := by
  simp only [readPoint, writePoint, List.append_assoc, readInt32_int32Bytes]

theorem length_writePoint (p : Vec3sc) : (writePoint p).length = 8 := by
  simp [writePoint, int32Bytes]

theorem readRecords_flatMap_writePoint (z : int32_t) :
    ∀ (list : List Vec3sc) (fuel : Nat), list.length ≤ fuel →
      readRecords (fun inp => readPoint inp z) fuel (list.flatMap writePoint)
        = list.map (fun p => (⟨p.x, p.y, z⟩ : Vec3sc))
  | [], 0, _ => rfl
  | [], _ + 1, _ => rfl
  | p :: rest, 0, h => by simp at h
  | p :: rest, fuel + 1, h => by
    have h2 : rest.length ≤ fuel := by simpa using h
    simp only [List.flatMap_cons, readRecords, readPoint_writePoint, List.map_cons,
      readRecords_flatMap_writePoint z rest fuel h2]

theorem length_flatMap_writePoint (list : List Vec3sc) :
    (list.flatMap writePoint).length = 8 * list.length := by
  induction list with
  | nil => rfl
  | cons p rest ih =>
    simp only [List.flatMap_cons, List.length_append, length_writePoint, ih, List.length_cons]
    omega

theorem readInputFile_writeOutputFile (fs : FileSystem) (file : FileName)
    (list output : List Vec3sc) (z : int32_t) :
    readInputFile (writeOutputFile fs file list) file z output
      = output ++ list.map (fun p => (⟨p.x, p.y, z⟩ : Vec3sc)) := by
  have hlen : list.length ≤ (list.flatMap writePoint).length := by
    rw [length_flatMap_writePoint]; omega
  simp only [readInputFile, writeOutputFile, writeListFile, fileExists_storeFile, if_true,
    readListFile, fileBody_storeFile, readRecords_flatMap_writePoint z list _ hlen]

/-- C3: reading with `readInputFile(file, k)` the file that
`writeOutputFile(file, L)` produced yields as many points as `L` has, the
i-th with the `x` and `y` of `L[i]` and with `z = k`; so it yields `L` itself
when every seed of `L` has `z = k`. -/
theorem seed_file_round_trip (fs : FileSystem) (file : FileName) (L : List Vec3sc)
    (k : int32_t) :
    (readInputFile (writeOutputFile fs file L) file k []).length = L.length ∧
    (∀ (i : Nat) (h : i < L.length),
      (readInputFile (writeOutputFile fs file L) file k [])[i]?
        = some ⟨(L.get ⟨i, h⟩).x, (L.get ⟨i, h⟩).y, k⟩) ∧
    ((∀ p ∈ L, p.z = k) → readInputFile (writeOutputFile fs file L) file k [] = L) := by
  rw [readInputFile_writeOutputFile]
  refine ⟨by simp, ?_, ?_⟩
  · intro i h
    simp [h]
  · intro hz
    simp only [List.nil_append]
    conv_rhs => rw [← List.map_id L]
    apply List.map_congr_left
    intro p hp
    rw [← hz p hp]
    rfl

variable {P : Type} [PixelType P]

theorem pushNewSeeds_eq (connectivity : Connectivity) (p : Vec3sc) (newSeeds : List Vec3sc)
    (hc : connectivity ≠ Connectivity.Unsupported) :
    pushNewSeeds connectivity p newSeeds = Except.ok (newSeeds ++ footprint connectivity p) := by
  cases connectivity with
  | NearestNeighbours => simp [pushNewSeeds, footprint, vec3sc_add_ofInts, int32_add_zero]
  | AllNeighbours => simp [pushNewSeeds, footprint, vec3sc_add_ofInts, int32_add_zero]
  | Unsupported => exact absurd rfl hc

/-- The seeds that one pixel of a boundary plane contributes. -/
theorem visitPixel_eq (before after : Image P) (edgeValues a b : List P)
    (connectivity : Connectivity) (origSize : Vec3c) (z : Int) (dz newZ : int32_t) (y x : Nat)
    (s : List Vec3sc)
    (hc : connectivity ≠ Connectivity.Unsupported ∨
      PixelType.ne (before.pix (x : Int) (y : Int) z) (after.pix (x : Int) (y : Int) z) = false)
    (he : edgeValues = a ++ before.pix (x : Int) (y : Int) z :: b) :
    visitPixel after edgeValues connectivity origSize z dz newZ y x (a.length, s)
      = Except.ok ((a ++ [before.pix (x : Int) (y : Int) z]).length,
          s ++ pixelContribution connectivity origSize before after z dz newZ y x) := by
  have hget : edgeDiffers edgeValues a.length (after.pix (x : Int) (y : Int) z)
      = PixelType.ne (before.pix (x : Int) (y : Int) z) (after.pix (x : Int) (y : Int) z) := by
    unfold edgeDiffers
    rw [he, List.getElem?_append_right (Nat.le_refl _)]
    simp
  unfold visitPixel pixelContribution
  rw [hget]
  by_cases hr : dz.val ≠ 0 ∧ 0 ≤ newZ.val ∧ newZ.val < origSize.z
  · by_cases hp : PixelType.ne (before.pix (x : Int) (y : Int) z)
        (after.pix (x : Int) (y : Int) z) = true
    · have hc2 : connectivity ≠ Connectivity.Unsupported :=
        hc.resolve_right (by rw [hp]; exact fun e => Bool.noConfusion e)
      simp [hr, hp, pushNewSeeds_eq _ _ _ hc2]
    · simp [hr, hp]
  · simp [hr]

theorem visitRow_aux (before after : Image P) (edgeValues : List P)
    (connectivity : Connectivity) (origSize : Vec3c) (z : Int) (dz newZ : int32_t) (y : Nat) :
    ∀ (xs : List Nat) (a b : List P) (s : List Vec3sc),
      (connectivity ≠ Connectivity.Unsupported ∨
        ∀ x ∈ xs, PixelType.ne (before.pix (x : Int) (y : Int) z) (after.pix (x : Int) (y : Int) z) = false) →
      edgeValues = a ++ xs.map (fun (x : Nat) => before.pix (x : Int) (y : Int) z) ++ b →
      xs.foldlM (fun st x => visitPixel after edgeValues connectivity origSize z dz newZ y x st)
          (a.length, s)
        = Except.ok ((a ++ xs.map (fun (x : Nat) => before.pix (x : Int) (y : Int) z)).length,
            s ++ xs.flatMap
              (pixelContribution connectivity origSize before after z dz newZ y))
  | [], a, b, s, _, _ => by simp [pure, Except.pure]
  | x :: rest, a, b, s, hc, he => by
    have he1 : edgeValues = a ++ before.pix (x : Int) (y : Int) z ::
        (rest.map (fun (x : Nat) => before.pix (x : Int) (y : Int) z) ++ b) := by
      rw [he]; simp
    have he2 : edgeValues = (a ++ [before.pix (x : Int) (y : Int) z]) ++
        rest.map (fun (x : Nat) => before.pix (x : Int) (y : Int) z) ++ b := by
      rw [he]; simp
    have hc1 : connectivity ≠ Connectivity.Unsupported ∨
        PixelType.ne (before.pix (x : Int) (y : Int) z) (after.pix (x : Int) (y : Int) z) = false :=
      hc.imp id (fun h => h x (List.mem_cons_self x rest))
    have hc2 : connectivity ≠ Connectivity.Unsupported ∨
        ∀ x ∈ rest, PixelType.ne (before.pix (x : Int) (y : Int) z) (after.pix (x : Int) (y : Int) z) = false :=
      hc.imp id (fun h x hx => h x (List.mem_cons_of_mem _ hx))
    rw [List.foldlM_cons, visitPixel_eq before after edgeValues a _ connectivity origSize z dz
      newZ y x s hc1 he1]
    show List.foldlM _ _ rest = _
    rw [visitRow_aux before after edgeValues connectivity origSize z dz newZ y rest
      (a ++ [before.pix (x : Int) (y : Int) z]) b _ hc2 he2]
    simp

theorem visitPlane_aux (before after : Image P) (edgeValues : List P)
    (connectivity : Connectivity) (origSize : Vec3c) (z : Int) (dz newZ : int32_t)
    (hw : after.width = before.width) :
    ∀ (ys : List Nat) (a b : List P) (s : List Vec3sc),
      (connectivity ≠ Connectivity.Unsupported ∨
        ∀ y ∈ ys, ∀ x ∈ List.range before.width,
          PixelType.ne (before.pix (x : Int) (y : Int) z) (after.pix (x : Int) (y : Int) z) = false) →
      edgeValues = a ++ ys.flatMap (fun (y : Nat) =>
          (List.range before.width).map (fun (x : Nat) => before.pix (x : Int) (y : Int) z)) ++ b →
      ys.foldlM (fun st y => visitRow after edgeValues connectivity origSize z dz newZ y st)
          (a.length, s)
        = Except.ok ((a ++ ys.flatMap (fun (y : Nat) =>
              (List.range before.width).map
                (fun (x : Nat) => before.pix (x : Int) (y : Int) z))).length,
            s ++ ys.flatMap (fun (y : Nat) => (List.range before.width).flatMap
              (pixelContribution connectivity origSize before after z dz newZ y)))
  | [], a, b, s, _, _ => by simp [pure, Except.pure]
  | y :: rest, a, b, s, hc, he => by
    have he1 : edgeValues = a ++
        (List.range before.width).map (fun (x : Nat) => before.pix (x : Int) (y : Int) z) ++
        (rest.flatMap (fun (y : Nat) =>
          (List.range before.width).map (fun (x : Nat) => before.pix (x : Int) (y : Int) z))
          ++ b) := by
      rw [he]; simp
    have he2 : edgeValues =
        (a ++ (List.range before.width).map
          (fun (x : Nat) => before.pix (x : Int) (y : Int) z)) ++
        rest.flatMap (fun (y : Nat) =>
          (List.range before.width).map (fun (x : Nat) => before.pix (x : Int) (y : Int) z))
        ++ b := by
      rw [he]; simp
    have hc1 : connectivity ≠ Connectivity.Unsupported ∨
        ∀ x ∈ List.range before.width,
          PixelType.ne (before.pix (x : Int) (y : Int) z) (after.pix (x : Int) (y : Int) z) = false :=
      hc.imp id (fun h => h y (List.mem_cons_self y rest))
    have hc2 : connectivity ≠ Connectivity.Unsupported ∨
        ∀ y ∈ rest, ∀ x ∈ List.range before.width,
          PixelType.ne (before.pix (x : Int) (y : Int) z) (after.pix (x : Int) (y : Int) z) = false :=
      hc.imp id (fun h y hy => h y (List.mem_cons_of_mem _ hy))
    rw [List.foldlM_cons]
    unfold visitRow
    rw [hw, visitRow_aux before after edgeValues connectivity origSize z dz newZ y _ a _ s hc1
      he1]
    show List.foldlM _ _ rest = _
    have ih := visitPlane_aux before after edgeValues connectivity origSize z dz newZ hw rest
      (a ++ (List.range before.width).map (fun (x : Nat) => before.pix (x : Int) (y : Int) z)) b
      (s ++ (List.range before.width).flatMap
        (pixelContribution connectivity origSize before after z dz newZ y)) hc2 he2
    unfold visitRow at ih
    rw [hw] at ih
    rw [ih]
    simp

theorem plane_contribution_eq (before after : Image P) (connectivity : Connectivity)
    (origSize : Vec3c) (z : Int) (dz newZ : int32_t) (hdz : dz.val ≠ 0) :
    (List.range before.height).flatMap (fun (y : Nat) => (List.range before.width).flatMap
        (pixelContribution connectivity origSize before after z dz newZ y))
      = expectedNewSeeds connectivity origSize before after z newZ := by
  have h1 : (List.range before.height).flatMap (fun (y : Nat) => (List.range before.width).flatMap
        (pixelContribution connectivity origSize before after z dz newZ y))
      = (planePixels before.width before.height).flatMap (fun q =>
          pixelContribution connectivity origSize before after z dz newZ q.2 q.1) := by
    simp only [planePixels, List.flatMap_assoc, List.flatMap_map]
  rw [h1]
  unfold expectedNewSeeds unequalPixels pixelContribution
  by_cases hr : 0 ≤ newZ.val ∧ newZ.val < origSize.z
  · simp only [hdz, ne_eq, not_false_eq_true, hr, and_self, true_and, if_true]
    rw [flatMap_ite_eq_filter_flatMap]
    simp only [Bool.decide_eq_true]
  · have hr2 : ¬ (dz.val ≠ 0 ∧ 0 ≤ newZ.val ∧ newZ.val < origSize.z) := fun h => hr h.2
    simp [hr, hr2]

theorem snapshotLoop_eq {Q : Type} (img : Image Q) (fuel : Nat) (hd : 2 ≤ img.depth) (hf : 3 ≤ fuel) :
    snapshotLoop img fuel 0 []
      = some (planeValues img 0 ++ planeValues img ((img.depth : Int) - 1)) := by
  obtain ⟨k, rfl⟩ : ∃ k, fuel = k + 3 := ⟨fuel - 3, by omega⟩
  have h0 : (0 : Int) < (img.depth : Int) := by omega
  have h1 : (img.depth : Int) - 1 < (img.depth : Int) := by omega
  have h2 : ¬ ((img.depth : Int) - 1 + ((img.depth : Int) - 1) < (img.depth : Int)) := by omega
  simp only [snapshotLoop, h0, h1, h2, if_true, if_false, List.nil_append, zero_add]

theorem newZ_begin (blockStartZ : int32_t) :
    toInt32 0 + blockStartZ + toInt32 (-1) = blockStartZ - toInt32 1 := by
  apply int32_ext
  have h1 := blockStartZ.lo
  have h2 := blockStartZ.hi
  simp only [int32_add_def, int32_sub_def, toInt32_val_eq, wrap32]
  omega

theorem newZ_end (blockStartZ : int32_t) (depth : Int) :
    toInt32 (depth - 1) + blockStartZ + toInt32 1
      = toInt32 (blockStartZ.val + depth - 1) + toInt32 1 := by
  apply int32_ext
  simp only [int32_add_def, toInt32_val_eq, wrap32]
  omega

/-- The seed derivation on a block of depth at least two: both boundary planes
are visited once and the loop ends without an exception. -/
theorem deriveLoop_eq (before after : Image P) (connectivity : Connectivity)
    (origSize : Vec3c) (blockStartZ : int32_t) (fuel : Nat)
    (hw : after.width = before.width) (hh : after.height = before.height)
    (hdep : after.depth = before.depth) (hd : 2 ≤ before.depth) (hf : 3 ≤ fuel)
    (hc : connectivity ≠ Connectivity.Unsupported ∨
      ∀ (x y : Nat) (z : Int), x < before.width → y < before.height →
        0 ≤ z → z < (before.depth : Int) →
        PixelType.ne (before.pix (x : Int) (y : Int) z) (after.pix (x : Int) (y : Int) z) = false) :
    deriveLoop after (planeValues before 0 ++ planeValues before ((before.depth : Int) - 1))
        connectivity origSize blockStartZ fuel 0 ⟨0, [], []⟩
      = some (⟨(planeValues before 0 ++ planeValues before ((before.depth : Int) - 1)).length,
          expectedNewSeeds connectivity origSize before after 0 (blockStartZ - toInt32 1),
          expectedNewSeeds connectivity origSize before after ((before.depth : Int) - 1)
            (toInt32 (blockStartZ.val + (before.depth : Int) - 1) + toInt32 1)⟩, none) := by
  obtain ⟨k, rfl⟩ : ∃ k, fuel = k + 3 := ⟨fuel - 3, by omega⟩
  have h0 : (0 : Int) < (before.depth : Int) := by omega
  have h1 : (before.depth : Int) - 1 < (before.depth : Int) := by omega
  have h1a : ¬ ((before.depth : Int) - 1 ≤ 0) := by omega
  have h2 : ¬ ((before.depth : Int) - 1 + ((before.depth : Int) - 1)
      < (before.depth : Int)) := by omega
  have hm1 : (toInt32 (-1)).val ≠ 0 := by decide
  have hp1 : (toInt32 1).val ≠ 0 := by decide
  have e1 := visitPlane_aux before after
    (planeValues before 0 ++ planeValues before ((before.depth : Int) - 1)) connectivity origSize
    0 (toInt32 (-1)) (toInt32 0 + blockStartZ + toInt32 (-1)) hw (List.range before.height)
    [] (planeValues before ((before.depth : Int) - 1)) []
    (hc.imp id (fun h y hy x hx => h x y 0 (List.mem_range.mp hx) (List.mem_range.mp hy)
      (le_refl 0) (by omega)))
    (by simp [planeValues])
  have e2 := visitPlane_aux before after
    (planeValues before 0 ++ planeValues before ((before.depth : Int) - 1)) connectivity origSize
    ((before.depth : Int) - 1) (toInt32 1)
    (toInt32 ((before.depth : Int) - 1) + blockStartZ + toInt32 1) hw
    (List.range before.height) (planeValues before 0) [] []
    (hc.imp id (fun h y hy x hx => h x y _ (List.mem_range.mp hx) (List.mem_range.mp hy)
      (by omega) (by omega)))
    (by simp [planeValues])
  rw [plane_contribution_eq _ _ _ _ _ _ _ hm1] at e1
  rw [plane_contribution_eq _ _ _ _ _ _ _ hp1] at e2
  simp only [List.nil_append, newZ_begin, List.length_nil] at e1
  simp only [List.nil_append, newZ_end] at e2
  change _ = Except.ok ((planeValues before 0).length, _) at e1
  change _ = Except.ok ((planeValues before 0 ++
    planeValues before ((before.depth : Int) - 1)).length, _) at e2
  simp only [deriveLoop, hdep, h0, h1, h1a, h2, if_true, if_false, le_refl, visitPlane, hh,
    zero_add, ge_iff_le, newZ_begin, newZ_end]
  rw [e1]
  simp only []
  rw [e2]

theorem length_flatMap_const {α β : Type} (f : α → List β) (c : Nat)
    (hf : ∀ a, (f a).length = c) (l : List α) : (l.flatMap f).length = c * l.length := by
  induction l with
  | nil => simp
  | cons a rest ih =>
    simp only [List.flatMap_cons, List.length_append, hf, ih, List.length_cons]
    ring

theorem footprint_z (connectivity : Connectivity) (p q : Vec3sc)
    (h : q ∈ footprint connectivity p) : q.z = p.z := by
  cases connectivity with
  | NearestNeighbours =>
    simp only [footprint, List.mem_singleton] at h
    rw [h]
  | AllNeighbours =>
    simp only [footprint, List.mem_flatMap, List.mem_map] at h
    obtain ⟨_, _, _, _, rfl⟩ := h
    rfl
  | Unsupported => simp [footprint] at h

theorem footprintCount_expectedNewSeeds (before after : Image P) (connectivity : Connectivity)
    (origSize : Vec3c) (z : Int) (newZ : int32_t)
    (hr : 0 ≤ newZ.val ∧ newZ.val < origSize.z) :
    FootprintCount connectivity (unequalPixels before after z) newZ
      (expectedNewSeeds connectivity origSize before after z newZ) := by
  unfold FootprintCount expectedNewSeeds
  rw [if_pos hr]
  refine ⟨?_, ?_, ?_, ?_⟩
  · intro hc
    exact length_flatMap_const _ 9 (fun a => by rw [hc]; rfl) _
  · intro hc
    rw [length_flatMap_const _ 1 (fun a => by rw [hc]; rfl) _, one_mul]
  · intro p hp
    rw [List.mem_flatMap] at hp
    obtain ⟨q, _, hq⟩ := hp
    exact footprint_z _ _ _ hq
  · intro x y hxy
    rw [hxy]
    constructor
    · intro hc
      rw [hc]
      simp [footprint]
    · intro hc
      rw [hc]
      simp [footprint]

/-- The seed derivation of `run` on a block of depth at least two. -/
theorem deriveNewSeeds_eq (floodfill : FloodFillKernel P) (fuel : Nat)
    (fs : FileSystem) (img : Image P) (args : BlockArgs P)
    (hd : 2 ≤ img.depth) (hf : 3 ≤ fuel)
    (hc : args.connectivity ≠ Connectivity.Unsupported ∨
      ∀ (x y : Nat) (z : Int), x < img.width → y < img.height →
        0 ≤ z → z < (img.depth : Int) →
        PixelType.ne (img.pix (x : Int) (y : Int) z)
          ((filledBlock floodfill fs img args).pix (x : Int) (y : Int) z) = false) :
    deriveNewSeeds floodfill fuel fs img args
      = some (⟨(planeValues img 0 ++ planeValues img ((img.depth : Int) - 1)).length,
          expectedNewSeeds args.connectivity args.origSize img
            (filledBlock floodfill fs img args) 0 (blockStartZ args - toInt32 1),
          expectedNewSeeds args.connectivity args.origSize img
            (filledBlock floodfill fs img args) ((img.depth : Int) - 1)
            (blockEndZ img args + toInt32 1)⟩, none) := by
  unfold deriveNewSeeds
  simp only [snapshotLoop_eq img fuel hd hf]
  exact deriveLoop_eq img (filledBlock floodfill fs img args) args.connectivity args.origSize
    (blockStartZ args) fuel rfl rfl rfl hd hf hc

theorem connectivity_supported (connectivity : Connectivity)
    (hc : connectivity = Connectivity.NearestNeighbours ∨
      connectivity = Connectivity.AllNeighbours) :
    connectivity ≠ Connectivity.Unsupported := by
  rcases hc with h | h <;> rw [h] <;> decide

/-- The new-seed lists in terms of the test of line 812: on a block of depth at
least two the derivation ends without an exception, and the new-seed list of
each boundary plane (`z = 0` with neighbour `blockStartZ - 1`, `z = depth - 1`
with neighbour `blockEndZ + 1`) is the concatenation, over the pixels of the
plane in row-major order whose value in the snapshot compares unequal under
`!=` to the value after the fill, of the footprint of the pixel at the
neighbouring `z` if that `z` lies in `[0, origSize.z)`, and is empty
otherwise. -/
theorem new_seeds_of_boundary_planes (floodfill : FloodFillKernel P) (fuel : Nat)
    (fs : FileSystem) (img : Image P) (args : BlockArgs P)
    (hd : 2 ≤ img.depth) (hf : 3 ≤ fuel)
    (hc : args.connectivity = Connectivity.NearestNeighbours ∨
      args.connectivity = Connectivity.AllNeighbours) :
    ∃ st : DeriveState,
      deriveNewSeeds floodfill fuel fs img args = some (st, none) ∧
      st.beginNewSeeds =
        (if 0 ≤ (blockStartZ args - toInt32 1).val ∧
            (blockStartZ args - toInt32 1).val < args.origSize.z then
          (unequalPixels img (filledBlock floodfill fs img args) 0).flatMap
            (fun q => footprint args.connectivity
              ⟨toInt32 (q.1 : Int), toInt32 (q.2 : Int), blockStartZ args - toInt32 1⟩)
        else []) ∧
      st.endNewSeeds =
        (if 0 ≤ (blockEndZ img args + toInt32 1).val ∧
            (blockEndZ img args + toInt32 1).val < args.origSize.z then
          (unequalPixels img (filledBlock floodfill fs img args) ((img.depth : Int) - 1)).flatMap
            (fun q => footprint args.connectivity
              ⟨toInt32 (q.1 : Int), toInt32 (q.2 : Int), blockEndZ img args + toInt32 1⟩)
        else []) :=
  ⟨_, deriveNewSeeds_eq floodfill fuel fs img args hd hf (Or.inl (connectivity_supported _ hc)),
    rfl, rfl⟩

theorem new_seeds_of_boundary_planes_witness :
    ∃ st : DeriveState,
      deriveNewSeeds paintSeeds 3 sampleFiles sampleBlock
          (sampleArgs Connectivity.AllNeighbours) = some (st, none) ∧
      st.beginNewSeeds =
        (if 0 ≤ (blockStartZ (sampleArgs Connectivity.AllNeighbours) - toInt32 1).val ∧
            (blockStartZ (sampleArgs Connectivity.AllNeighbours) - toInt32 1).val
              < (sampleArgs Connectivity.AllNeighbours).origSize.z then
          (unequalPixels sampleBlock (filledBlock paintSeeds sampleFiles sampleBlock
              (sampleArgs Connectivity.AllNeighbours)) 0).flatMap
            (fun q => footprint (sampleArgs Connectivity.AllNeighbours).connectivity
              ⟨toInt32 (q.1 : Int), toInt32 (q.2 : Int),
                blockStartZ (sampleArgs Connectivity.AllNeighbours) - toInt32 1⟩)
        else []) ∧
      st.endNewSeeds =
        (if 0 ≤ (blockEndZ sampleBlock (sampleArgs Connectivity.AllNeighbours)
              + toInt32 1).val ∧
            (blockEndZ sampleBlock (sampleArgs Connectivity.AllNeighbours) + toInt32 1).val
              < (sampleArgs Connectivity.AllNeighbours).origSize.z then
          (unequalPixels sampleBlock (filledBlock paintSeeds sampleFiles sampleBlock
              (sampleArgs Connectivity.AllNeighbours)) ((sampleBlock.depth : Int) - 1)).flatMap
            (fun q => footprint (sampleArgs Connectivity.AllNeighbours).connectivity
              ⟨toInt32 (q.1 : Int), toInt32 (q.2 : Int),
                blockEndZ sampleBlock (sampleArgs Connectivity.AllNeighbours) + toInt32 1⟩)
        else []) :=
  new_seeds_of_boundary_planes paintSeeds 3 sampleFiles sampleBlock
    (sampleArgs Connectivity.AllNeighbours) (by decide) (by decide) (Or.inr rfl)

/-- The number of new seeds in terms of the test of line 812: on a block of
depth at least two, for each boundary plane whose neighbouring global `z` lies
in `[0, origSize.z)`: `k` pixels of the plane whose value in the snapshot
compares unequal under `!=` to the value after the fill yield `9 * k` new seeds
under `AllNeighbours` and `k` under `NearestNeighbours`, all at the neighbouring
`z`; a single such pixel `(x, y)` yields exactly its 3 x 3 neighbourhood, resp.
the point `(x, y)`. -/
theorem footprint_count (floodfill : FloodFillKernel P) (fuel : Nat)
    (fs : FileSystem) (img : Image P) (args : BlockArgs P)
    (hd : 2 ≤ img.depth) (hf : 3 ≤ fuel)
    (hc : args.connectivity = Connectivity.NearestNeighbours ∨
      args.connectivity = Connectivity.AllNeighbours) :
    ∃ st : DeriveState,
      deriveNewSeeds floodfill fuel fs img args = some (st, none) ∧
      (0 ≤ (blockStartZ args - toInt32 1).val ∧
          (blockStartZ args - toInt32 1).val < args.origSize.z →
        FootprintCount args.connectivity
          (unequalPixels img (filledBlock floodfill fs img args) 0)
          (blockStartZ args - toInt32 1) st.beginNewSeeds) ∧
      (0 ≤ (blockEndZ img args + toInt32 1).val ∧
          (blockEndZ img args + toInt32 1).val < args.origSize.z →
        FootprintCount args.connectivity
          (unequalPixels img (filledBlock floodfill fs img args) ((img.depth : Int) - 1))
          (blockEndZ img args + toInt32 1) st.endNewSeeds) :=
  ⟨_, deriveNewSeeds_eq floodfill fuel fs img args hd hf (Or.inl (connectivity_supported _ hc)),
    fun hr => footprintCount_expectedNewSeeds img _ args.connectivity args.origSize 0 _ hr,
    fun hr => footprintCount_expectedNewSeeds img _ args.connectivity args.origSize _ _ hr⟩

theorem footprint_count_witness :
    ∃ st : DeriveState,
      deriveNewSeeds paintSeeds 3 sampleFiles sampleBlock
          (sampleArgs Connectivity.AllNeighbours) = some (st, none) ∧
      (0 ≤ (blockStartZ (sampleArgs Connectivity.AllNeighbours) - toInt32 1).val ∧
          (blockStartZ (sampleArgs Connectivity.AllNeighbours) - toInt32 1).val
            < (sampleArgs Connectivity.AllNeighbours).origSize.z →
        FootprintCount (sampleArgs Connectivity.AllNeighbours).connectivity
          (unequalPixels sampleBlock (filledBlock paintSeeds sampleFiles sampleBlock
            (sampleArgs Connectivity.AllNeighbours)) 0)
          (blockStartZ (sampleArgs Connectivity.AllNeighbours) - toInt32 1) st.beginNewSeeds) ∧
      (0 ≤ (blockEndZ sampleBlock (sampleArgs Connectivity.AllNeighbours) + toInt32 1).val ∧
          (blockEndZ sampleBlock (sampleArgs Connectivity.AllNeighbours) + toInt32 1).val
            < (sampleArgs Connectivity.AllNeighbours).origSize.z →
        FootprintCount (sampleArgs Connectivity.AllNeighbours).connectivity
          (unequalPixels sampleBlock (filledBlock paintSeeds sampleFiles sampleBlock
            (sampleArgs Connectivity.AllNeighbours)) ((sampleBlock.depth : Int) - 1))
          (blockEndZ sampleBlock (sampleArgs Connectivity.AllNeighbours) + toInt32 1)
          st.endNewSeeds) :=
  footprint_count paintSeeds 3 sampleFiles sampleBlock
    (sampleArgs Connectivity.AllNeighbours) (by decide) (by decide) (Or.inr rfl)

theorem readPoint_z (z z0 : int32_t) (inp : List Nat) :
    readPoint inp z = (readPoint inp z0).map
      (fun r => ((⟨r.1.x, r.1.y, z⟩ : Vec3sc), r.2)) := by
  unfold readPoint
  cases readInt32 inp with
  | none => rfl
  | some r1 =>
    obtain ⟨x, rest⟩ := r1
    simp only []
    cases readInt32 rest with
    | none => rfl
    | some r2 => rfl

theorem readRecords_readPoint_z (z z0 : int32_t) :
    ∀ (fuel : Nat) (inp : List Nat),
      readRecords (fun inp => readPoint inp z) fuel inp
        = (readRecords (fun inp => readPoint inp z0) fuel inp).map
            (fun p => (⟨p.x, p.y, z⟩ : Vec3sc))
  | 0, _ => rfl
  | fuel + 1, inp => by
    simp only [readRecords]
    rw [readPoint_z z z0 inp]
    cases readPoint inp z0 with
    | none => rfl
    | some r =>
      simp only [Option.map_some', List.map_cons, readRecords_readPoint_z z z0 fuel r.2]

theorem readInputFile_eq (fs : FileSystem) (pre : String) (k : Int) (z : int32_t)
    (output : List Vec3sc) :
    readInputFile fs ⟨pre, k⟩ z output
      = output ++ (match fileBody fs ⟨pre, k⟩ with
          | none => []
          | some body => (fileRecords body).map (fun r => (⟨r.1, r.2, z⟩ : Vec3sc))) := by
  unfold readInputFile readListFile
  cases hb : fileBody fs ⟨pre, k⟩ with
  | none => simp
  | some body =>
    rw [fileExists_of_fileBody fs _ body hb]
    simp only [if_true, fileRecords, List.map_map]
    rw [readRecords_readPoint_z z (toInt32 0)]
    rfl

/-- The seeds of one source file, as `run` reads them. -/
theorem map_local_seedsOf (fs : FileSystem) (pre : String) (k : Int) (z b : int32_t)
    (hz : z = toInt32 k) :
    List.map (fun (seed : Vec3sc) => ({ seed with z := seed.z - b } : Vec3sc))
      (match fileBody fs ⟨pre, k⟩ with
        | none => ([] : List Vec3sc)
        | some body =>
          (fileRecords body).map (fun (r : int32_t × int32_t) => (⟨r.1, r.2, z⟩ : Vec3sc)))
      = seedsAddressedTo fs pre k b := by
  unfold seedsAddressedTo
  cases fileBody fs ⟨pre, k⟩ with
  | none => rfl
  | some body => simp [List.map_map, hz]

/-- The seeds handed to the kernel, file by file. -/
theorem kernelSeeds_eq {Q : Type} (fs : FileSystem) (img : Image Q) (args : BlockArgs Q) :
    kernelSeeds fs img args
      = seedsAddressedTo fs args.seedsSourcePrefix (blockStartZ args).val (blockStartZ args)
        ++ seedsAddressedTo fs args.seedsSourcePrefix args.startPoint.z (blockStartZ args)
        ++ seedsAddressedTo fs args.seedsSourcePrefix (blockEndZ img args).val
            (blockStartZ args) := by
  unfold kernelSeeds loadSeeds
  simp only [readInputFile_eq, List.nil_append, List.map_append]
  rw [map_local_seedsOf fs _ _ _ _ (toInt32_val _).symm,
    map_local_seedsOf fs _ _ _ _ rfl,
    map_local_seedsOf fs _ _ _ _ (toInt32_val _).symm]

theorem seedsAddressedTo_of_not_exists (fs : FileSystem) (pre : String) (k : Int)
    (b : int32_t) (h : fileExists fs ⟨pre, k⟩ = false) : seedsAddressedTo fs pre k b = [] := by
  unfold seedsAddressedTo
  rw [fileBody_eq_none_of_not_exists fs _ h]

/-- C4: the seeds that `run` hands to the kernel are the contents of the source
files addressed to `blockStartZ`, to `startPoint.z` and to `blockEndZ`, in this
order, each record `(x, y)` of the file addressed to `k` as the block-local seed
`(x, y, k - blockStartZ)`; a file that does not exist contributes nothing. -/
theorem kernel_seeds_from_three_files {Q : Type} (fs : FileSystem) (img : Image Q)
    (args : BlockArgs Q) :
    kernelSeeds fs img args
      = seedsAddressedTo fs args.seedsSourcePrefix (blockStartZ args).val (blockStartZ args)
        ++ seedsAddressedTo fs args.seedsSourcePrefix args.startPoint.z (blockStartZ args)
        ++ seedsAddressedTo fs args.seedsSourcePrefix (blockEndZ img args).val
            (blockStartZ args) ∧
    ∀ k : Int, fileExists fs ⟨args.seedsSourcePrefix, k⟩ = false →
      seedsAddressedTo fs args.seedsSourcePrefix k (blockStartZ args) = [] :=
  ⟨kernelSeeds_eq fs img args, fun k hk => seedsAddressedTo_of_not_exists fs _ k _ hk⟩

theorem fileBody_writeOutputFile (fs : FileSystem) (f g : FileName) (list : List Vec3sc) :
    fileBody (writeOutputFile fs f list) g
      = if g = f then some (list.flatMap writePoint) else fileBody fs g := by
  unfold writeOutputFile writeListFile
  exact fileBody_storeFile_eq fs f g _

/-- The files after the two conditional writes of `run`. -/
theorem fileBody_persist (fs : FileSystem) (pre : String) (bs be : int32_t)
    (b e : List Vec3sc) (g : FileName) :
    fileBody (persist fs pre bs be b e) g
      = if g = ⟨pre, (be + toInt32 1).val⟩ ∧ e ≠ [] then some (e.flatMap writePoint)
        else if g = ⟨pre, (bs - toInt32 1).val⟩ ∧ b ≠ [] then some (b.flatMap writePoint)
        else fileBody fs g := by
  unfold persist
  have hb : b.length > 0 ↔ b ≠ [] := List.length_pos
  have he : e.length > 0 ↔ e ≠ [] := List.length_pos
  by_cases h1 : b = [] <;> by_cases h2 : e = [] <;>
    simp [hb, he, h1, h2, fileBody_writeOutputFile]

/-- The result of `run` when the derivation ended without an exception. -/
theorem run_eq_of_derive (floodfill : FloodFillKernel P) (fuel : Nat) (fs : FileSystem)
    (img : Image P) (args : BlockArgs P) (st : DeriveState)
    (h : deriveNewSeeds floodfill fuel fs img args = some (st, none)) :
    run floodfill fuel fs img args
      = some ⟨filledBlock floodfill fs img args,
          persist fs args.seedsTargetPrefix (blockStartZ args) (blockEndZ img args)
            st.beginNewSeeds st.endNewSeeds, none⟩ := by
  unfold run
  rw [h]

/-- The derivation behind a normal return of `run`. -/
theorem derive_of_run (floodfill : FloodFillKernel P) (fuel : Nat) (fs : FileSystem)
    (img : Image P) (args : BlockArgs P) (res : RunResult P)
    (h : run floodfill fuel fs img args = some res) (herr : res.error = none) :
    ∃ st : DeriveState, deriveNewSeeds floodfill fuel fs img args = some (st, none) ∧
      res = ⟨filledBlock floodfill fs img args,
          persist fs args.seedsTargetPrefix (blockStartZ args) (blockEndZ img args)
            st.beginNewSeeds st.endNewSeeds, none⟩ := by
  unfold run at h
  cases hd : deriveNewSeeds floodfill fuel fs img args with
  | none => rw [hd] at h; cases h
  | some r =>
    obtain ⟨st, e⟩ := r
    cases e with
    | none =>
      rw [hd] at h
      simp only [Option.some.injEq] at h
      exact ⟨st, rfl, h.symm⟩
    | some err =>
      rw [hd] at h
      simp only [Option.some.injEq] at h
      rw [← h] at herr
      cases herr

/-- The two target files of a block job are different files, unless the depth
of the block plus one is a multiple of `2^32`. -/
theorem beginTarget_ne_endTarget {Q : Type} (img : Image Q) (args : BlockArgs Q)
    (hdepth : img.depth < 4294967295) : beginTarget args ≠ endTarget img args := by
  intro h
  have hz : (blockStartZ args - toInt32 1).val = (blockEndZ img args + toInt32 1).val :=
    congrArg FileName.z h
  have h1 := (blockStartZ args).lo
  have h2 := (blockStartZ args).hi
  simp only [int32_sub_def, int32_add_def, toInt32_val_eq, blockEndZ, wrap32] at hz
  omega

/-- C5: when `run` returns normally, the target file addressed to
`blockStartZ - 1` has been written if and only if the min-z new-seed list is
not empty, the one addressed to `blockEndZ + 1` if and only if the max-z list is
not empty, a written file holds exactly the records of its list, and every
other file is as it was; on a block of depth at least two `run` does return
normally. The depth of the block is taken to be less than `2^32 - 1`, so that
the two addresses, which are 32 bit numbers, differ. -/
theorem target_files_written (floodfill : FloodFillKernel P) (fuel : Nat) (fs : FileSystem)
    (img : Image P) (args : BlockArgs P)
    (hdepth : img.depth < 4294967295) :
    (∀ res : RunResult P, run floodfill fuel fs img args = some res → res.error = none →
      ∃ st : DeriveState, deriveNewSeeds floodfill fuel fs img args = some (st, none) ∧
        fileBody res.files (beginTarget args)
          = (if st.beginNewSeeds = [] then fileBody fs (beginTarget args)
             else some (st.beginNewSeeds.flatMap writePoint)) ∧
        fileBody res.files (endTarget img args)
          = (if st.endNewSeeds = [] then fileBody fs (endTarget img args)
             else some (st.endNewSeeds.flatMap writePoint)) ∧
        ∀ f : FileName, f ≠ beginTarget args → f ≠ endTarget img args →
          fileBody res.files f = fileBody fs f) ∧
    (2 ≤ img.depth → 3 ≤ fuel → args.connectivity ≠ Connectivity.Unsupported →
      ∃ res : RunResult P, run floodfill fuel fs img args = some res ∧ res.error = none) := by
  have hAB := beginTarget_ne_endTarget img args hdepth
  constructor
  · intro res hrun herr
    obtain ⟨st, hst, hres⟩ := derive_of_run floodfill fuel fs img args res hrun herr
    refine ⟨st, hst, ?_, ?_, ?_⟩
    · rw [hres]
      simp only [fileBody_persist]
      have h1 : ¬ beginTarget args = ⟨args.seedsTargetPrefix,
          (blockEndZ img args + toInt32 1).val⟩ := hAB
      have h2 : beginTarget args = ⟨args.seedsTargetPrefix,
          (blockStartZ args - toInt32 1).val⟩ := rfl
      by_cases hb : st.beginNewSeeds = []
      · simp [h1, hb]
      · simp [h1, hb, ← h2]
    · rw [hres]
      simp only [fileBody_persist]
      have h2 : endTarget img args = ⟨args.seedsTargetPrefix,
          (blockEndZ img args + toInt32 1).val⟩ := rfl
      have h1 : ¬ endTarget img args = ⟨args.seedsTargetPrefix,
          (blockStartZ args - toInt32 1).val⟩ := fun h => hAB h.symm
      by_cases he : st.endNewSeeds = []
      · simp [h1, he]
      · simp [he, ← h2]
    · intro f hf1 hf2
      rw [hres]
      simp only [fileBody_persist]
      have h1 : ¬ f = ⟨args.seedsTargetPrefix, (blockEndZ img args + toInt32 1).val⟩ := hf2
      have h2 : ¬ f = ⟨args.seedsTargetPrefix, (blockStartZ args - toInt32 1).val⟩ := hf1
      simp [h1, h2]
  · intro hd hf hc
    exact ⟨_, run_eq_of_derive floodfill fuel fs img args _
      (deriveNewSeeds_eq floodfill fuel fs img args hd hf (Or.inl hc)), rfl⟩

theorem target_files_written_witness :
    (∀ res : RunResult Nat,
      run paintSeeds 3 sampleFiles sampleBlock (sampleArgs Connectivity.NearestNeighbours)
        = some res → res.error = none →
      ∃ st : DeriveState,
        deriveNewSeeds paintSeeds 3 sampleFiles sampleBlock
          (sampleArgs Connectivity.NearestNeighbours) = some (st, none) ∧
        fileBody res.files (beginTarget (sampleArgs Connectivity.NearestNeighbours))
          = (if st.beginNewSeeds = [] then
               fileBody sampleFiles (beginTarget (sampleArgs Connectivity.NearestNeighbours))
             else some (st.beginNewSeeds.flatMap writePoint)) ∧
        fileBody res.files (endTarget sampleBlock (sampleArgs Connectivity.NearestNeighbours))
          = (if st.endNewSeeds = [] then
               fileBody sampleFiles
                 (endTarget sampleBlock (sampleArgs Connectivity.NearestNeighbours))
             else some (st.endNewSeeds.flatMap writePoint)) ∧
        ∀ f : FileName, f ≠ beginTarget (sampleArgs Connectivity.NearestNeighbours) →
          f ≠ endTarget sampleBlock (sampleArgs Connectivity.NearestNeighbours) →
          fileBody res.files f = fileBody sampleFiles f) ∧
    (2 ≤ sampleBlock.depth → 3 ≤ 3 →
      (sampleArgs Connectivity.NearestNeighbours).connectivity ≠ Connectivity.Unsupported →
      ∃ res : RunResult Nat,
        run paintSeeds 3 sampleFiles sampleBlock (sampleArgs Connectivity.NearestNeighbours)
          = some res ∧ res.error = none) :=
  target_files_written paintSeeds 3 sampleFiles sampleBlock
    (sampleArgs Connectivity.NearestNeighbours) (by decide)

theorem expectedNewSeeds_z (before after : Image P) (connectivity : Connectivity)
    (origSize : Vec3c) (z : Int) (newZ : int32_t) (p : Vec3sc)
    (hp : p ∈ expectedNewSeeds connectivity origSize before after z newZ) :
    p.z = newZ ∧ 0 ≤ newZ.val ∧ newZ.val < origSize.z := by
  unfold expectedNewSeeds at hp
  by_cases hr : 0 ≤ newZ.val ∧ newZ.val < origSize.z
  · rw [if_pos hr, List.mem_flatMap] at hp
    obtain ⟨q, _, hq⟩ := hp
    exact ⟨footprint_z _ _ _ hq, hr⟩
  · rw [if_neg hr] at hp
    cases hp

/-- When `needsToRunBlock` answers no. -/
theorem needsToRunBlock_eq_false (fs : FileSystem) (seedsSourcePrefix : String)
    (startPoint readStart readSize : Vec3c) :
    needsToRunBlock fs seedsSourcePrefix startPoint readStart readSize = false ↔
      fileExists fs ⟨seedsSourcePrefix, (toInt32 readStart.z).val⟩ = false ∧
      fileExists fs ⟨seedsSourcePrefix,
        (toInt32 ((toInt32 readStart.z).val + readSize.z - 1)).val⟩ = false ∧
      (¬ ((toInt32 readStart.z).val ≤ startPoint.z ∧
          startPoint.z ≤ (toInt32 ((toInt32 readStart.z).val + readSize.z - 1)).val) ∨
        fileExists fs ⟨seedsSourcePrefix, startPoint.z⟩ = false) := by
  unfold needsToRunBlock
  dsimp only
  cases h1 : fileExists fs ⟨seedsSourcePrefix, (toInt32 readStart.z).val⟩ <;>
  cases h2 : fileExists fs ⟨seedsSourcePrefix,
      (toInt32 ((toInt32 readStart.z).val + readSize.z - 1)).val⟩ <;>
  cases h3 : fileExists fs ⟨seedsSourcePrefix, startPoint.z⟩ <;>
  by_cases h4 : ((toInt32 readStart.z).val ≤ startPoint.z ∧
      startPoint.z ≤ (toInt32 ((toInt32 readStart.z).val + readSize.z - 1)).val) <;>
  simp [h4]

/-- C7, as the code has it: `needsToRunBlock` returns false exactly when no
source file is addressed to the block's min-z or max-z and, in addition, the
start point's `z` lies outside the block or no source file is addressed to
it. -/
theorem needsToRunBlock_false_iff (fs : FileSystem) (seedsSourcePrefix : String)
    (startPoint readStart readSize : Vec3c) :
    needsToRunBlock fs seedsSourcePrefix startPoint readStart readSize = false ↔
      fileExists fs ⟨seedsSourcePrefix, (toInt32 readStart.z).val⟩ = false ∧
      fileExists fs ⟨seedsSourcePrefix,
        (toInt32 ((toInt32 readStart.z).val + readSize.z - 1)).val⟩ = false ∧
      (¬ ((toInt32 readStart.z).val ≤ startPoint.z ∧
          startPoint.z ≤ (toInt32 ((toInt32 readStart.z).val + readSize.z - 1)).val) ∨
        fileExists fs ⟨seedsSourcePrefix, startPoint.z⟩ = false) :=
  needsToRunBlock_eq_false fs seedsSourcePrefix startPoint readStart readSize

/-- C7, as the claim has it, fails: for the block `z = 0, 1` and the start
point `(1, 0, 4)` a source file addressed to the start point's `z` exists, yet
`needsToRunBlock` returns false. -/
theorem needsToRunBlock_ignores_start_file_outside_block :
    ¬ (needsToRunBlock sampleFiles "s1" ⟨1, 0, 4⟩ ⟨0, 0, 0⟩ ⟨2, 2, 2⟩ = false ↔
        (fileExists sampleFiles ⟨"s1", 0⟩ = false ∧
          fileExists sampleFiles ⟨"s1", 1⟩ = false ∧
          fileExists sampleFiles ⟨"s1", 4⟩ = false)) := by
  decide

theorem expectedNewSeeds_of_unchanged (before after : Image P) (connectivity : Connectivity)
    (origSize : Vec3c) (z : Int) (newZ : int32_t)
    (h : ∀ (x y : Nat), x < before.width → y < before.height →
      PixelType.ne (before.pix (x : Int) (y : Int) z) (after.pix (x : Int) (y : Int) z) = false) :
    expectedNewSeeds connectivity origSize before after z newZ = [] := by
  have hch : unequalPixels before after z = [] := by
    unfold unequalPixels
    rw [List.filter_eq_nil_iff]
    intro q hq
    simp only [planePixels, List.mem_flatMap, List.mem_map, List.mem_range] at hq
    obtain ⟨y, hy, x, hx, rfl⟩ := hq
    simp [h x y hx hy]
  unfold expectedNewSeeds
  rw [hch]
  simp

theorem persist_nil (fs : FileSystem) (pre : String) (bs be : int32_t) :
    persist fs pre bs be [] [] = fs := by
  simp [persist]

theorem paintSeeds_ignores_outside (img : Image Nat) (seeds : List Vec3sc)
    (origColor fillColor stopColor : Nat) (connectivity : Connectivity)
    (h : ∀ s ∈ seeds, ¬ img.contains s) (x y : Nat) (z : Int)
    (hx : x < img.width) (hy : y < img.height) (hz0 : 0 ≤ z) (hz1 : z < (img.depth : Int)) :
    paintSeeds img seeds origColor fillColor stopColor connectivity (x : Int) (y : Int) z
      = img.pix (x : Int) (y : Int) z := by
  unfold paintSeeds
  have hany : seeds.any (fun s => decide (s.x.val = (x : Int) ∧ s.y.val = (y : Int)
      ∧ s.z.val = z)) = false := by
    rw [List.any_eq_false]
    intro s hs hm
    simp only [decide_eq_true_eq] at hm
    apply h s hs
    unfold Image.contains
    omega
  rw [hany]
  simp

/-- Skipping is running, for a pixel type with exact comparison: if
`needsToRunBlock` returns false for a block of depth at least two (read region =
block; the `z` coordinates of the block and of the start point are not negative
and fit the 32 bit seed coordinates), then `run` on that block returns normally,
leaves every file as it was and changes no pixel of the block, provided the
kernel changes nothing when no seed lies inside the block. -/
theorem skipping_is_running [ExactPixel P] (floodfill : FloodFillKernel P) (fuel : Nat)
    (fs : FileSystem)
    (img : Image P) (args : BlockArgs P)
    (hskip : needsToRunBlock fs args.seedsSourcePrefix args.startPoint args.blockOrigin
      ⟨img.width, img.height, img.depth⟩ = false)
    (hd : 2 ≤ img.depth) (hf : 3 ≤ fuel)
    (hb0 : 0 ≤ args.blockOrigin.z)
    (hb1 : args.blockOrigin.z + (img.depth : Int) ≤ 2147483648)
    (hs0 : 0 ≤ args.startPoint.z) (hs1 : args.startPoint.z < 2147483648)
    (hk : ∀ seeds : List Vec3sc, (∀ s ∈ seeds, ¬ img.contains s) →
      ∀ (x y : Nat) (z : Int), x < img.width → y < img.height → 0 ≤ z →
        z < (img.depth : Int) →
        floodfill img seeds args.origColor args.fillColor args.fillColor args.connectivity
          (x : Int) (y : Int) z = img.pix (x : Int) (y : Int) z) :
    ∃ res : RunResult P, run floodfill fuel fs img args = some res ∧ res.error = none ∧
      res.files = fs ∧
      res.image.width = img.width ∧ res.image.height = img.height ∧
      res.image.depth = img.depth ∧
      ∀ (x y : Nat) (z : Int), x < img.width → y < img.height → 0 ≤ z →
        z < (img.depth : Int) →
        res.image.pix (x : Int) (y : Int) z = img.pix (x : Int) (y : Int) z := by
  rw [needsToRunBlock_eq_false] at hskip
  dsimp only at hskip
  obtain ⟨h1, h2, h3⟩ := hskip
  have hbs : (blockStartZ args).val = args.blockOrigin.z := by
    show wrap32 args.blockOrigin.z = args.blockOrigin.z
    exact wrap32_of_range _ (by omega) (by omega)
  have hbe : (blockEndZ img args).val = args.blockOrigin.z + (img.depth : Int) - 1 := by
    show wrap32 ((blockStartZ args).val + (img.depth : Int) - 1) = _
    rw [hbs]
    exact wrap32_of_range _ (by omega) (by omega)
  have hbs2 : (toInt32 args.blockOrigin.z).val = args.blockOrigin.z := hbs
  have hbe2 : (toInt32 ((toInt32 args.blockOrigin.z).val + (img.depth : Int) - 1)).val
      = args.blockOrigin.z + (img.depth : Int) - 1 := hbe
  have hseeds : ∀ s ∈ kernelSeeds fs img args, ¬ img.contains s := by
    have hA : seedsAddressedTo fs args.seedsSourcePrefix (blockStartZ args).val
        (blockStartZ args) = [] :=
      seedsAddressedTo_of_not_exists fs _ _ _ h1
    have hB : seedsAddressedTo fs args.seedsSourcePrefix (blockEndZ img args).val
        (blockStartZ args) = [] :=
      seedsAddressedTo_of_not_exists fs _ _ _ h2
    rw [kernelSeeds_eq, hA, hB]
    simp only [List.nil_append, List.append_nil]
    intro s hs hin
    rcases h3 with h3 | h3
    · unfold seedsAddressedTo at hs
      cases hb : fileBody fs ⟨args.seedsSourcePrefix, args.startPoint.z⟩ with
      | none => rw [hb] at hs; cases hs
      | some body =>
        rw [hb] at hs
        simp only [List.mem_map] at hs
        obtain ⟨r, _, rfl⟩ := hs
        unfold Image.contains at hin
        have hz : (toInt32 args.startPoint.z - blockStartZ args).val
            = args.startPoint.z - args.blockOrigin.z := by
          rw [int32_sub_def, toInt32_val_eq, toInt32_val_eq, hbs,
            wrap32_of_range args.startPoint.z (by omega) (by omega)]
          exact wrap32_of_range _ (by omega) (by omega)
        have hbe3 : (toInt32 (args.blockOrigin.z + (img.depth : Int) - 1)).val
            = args.blockOrigin.z + (img.depth : Int) - 1 :=
          wrap32_of_range _ (by omega) (by omega)
        simp only [hz] at hin
        simp only [hbs2, hbe3] at h3
        omega
    · rw [seedsAddressedTo_of_not_exists fs _ _ _ h3] at hs
      cases hs
  have hsame : ∀ (x y : Nat) (z : Int), x < img.width → y < img.height → 0 ≤ z →
      z < (img.depth : Int) →
      img.pix (x : Int) (y : Int) z
        = (filledBlock floodfill fs img args).pix (x : Int) (y : Int) z :=
    fun x y z hx hy hz0 hz1 => (hk _ hseeds x y z hx hy hz0 hz1).symm
  have hsame2 : ∀ (x y : Nat) (z : Int), x < img.width → y < img.height → 0 ≤ z →
      z < (img.depth : Int) →
      PixelType.ne (img.pix (x : Int) (y : Int) z)
        ((filledBlock floodfill fs img args).pix (x : Int) (y : Int) z) = false :=
    fun x y z hx hy hz0 hz1 => pixel_ne_false (hsame x y z hx hy hz0 hz1)
  have hder := deriveNewSeeds_eq floodfill fuel fs img args hd hf (Or.inr hsame2)
  rw [expectedNewSeeds_of_unchanged img _ _ _ 0 _
      (fun x y hx hy => hsame2 x y 0 hx hy (le_refl 0) (by omega)),
    expectedNewSeeds_of_unchanged img _ _ _ ((img.depth : Int) - 1) _
      (fun x y hx hy => hsame2 x y _ hx hy (by omega) (by omega))] at hder
  refine ⟨_, run_eq_of_derive floodfill fuel fs img args _ hder, rfl, ?_, rfl, rfl, rfl, ?_⟩
  · exact persist_nil fs args.seedsTargetPrefix (blockStartZ args) (blockEndZ img args)
  · intro x y z hx hy hz0 hz1
    exact (hsame x y z hx hy hz0 hz1).symm

theorem skipping_is_running_witness :
    ∃ res : RunResult Nat, run paintSeeds 3 sampleFiles sampleBlock sampleSkipArgs = some res ∧
      res.error = none ∧ res.files = sampleFiles ∧
      res.image.width = sampleBlock.width ∧ res.image.height = sampleBlock.height ∧
      res.image.depth = sampleBlock.depth ∧
      ∀ (x y : Nat) (z : Int), x < sampleBlock.width → y < sampleBlock.height → 0 ≤ z →
        z < (sampleBlock.depth : Int) →
        res.image.pix (x : Int) (y : Int) z = sampleBlock.pix (x : Int) (y : Int) z :=
  skipping_is_running paintSeeds 3 sampleFiles sampleBlock sampleSkipArgs
    (by decide) (by decide) (by decide) (by decide) (by decide) (by decide) (by decide)
    (fun seeds h x y z hx hy hz0 hz1 =>
      paintSeeds_ignores_outside sampleBlock seeds _ _ _ _ h x y z hx hy hz0 hz1)

end FloodFillBlockCommand

theorem foldl_deleteFile (names : List FileName) :
    ∀ fs : FileSystem,
      names.foldl deleteFile fs = fs.filter (fun e => decide (e.1 ∉ names)) := by
  induction names with
  | nil => intro fs; simp
  | cons n rest ih =>
    intro fs
    rw [List.foldl_cons, ih, deleteFile, List.filter_filter]
    apply List.filter_congr
    intro e _
    by_cases h1 : e.1 = n <;> by_cases h2 : e.1 ∈ rest <;> simp [h1, h2]

theorem deleteSources_eq (fs : FileSystem) (p : String) :
    FloodFillCommand.deleteSources fs p = fs.filter (fun e => decide (e.1.pre ≠ p)) := by
  unfold FloodFillCommand.deleteSources
  rw [foldl_deleteFile]
  apply List.filter_congr
  intro e he
  have hiff : e.1 ∈ buildFileList fs p ↔ e.1.pre = p := by
    unfold buildFileList
    simp only [List.mem_map, List.mem_filter, decide_eq_true_eq]
    constructor
    · rintro ⟨e2, ⟨_, h2⟩, h3⟩
      rw [← h3]; exact h2
    · intro h
      exact ⟨e, ⟨he, h⟩, rfl⟩
  by_cases h : e.1.pre = p <;> simp [hiff, h]

theorem buildFileList_deleteSources_self (fs : FileSystem) (p : String) :
    buildFileList (FloodFillCommand.deleteSources fs p) p = [] := by
  rw [deleteSources_eq]
  unfold buildFileList
  rw [List.filter_filter, List.map_eq_nil_iff, List.filter_eq_nil_iff]
  intro e _
  by_cases h : e.1.pre = p <;> simp [h]

theorem buildFileList_deleteSources_other (fs : FileSystem) (p q : String) (h : q ≠ p) :
    buildFileList (FloodFillCommand.deleteSources fs p) q = buildFileList fs q := by
  rw [deleteSources_eq]
  unfold buildFileList
  rw [List.filter_filter]
  congr 1
  apply List.filter_congr
  intro e _
  by_cases h1 : e.1.pre = q
  · simp [h1, h]
  · simp [h1]

theorem fileBody_deleteSources_other (fs : FileSystem) (p : String) (f : FileName)
    (h : f.pre ≠ p) :
    fileBody (FloodFillCommand.deleteSources fs p) f = fileBody fs f := by
  rw [deleteSources_eq]
  unfold fileBody
  congr 1
  induction fs with
  | nil => rfl
  | cons e rest ih =>
    by_cases h1 : e.1 = f <;> by_cases h2 : e.1.pre = p
    · exact absurd (h1 ▸ h2) h
    · simp [List.filter_cons, h1, h]
    · simpa [List.filter_cons, h1, h2] using ih
    · simpa [List.filter_cons, h1, h2] using ih

namespace FloodFillCommand

variable {P : Type} [PixelType P]

/-- What one pass through the loop body does when the loop goes on. -/
theorem loopBody_inl (distribute : Distributor P) (startPoint : Vec3c)
    (origColor fillColor : P) (connectivity : Connectivity) (s s1 : LoopState P)
    (h : loopBody distribute startPoint origColor fillColor connectivity s = Sum.inl s1) :
    s1 = ⟨s.seedsTargetFilenamePrefix, s.seedsSourceFilenamePrefix,
      ((distribute (dispatchArgs startPoint origColor fillColor connectivity s) s.world).1,
        deleteSources
          (distribute (dispatchArgs startPoint origColor fillColor connectivity s) s.world).2
          s.seedsSourceFilenamePrefix)⟩ := by
  unfold loopBody at h
  dsimp only at h
  split at h
  · cases h
  · exact (Sum.inl.inj h).symm

/-- What one pass through the loop body does when the loop ends. -/
theorem loopBody_inr (distribute : Distributor P) (startPoint : Vec3c)
    (origColor fillColor : P) (connectivity : Connectivity) (s : LoopState P) (w : World P)
    (h : loopBody distribute startPoint origColor fillColor connectivity s = Sum.inr w) :
    w.2 = deleteSources
        (distribute (dispatchArgs startPoint origColor fillColor connectivity s) s.world).2
        s.seedsSourceFilenamePrefix ∧
    buildFileList w.2 s.seedsTargetFilenamePrefix = [] := by
  unfold loopBody at h
  dsimp only at h
  split at h
  · rename_i hlen
    have hw := (Sum.inr.inj h).symm
    rw [hw]
    refine ⟨rfl, ?_⟩
    exact List.length_eq_zero.mp (Nat.le_zero.mp hlen)
  · cases h

theorem outerLoop_exit (distribute : Distributor P) (startPoint : Vec3c)
    (origColor fillColor : P) (connectivity : Connectivity) :
    ∀ (fuel : Nat) (s : LoopState P) (w : World P),
      outerLoop distribute startPoint origColor fillColor connectivity fuel s = some w →
      buildFileList w.2 s.seedsSourceFilenamePrefix = [] ∧
      buildFileList w.2 s.seedsTargetFilenamePrefix = []
  | 0, _, _, h => by cases h
  | fuel + 1, s, w, h => by
    unfold outerLoop at h
    cases hb : loopBody distribute startPoint origColor fillColor connectivity s with
    | inr w1 =>
      rw [hb] at h
      simp only [Option.some.injEq] at h
      obtain ⟨h1, h2⟩ := loopBody_inr distribute startPoint origColor fillColor connectivity
        s w1 hb
      rw [← h]
      refine ⟨?_, h2⟩
      rw [h1]
      exact buildFileList_deleteSources_self _ _
    | inl s1 =>
      rw [hb] at h
      have ih := outerLoop_exit distribute startPoint origColor fillColor connectivity fuel
        s1 w h
      rw [loopBody_inl distribute startPoint origColor fillColor connectivity s s1 hb] at ih
      exact ⟨ih.2, ih.1⟩

/-- C9: when the outer loop of `runDistributed` has been entered (the start
point lies in the image and the test `origColor == fillColor` of line 954 is
false) and exits, no seed file exists under either of the two prefixes. -/
theorem no_seed_files_at_loop_exit (distribute : Distributor P)
    (seedsSourceFilenamePrefix seedsTargetFilenamePrefix : String) (fuel : Nat) (w : World P)
    (startPoint : Vec3c) (fillColor : P) (connectivity : Connectivity)
    (hin : w.1.isInImage startPoint = true)
    (hcol : PixelType.eq (w.1.getPixel startPoint) fillColor = false) :
    ∀ (r : List String) (w2 : World P),
      runDistributed distribute seedsSourceFilenamePrefix seedsTargetFilenamePrefix fuel w
        startPoint fillColor connectivity = some (r, w2) →
      buildFileList w2.2 seedsSourceFilenamePrefix = [] ∧
      buildFileList w2.2 seedsTargetFilenamePrefix = [] := by
  intro r w2 h
  unfold runDistributed at h
  simp only [hin, Bool.not_true, Bool.false_eq_true, if_false, hcol] at h
  cases ho : outerLoop distribute startPoint (w.1.getPixel startPoint) fillColor connectivity
      fuel (initialLoopState seedsSourceFilenamePrefix seedsTargetFilenamePrefix w
        startPoint) with
  | none => rw [ho] at h; cases h
  | some w3 =>
    rw [ho] at h
    simp only [Option.some.injEq, Prod.mk.injEq] at h
    rw [← h.2]
    exact outerLoop_exit distribute startPoint _ fillColor connectivity fuel _ w3 ho

theorem no_seed_files_at_loop_exit_witness :
    ∃ (r : List String) (w2 : World Nat),
      runDistributed sampleDistribute "s1" "s2" 2 (sampleWhole, []) ⟨1, 0, 4⟩ 7
        Connectivity.AllNeighbours = some (r, w2) ∧
      buildFileList w2.2 "s1" = [] ∧ buildFileList w2.2 "s2" = [] := by
  have hsome : (runDistributed sampleDistribute "s1" "s2" 2 (sampleWhole, []) ⟨1, 0, 4⟩ 7
      Connectivity.AllNeighbours).isSome = true := by decide
  obtain ⟨⟨r, w2⟩, h⟩ := Option.isSome_iff_exists.mp hsome
  exact ⟨r, w2, h,
    no_seed_files_at_loop_exit sampleDistribute "s1" "s2" 2 (sampleWhole, []) ⟨1, 0, 4⟩ 7
      Connectivity.AllNeighbours (by decide) (by decide) r w2 h⟩

theorem dispatchStart_succ (distribute : Distributor P) (startPoint : Vec3c)
    (origColor fillColor : P) (connectivity : Connectivity) :
    ∀ (k : Nat) (s0 s : LoopState P),
      dispatchStart distribute startPoint origColor fillColor connectivity (k + 1) s0 = some s →
      ∃ sp : LoopState P,
        dispatchStart distribute startPoint origColor fillColor connectivity k s0 = some sp ∧
        loopBody distribute startPoint origColor fillColor connectivity sp = Sum.inl s
  | 0, s0, s, h => by
    unfold dispatchStart at h
    cases hb : loopBody distribute startPoint origColor fillColor connectivity s0 with
    | inr w => rw [hb] at h; cases h
    | inl s1 =>
      rw [hb] at h
      simp only [dispatchStart, Option.some.injEq] at h
      exact ⟨s0, rfl, by rw [hb, h]⟩
  | k + 1, s0, s, h => by
    unfold dispatchStart at h
    cases hb : loopBody distribute startPoint origColor fillColor connectivity s0 with
    | inr w => rw [hb] at h; cases h
    | inl s1 =>
      rw [hb] at h
      obtain ⟨sp, h1, h2⟩ := dispatchStart_succ distribute startPoint origColor fillColor
        connectivity k s1 s h
      refine ⟨sp, ?_, h2⟩
      rw [dispatchStart, hb]
      exact h1

theorem dispatchStart_invariant (distribute : Distributor P) (startPoint : Vec3c)
    (origColor fillColor : P) (connectivity : Connectivity) :
    ∀ (k : Nat) (s0 s : LoopState P),
      s0.seedsSourceFilenamePrefix ≠ s0.seedsTargetFilenamePrefix →
      buildFileList s0.world.2 s0.seedsTargetFilenamePrefix = [] →
      dispatchStart distribute startPoint origColor fillColor connectivity k s0 = some s →
      s.seedsSourceFilenamePrefix ≠ s.seedsTargetFilenamePrefix ∧
      buildFileList s.world.2 s.seedsTargetFilenamePrefix = []
  | 0, s0, s, hne, hfresh, h => by
    simp only [dispatchStart, Option.some.injEq] at h
    rw [← h]
    exact ⟨hne, hfresh⟩
  | k + 1, s0, s, hne, _, h => by
    unfold dispatchStart at h
    cases hb : loopBody distribute startPoint origColor fillColor connectivity s0 with
    | inr w => rw [hb] at h; cases h
    | inl s1 =>
      rw [hb] at h
      have hs1 := loopBody_inl distribute startPoint origColor fillColor connectivity s0 s1 hb
      apply dispatchStart_invariant distribute startPoint origColor fillColor connectivity k
        s1 s _ _ h
      · rw [hs1]
        exact fun e => hne e.symm
      · rw [hs1]
        exact buildFileList_deleteSources_self _ _

theorem buildFileList_writeOutputFile_other (fs : FileSystem) (f : FileName)
    (list : List Vec3sc) (q : String) (h : f.pre ≠ q) :
    buildFileList (FloodFillBlockCommand.writeOutputFile fs f list) q = buildFileList fs q := by
  unfold FloodFillBlockCommand.writeOutputFile writeListFile storeFile buildFileList deleteFile
  rw [List.filter_cons]
  simp only [h, decide_False, Bool.false_eq_true, if_false, List.filter_filter]
  congr 1
  apply List.filter_congr
  intro e _
  by_cases h1 : e.1.pre = q
  · have h2 : ¬ e.1 = f := fun h3 => h (h3 ▸ h1)
    simp [h1, h2]
  · simp [h1]

/-- C10: with two different prefixes, the second of them without files when the
loop is entered: at the start of every dispatch no file exists under the prefix
passed as target; and from one dispatch to the next the prefixes change roles,
the files under the new source prefix are those under the old target prefix
when the old dispatch ended, none of which existed when it started, and no file
is left under the old source prefix. -/
theorem iteration_barrier (distribute : Distributor P) (startPoint : Vec3c)
    (origColor fillColor : P) (connectivity : Connectivity)
    (seedsSourceFilenamePrefix seedsTargetFilenamePrefix : String) (w : World P)
    (hne : seedsSourceFilenamePrefix ≠ seedsTargetFilenamePrefix)
    (hfresh : buildFileList w.2 seedsTargetFilenamePrefix = []) :
    (∀ (k : Nat) (s : LoopState P),
      dispatchStart distribute startPoint origColor fillColor connectivity k
        (initialLoopState seedsSourceFilenamePrefix seedsTargetFilenamePrefix w startPoint)
        = some s →
      buildFileList s.world.2 s.seedsTargetFilenamePrefix = []) ∧
    (∀ (k : Nat) (sp s : LoopState P),
      dispatchStart distribute startPoint origColor fillColor connectivity k
        (initialLoopState seedsSourceFilenamePrefix seedsTargetFilenamePrefix w startPoint)
        = some sp →
      dispatchStart distribute startPoint origColor fillColor connectivity (k + 1)
        (initialLoopState seedsSourceFilenamePrefix seedsTargetFilenamePrefix w startPoint)
        = some s →
      s.seedsSourceFilenamePrefix = sp.seedsTargetFilenamePrefix ∧
      s.seedsTargetFilenamePrefix = sp.seedsSourceFilenamePrefix ∧
      (∀ f : FileName, f.pre = s.seedsSourceFilenamePrefix →
        fileBody s.world.2 f
          = fileBody (distribute
              (dispatchArgs startPoint origColor fillColor connectivity sp) sp.world).2 f) ∧
      buildFileList sp.world.2 s.seedsSourceFilenamePrefix = [] ∧
      buildFileList s.world.2 sp.seedsSourceFilenamePrefix = []) := by
  have hinit : buildFileList
      (initialLoopState seedsSourceFilenamePrefix seedsTargetFilenamePrefix w
        startPoint).world.2 seedsTargetFilenamePrefix = [] := by
    unfold initialLoopState
    dsimp only
    rw [buildFileList_writeOutputFile_other _ _ _ _ hne]
    exact hfresh
  constructor
  · intro k s h
    exact (dispatchStart_invariant distribute startPoint origColor fillColor connectivity k _ s
      hne hinit h).2
  · intro k sp s hsp hs
    obtain ⟨sp2, h1, h2⟩ := dispatchStart_succ distribute startPoint origColor fillColor
      connectivity k _ s hs
    rw [hsp] at h1
    simp only [Option.some.injEq] at h1
    rw [← h1] at h2
    have hinv := dispatchStart_invariant distribute startPoint origColor fillColor
      connectivity k _ sp hne hinit hsp
    have hs1 := loopBody_inl distribute startPoint origColor fillColor connectivity sp s h2
    rw [hs1]
    refine ⟨rfl, rfl, ?_, hinv.2, ?_⟩
    · intro f hf
      exact fileBody_deleteSources_other _ _ f (by rw [hf]; exact fun e => hinv.1 e.symm)
    · exact buildFileList_deleteSources_self _ _

theorem iteration_barrier_witness :
    (∀ (k : Nat) (s : LoopState Nat),
      dispatchStart sampleDistribute ⟨1, 0, 4⟩ 0 7 Connectivity.AllNeighbours k
        (initialLoopState "s1" "s2" (sampleWhole, []) ⟨1, 0, 4⟩) = some s →
      buildFileList s.world.2 s.seedsTargetFilenamePrefix = []) ∧
    (∀ (k : Nat) (sp s : LoopState Nat),
      dispatchStart sampleDistribute ⟨1, 0, 4⟩ 0 7 Connectivity.AllNeighbours k
        (initialLoopState "s1" "s2" (sampleWhole, []) ⟨1, 0, 4⟩) = some sp →
      dispatchStart sampleDistribute ⟨1, 0, 4⟩ 0 7 Connectivity.AllNeighbours (k + 1)
        (initialLoopState "s1" "s2" (sampleWhole, []) ⟨1, 0, 4⟩) = some s →
      s.seedsSourceFilenamePrefix = sp.seedsTargetFilenamePrefix ∧
      s.seedsTargetFilenamePrefix = sp.seedsSourceFilenamePrefix ∧
      (∀ f : FileName, f.pre = s.seedsSourceFilenamePrefix →
        fileBody s.world.2 f
          = fileBody (sampleDistribute
              (dispatchArgs ⟨1, 0, 4⟩ 0 7 Connectivity.AllNeighbours sp) sp.world).2 f) ∧
      buildFileList sp.world.2 s.seedsSourceFilenamePrefix = [] ∧
      buildFileList s.world.2 sp.seedsSourceFilenamePrefix = []) :=
  iteration_barrier sampleDistribute ⟨1, 0, 4⟩ 0 7 Connectivity.AllNeighbours "s1" "s2"
    (sampleWhole, []) (by decide) (by decide)

end FloodFillCommand

theorem seedsMatchAddress_of_z (origSizeZ : Int) (f : FileName) (list : List Vec3sc)
    (h : ∀ p ∈ list, p.z.val = f.z ∧ 0 ≤ f.z ∧ f.z < origSizeZ) :
    SeedsMatchAddress origSizeZ f list := by
  refine ⟨h, fun fs => ?_⟩
  rw [FloodFillBlockCommand.readInputFile_writeOutputFile, List.nil_append]
  conv_rhs => rw [← List.map_id list]
  apply List.map_congr_left
  intro p hp
  have hz : toInt32 f.z = p.z := by rw [← (h p hp).1]; exact toInt32_val _
  rw [hz]
  rfl

/-- C6: every seed that goes into a seed file has the global `z` of the file's
address, that address lies in `[0, origSize.z)`, and reading the file with the
`z` of its address gives the seeds back: for the two files of a block job on a
block of depth at least two, and for the initial file of `runDistributed` when
the start point is in the image and its `z` fits the 32 bit seed coordinates. -/
theorem seed_z_is_file_address {P : Type} [PixelType P]
    (floodfill : FloodFillKernel P) (fuel : Nat) (fs : FileSystem) (img : Image P)
    (args : BlockArgs P) (whole : DistributedImage P) (pre : String) (startPoint : Vec3c)
    (hd : 2 ≤ img.depth) (hf : 3 ≤ fuel)
    (hc : args.connectivity ≠ Connectivity.Unsupported)
    (hin : whole.isInImage startPoint = true)
    (hfit : startPoint.z < 2147483648) :
    (∃ st : DeriveState,
      FloodFillBlockCommand.deriveNewSeeds floodfill fuel fs img args = some (st, none) ∧
      SeedsMatchAddress args.origSize.z (FloodFillBlockCommand.beginTarget args)
        st.beginNewSeeds ∧
      SeedsMatchAddress args.origSize.z (FloodFillBlockCommand.endTarget img args)
        st.endNewSeeds) ∧
    SeedsMatchAddress whole.dimensions.z (FloodFillCommand.initialSeedFile pre startPoint)
      (FloodFillCommand.initialSeeds startPoint) := by
  constructor
  · refine ⟨_, FloodFillBlockCommand.deriveNewSeeds_eq floodfill fuel fs img args hd hf (Or.inl hc),
      ?_, ?_⟩
    · apply seedsMatchAddress_of_z
      intro p hp
      have h := FloodFillBlockCommand.expectedNewSeeds_z _ _ _ _ _ _ p hp
      exact ⟨by rw [h.1]; rfl, h.2⟩
    · apply seedsMatchAddress_of_z
      intro p hp
      have h := FloodFillBlockCommand.expectedNewSeeds_z _ _ _ _ _ _ p hp
      exact ⟨by rw [h.1]; rfl, h.2⟩
  · apply seedsMatchAddress_of_z
    intro p hp
    simp only [FloodFillCommand.initialSeeds, List.nil_append, List.mem_singleton] at hp
    simp only [DistributedImage.isInImage, decide_eq_true_eq] at hin
    have hz : p.z.val = startPoint.z := by
      rw [hp]
      show wrap32 startPoint.z = startPoint.z
      exact wrap32_of_range _ (by omega) (by omega)
    exact ⟨hz, hin.2.2.2.2.1, hin.2.2.2.2.2⟩

theorem seed_z_is_file_address_witness :
    (∃ st : DeriveState,
      FloodFillBlockCommand.deriveNewSeeds paintSeeds 3 sampleFiles sampleBlock
        (sampleArgs Connectivity.AllNeighbours) = some (st, none) ∧
      SeedsMatchAddress (sampleArgs Connectivity.AllNeighbours).origSize.z
        (FloodFillBlockCommand.beginTarget (sampleArgs Connectivity.AllNeighbours))
        st.beginNewSeeds ∧
      SeedsMatchAddress (sampleArgs Connectivity.AllNeighbours).origSize.z
        (FloodFillBlockCommand.endTarget sampleBlock (sampleArgs Connectivity.AllNeighbours))
        st.endNewSeeds) ∧
    SeedsMatchAddress sampleWhole.dimensions.z
      (FloodFillCommand.initialSeedFile "s1" ⟨1, 0, 4⟩)
      (FloodFillCommand.initialSeeds ⟨1, 0, 4⟩) :=
  seed_z_is_file_address paintSeeds 3 sampleFiles sampleBlock
    (sampleArgs Connectivity.AllNeighbours) sampleWhole "s1" ⟨1, 0, 4⟩
    (by decide) (by decide) (by decide) (by decide) (by decide)

/-! ## The start of the distributed flood fill, and the files a block job touches -/

theorem fileExists_eq_isSome (fs : FileSystem) (f : FileName) :
    fileExists fs f = (fileBody fs f).isSome := by
  cases hb : fileBody fs f with
  | none =>
    cases hx : fileExists fs f with
    | false => rfl
    | true =>
      exfalso
      unfold fileExists at hx
      rw [List.any_eq_true] at hx
      obtain ⟨e, he, h⟩ := hx
      unfold fileBody at hb
      rw [Option.map_eq_none', List.find?_eq_none] at hb
      exact hb e he h
  | some body => exact fileExists_of_fileBody fs f body hb

theorem fileRecords_writePoint (p : Vec3sc) :
    fileRecords (FloodFillBlockCommand.writePoint p) = [(p.x, p.y)] := by
  have h := FloodFillBlockCommand.readRecords_flatMap_writePoint (toInt32 0) [p] 8 (by simp)
  simp only [List.flatMap_cons, List.flatMap_nil, List.append_nil, List.map_cons,
    List.map_nil] at h
  unfold fileRecords
  rw [FloodFillBlockCommand.length_writePoint, h]
  rfl

namespace FloodFillCommand

variable {P : Type} [PixelType P]

/-- If the start point is outside the image, or the test `origColor ==
fillColor` of line 954 is true, `runDistributed` returns the empty result and
leaves the image and every file as they were. This holds for every distributor
and also without any fuel for the loop, so no job is dispatched. -/
theorem noop_flood_fill (distribute : Distributor P)
    (seedsSourceFilenamePrefix seedsTargetFilenamePrefix : String) (fuel : Nat) (w : World P)
    (startPoint : Vec3c) (fillColor : P) (connectivity : Connectivity)
    (h : w.1.isInImage startPoint = false ∨
      PixelType.eq (w.1.getPixel startPoint) fillColor = true) :
    runDistributed distribute seedsSourceFilenamePrefix seedsTargetFilenamePrefix fuel w
      startPoint fillColor connectivity = some ([], w) := by
  unfold runDistributed
  rcases h with h | h
  · simp [h]
  · by_cases h2 : w.1.isInImage startPoint = true
    · simp [h2, h]
    · simp [h2]

theorem noop_flood_fill_witness :
    runDistributed sampleDistribute "s1" "s2" 0 (sampleWhole, []) ⟨5, 0, 0⟩ 7
      Connectivity.AllNeighbours = some ([], (sampleWhole, [])) :=
  noop_flood_fill sampleDistribute "s1" "s2" 0 (sampleWhole, []) ⟨5, 0, 0⟩ 7
    Connectivity.AllNeighbours (Or.inl (by decide))

/-- C12: when the start point is in the image and its colour is not the fill
colour (the test `origColor == fillColor` of line 954 is false),
`runDistributed` is its loop run from a state that differs from the
given one in exactly one file: the one under the source prefix addressed to
`startPoint.z`, whose body is the one record `(x, y)` of the start point (as 32
bit numbers). That state is the one at the start of the first dispatch. -/
theorem initial_seed_file (distribute : Distributor P)
    (seedsSourceFilenamePrefix seedsTargetFilenamePrefix : String) (fuel : Nat) (w : World P)
    (startPoint : Vec3c) (fillColor : P) (connectivity : Connectivity)
    (hin : w.1.isInImage startPoint = true)
    (hcol : PixelType.eq (w.1.getPixel startPoint) fillColor = false) :
    runDistributed distribute seedsSourceFilenamePrefix seedsTargetFilenamePrefix fuel w
        startPoint fillColor connectivity
      = (outerLoop distribute startPoint (w.1.getPixel startPoint) fillColor connectivity fuel
          (initialLoopState seedsSourceFilenamePrefix seedsTargetFilenamePrefix w
            startPoint)).map (fun w2 => ([], w2)) ∧
    dispatchStart distribute startPoint (w.1.getPixel startPoint) fillColor connectivity 0
        (initialLoopState seedsSourceFilenamePrefix seedsTargetFilenamePrefix w startPoint)
      = some ⟨seedsSourceFilenamePrefix, seedsTargetFilenamePrefix,
          (w.1, storeFile w.2 ⟨seedsSourceFilenamePrefix, startPoint.z⟩
            (FloodFillBlockCommand.writePoint (Vec3sc.ofVec3c startPoint)))⟩ ∧
    fileRecords (FloodFillBlockCommand.writePoint (Vec3sc.ofVec3c startPoint))
      = [(toInt32 startPoint.x, toInt32 startPoint.y)] ∧
    (∀ f : FileName,
      fileBody (storeFile w.2 ⟨seedsSourceFilenamePrefix, startPoint.z⟩
          (FloodFillBlockCommand.writePoint (Vec3sc.ofVec3c startPoint))) f
        = if f = ⟨seedsSourceFilenamePrefix, startPoint.z⟩ then
            some (FloodFillBlockCommand.writePoint (Vec3sc.ofVec3c startPoint))
          else fileBody w.2 f) ∧
    (startPoint.x < 2147483648 → (toInt32 startPoint.x).val = startPoint.x) ∧
    (startPoint.y < 2147483648 → (toInt32 startPoint.y).val = startPoint.y) := by
  have hin2 := hin
  simp only [DistributedImage.isInImage, decide_eq_true_eq] at hin
  refine ⟨?_, ?_, ?_, ?_, ?_, ?_⟩
  · unfold runDistributed
    simp only [hin2, Bool.not_true, Bool.false_eq_true, if_false, hcol]
    cases outerLoop distribute startPoint (w.1.getPixel startPoint) fillColor connectivity fuel
      (initialLoopState seedsSourceFilenamePrefix seedsTargetFilenamePrefix w startPoint) <;> rfl
  · simp [dispatchStart, initialLoopState, initialSeeds, initialSeedFile,
      FloodFillBlockCommand.writeOutputFile, writeListFile]
  · exact fileRecords_writePoint _
  · intro f
    exact fileBody_storeFile_eq _ _ _ _
  · intro hx
    exact wrap32_of_range _ (by omega) (by omega)
  · intro hy
    exact wrap32_of_range _ (by omega) (by omega)

theorem initial_seed_file_witness :
    runDistributed sampleDistribute "s1" "s2" 2 (sampleWhole, []) ⟨1, 0, 4⟩ 7
        Connectivity.AllNeighbours
      = (outerLoop sampleDistribute ⟨1, 0, 4⟩ (sampleWhole.getPixel ⟨1, 0, 4⟩) 7
          Connectivity.AllNeighbours 2
          (initialLoopState "s1" "s2" (sampleWhole, []) ⟨1, 0, 4⟩)).map (fun w2 => ([], w2)) ∧
    dispatchStart sampleDistribute ⟨1, 0, 4⟩ (sampleWhole.getPixel ⟨1, 0, 4⟩) 7
        Connectivity.AllNeighbours 0 (initialLoopState "s1" "s2" (sampleWhole, []) ⟨1, 0, 4⟩)
      = some ⟨"s1", "s2",
          (sampleWhole, storeFile [] ⟨"s1", 4⟩
            (FloodFillBlockCommand.writePoint (Vec3sc.ofVec3c ⟨1, 0, 4⟩)))⟩ ∧
    fileRecords (FloodFillBlockCommand.writePoint (Vec3sc.ofVec3c ⟨1, 0, 4⟩))
      = [(toInt32 1, toInt32 0)] ∧
    (∀ f : FileName,
      fileBody (storeFile [] ⟨"s1", 4⟩
          (FloodFillBlockCommand.writePoint (Vec3sc.ofVec3c ⟨1, 0, 4⟩))) f
        = if f = ⟨"s1", 4⟩ then
            some (FloodFillBlockCommand.writePoint (Vec3sc.ofVec3c ⟨1, 0, 4⟩))
          else fileBody [] f) ∧
    ((1 : Int) < 2147483648 → (toInt32 1).val = 1) ∧
    ((0 : Int) < 2147483648 → (toInt32 0).val = 0) :=
  initial_seed_file sampleDistribute "s1" "s2" 2 (sampleWhole, []) ⟨1, 0, 4⟩ 7
    Connectivity.AllNeighbours (by decide) (by decide)

end FloodFillCommand

namespace FloodFillBlockCommand

variable {P : Type} [PixelType P]

theorem readInputFile_congr (fs fs2 : FileSystem) (f : FileName) (z : int32_t)
    (output : List Vec3sc) (h : fileBody fs f = fileBody fs2 f) :
    readInputFile fs f z output = readInputFile fs2 f z output := by
  unfold readInputFile readListFile
  rw [fileExists_eq_isSome, fileExists_eq_isSome, h]

/-- The seeds handed to the kernel depend on the three source files only. -/
theorem kernelSeeds_congr {Q : Type} (fs fs2 : FileSystem) (img : Image Q) (args : BlockArgs Q)
    (h1 : fileBody fs ⟨args.seedsSourcePrefix, (blockStartZ args).val⟩
      = fileBody fs2 ⟨args.seedsSourcePrefix, (blockStartZ args).val⟩)
    (h2 : fileBody fs ⟨args.seedsSourcePrefix, args.startPoint.z⟩
      = fileBody fs2 ⟨args.seedsSourcePrefix, args.startPoint.z⟩)
    (h3 : fileBody fs ⟨args.seedsSourcePrefix, (blockEndZ img args).val⟩
      = fileBody fs2 ⟨args.seedsSourcePrefix, (blockEndZ img args).val⟩) :
    kernelSeeds fs img args = kernelSeeds fs2 img args := by
  unfold kernelSeeds loadSeeds
  simp only []
  rw [readInputFile_congr fs fs2 _ _ _ h1, readInputFile_congr fs fs2 _ _ _ h2,
    readInputFile_congr fs fs2 _ _ _ h3]

theorem deriveNewSeeds_congr (floodfill : FloodFillKernel P) (fuel : Nat) (fs fs2 : FileSystem)
    (img : Image P) (args : BlockArgs P)
    (h : kernelSeeds fs img args = kernelSeeds fs2 img args) :
    filledBlock floodfill fs img args = filledBlock floodfill fs2 img args ∧
    deriveNewSeeds floodfill fuel fs img args = deriveNewSeeds floodfill fuel fs2 img args := by
  have hf : filledBlock floodfill fs img args = filledBlock floodfill fs2 img args := by
    unfold filledBlock
    rw [h]
  refine ⟨hf, ?_⟩
  unfold deriveNewSeeds
  rw [hf]

/-- The image and the files that `run` leaves behind, whatever way it ends. -/
theorem run_files (floodfill : FloodFillKernel P) (fuel : Nat) (fs : FileSystem)
    (img : Image P) (args : BlockArgs P) (res : RunResult P)
    (h : run floodfill fuel fs img args = some res) :
    res.image = filledBlock floodfill fs img args ∧
    (res.files = fs ∨ ∃ st : DeriveState,
      deriveNewSeeds floodfill fuel fs img args = some (st, none) ∧
      res.files = persist fs args.seedsTargetPrefix (blockStartZ args) (blockEndZ img args)
        st.beginNewSeeds st.endNewSeeds) := by
  unfold run at h
  cases hd : deriveNewSeeds floodfill fuel fs img args with
  | none => rw [hd] at h; cases h
  | some r =>
    obtain ⟨st, e⟩ := r
    cases e with
    | none =>
      rw [hd] at h
      simp only [Option.some.injEq] at h
      rw [← h]
      exact ⟨rfl, Or.inr ⟨st, rfl, rfl⟩⟩
    | some err =>
      rw [hd] at h
      simp only [Option.some.injEq] at h
      rw [← h]
      exact ⟨rfl, Or.inl rfl⟩

theorem fileBody_persist_other (fs : FileSystem) (pre : String) (bs be : int32_t)
    (b e : List Vec3sc) (f : FileName) (h : f.pre ≠ pre) :
    fileBody (persist fs pre bs be b e) f = fileBody fs f := by
  rw [fileBody_persist]
  have h1 : ¬ f = ⟨pre, (be + toInt32 1).val⟩ := fun e => h (by rw [e])
  have h2 : ¬ f = ⟨pre, (bs - toInt32 1).val⟩ := fun e => h (by rw [e])
  simp [h1, h2]

theorem run_files_other (floodfill : FloodFillKernel P) (fuel : Nat) (fs : FileSystem)
    (img : Image P) (args : BlockArgs P) (res : RunResult P)
    (h : run floodfill fuel fs img args = some res) (f : FileName)
    (hf : f.pre ≠ args.seedsTargetPrefix) :
    fileBody res.files f = fileBody fs f := by
  rcases (run_files floodfill fuel fs img args res h).2 with h1 | ⟨st, _, h1⟩
  · rw [h1]
  · rw [h1]
    exact fileBody_persist_other _ _ _ _ _ _ f hf

/-- C16: what `run` computes (the seeds for the kernel, the filled block, the
new seeds) depends on the files only through the three source files addressed
to `blockStartZ`, `startPoint.z` and `blockEndZ`; `run` leaves every file that
is not under the target prefix as it was; so, with different source and target
prefixes, no file under the source prefix is touched, and a job that runs after
it in the same iteration computes what it would have computed before it. -/
theorem file_isolation (floodfill : FloodFillKernel P) (fuel : Nat) (fs : FileSystem)
    (img : Image P) (args : BlockArgs P) :
    (∀ fs2 : FileSystem,
      fileBody fs ⟨args.seedsSourcePrefix, (blockStartZ args).val⟩
        = fileBody fs2 ⟨args.seedsSourcePrefix, (blockStartZ args).val⟩ →
      fileBody fs ⟨args.seedsSourcePrefix, args.startPoint.z⟩
        = fileBody fs2 ⟨args.seedsSourcePrefix, args.startPoint.z⟩ →
      fileBody fs ⟨args.seedsSourcePrefix, (blockEndZ img args).val⟩
        = fileBody fs2 ⟨args.seedsSourcePrefix, (blockEndZ img args).val⟩ →
      kernelSeeds fs img args = kernelSeeds fs2 img args ∧
      filledBlock floodfill fs img args = filledBlock floodfill fs2 img args ∧
      deriveNewSeeds floodfill fuel fs img args = deriveNewSeeds floodfill fuel fs2 img args) ∧
    (∀ res : RunResult P, run floodfill fuel fs img args = some res →
      (∀ f : FileName, f.pre ≠ args.seedsTargetPrefix → fileBody res.files f = fileBody fs f) ∧
      (args.seedsSourcePrefix ≠ args.seedsTargetPrefix →
        (∀ f : FileName, f.pre = args.seedsSourcePrefix →
          fileBody res.files f = fileBody fs f) ∧
        ∀ (floodfill2 : FloodFillKernel P) (fuel2 : Nat) (img2 : Image P) (args2 : BlockArgs P),
          args2.seedsSourcePrefix = args.seedsSourcePrefix →
          kernelSeeds res.files img2 args2 = kernelSeeds fs img2 args2 ∧
          filledBlock floodfill2 res.files img2 args2 = filledBlock floodfill2 fs img2 args2 ∧
          deriveNewSeeds floodfill2 fuel2 res.files img2 args2
            = deriveNewSeeds floodfill2 fuel2 fs img2 args2)) := by
  constructor
  · intro fs2 h1 h2 h3
    have hk := kernelSeeds_congr fs fs2 img args h1 h2 h3
    exact ⟨hk, deriveNewSeeds_congr floodfill fuel fs fs2 img args hk⟩
  · intro res hrun
    refine ⟨fun f hf => run_files_other floodfill fuel fs img args res hrun f hf, ?_⟩
    intro hne
    have hsrc : ∀ f : FileName, f.pre = args.seedsSourcePrefix →
        fileBody res.files f = fileBody fs f :=
      fun f hf => run_files_other floodfill fuel fs img args res hrun f (by rw [hf]; exact hne)
    refine ⟨hsrc, ?_⟩
    intro floodfill2 fuel2 img2 args2 hpre
    have hk := kernelSeeds_congr res.files fs img2 args2
      (hsrc _ hpre) (hsrc _ hpre) (hsrc _ hpre)
    exact ⟨hk, deriveNewSeeds_congr floodfill2 fuel2 res.files fs img2 args2 hk⟩

end FloodFillBlockCommand

/-! ## Convergence drivers, the compound commands and the margins -/

theorem reportedCount_succ {S D : Type} (executor : JobExecutor S D)
    (parseTotalCount : List String → String → Int) (d : Dispatch D) (key : String) (s : S)
    (k : Nat) :
    reportedCount executor parseTotalCount d key s (k + 1)
      = reportedCount executor parseTotalCount d key (executor d s).2 k := rfl

/-- The convergence loop makes exactly `m + 1` dispatches when dispatch `m + 1`
is the first to report a count that is not positive. -/
theorem dispatchWhileChanged_eq {S D : Type} (executor : JobExecutor S D)
    (parseTotalCount : List String → String → Int) (d : Dispatch D) (key : String) :
    ∀ (m : Nat) (e : Exec S D) (fuel : Nat),
      (∀ k < m, 0 < reportedCount executor parseTotalCount d key e.state k) →
      reportedCount executor parseTotalCount d key e.state m ≤ 0 →
      m + 1 ≤ fuel →
      dispatchWhileChanged executor parseTotalCount d key fuel e
        = some ⟨stateAfter executor d (m + 1) e.state,
            e.dispatched ++ List.replicate (m + 1) d⟩
  | 0, e, 0, _, _, hf => by omega
  | 0, e, fuel + 1, _, hz, _ => by
    have hz2 : ¬ parseTotalCount (executor d e.state).1 key > 0 := not_lt.mpr hz
    simp only [dispatchWhileChanged, distribute, hz2, if_false, stateAfter, List.replicate]
  | m + 1, e, 0, _, _, hf => by omega
  | m + 1, e, fuel + 1, hp, hz, hf => by
    have h0 : parseTotalCount (distribute executor d e).1 key > 0 := hp 0 (by omega)
    have ih := dispatchWhileChanged_eq executor parseTotalCount d key m
      (distribute executor d e).2 fuel
      (fun k hk => hp (k + 1) (by omega)) hz (by omega)
    rw [dispatchWhileChanged, if_pos h0, ih]
    simp only [distribute, stateAfter, List.append_assoc, List.singleton_append,
      List.replicate]


/-- Whenever the convergence loop returns, it has made `m + 1` dispatches, the
last of which was the first to report a count that is not positive. -/
theorem dispatchWhileChanged_some {S D : Type} (executor : JobExecutor S D)
    (parseTotalCount : List String → String → Int) (d : Dispatch D) (key : String) :
    ∀ (fuel : Nat) (e e1 : Exec S D),
      dispatchWhileChanged executor parseTotalCount d key fuel e = some e1 →
      ∃ m : Nat, m + 1 ≤ fuel ∧
        (∀ k < m, 0 < reportedCount executor parseTotalCount d key e.state k) ∧
        reportedCount executor parseTotalCount d key e.state m ≤ 0 ∧
        e1 = ⟨stateAfter executor d (m + 1) e.state, e.dispatched ++ List.replicate (m + 1) d⟩
  | 0, e, e1, h => by cases h
  | fuel + 1, e, e1, h => by
    rw [dispatchWhileChanged] at h
    by_cases h0 : parseTotalCount (distribute executor d e).1 key > 0
    · rw [if_pos h0] at h
      obtain ⟨m, hm, hp, hz, he⟩ := dispatchWhileChanged_some executor parseTotalCount d key
        fuel _ e1 h
      refine ⟨m + 1, by omega, ?_, hz, ?_⟩
      · intro k hk
        cases k with
        | zero => exact h0
        | succ k => exact hp k (by omega)
      · rw [he]
        simp only [distribute, stateAfter, List.append_assoc, List.singleton_append,
          List.replicate]
    · rw [if_neg h0] at h
      simp only [Option.some.injEq] at h
      refine ⟨0, by omega, fun k hk => by omega, not_lt.mp h0, ?_⟩
      rw [← h]
      simp only [distribute, stateAfter, List.replicate]

/-- A sequence of counts that are not negative and fall as long as they are
positive reaches zero, at an index that is at most its first count. -/
theorem exists_first_zero (c : Nat → Int) (hnn : ∀ k, 0 ≤ c k)
    (hdec : ∀ k, 0 < c k → c (k + 1) < c k) :
    ∃ m : Nat, (m : Int) ≤ c 0 ∧ (∀ k < m, 0 < c k) ∧ c m = 0 := by
  have hbound : ∀ k : Nat, (∀ j < k, 0 < c j) → c k ≤ c 0 - k := by
    intro k
    induction k with
    | zero => intro _; simp
    | succ k ih =>
      intro hj
      have h1 := ih (fun j hj2 => hj j (by omega))
      have h2 := hdec k (hj k (by omega))
      push_cast
      omega
  have hex : ∃ m : Nat, c m ≤ 0 := by
    by_contra hne
    push_neg at hne
    have h := hbound ((c 0).toNat + 1) (fun j _ => hne j)
    have h2 := hne ((c 0).toNat + 1)
    have h3 := hnn 0
    push_cast at h
    omega
  classical
  refine ⟨Nat.find hex, ?_, ?_, ?_⟩
  · have hpos : ∀ j < Nat.find hex, 0 < c j := fun j hj => by
      have := Nat.find_min hex hj
      omega
    have h1 := hbound (Nat.find hex) hpos
    have h2 := hnn (Nat.find hex)
    omega
  · intro k hk
    have := Nat.find_min hex hk
    omega
  · have h1 := Nat.find_spec hex
    have h2 := hnn (Nat.find hex)
    omega

/-- Of the first `m + 1` counts exactly `m` are different from zero when the
first `m` are positive and the last is zero. -/
theorem nonzero_counts (c : Nat → Int) :
    ∀ m : Nat, (∀ k < m, 0 < c k) → c m = 0 →
      ((List.range (m + 1)).filter (fun k => decide (c k ≠ 0))).length = m := by
  intro m hp hz
  rw [List.range_succ, List.filter_append]
  have h1 : (List.range m).filter (fun k => decide (c k ≠ 0)) = List.range m := by
    rw [List.filter_eq_self]
    intro k hk
    have := hp k (List.mem_range.mp hk)
    simp only [ne_eq, decide_eq_true_eq]
    omega
  rw [h1]
  simp [hz]

/-- C17: the convergence drivers of `grow` and `growLabels`. If dispatch
`m + 1` is the first to report a count that is not positive, the driver, given
fuel for `m + 1` dispatches, makes exactly these `m + 1` dispatches (so at least
one) and returns the empty list; whenever it returns it has done so; and for
counts that are not negative and fall as long as they are positive such an `m`
exists, the last count is zero, and the `m + 1` dispatches are one more than
the counts different from zero. -/
theorem convergence_driver {S D : Type} (executor : JobExecutor S D)
    (parseTotalCount : List String → String → Int) (args : List (ParamVariant D))
    (e : Exec S D) :
    (∀ m : Nat,
      StopsAt (reportedCount executor parseTotalCount ⟨CommandName.grow, args⟩
        "pixels changed." e.state) m →
      ∀ fuel : Nat, m + 1 ≤ fuel →
        GrowCommand.runDistributed executor parseTotalCount fuel args e
          = some ([], ⟨stateAfter executor ⟨CommandName.grow, args⟩ (m + 1) e.state,
              e.dispatched ++ List.replicate (m + 1) ⟨CommandName.grow, args⟩⟩)) ∧
    (∀ m : Nat,
      StopsAt (reportedCount executor parseTotalCount ⟨CommandName.growLabels, args⟩
        "pixels changed." e.state) m →
      ∀ fuel : Nat, m + 1 ≤ fuel →
        GrowLabelsCommand.runDistributed executor parseTotalCount fuel args e
          = some ([], ⟨stateAfter executor ⟨CommandName.growLabels, args⟩ (m + 1) e.state,
              e.dispatched ++ List.replicate (m + 1) ⟨CommandName.growLabels, args⟩⟩)) ∧
    (∀ (fuel : Nat) (r : List String × Exec S D),
      (GrowCommand.runDistributed executor parseTotalCount fuel args e = some r →
        ∃ m : Nat,
          StopsAt (reportedCount executor parseTotalCount ⟨CommandName.grow, args⟩
            "pixels changed." e.state) m ∧
          r = ([], ⟨stateAfter executor ⟨CommandName.grow, args⟩ (m + 1) e.state,
            e.dispatched ++ List.replicate (m + 1) ⟨CommandName.grow, args⟩⟩)) ∧
      (GrowLabelsCommand.runDistributed executor parseTotalCount fuel args e = some r →
        ∃ m : Nat,
          StopsAt (reportedCount executor parseTotalCount ⟨CommandName.growLabels, args⟩
            "pixels changed." e.state) m ∧
          r = ([], ⟨stateAfter executor ⟨CommandName.growLabels, args⟩ (m + 1) e.state,
            e.dispatched ++ List.replicate (m + 1) ⟨CommandName.growLabels, args⟩⟩))) ∧
    (∀ c : Nat → Int,
      (c = reportedCount executor parseTotalCount ⟨CommandName.grow, args⟩
          "pixels changed." e.state ∨
        c = reportedCount executor parseTotalCount ⟨CommandName.growLabels, args⟩
          "pixels changed." e.state) →
      (∀ k, 0 ≤ c k) → (∀ k, 0 < c k → c (k + 1) < c k) →
      ∃ m : Nat, StopsAt c m ∧ c m = 0 ∧
        m + 1 = ((List.range (m + 1)).filter (fun k => decide (c k ≠ 0))).length + 1) := by
  refine ⟨?_, ?_, ?_, ?_⟩
  · intro m hs fuel hf
    unfold GrowCommand.runDistributed
    rw [dispatchWhileChanged_eq executor parseTotalCount _ _ m e fuel hs.1 hs.2 hf]
  · intro m hs fuel hf
    unfold GrowLabelsCommand.runDistributed
    rw [dispatchWhileChanged_eq executor parseTotalCount _ _ m e fuel hs.1 hs.2 hf]
  · intro fuel r
    constructor
    · intro h
      unfold GrowCommand.runDistributed at h
      cases hd : dispatchWhileChanged executor parseTotalCount ⟨CommandName.grow, args⟩
          "pixels changed." fuel e with
      | none => rw [hd] at h; cases h
      | some e1 =>
        rw [hd] at h
        obtain ⟨m, _, hp, hz, he⟩ := dispatchWhileChanged_some executor parseTotalCount _ _
          fuel e e1 hd
        simp only [Option.some.injEq] at h
        exact ⟨m, ⟨hp, hz⟩, by rw [← h, he]⟩
    · intro h
      unfold GrowLabelsCommand.runDistributed at h
      cases hd : dispatchWhileChanged executor parseTotalCount ⟨CommandName.growLabels, args⟩
          "pixels changed." fuel e with
      | none => rw [hd] at h; cases h
      | some e1 =>
        rw [hd] at h
        obtain ⟨m, _, hp, hz, he⟩ := dispatchWhileChanged_some executor parseTotalCount _ _
          fuel e e1 hd
        simp only [Option.some.injEq] at h
        exact ⟨m, ⟨hp, hz⟩, by rw [← h, he]⟩
  · intro c _ hnn hdec
    obtain ⟨m, _, hp, hz⟩ := exists_first_zero c hnn hdec
    exact ⟨m, ⟨hp, by omega⟩, hz, by rw [nonzero_counts c m hp hz]⟩

theorem convergence_driver_witness :
    GrowCommand.runDistributed sampleExecutor sampleCount 4 [ParamVariant.image] ⟨3, []⟩
      = some ([], ⟨stateAfter sampleExecutor ⟨CommandName.grow, [ParamVariant.image]⟩ 4 3,
          [] ++ List.replicate 4 ⟨CommandName.grow, [ParamVariant.image]⟩⟩) :=
  (convergence_driver sampleExecutor sampleCount [ParamVariant.image] ⟨3, []⟩).1 3
    (by unfold StopsAt; decide) 4 (by decide)

/-- The three stages of `canny` and of `dualthreshold`, with the middle stage dispatched
`m + 1` times. -/
theorem stages_eq {S D : Type} (executor : JobExecutor S D)
    (parseTotalCount : List String → String → Int) (d1 d2 d3 : Dispatch D) (key : String)
    (e : Exec S D) (m fuel : Nat)
    (hs : StopsAt (reportedCount executor parseTotalCount d2 key (executor d1 e.state).2) m)
    (hf : m + 1 ≤ fuel) :
    (dispatchWhileChanged executor parseTotalCount d2 key fuel (distribute executor d1 e).2).map
        (fun e2 => (distribute executor d3 e2).2)
      = some ⟨(executor d3 (stateAfter executor d2 (m + 1) (executor d1 e.state).2)).2,
          e.dispatched ++ [d1] ++ List.replicate (m + 1) d2 ++ [d3]⟩ := by
  rw [dispatchWhileChanged_eq executor parseTotalCount d2 key m _ fuel hs.1 hs.2 hf]
  simp [distribute]

theorem stages_some {S D : Type} (executor : JobExecutor S D)
    (parseTotalCount : List String → String → Int) (d1 d2 d3 : Dispatch D) (key : String)
    (e e3 : Exec S D) (fuel : Nat)
    (h : (dispatchWhileChanged executor parseTotalCount d2 key fuel
        (distribute executor d1 e).2).map (fun e2 => (distribute executor d3 e2).2) = some e3) :
    ∃ m : Nat,
      StopsAt (reportedCount executor parseTotalCount d2 key (executor d1 e.state).2) m ∧
      e3 = ⟨(executor d3 (stateAfter executor d2 (m + 1) (executor d1 e.state).2)).2,
          e.dispatched ++ [d1] ++ List.replicate (m + 1) d2 ++ [d3]⟩ := by
  cases hd : dispatchWhileChanged executor parseTotalCount d2 key fuel
      (distribute executor d1 e).2 with
  | none => rw [hd] at h; cases h
  | some e2 =>
    rw [hd] at h
    obtain ⟨m, _, hp, hz, he⟩ := dispatchWhileChanged_some executor parseTotalCount d2 key
      fuel _ e2 hd
    simp only [Option.map_some', Option.some.injEq] at h
    refine ⟨m, ⟨hp, hz⟩, ?_⟩
    rw [← h, he]
    simp [distribute]

theorem canny_eq_stages {S D : Type} (ops : DoubleOps D) (executor : JobExecutor S D)
    (parseTotalCount : List String → String → Int) (fuel : Nat)
    (derSigma loThreshold hiThreshold : D) (e : Exec S D) :
    CannyCommand.runDistributed ops executor parseTotalCount fuel derSigma loThreshold
        hiThreshold e
      = ((dispatchWhileChanged executor parseTotalCount
            ⟨CommandName.cannyPart2, [ParamVariant.image]⟩ "pixels changed" fuel
            (distribute executor ⟨CommandName.cannyPart1,
              [ParamVariant.image, ParamVariant.real derSigma, ParamVariant.real loThreshold,
                ParamVariant.real hiThreshold]⟩ e).2).map
          (fun e2 => (distribute executor ⟨CommandName.thresholdConstant,
            [ParamVariant.image, ParamVariant.real (ops.ofInt 1)]⟩ e2).2)).map
        (fun e3 => ([], e3)) := by
  unfold CannyCommand.runDistributed leafRunDistributed
  dsimp only
  cases dispatchWhileChanged executor parseTotalCount
    ⟨CommandName.cannyPart2, [ParamVariant.image]⟩ "pixels changed" fuel
    (distribute executor ⟨CommandName.cannyPart1,
      [ParamVariant.image, ParamVariant.real derSigma, ParamVariant.real loThreshold,
        ParamVariant.real hiThreshold]⟩ e).2 <;> rfl

theorem dualThreshold_eq_stages {S D : Type} (ops : DoubleOps D) (executor : JobExecutor S D)
    (parseTotalCount : List String → String → Int) (fuel : Nat)
    (loThreshold hiThreshold : D) (e : Exec S D) :
    DualThresholdCommand.runDistributed ops executor parseTotalCount fuel loThreshold
        hiThreshold e
      = ((dispatchWhileChanged executor parseTotalCount
            ⟨CommandName.grow, [ParamVariant.image, ParamVariant.real (ops.ofInt 2),
              ParamVariant.real (ops.ofInt 1),
              ParamVariant.connectivity Connectivity.NearestNeighbours]⟩ "pixels changed." fuel
            (distribute executor ⟨CommandName.doubleThreshold,
              [ParamVariant.image, ParamVariant.real loThreshold,
                ParamVariant.real hiThreshold]⟩ e).2).map
          (fun e2 => (distribute executor ⟨CommandName.thresholdConstant,
            [ParamVariant.image, ParamVariant.real (ops.ofInt 1)]⟩ e2).2)).map
        (fun e3 => ([], e3)) := by
  unfold DualThresholdCommand.runDistributed GrowCommand.runDistributed leafRunDistributed
  dsimp only
  cases dispatchWhileChanged executor parseTotalCount
    ⟨CommandName.grow, [ParamVariant.image, ParamVariant.real (ops.ofInt 2),
      ParamVariant.real (ops.ofInt 1),
      ParamVariant.connectivity Connectivity.NearestNeighbours]⟩ "pixels changed." fuel
    (distribute executor ⟨CommandName.doubleThreshold,
      [ParamVariant.image, ParamVariant.real loThreshold,
        ParamVariant.real hiThreshold]⟩ e).2 <;> rfl


/-- C18: `CannyCommand::runDistributed` dispatches `cannyPart1` once with
`(image, derivative sigma, lower threshold, upper threshold)`, then `cannyPart2`
`m + 1` times, where dispatch `m + 1` is the first to report a count of changed
pixels that is not positive, then the constant threshold with `1.0` once, each
on the state the one before left, and returns the empty list; whenever it
returns it has done so. -/
theorem canny_stages {S D : Type} (ops : DoubleOps D) (executor : JobExecutor S D)
    (parseTotalCount : List String → String → Int)
    (derSigma loThreshold hiThreshold : D) (e : Exec S D) :
    (∀ m : Nat,
      StopsAt (reportedCount executor parseTotalCount cannyPart2Call "pixels changed"
        (executor (cannyPart1Call derSigma loThreshold hiThreshold) e.state).2) m →
      ∀ fuel : Nat, m + 1 ≤ fuel →
        CannyCommand.runDistributed ops executor parseTotalCount fuel derSigma loThreshold
            hiThreshold e
          = some ([], ⟨(executor (thresholdOneCall ops)
                (stateAfter executor cannyPart2Call (m + 1)
                  (executor (cannyPart1Call derSigma loThreshold hiThreshold) e.state).2)).2,
              e.dispatched ++ [cannyPart1Call derSigma loThreshold hiThreshold]
                ++ List.replicate (m + 1) cannyPart2Call ++ [thresholdOneCall ops]⟩)) ∧
    (∀ (fuel : Nat) (r : List String × Exec S D),
      CannyCommand.runDistributed ops executor parseTotalCount fuel derSigma loThreshold
          hiThreshold e = some r →
      ∃ m : Nat,
        StopsAt (reportedCount executor parseTotalCount cannyPart2Call "pixels changed"
          (executor (cannyPart1Call derSigma loThreshold hiThreshold) e.state).2) m ∧
        r = ([], ⟨(executor (thresholdOneCall ops)
              (stateAfter executor cannyPart2Call (m + 1)
                (executor (cannyPart1Call derSigma loThreshold hiThreshold) e.state).2)).2,
            e.dispatched ++ [cannyPart1Call derSigma loThreshold hiThreshold]
              ++ List.replicate (m + 1) cannyPart2Call ++ [thresholdOneCall ops]⟩)) := by
  constructor
  · intro m hs fuel hf
    rw [canny_eq_stages]
    have h := stages_eq executor parseTotalCount
      (cannyPart1Call derSigma loThreshold hiThreshold) cannyPart2Call (thresholdOneCall ops)
      "pixels changed" e m fuel hs hf
    unfold cannyPart1Call cannyPart2Call thresholdOneCall at h
    rw [h]
    rfl
  · intro fuel r hr
    rw [canny_eq_stages] at hr
    cases hd : (dispatchWhileChanged executor parseTotalCount
        ⟨CommandName.cannyPart2, [ParamVariant.image]⟩ "pixels changed" fuel
        (distribute executor ⟨CommandName.cannyPart1,
          [ParamVariant.image, ParamVariant.real derSigma, ParamVariant.real loThreshold,
            ParamVariant.real hiThreshold]⟩ e).2).map
        (fun e2 => (distribute executor ⟨CommandName.thresholdConstant,
          [ParamVariant.image, ParamVariant.real (ops.ofInt 1)]⟩ e2).2) with
    | none => rw [hd] at hr; cases hr
    | some e3 =>
      rw [hd] at hr
      obtain ⟨m, hs, he⟩ := stages_some executor parseTotalCount _ _ _ _ e e3 fuel hd
      simp only [Option.map_some', Option.some.injEq] at hr
      exact ⟨m, hs, by rw [← hr, he]; rfl⟩

theorem canny_stages_witness :
    CannyCommand.runDistributed sampleOps sampleExecutor sampleCount 3 2 5 9 ⟨3, []⟩
      = some ([], ⟨(sampleExecutor (thresholdOneCall sampleOps)
            (stateAfter sampleExecutor cannyPart2Call 3
              (sampleExecutor (cannyPart1Call 2 5 9) 3).2)).2,
          [] ++ [cannyPart1Call 2 5 9] ++ List.replicate 3 cannyPart2Call
            ++ [thresholdOneCall sampleOps]⟩) :=
  (canny_stages sampleOps sampleExecutor sampleCount 2 5 9 ⟨3, []⟩).1 2
    (by unfold StopsAt; decide) 3 (by decide)

/-- C19: `DualThresholdCommand::runDistributed` dispatches the double threshold
once with `(image, lower, upper)`, then `grow` with
`(image, 2.0, 1.0, NearestNeighbours)` under the convergence loop of `grow`,
that is `m + 1` times where dispatch `m + 1` is the first to report a count that
is not positive, then the constant threshold with `1.0` once, each on the state
the one before left, and returns the empty list; whenever it returns it has done
so. -/
theorem dual_threshold_stages {S D : Type} (ops : DoubleOps D) (executor : JobExecutor S D)
    (parseTotalCount : List String → String → Int) (loThreshold hiThreshold : D)
    (e : Exec S D) :
    (∀ m : Nat,
      StopsAt (reportedCount executor parseTotalCount (growTwoToOneCall ops) "pixels changed."
        (executor (doubleThresholdCall loThreshold hiThreshold) e.state).2) m →
      ∀ fuel : Nat, m + 1 ≤ fuel →
        DualThresholdCommand.runDistributed ops executor parseTotalCount fuel loThreshold
            hiThreshold e
          = some ([], ⟨(executor (thresholdOneCall ops)
                (stateAfter executor (growTwoToOneCall ops) (m + 1)
                  (executor (doubleThresholdCall loThreshold hiThreshold) e.state).2)).2,
              e.dispatched ++ [doubleThresholdCall loThreshold hiThreshold]
                ++ List.replicate (m + 1) (growTwoToOneCall ops) ++ [thresholdOneCall ops]⟩) ∧
        GrowCommand.runDistributed executor parseTotalCount fuel (growTwoToOneCall ops).args
            (distribute executor (doubleThresholdCall loThreshold hiThreshold) e).2
          = some ([], ⟨stateAfter executor (growTwoToOneCall ops) (m + 1)
                (executor (doubleThresholdCall loThreshold hiThreshold) e.state).2,
              e.dispatched ++ [doubleThresholdCall loThreshold hiThreshold]
                ++ List.replicate (m + 1) (growTwoToOneCall ops)⟩)) ∧
    (∀ (fuel : Nat) (r : List String × Exec S D),
      DualThresholdCommand.runDistributed ops executor parseTotalCount fuel loThreshold
          hiThreshold e = some r →
      ∃ m : Nat,
        StopsAt (reportedCount executor parseTotalCount (growTwoToOneCall ops)
          "pixels changed."
          (executor (doubleThresholdCall loThreshold hiThreshold) e.state).2) m ∧
        r = ([], ⟨(executor (thresholdOneCall ops)
              (stateAfter executor (growTwoToOneCall ops) (m + 1)
                (executor (doubleThresholdCall loThreshold hiThreshold) e.state).2)).2,
            e.dispatched ++ [doubleThresholdCall loThreshold hiThreshold]
              ++ List.replicate (m + 1) (growTwoToOneCall ops) ++ [thresholdOneCall ops]⟩)) := by
  constructor
  · intro m hs fuel hf
    constructor
    · rw [dualThreshold_eq_stages]
      have h := stages_eq executor parseTotalCount
        (doubleThresholdCall loThreshold hiThreshold) (growTwoToOneCall ops)
        (thresholdOneCall ops) "pixels changed." e m fuel hs hf
      unfold doubleThresholdCall growTwoToOneCall thresholdOneCall at h
      rw [h]
      rfl
    · unfold GrowCommand.runDistributed
      have h := dispatchWhileChanged_eq executor parseTotalCount (growTwoToOneCall ops)
        "pixels changed." m (distribute executor (doubleThresholdCall loThreshold hiThreshold) e).2
        fuel hs.1 hs.2 hf
      change dispatchWhileChanged executor parseTotalCount (growTwoToOneCall ops)
        "pixels changed." fuel _ = _ at h
      simp only [growTwoToOneCall] at h ⊢
      rw [h]
      rfl
  · intro fuel r hr
    rw [dualThreshold_eq_stages] at hr
    cases hd : (dispatchWhileChanged executor parseTotalCount
        ⟨CommandName.grow, [ParamVariant.image, ParamVariant.real (ops.ofInt 2),
          ParamVariant.real (ops.ofInt 1),
          ParamVariant.connectivity Connectivity.NearestNeighbours]⟩ "pixels changed." fuel
        (distribute executor ⟨CommandName.doubleThreshold,
          [ParamVariant.image, ParamVariant.real loThreshold,
            ParamVariant.real hiThreshold]⟩ e).2).map
        (fun e2 => (distribute executor ⟨CommandName.thresholdConstant,
          [ParamVariant.image, ParamVariant.real (ops.ofInt 1)]⟩ e2).2) with
    | none => rw [hd] at hr; cases hr
    | some e3 =>
      rw [hd] at hr
      obtain ⟨m, hs, he⟩ := stages_some executor parseTotalCount _ _ _ _ e e3 fuel hd
      simp only [Option.map_some', Option.some.injEq] at hr
      exact ⟨m, hs, by rw [← hr, he]; rfl⟩

theorem dual_threshold_stages_witness :
    DualThresholdCommand.runDistributed sampleOps sampleExecutor sampleCount 3 5 9 ⟨3, []⟩
      = some ([], ⟨(sampleExecutor (thresholdOneCall sampleOps)
            (stateAfter sampleExecutor (growTwoToOneCall sampleOps) 3
              (sampleExecutor (doubleThresholdCall 5 9) 3).2)).2,
          [] ++ [doubleThresholdCall 5 9] ++ List.replicate 3 (growTwoToOneCall sampleOps)
            ++ [thresholdOneCall sampleOps]⟩) :=
  ((dual_threshold_stages sampleOps sampleExecutor sampleCount 5 9 ⟨3, []⟩).1 2
    (by unfold StopsAt; decide) 3 (by decide)).1

/-- C20: `CannyPart1Command::calculateOverlap` returns `(m, m, m)` with
`m = round(3 * sigma) + 4` for every argument list whose second entry is the
double `sigma`, which is `(7, 7, 7)` for `sigma = 1` when `3 * 1` is `3` and
rounds to 3; `CannyPart2Command::calculateOverlap`, `GrowCommand::getMargin`
and `GrowLabelsCommand::getMargin` return `(3, 3, 3)` for every argument
list. -/
theorem margins {D : Type} (ops : DoubleOps D) :
    (∀ (args : List (ParamVariant D)) (sigma : D),
      args[1]? = some (ParamVariant.real sigma) →
      CannyPart1Command.calculateOverlap ops args
        = some ⟨ops.round (ops.mul (ops.ofInt 3) sigma) + 4,
            ops.round (ops.mul (ops.ofInt 3) sigma) + 4,
            ops.round (ops.mul (ops.ofInt 3) sigma) + 4⟩) ∧
    (ops.mul (ops.ofInt 3) (ops.ofInt 1) = ops.ofInt 3 → ops.round (ops.ofInt 3) = 3 →
      ∀ args : List (ParamVariant D), args[1]? = some (ParamVariant.real (ops.ofInt 1)) →
        CannyPart1Command.calculateOverlap ops args = some ⟨7, 7, 7⟩) ∧
    (∀ args : List (ParamVariant D),
      CannyPart2Command.calculateOverlap args = ⟨3, 3, 3⟩ ∧
      GrowCommand.getMargin args = ⟨3, 3, 3⟩ ∧
      GrowLabelsCommand.getMargin args = ⟨3, 3, 3⟩) := by
  refine ⟨?_, ?_, ?_⟩
  · intro args sigma h
    unfold CannyPart1Command.calculateOverlap
    rw [h]
  · intro h1 h2 args h
    unfold CannyPart1Command.calculateOverlap
    rw [h]
    simp only [h1, h2]
    rfl
  · intro args
    exact ⟨rfl, rfl, rfl⟩

theorem margins_witness :
    CannyPart1Command.calculateOverlap sampleOps
        [ParamVariant.image, ParamVariant.real 1, ParamVariant.real 5, ParamVariant.real 9]
      = some ⟨7, 7, 7⟩ :=
  (margins sampleOps).2.1 (by decide) (by decide) _ rfl

/-! ## The distributed flood fill against the flood fill that is not distributed -/

theorem mem_neighbours (c : Connectivity) (p q : Vec3c) :
    q ∈ neighbours c p ↔ adjacent c p q = true := by
  unfold neighbours
  rw [List.mem_filter]
  constructor
  · exact fun h => h.2
  · intro h
    refine ⟨?_, h⟩
    have hb : p.x - 1 ≤ q.x ∧ q.x ≤ p.x + 1 ∧ p.y - 1 ≤ q.y ∧ q.y ≤ p.y + 1 ∧
        p.z - 1 ≤ q.z ∧ q.z ≤ p.z + 1 := by
      cases c with
      | NearestNeighbours =>
        simp only [adjacent, decide_eq_true_eq] at h
        omega
      | AllNeighbours =>
        simp only [adjacent, decide_eq_true_eq] at h
        omega
      | Unsupported => simp [adjacent] at h
    simp only [List.mem_flatMap, List.mem_map, List.mem_cons, List.mem_singleton,
      List.not_mem_nil, or_false]
    refine ⟨q.z - p.z, by omega, q.y - p.y, by omega, q.x - p.x, by omega, ?_⟩
    cases q
    simp only [Vec3c.mk.injEq]
    omega

theorem mem_box {P : Type} (img : Image P) (p : Vec3c) :
    p ∈ img.box ↔ img.inside p = true := by
  unfold Image.box Image.inside
  simp only [Finset.mem_image, Finset.mem_product, Finset.mem_range, decide_eq_true_eq,
    Prod.exists]
  constructor
  · rintro ⟨a, b, c, ⟨ha, hb, hc⟩, rfl⟩
    simp only
    omega
  · intro h
    refine ⟨p.x.toNat, p.y.toNat, p.z.toNat, ⟨by omega, by omega, by omega⟩, ?_⟩
    cases p
    simp only [Vec3c.mk.injEq]
    simp only at h
    omega

theorem card_box_le {P : Type} (img : Image P) :
    img.box.card ≤ img.width * img.height * img.depth := by
  unfold Image.box
  refine le_trans Finset.card_image_le ?_
  simp only [Finset.card_product, Finset.card_range]
  rw [Nat.mul_assoc]

section reference

variable {P : Type} [DecidableEq P] (img : Image P) (seeds : List Vec3c) (origColor : P)
  (c : Connectivity)

theorem reachedWithin_succ (k : Nat) (p : Vec3c) :
    reachedWithin img seeds origColor c (k + 1) p
      = (reachedWithin img seeds origColor c k p ||
        (img.inside p && decide (img.pix p.x p.y p.z = origColor) &&
          (neighbours c p).any (fun q => reachedWithin img seeds origColor c k q))) := rfl

theorem reachedWithin_mono_succ (k : Nat) (p : Vec3c)
    (h : reachedWithin img seeds origColor c k p = true) :
    reachedWithin img seeds origColor c (k + 1) p = true := by
  rw [reachedWithin_succ, h]
  rfl

theorem reachedWithin_mono (k m : Nat) (hkm : k ≤ m) (p : Vec3c)
    (h : reachedWithin img seeds origColor c k p = true) :
    reachedWithin img seeds origColor c m p = true := by
  induction m with
  | zero =>
    have : k = 0 := by omega
    rw [this] at h
    exact h
  | succ m ih =>
    by_cases hk : k ≤ m
    · exact reachedWithin_mono_succ img seeds origColor c m p (ih hk)
    · have : k = m + 1 := by omega
      rw [this] at h
      exact h

theorem reachedWithin_inside (k : Nat) (p : Vec3c)
    (h : reachedWithin img seeds origColor c k p = true) :
    img.inside p = true ∧ img.pix p.x p.y p.z = origColor := by
  induction k with
  | zero =>
    simp only [reachedWithin, Bool.and_eq_true, decide_eq_true_eq] at h
    exact ⟨h.1.1, h.1.2⟩
  | succ k ih =>
    rw [reachedWithin_succ] at h
    simp only [Bool.or_eq_true, Bool.and_eq_true, decide_eq_true_eq] at h
    rcases h with h | h
    · exact ih h
    · exact ⟨h.1.1, h.1.2⟩

theorem reachedWithin_sound (k : Nat) : ∀ p : Vec3c,
    reachedWithin img seeds origColor c k p = true → Reach img seeds origColor c p := by
  induction k with
  | zero =>
    intro p h
    simp only [reachedWithin, Bool.and_eq_true, decide_eq_true_eq] at h
    exact Reach.seed p h.2 h.1.1 h.1.2
  | succ k ih =>
    intro p h
    rw [reachedWithin_succ] at h
    simp only [Bool.or_eq_true, Bool.and_eq_true, decide_eq_true_eq, List.any_eq_true] at h
    rcases h with h | ⟨⟨h1, h2⟩, q, hq, hr⟩
    · exact ih p h
    · have hadj : adjacent c q p = true := by
        have h3 := (mem_neighbours c p q).1 hq
        cases c with
        | NearestNeighbours =>
          simp only [adjacent, decide_eq_true_eq] at h3 ⊢
          omega
        | AllNeighbours =>
          simp only [adjacent, decide_eq_true_eq] at h3 ⊢
          omega
        | Unsupported => simp [adjacent] at h3
      exact Reach.step q p (ih q hr) hadj h1 h2

theorem adjacent_symm (p q : Vec3c) (h : adjacent c p q = true) : adjacent c q p = true := by
  cases c with
  | NearestNeighbours =>
    simp only [adjacent, decide_eq_true_eq] at h ⊢
    omega
  | AllNeighbours =>
    simp only [adjacent, decide_eq_true_eq] at h ⊢
    omega
  | Unsupported => simp [adjacent] at h

theorem reachedWithin_complete (p : Vec3c) (h : Reach img seeds origColor c p) :
    ∃ k : Nat, reachedWithin img seeds origColor c k p = true := by
  induction h with
  | seed p hs hi hc =>
    refine ⟨0, ?_⟩
    simp only [reachedWithin, Bool.and_eq_true, decide_eq_true_eq]
    exact ⟨⟨hi, hc⟩, hs⟩
  | step p q _ hadj hi hc ih =>
    obtain ⟨k, hk⟩ := ih
    refine ⟨k + 1, ?_⟩
    rw [reachedWithin_succ]
    simp only [Bool.or_eq_true, Bool.and_eq_true, decide_eq_true_eq, List.any_eq_true]
    right
    exact ⟨⟨hi, hc⟩, p, (mem_neighbours c q p).2 (adjacent_symm c p q hadj), hk⟩

theorem reachedWithin_stable_succ (k : Nat)
    (h : ∀ p, reachedWithin img seeds origColor c (k + 1) p
      = reachedWithin img seeds origColor c k p) :
    ∀ p, reachedWithin img seeds origColor c (k + 2) p
      = reachedWithin img seeds origColor c (k + 1) p := by
  intro p
  have : (fun q => reachedWithin img seeds origColor c (k + 1) q)
      = (fun q => reachedWithin img seeds origColor c k q) := funext h
  rw [reachedWithin_succ img seeds origColor c (k + 1), this, h p]
  exact (reachedWithin_succ img seeds origColor c k p).symm.trans (h p)

theorem reachedWithin_stable (k : Nat)
    (h : ∀ p, reachedWithin img seeds origColor c (k + 1) p
      = reachedWithin img seeds origColor c k p) (m : Nat) :
    ∀ p, reachedWithin img seeds origColor c (k + m) p
      = reachedWithin img seeds origColor c k p := by
  induction m with
  | zero => intro p; rfl
  | succ m ih =>
    have hs : ∀ j : Nat, (∀ p, reachedWithin img seeds origColor c (k + j + 1) p
        = reachedWithin img seeds origColor c (k + j) p) := by
      intro j
      induction j with
      | zero => exact h
      | succ j ihj => exact reachedWithin_stable_succ img seeds origColor c (k + j) ihj
    intro p
    rw [← ih p]
    exact hs m p

theorem reachedWithin_grows (k : Nat) :
    (∃ j : Nat, j < k ∧ ∀ p, reachedWithin img seeds origColor c (j + 1) p
      = reachedWithin img seeds origColor c j p) ∨
    k ≤ (img.box.filter (fun p => reachedWithin img seeds origColor c k p = true)).card := by
  induction k with
  | zero => right; exact Nat.zero_le _
  | succ k ih =>
    rcases ih with ⟨j, hj, hst⟩ | hcard
    · exact Or.inl ⟨j, by omega, hst⟩
    · by_cases hst : ∀ p, reachedWithin img seeds origColor c (k + 1) p
          = reachedWithin img seeds origColor c k p
      · exact Or.inl ⟨k, by omega, hst⟩
      · right
        simp only [not_forall] at hst
        obtain ⟨p, hp⟩ := hst
        have hk : reachedWithin img seeds origColor c k p = false := by
          cases hv : reachedWithin img seeds origColor c k p with
          | false => rfl
          | true =>
            exact absurd (by rw [reachedWithin_mono_succ img seeds origColor c k p hv, hv]) hp
        have hk1 : reachedWithin img seeds origColor c (k + 1) p = true := by
          cases hv : reachedWithin img seeds origColor c (k + 1) p with
          | true => rfl
          | false => exact absurd (by rw [hv, hk]) hp
        have hsub : img.box.filter (fun p => reachedWithin img seeds origColor c k p = true)
            ⊂ img.box.filter (fun p => reachedWithin img seeds origColor c (k + 1) p = true) := by
          rw [Finset.ssubset_iff_of_subset]
          · refine ⟨p, ?_, ?_⟩
            · rw [Finset.mem_filter]
              exact ⟨(mem_box img p).2
                (reachedWithin_inside img seeds origColor c (k + 1) p hk1).1, hk1⟩
            · rw [Finset.mem_filter, hk]
              simp
          · intro q hq
            rw [Finset.mem_filter] at hq ⊢
            exact ⟨hq.1, reachedWithin_mono_succ img seeds origColor c k q hq.2⟩
        have := Finset.card_lt_card hsub
        omega

theorem reachedWithin_bound (k : Nat) (p : Vec3c)
    (h : reachedWithin img seeds origColor c k p = true) :
    reachedWithin img seeds origColor c (img.width * img.height * img.depth) p = true := by
  rcases reachedWithin_grows img seeds origColor c (img.width * img.height * img.depth + 1) with
    ⟨j, hj, hst⟩ | hcard
  · by_cases hk : k ≤ j
    · exact reachedWithin_mono img seeds origColor c j _ (by omega) p
        (reachedWithin_mono img seeds origColor c k j hk p h)
    · have h1 := reachedWithin_stable img seeds origColor c j hst (k - j) p
      have h2 : j + (k - j) = k := by omega
      rw [h2, h] at h1
      exact reachedWithin_mono img seeds origColor c j _ (by omega) p h1.symm
  · have h1 := Finset.card_filter_le img.box
      (fun p => reachedWithin img seeds origColor c
        (img.width * img.height * img.depth + 1) p = true)
    have h2 := card_box_le img
    omega

theorem reachedWithin_iff_reach (p : Vec3c) :
    reachedWithin img seeds origColor c (img.width * img.height * img.depth) p = true
      ↔ Reach img seeds origColor c p := by
  constructor
  · exact reachedWithin_sound img seeds origColor c _ p
  · intro h
    obtain ⟨k, hk⟩ := reachedWithin_complete img seeds origColor c p h
    exact reachedWithin_bound img seeds origColor c k p hk

end reference

theorem Reach.inside_orig {Q : Type} (img : Image Q) (seeds : List Vec3c) (origColor : Q)
    (c : Connectivity) (p : Vec3c) (h : Reach img seeds origColor c p) :
    img.inside p = true ∧ img.pix p.x p.y p.z = origColor := by
  cases h with
  | seed _ _ hi hc => exact ⟨hi, hc⟩
  | step _ _ _ _ hi hc => exact ⟨hi, hc⟩

theorem toInt32_val_of_range (v : Int) (h1 : -2147483648 ≤ v) (h2 : v < 2147483648) :
    (toInt32 v).val = v := by
  rw [toInt32_val_eq]
  exact wrap32_of_range v h1 h2

theorem fileRecords_flatMap_writePoint (list : List Vec3sc) :
    fileRecords (list.flatMap FloodFillBlockCommand.writePoint)
      = list.map (fun p => (p.x, p.y)) := by
  unfold fileRecords
  rw [FloodFillBlockCommand.readRecords_flatMap_writePoint (toInt32 0) list _
    (by rw [FloodFillBlockCommand.length_flatMap_writePoint]; omega)]
  rw [List.map_map]
  rfl

theorem mem_seedsAddressedTo (fs : FileSystem) (pre : String) (k : Int) (b : int32_t)
    (s : Vec3sc) :
    s ∈ seedsAddressedTo fs pre k b ↔
      ∃ body, fileBody fs ⟨pre, k⟩ = some body ∧
        ∃ r ∈ fileRecords body, s = ⟨r.1, r.2, toInt32 k - b⟩ := by
  unfold seedsAddressedTo
  cases h : fileBody fs ⟨pre, k⟩ with
  | none => simp
  | some body =>
    simp only [List.mem_map, Option.some.injEq, exists_eq_left']
    constructor
    · rintro ⟨r, hr, rfl⟩
      exact ⟨r, hr, rfl⟩
    · rintro ⟨r, hr, rfl⟩
      exact ⟨r, hr, rfl⟩

theorem mem_seedsAddressedTo_toVec3c (fs : FileSystem) (pre : String) (k o : Int)
    (hk0 : 0 ≤ k) (hk1 : k < 2147483648) (ho0 : 0 ≤ o) (ho1 : o < 2147483648) (p : Vec3c) :
    p ∈ (seedsAddressedTo fs pre k (toInt32 o)).map Vec3sc.toVec3c ↔
      Pending fs pre ⟨p.x, p.y, k⟩ ∧ p.z = k - o := by
  have hz : (toInt32 k - toInt32 o).val = k - o := by
    rw [int32_sub_def, toInt32_val_of_range k (by omega) hk1,
      toInt32_val_of_range o (by omega) ho1, toInt32_val_of_range _ (by omega) (by omega)]
  simp only [List.mem_map, mem_seedsAddressedTo, Pending]
  constructor
  · rintro ⟨s, ⟨body, hb, r, hr, rfl⟩, rfl⟩
    exact ⟨⟨body, hb, r, hr, rfl, rfl⟩, hz⟩
  · rintro ⟨⟨body, hb, r, hr, hx, hy⟩, hpz⟩
    refine ⟨⟨r.1, r.2, toInt32 k - toInt32 o⟩, ⟨body, hb, r, hr, rfl⟩, ?_⟩
    cases p
    simp only [Vec3sc.toVec3c, Vec3c.mk.injEq]
    simp only at hx hy hpz
    exact ⟨hx, hy, by rw [hz, hpz]⟩

theorem mem_planePixels (w h : Nat) (q : Nat × Nat) :
    q ∈ planePixels w h ↔ q.1 < w ∧ q.2 < h := by
  unfold planePixels
  simp only [List.mem_flatMap, List.mem_range, List.mem_map]
  constructor
  · rintro ⟨y, hy, x, hx, rfl⟩
    exact ⟨hx, hy⟩
  · rintro ⟨hx, hy⟩
    exact ⟨q.2, hy, q.1, hx, rfl⟩

theorem mem_footprint_iff (c : Connectivity) (px py : Int) (nz : int32_t) (x y : Int)
    (hx0 : 0 ≤ px) (hx1 : px < 2147483647) (hy0 : 0 ≤ py) (hy1 : py < 2147483647) :
    (∃ s ∈ footprint c ⟨toInt32 px, toInt32 py, nz⟩, s.x.val = x ∧ s.y.val = y)
      ↔ FootXY c px py x y := by
  have hpx : (toInt32 px).val = px := toInt32_val_of_range px (by omega) (by omega)
  have hpy : (toInt32 py).val = py := toInt32_val_of_range py (by omega) (by omega)
  have hadd : ∀ (a d : Int), 0 ≤ a → a < 2147483647 → -1 ≤ d → d ≤ 1 →
      (toInt32 a + toInt32 d).val = a + d := by
    intro a d ha0 ha1 hd0 hd1
    rw [int32_add_def, toInt32_val_of_range a (by omega) (by omega),
      toInt32_val_of_range d (by omega) (by omega),
      toInt32_val_of_range _ (by omega) (by omega)]
  cases c with
  | NearestNeighbours =>
    simp only [footprint, List.mem_singleton, exists_eq_left, FootXY, hpx, hpy]
    constructor
    · rintro ⟨rfl, rfl⟩
      exact ⟨rfl, rfl⟩
    · rintro ⟨rfl, rfl⟩
      exact ⟨rfl, rfl⟩
  | AllNeighbours =>
    simp only [footprint, List.mem_flatMap, List.mem_map, List.mem_cons, List.mem_singleton,
      List.not_mem_nil, or_false, FootXY]
    constructor
    · rintro ⟨s, ⟨dy, hdy, dx, hdx, rfl⟩, rfl, rfl⟩
      simp only
      rw [hadd px dx hx0 hx1 (by omega) (by omega), hadd py dy hy0 hy1 (by omega) (by omega)]
      omega
    · rintro ⟨h1, h2, h3, h4⟩
      refine ⟨⟨toInt32 px + toInt32 (x - px), toInt32 py + toInt32 (y - py), nz⟩,
        ⟨y - py, by omega, x - px, by omega, rfl⟩, ?_, ?_⟩
      · simp only
        rw [hadd px (x - px) hx0 hx1 (by omega) (by omega)]
        omega
      · simp only
        rw [hadd py (y - py) hy0 hy1 (by omega) (by omega)]
        omega
  | Unsupported =>
    simp [footprint, FootXY]

theorem mem_expectedNewSeeds {P : Type} [PixelType P] [ExactPixel P] (c : Connectivity) (origSize : Vec3c)
    (before after : Image P) (z : Int) (newZ : int32_t) (s : Vec3sc) :
    s ∈ expectedNewSeeds c origSize before after z newZ ↔
      (0 ≤ newZ.val ∧ newZ.val < origSize.z) ∧
      ∃ px py : Nat, px < before.width ∧ py < before.height ∧
        before.pix (px : Int) (py : Int) z ≠ after.pix (px : Int) (py : Int) z ∧
        s ∈ footprint c ⟨toInt32 (px : Int), toInt32 (py : Int), newZ⟩ := by
  unfold expectedNewSeeds
  by_cases h : 0 ≤ newZ.val ∧ newZ.val < origSize.z
  · rw [if_pos h]
    simp only [List.mem_flatMap, unequalPixels, List.mem_filter, mem_planePixels,
      pixel_ne_iff, Prod.exists, h, true_and, and_self]
    constructor
    · rintro ⟨px, py, ⟨⟨h1, h2⟩, h3⟩, h4⟩
      exact ⟨px, py, h1, h2, h3, h4⟩
    · rintro ⟨px, py, h1, h2, h3, h4⟩
      exact ⟨px, py, ⟨⟨h1, h2⟩, h3⟩, h4⟩
  · rw [if_neg h]
    simp [h]

/-- The seeds recorded by a list of new seeds derived from a boundary plane. -/
theorem pending_expectedNewSeeds {P : Type} [PixelType P] [ExactPixel P] (c : Connectivity)
    (origSize : Vec3c) (before after : Image P) (z : Int) (newZ : int32_t) (x y : Int)
    (hw : (before.width : Int) < 2147483648) (hh : (before.height : Int) < 2147483648) :
    (∃ r ∈ (expectedNewSeeds c origSize before after z newZ).map (fun p => (p.x, p.y)),
        r.1.val = x ∧ r.2.val = y) ↔
      (0 ≤ newZ.val ∧ newZ.val < origSize.z) ∧
      ∃ px py : Nat, px < before.width ∧ py < before.height ∧
        before.pix (px : Int) (py : Int) z ≠ after.pix (px : Int) (py : Int) z ∧
        FootXY c (px : Int) (py : Int) x y := by
  constructor
  · rintro ⟨r, hr, hx, hy⟩
    rw [List.mem_map] at hr
    obtain ⟨s, hs, rfl⟩ := hr
    rw [mem_expectedNewSeeds] at hs
    obtain ⟨hz, px, py, h1, h2, h3, h4⟩ := hs
    refine ⟨hz, px, py, h1, h2, h3, ?_⟩
    exact (mem_footprint_iff c px py newZ x y (by omega) (by omega) (by omega) (by omega)).1
      ⟨s, h4, hx, hy⟩
  · rintro ⟨hz, px, py, h1, h2, h3, h4⟩
    obtain ⟨s, hs, hx, hy⟩ :=
      (mem_footprint_iff c px py newZ x y (by omega) (by omega) (by omega) (by omega)).2 h4
    refine ⟨(s.x, s.y), ?_, hx, hy⟩
    rw [List.mem_map]
    exact ⟨s, (mem_expectedNewSeeds c origSize before after z newZ s).2
      ⟨hz, px, py, h1, h2, h3, hs⟩, rfl⟩

theorem referenceFloodFill_of_reach {P : Type} [DecidableEq P] (img : Image P)
    (seeds : List Vec3sc) (origColor fillColor stopColor : P) (c : Connectivity) (p : Vec3c)
    (h : Reach img (seeds.map Vec3sc.toVec3c) origColor c p) :
    referenceFloodFill img seeds origColor fillColor stopColor c p.x p.y p.z = fillColor := by
  unfold referenceFloodFill
  rw [if_pos ((reachedWithin_iff_reach img _ origColor c p).2 h)]

theorem referenceFloodFill_of_not_reach {P : Type} [DecidableEq P] (img : Image P)
    (seeds : List Vec3sc) (origColor fillColor stopColor : P) (c : Connectivity) (p : Vec3c)
    (h : ¬ Reach img (seeds.map Vec3sc.toVec3c) origColor c p) :
    referenceFloodFill img seeds origColor fillColor stopColor c p.x p.y p.z
      = img.pix p.x p.y p.z := by
  unfold referenceFloodFill
  rw [if_neg (fun hr => h ((reachedWithin_iff_reach img _ origColor c p).1 hr))]

theorem Reach.exists_seed {Q : Type} (img : Image Q) (seeds : List Vec3c) (origColor : Q)
    (c : Connectivity) (p : Vec3c) (h : Reach img seeds origColor c p) :
    ∃ s ∈ seeds, img.inside s = true ∧ img.pix s.x s.y s.z = origColor := by
  induction h with
  | seed p hs hi hc => exact ⟨p, hs, hi, hc⟩
  | step _ _ _ _ _ _ ih => exact ih

section blockjob

variable {P : Type} [PixelType P]

theorem blockStartZ_atOrigin {P : Type} (w : World P) (args : BlockArgs P) (o : Int) (d : Nat)
    (hs : BlockSetup w args o d) :
    FloodFillBlockCommand.blockStartZ (args.atOrigin o) = toInt32 o ∧ (toInt32 o).val = o :=
  ⟨rfl, toInt32_val_of_range o (by have := hs.ho; omega)
    (by have := hs.hod; have := hs.hz1; omega)⟩

theorem blockEndZ_atOrigin {P : Type} (w : World P) (args : BlockArgs P) (o : Int) (d : Nat)
    (hs : BlockSetup w args o d) :
    FloodFillBlockCommand.blockEndZ (readBlock w.1 o d) (args.atOrigin o)
        = toInt32 (o + (d : Int) - 1) ∧
      (toInt32 (o + (d : Int) - 1)).val = o + (d : Int) - 1 := by
  have h1 := (blockStartZ_atOrigin w args o d hs).2
  refine ⟨?_, toInt32_val_of_range _ (by have := hs.ho; omega)
    (by have := hs.hod; have := hs.hz1; omega)⟩
  unfold FloodFillBlockCommand.blockEndZ
  rw [(blockStartZ_atOrigin w args o d hs).1, h1]
  rfl

theorem inside_readBlock {P : Type} (w : World P) (args : BlockArgs P) (o : Int) (d : Nat)
    (hs : BlockSetup w args o d) (pl : Vec3c) :
    (readBlock w.1 o d).inside pl = true ↔ InBlock w o d ⟨pl.x, pl.y, pl.z + o⟩ := by
  have := hs.hx0
  have := hs.hy0
  unfold Image.inside readBlock InBlock
  simp only [decide_eq_true_eq]
  omega

theorem mem_kernelSeeds {P : Type}
    (w : World P) (args : BlockArgs P) (o : Int) (d : Nat)
    (hs : BlockSetup w args o d) (pl : Vec3c) :
    pl ∈ (FloodFillBlockCommand.kernelSeeds w.2 (readBlock w.1 o d) (args.atOrigin o)).map
        Vec3sc.toVec3c ↔
      Pending w.2 args.seedsSourcePrefix ⟨pl.x, pl.y, pl.z + o⟩ ∧
        (pl.z = 0 ∨ pl.z + o = args.startPoint.z ∨ pl.z = (d : Int) - 1) := by
  have ho := hs.ho
  have hod := hs.hod
  have hz1 := hs.hz1
  have hd := hs.hd
  have hsp0 := hs.hsp0
  have hsp1 := hs.hsp1
  rw [FloodFillBlockCommand.kernelSeeds_eq, (blockEndZ_atOrigin w args o d hs).1,
    (blockEndZ_atOrigin w args o d hs).2, (blockStartZ_atOrigin w args o d hs).1,
    (blockStartZ_atOrigin w args o d hs).2]
  simp only [List.map_append, List.mem_append, BlockArgs.atOrigin]
  rw [mem_seedsAddressedTo_toVec3c _ _ o o ho (by omega) ho (by omega),
    mem_seedsAddressedTo_toVec3c _ _ (o + (d : Int) - 1) o (by omega) (by omega) ho (by omega),
    mem_seedsAddressedTo_toVec3c _ _ args.startPoint.z o hsp0 (by omega) ho (by omega)]
  change ((Pending w.2 args.seedsSourcePrefix ⟨pl.x, pl.y, o⟩ ∧ pl.z = o - o) ∨
    (Pending w.2 args.seedsSourcePrefix ⟨pl.x, pl.y, args.startPoint.z⟩ ∧
      pl.z = args.startPoint.z - o)) ∨
    (Pending w.2 args.seedsSourcePrefix ⟨pl.x, pl.y, o + (d : Int) - 1⟩ ∧
      pl.z = o + (d : Int) - 1 - o) ↔ _
  constructor
  · rintro ((⟨h1, h2⟩ | ⟨h1, h2⟩) | ⟨h1, h2⟩)
    · have e : pl.z + o = o := by omega
      rw [e]
      exact ⟨h1, Or.inl (by omega)⟩
    · have e : pl.z + o = args.startPoint.z := by omega
      rw [e]
      exact ⟨h1, Or.inr (Or.inl rfl)⟩
    · have e : pl.z + o = o + (d : Int) - 1 := by omega
      rw [e]
      exact ⟨h1, Or.inr (Or.inr (by omega))⟩
  · rintro ⟨h1, h2 | h2 | h2⟩
    · have e : pl.z + o = o := by omega
      rw [e] at h1
      exact Or.inl (Or.inl ⟨h1, by omega⟩)
    · rw [h2] at h1
      exact Or.inl (Or.inr ⟨h1, by omega⟩)
    · have e : pl.z + o = o + (d : Int) - 1 := by omega
      rw [e] at h1
      exact Or.inr ⟨h1, by omega⟩

theorem blockReach_inBlock {P : Type} (w : World P) (args : BlockArgs P) (o : Int) (d : Nat)
    (hs : BlockSetup w args o d) (p : Vec3c) (h : BlockReach w args o d p) :
    InBlock w o d p ∧ w.1.pix p.x p.y p.z = args.origColor := by
  have h1 := Reach.inside_orig _ _ _ _ _ h
  have h2 := (inside_readBlock w args o d hs _).1 h1.1
  have e : p.z - o + o = p.z := by omega
  simp only [e] at h2
  refine ⟨h2, ?_⟩
  have h3 := h1.2
  simp only [readBlock, e] at h3
  exact h3

theorem pending_fileExists (fs : FileSystem) (pre : String) (q : Vec3c)
    (h : Pending fs pre q) : fileExists fs ⟨pre, q.z⟩ = true := by
  obtain ⟨body, hb, _⟩ := h
  rw [fileExists_eq_isSome, hb]
  rfl

/-- When `needsToRunBlock` is false the job would reach nothing. -/
theorem not_blockReach_of_skip {P : Type}
    (w : World P) (args : BlockArgs P) (o : Int) (d : Nat)
    (hs : BlockSetup w args o d)
    (hskip : FloodFillBlockCommand.needsToRunBlock w.2 args.seedsSourcePrefix args.startPoint
      ⟨0, 0, o⟩ ⟨w.1.dimensions.x, w.1.dimensions.y, (d : Int)⟩ = false)
    (pl : Vec3c) :
    ¬ Reach (readBlock w.1 o d)
      ((FloodFillBlockCommand.kernelSeeds w.2 (readBlock w.1 o d) (args.atOrigin o)).map
        Vec3sc.toVec3c) args.origColor args.connectivity pl := by
  intro h
  obtain ⟨s, hs1, hs2, _⟩ := Reach.exists_seed _ _ _ _ _ h
  rw [mem_kernelSeeds w args o d hs] at hs1
  have hin := (inside_readBlock w args o d hs s).1 hs2
  rw [FloodFillBlockCommand.needsToRunBlock_eq_false] at hskip
  have e1 := (blockStartZ_atOrigin w args o d hs).2
  have e2 := (blockEndZ_atOrigin w args o d hs).2
  simp only [e1, e2] at hskip
  obtain ⟨hp, hz⟩ := hs1
  have hex := pending_fileExists _ _ _ hp
  simp only at hex
  unfold InBlock at hin
  simp only at hin
  rcases hz with hz | hz | hz
  · have e : s.z + o = o := by omega
    rw [e, hskip.1] at hex
    cases hex
  · rcases hskip.2.2 with h3 | h3
    · exact h3 (by omega)
    · rw [hz, h3] at hex
      cases hex
  · have e : s.z + o = o + (d : Int) - 1 := by omega
    rw [e, hskip.2.1] at hex
    cases hex

end blockjob

section blockjob2

variable {P : Type} [DecidableEq P] [PixelType P] [ExactPixel P]

theorem blockAfter_eq_of_skip {P : Type} [DecidableEq P] [PixelType P]
    (w : World P) (args : BlockArgs P) (o : Int) (d : Nat)
    (hs : BlockSetup w args o d)
    (hskip : FloodFillBlockCommand.needsToRunBlock w.2 args.seedsSourcePrefix args.startPoint
      ⟨0, 0, o⟩ ⟨w.1.dimensions.x, w.1.dimensions.y, (d : Int)⟩ = false) :
    blockAfter w args o d = readBlock w.1 o d := by
  have hpix : referenceFloodFill (readBlock w.1 o d)
      (FloodFillBlockCommand.kernelSeeds w.2 (readBlock w.1 o d) (args.atOrigin o))
      (args.atOrigin o).origColor (args.atOrigin o).fillColor (args.atOrigin o).fillColor
      (args.atOrigin o).connectivity = (readBlock w.1 o d).pix := by
    funext x y z
    exact referenceFloodFill_of_not_reach _ _ _ _ _ _ ⟨x, y, z⟩
      (not_blockReach_of_skip w args o d hs hskip ⟨x, y, z⟩)
  unfold blockAfter FloodFillBlockCommand.filledBlock
  rw [hpix]

theorem writeBlock_readBlock {Q : Type} (img : DistributedImage Q) (o : Int) (d : Nat) :
    writeBlock img o (readBlock img o d) = img := by
  unfold writeBlock readBlock
  have : (fun x y z =>
      if 0 ≤ x ∧ x < ((img.dimensions.x.toNat : Nat) : Int) ∧ 0 ≤ y ∧
          y < ((img.dimensions.y.toNat : Nat) : Int) ∧ o ≤ z ∧ z < o + (d : Int) then
        img.pix x y (z - o + o)
      else img.pix x y z) = img.pix := by
    funext x y z
    rw [sub_add_cancel]
    exact ite_self _
  simp only [this]

/-- The image and the files after a block job that `needsToRunBlock` asks
for, for any kernel. -/
theorem blockJob_run {P : Type} [PixelType P]
    (floodfill : FloodFillKernel P) (fuel : Nat) (hf : 3 ≤ fuel)
    (w : World P) (args : BlockArgs P) (o : Int) (d : Nat) (hs : BlockSetup w args o d)
    (hn : FloodFillBlockCommand.needsToRunBlock w.2 args.seedsSourcePrefix
      args.startPoint ⟨0, 0, o⟩ ⟨w.1.dimensions.x, w.1.dimensions.y, (d : Int)⟩ = true) :
    blockJob floodfill fuel o d args w
      = (writeBlock w.1 o
          (FloodFillBlockCommand.filledBlock floodfill w.2 (readBlock w.1 o d) (args.atOrigin o)),
          FloodFillBlockCommand.persist w.2 args.seedsTargetPrefix (toInt32 o)
            (toInt32 (o + (d : Int) - 1))
            (expectedNewSeeds args.connectivity w.1.dimensions (readBlock w.1 o d)
              (FloodFillBlockCommand.filledBlock floodfill w.2 (readBlock w.1 o d)
                (args.atOrigin o)) 0 (toInt32 o - toInt32 1))
            (expectedNewSeeds args.connectivity w.1.dimensions (readBlock w.1 o d)
              (FloodFillBlockCommand.filledBlock floodfill w.2 (readBlock w.1 o d)
                (args.atOrigin o)) ((d : Int) - 1)
              (toInt32 (o + (d : Int) - 1) + toInt32 1))) := by
  have hder := FloodFillBlockCommand.deriveNewSeeds_eq floodfill fuel w.2
    (readBlock w.1 o d) (args.atOrigin o) hs.hd hf
    (Or.inl (FloodFillBlockCommand.connectivity_supported _ hs.hconn))
  have hrun := FloodFillBlockCommand.run_eq_of_derive floodfill fuel w.2
    (readBlock w.1 o d) (args.atOrigin o) _ hder
  unfold blockJob
  rw [if_pos hn, hrun]
  simp only [(blockStartZ_atOrigin w args o d hs).1, (blockEndZ_atOrigin w args o d hs).1]
  have e : (args.atOrigin o).origSize = w.1.dimensions := hs.hsize
  rw [e]
  rfl

/-- The image and the files after a block job with the reference flood fill. -/
theorem blockJob_eq (fuel : Nat) (hf : 3 ≤ fuel) (w : World P) (args : BlockArgs P) (o : Int)
    (d : Nat) (hs : BlockSetup w args o d) :
    blockJob referenceFloodFill fuel o d args w
      = (writeBlock w.1 o (blockAfter w args o d),
          FloodFillBlockCommand.persist w.2 args.seedsTargetPrefix (toInt32 o)
            (toInt32 (o + (d : Int) - 1)) (beginSeeds w args o d) (endSeeds w args o d)) := by
  by_cases hn : FloodFillBlockCommand.needsToRunBlock w.2 args.seedsSourcePrefix
      args.startPoint ⟨0, 0, o⟩ ⟨w.1.dimensions.x, w.1.dimensions.y, (d : Int)⟩ = true
  · exact blockJob_run referenceFloodFill fuel hf w args o d hs hn
  · have hskip : FloodFillBlockCommand.needsToRunBlock w.2 args.seedsSourcePrefix
        args.startPoint ⟨0, 0, o⟩ ⟨w.1.dimensions.x, w.1.dimensions.y, (d : Int)⟩ = false := by
      cases hv : FloodFillBlockCommand.needsToRunBlock w.2 args.seedsSourcePrefix
        args.startPoint ⟨0, 0, o⟩ ⟨w.1.dimensions.x, w.1.dimensions.y, (d : Int)⟩ with
      | false => rfl
      | true => exact absurd hv hn
    have hB := blockAfter_eq_of_skip w args o d hs hskip
    unfold blockJob
    rw [if_neg hn]
    unfold beginSeeds endSeeds
    rw [hB, FloodFillBlockCommand.expectedNewSeeds_of_unchanged _ _ _ _ _ _ (fun _ _ _ _ => pixel_ne_false rfl),
      FloodFillBlockCommand.expectedNewSeeds_of_unchanged _ _ _ _ _ _ (fun _ _ _ _ => pixel_ne_false rfl),
      FloodFillBlockCommand.persist_nil, writeBlock_readBlock]

theorem blockJob_dimensions (fuel : Nat) (hf : 3 ≤ fuel) (w : World P) (args : BlockArgs P)
    (o : Int) (d : Nat) (hs : BlockSetup w args o d) :
    (blockJob referenceFloodFill fuel o d args w).1.dimensions = w.1.dimensions := by
  rw [blockJob_eq fuel hf w args o d hs]
  rfl

theorem blockJob_pix_in (fuel : Nat) (hf : 3 ≤ fuel) (w : World P) (args : BlockArgs P)
    (o : Int) (d : Nat) (hs : BlockSetup w args o d) (x y z : Int)
    (hin : InBlock w o d ⟨x, y, z⟩) :
    (blockJob referenceFloodFill fuel o d args w).1.pix x y z
      = (blockAfter w args o d).pix x y (z - o) := by
  rw [blockJob_eq fuel hf w args o d hs]
  unfold InBlock at hin
  simp only at hin
  have := hs.hx0
  have := hs.hy0
  have hc : 0 ≤ x ∧ x < ((blockAfter w args o d).width : Int) ∧ 0 ≤ y ∧
      y < ((blockAfter w args o d).height : Int) ∧ o ≤ z ∧
      z < o + ((blockAfter w args o d).depth : Int) := by
    change 0 ≤ x ∧ x < ((w.1.dimensions.x.toNat : Nat) : Int) ∧ 0 ≤ y ∧
      y < ((w.1.dimensions.y.toNat : Nat) : Int) ∧ o ≤ z ∧ z < o + (d : Int)
    omega
  simp only [writeBlock]
  rw [if_pos hc]

theorem blockJob_pix_out (fuel : Nat) (hf : 3 ≤ fuel) (w : World P) (args : BlockArgs P)
    (o : Int) (d : Nat) (hs : BlockSetup w args o d) (x y z : Int)
    (hout : ¬ InBlock w o d ⟨x, y, z⟩) :
    (blockJob referenceFloodFill fuel o d args w).1.pix x y z = w.1.pix x y z := by
  rw [blockJob_eq fuel hf w args o d hs]
  unfold InBlock at hout
  simp only at hout
  have := hs.hx0
  have := hs.hy0
  have hc : ¬ (0 ≤ x ∧ x < ((blockAfter w args o d).width : Int) ∧ 0 ≤ y ∧
      y < ((blockAfter w args o d).height : Int) ∧ o ≤ z ∧
      z < o + ((blockAfter w args o d).depth : Int)) := by
    change ¬ (0 ≤ x ∧ x < ((w.1.dimensions.x.toNat : Nat) : Int) ∧ 0 ≤ y ∧
      y < ((w.1.dimensions.y.toNat : Nat) : Int) ∧ o ≤ z ∧ z < o + (d : Int))
    omega
  simp only [writeBlock]
  rw [if_neg hc]

theorem blockAfter_pix_reach {P : Type} [DecidableEq P] [PixelType P]
    (w : World P) (args : BlockArgs P) (o : Int) (d : Nat)
    (p : Vec3c) (h : BlockReach w args o d p) :
    (blockAfter w args o d).pix p.x p.y (p.z - o) = args.fillColor :=
  referenceFloodFill_of_reach (readBlock w.1 o d)
    (FloodFillBlockCommand.kernelSeeds w.2 (readBlock w.1 o d) (args.atOrigin o))
    args.origColor args.fillColor args.fillColor args.connectivity ⟨p.x, p.y, p.z - o⟩ h

theorem blockAfter_pix_not_reach {P : Type} [DecidableEq P] [PixelType P]
    (w : World P) (args : BlockArgs P) (o : Int) (d : Nat)
    (p : Vec3c) (h : ¬ BlockReach w args o d p) :
    (blockAfter w args o d).pix p.x p.y (p.z - o) = w.1.pix p.x p.y p.z := by
  have h1 := referenceFloodFill_of_not_reach (readBlock w.1 o d)
    (FloodFillBlockCommand.kernelSeeds w.2 (readBlock w.1 o d) (args.atOrigin o))
    args.origColor args.fillColor args.fillColor args.connectivity ⟨p.x, p.y, p.z - o⟩ h
  have h2 : (readBlock w.1 o d).pix p.x p.y (p.z - o) = w.1.pix p.x p.y p.z := by
    simp only [readBlock, sub_add_cancel]
  rw [← h2]
  exact h1

/-- A pixel that the job reaches gets the fill colour. -/
theorem blockJob_pix_reach (fuel : Nat) (hf : 3 ≤ fuel) (w : World P) (args : BlockArgs P)
    (o : Int) (d : Nat) (hs : BlockSetup w args o d) (p : Vec3c)
    (h : BlockReach w args o d p) :
    (blockJob referenceFloodFill fuel o d args w).1.pix p.x p.y p.z = args.fillColor := by
  rw [blockJob_pix_in fuel hf w args o d hs p.x p.y p.z (blockReach_inBlock w args o d hs p h).1]
  exact blockAfter_pix_reach w args o d p h

/-- A pixel that the job does not reach keeps its colour. -/
theorem blockJob_pix_not_reach (fuel : Nat) (hf : 3 ≤ fuel) (w : World P)
    (args : BlockArgs P) (o : Int) (d : Nat) (hs : BlockSetup w args o d) (p : Vec3c)
    (h : ¬ BlockReach w args o d p) :
    (blockJob referenceFloodFill fuel o d args w).1.pix p.x p.y p.z = w.1.pix p.x p.y p.z := by
  by_cases hin : InBlock w o d ⟨p.x, p.y, p.z⟩
  · rw [blockJob_pix_in fuel hf w args o d hs p.x p.y p.z hin]
    exact blockAfter_pix_not_reach w args o d p h
  · exact blockJob_pix_out fuel hf w args o d hs p.x p.y p.z hin

theorem blockJob_files_other (fuel : Nat) (hf : 3 ≤ fuel) (w : World P) (args : BlockArgs P)
    (o : Int) (d : Nat) (hs : BlockSetup w args o d) (f : FileName)
    (h : f.pre ≠ args.seedsTargetPrefix) :
    fileBody (blockJob referenceFloodFill fuel o d args w).2 f = fileBody w.2 f := by
  rw [blockJob_eq fuel hf w args o d hs]
  exact FloodFillBlockCommand.fileBody_persist_other _ _ _ _ _ _ f h

theorem blockJob_fileBody_tgt (fuel : Nat) (hf : 3 ≤ fuel) (w : World P) (args : BlockArgs P)
    (o : Int) (d : Nat) (hs : BlockSetup w args o d) (k : Int) :
    fileBody (blockJob referenceFloodFill fuel o d args w).2 ⟨args.seedsTargetPrefix, k⟩
      = if k = o + (d : Int) ∧ endSeeds w args o d ≠ [] then
          some ((endSeeds w args o d).flatMap FloodFillBlockCommand.writePoint)
        else if k = o - 1 ∧ beginSeeds w args o d ≠ [] then
          some ((beginSeeds w args o d).flatMap FloodFillBlockCommand.writePoint)
        else fileBody w.2 ⟨args.seedsTargetPrefix, k⟩ := by
  have ho := hs.ho
  have hod := hs.hod
  have hz1 := hs.hz1
  have e1 : (toInt32 (o + (d : Int) - 1) + toInt32 1).val = o + (d : Int) := by
    rw [int32_add_def, (blockEndZ_atOrigin w args o d hs).2,
      toInt32_val_of_range 1 (by omega) (by omega),
      toInt32_val_of_range _ (by omega) (by omega)]
    omega
  have e2 : (toInt32 o - toInt32 1).val = o - 1 := by
    rw [int32_sub_def, (blockStartZ_atOrigin w args o d hs).2,
      toInt32_val_of_range 1 (by omega) (by omega),
      toInt32_val_of_range _ (by omega) (by omega)]
  rw [blockJob_eq fuel hf w args o d hs]
  simp only [FloodFillBlockCommand.fileBody_persist, e1, e2, FileName.mk.injEq, true_and]

end blockjob2

theorem pending_of_body (fs : FileSystem) (pre : String) (q : Vec3c) (l : List Vec3sc)
    (hb : fileBody fs ⟨pre, q.z⟩ = some (l.flatMap FloodFillBlockCommand.writePoint)) :
    Pending fs pre q ↔ ∃ r ∈ l.map (fun p => (p.x, p.y)), r.1.val = q.x ∧ r.2.val = q.y := by
  unfold Pending
  rw [hb]
  simp only [Option.some.injEq, exists_eq_left', fileRecords_flatMap_writePoint]

theorem adjacent_shift (c : Connectivity) (p q : Vec3c) (o : Int) :
    adjacent c ⟨p.x, p.y, p.z - o⟩ ⟨q.x, q.y, q.z - o⟩ = adjacent c p q := by
  cases c with
  | NearestNeighbours =>
    simp only [adjacent]
    apply decide_eq_decide.2
    omega
  | AllNeighbours =>
    simp only [adjacent]
    apply decide_eq_decide.2
    omega
  | Unsupported => rfl

section blockjob3

variable {P : Type} [DecidableEq P] [PixelType P] [ExactPixel P]

theorem changed_plane (fuel : Nat) (hf : 3 ≤ fuel) (w : World P) (args : BlockArgs P)
    (o : Int) (d : Nat) (hs : BlockSetup w args o d) (zl : Int) (h0 : 0 ≤ zl)
    (h1 : zl < (d : Int)) (px py : Nat) (hpx : px < (readBlock w.1 o d).width)
    (hpy : py < (readBlock w.1 o d).height) :
    ((readBlock w.1 o d).pix (px : Int) (py : Int) zl
        ≠ (blockAfter w args o d).pix (px : Int) (py : Int) zl) ↔
      (w.1.pix (px : Int) (py : Int) (zl + o)
        ≠ (blockJob referenceFloodFill fuel o d args w).1.pix (px : Int) (py : Int) (zl + o)) := by
  have hin : InBlock w o d ⟨(px : Int), (py : Int), zl + o⟩ := by
    unfold InBlock
    simp only
    change px < w.1.dimensions.x.toNat at hpx
    change py < w.1.dimensions.y.toNat at hpy
    omega
  rw [blockJob_pix_in fuel hf w args o d hs (px : Int) (py : Int) (zl + o) hin,
    add_sub_cancel_right]
  rfl

/-- The seeds recorded under the target prefix after a block job are there
already, or lie in the footprint of a pixel that the job changed on the first
or the last plane of the block. -/
theorem blockJob_pending_sound (fuel : Nat) (hf : 3 ≤ fuel) (w : World P)
    (args : BlockArgs P) (o : Int) (d : Nat) (hs : BlockSetup w args o d) (q : Vec3c)
    (h : Pending (blockJob referenceFloodFill fuel o d args w).2 args.seedsTargetPrefix q) :
    Pending w.2 args.seedsTargetPrefix q ∨
      ∃ px py : Int, (0 ≤ px ∧ px < w.1.dimensions.x ∧ 0 ≤ py ∧ py < w.1.dimensions.y) ∧
        FootXY args.connectivity px py q.x q.y ∧
        ((q.z = o - 1 ∧ 0 ≤ q.z ∧
            w.1.pix px py o ≠ (blockJob referenceFloodFill fuel o d args w).1.pix px py o) ∨
          (q.z = o + (d : Int) ∧ q.z < w.1.dimensions.z ∧
            w.1.pix px py (o + (d : Int) - 1)
              ≠ (blockJob referenceFloodFill fuel o d args w).1.pix px py
                  (o + (d : Int) - 1))) := by
  have ho := hs.ho
  have hod := hs.hod
  have hz1 := hs.hz1
  have hd := hs.hd
  have hx0 := hs.hx0
  have hx1 := hs.hx1
  have hy0 := hs.hy0
  have hy1 := hs.hy1
  have e1 : (toInt32 (o + (d : Int) - 1) + toInt32 1).val = o + (d : Int) := by
    rw [int32_add_def, (blockEndZ_atOrigin w args o d hs).2,
      toInt32_val_of_range 1 (by omega) (by omega),
      toInt32_val_of_range _ (by omega) (by omega)]
    omega
  have e2 : (toInt32 o - toInt32 1).val = o - 1 := by
    rw [int32_sub_def, (blockStartZ_atOrigin w args o d hs).2,
      toInt32_val_of_range 1 (by omega) (by omega),
      toInt32_val_of_range _ (by omega) (by omega)]
  have hw : ((readBlock w.1 o d).width : Int) < 2147483648 := by
    change ((w.1.dimensions.x.toNat : Nat) : Int) < 2147483648
    omega
  have hh : ((readBlock w.1 o d).height : Int) < 2147483648 := by
    change ((w.1.dimensions.y.toNat : Nat) : Int) < 2147483648
    omega
  have hfile := blockJob_fileBody_tgt fuel hf w args o d hs q.z
  by_cases c1 : q.z = o + (d : Int) ∧ endSeeds w args o d ≠ []
  · rw [if_pos c1] at hfile
    have h2 := (pending_of_body _ _ q _ hfile).1 h
    unfold endSeeds at h2
    rw [pending_expectedNewSeeds _ _ _ _ _ _ _ _ hw hh] at h2
    obtain ⟨hz, px, py, hpx, hpy, hch, hfoot⟩ := h2
    rw [changed_plane fuel hf w args o d hs _ (by omega) (by omega) px py hpx hpy] at hch
    have e : (d : Int) - 1 + o = o + (d : Int) - 1 := by omega
    rw [e] at hch
    rw [e1] at hz
    change px < w.1.dimensions.x.toNat at hpx
    change py < w.1.dimensions.y.toNat at hpy
    exact Or.inr ⟨px, py, by omega, hfoot, Or.inr ⟨c1.1, by omega, hch⟩⟩
  · rw [if_neg c1] at hfile
    by_cases c2 : q.z = o - 1 ∧ beginSeeds w args o d ≠ []
    · rw [if_pos c2] at hfile
      have h2 := (pending_of_body _ _ q _ hfile).1 h
      unfold beginSeeds at h2
      rw [pending_expectedNewSeeds _ _ _ _ _ _ _ _ hw hh] at h2
      obtain ⟨hz, px, py, hpx, hpy, hch, hfoot⟩ := h2
      rw [changed_plane fuel hf w args o d hs _ (by omega) (by omega) px py hpx hpy] at hch
      rw [zero_add] at hch
      rw [e2] at hz
      change px < w.1.dimensions.x.toNat at hpx
      change py < w.1.dimensions.y.toNat at hpy
      exact Or.inr ⟨px, py, by omega, hfoot, Or.inl ⟨c2.1, by omega, hch⟩⟩
    · rw [if_neg c2] at hfile
      left
      unfold Pending at h ⊢
      rw [hfile] at h
      exact h

/-- A pixel that the job changed on the first plane of the block has its
footprint recorded under the target prefix, addressed to the plane before. -/
theorem blockJob_pending_begin (fuel : Nat) (hf : 3 ≤ fuel) (w : World P)
    (args : BlockArgs P) (o : Int) (d : Nat) (hs : BlockSetup w args o d) (px py x y : Int)
    (hpx : 0 ≤ px ∧ px < w.1.dimensions.x) (hpy : 0 ≤ py ∧ py < w.1.dimensions.y)
    (hfoot : FootXY args.connectivity px py x y) (ho1 : 1 ≤ o)
    (hch : w.1.pix px py o ≠ (blockJob referenceFloodFill fuel o d args w).1.pix px py o) :
    Pending (blockJob referenceFloodFill fuel o d args w).2 args.seedsTargetPrefix
      ⟨x, y, o - 1⟩ := by
  have ho := hs.ho
  have hod := hs.hod
  have hz1 := hs.hz1
  have hd := hs.hd
  have hx1 := hs.hx1
  have hy1 := hs.hy1
  have e2 : (toInt32 o - toInt32 1).val = o - 1 := by
    rw [int32_sub_def, (blockStartZ_atOrigin w args o d hs).2,
      toInt32_val_of_range 1 (by omega) (by omega),
      toInt32_val_of_range _ (by omega) (by omega)]
  have hw : ((readBlock w.1 o d).width : Int) < 2147483648 := by
    change ((w.1.dimensions.x.toNat : Nat) : Int) < 2147483648
    omega
  have hh : ((readBlock w.1 o d).height : Int) < 2147483648 := by
    change ((w.1.dimensions.y.toNat : Nat) : Int) < 2147483648
    omega
  obtain ⟨n, rfl⟩ := Int.eq_ofNat_of_zero_le hpx.1
  obtain ⟨m, rfl⟩ := Int.eq_ofNat_of_zero_le hpy.1
  have hn : n < (readBlock w.1 o d).width := by
    change n < w.1.dimensions.x.toNat
    omega
  have hm : m < (readBlock w.1 o d).height := by
    change m < w.1.dimensions.y.toNat
    omega
  have hch2 : (readBlock w.1 o d).pix (n : Int) (m : Int) 0
      ≠ (blockAfter w args o d).pix (n : Int) (m : Int) 0 := by
    rw [changed_plane fuel hf w args o d hs 0 (by omega) (by omega) n m hn hm, zero_add]
    exact hch
  have hmem : ∃ r ∈ (beginSeeds w args o d).map (fun p => (p.x, p.y)),
      r.1.val = x ∧ r.2.val = y := by
    unfold beginSeeds
    rw [pending_expectedNewSeeds _ _ _ _ _ _ _ _ hw hh]
    exact ⟨by rw [e2]; omega, n, m, hn, hm, hch2, hfoot⟩
  have hne : beginSeeds w args o d ≠ [] := by
    intro e
    rw [e] at hmem
    simp at hmem
  have hfile := blockJob_fileBody_tgt fuel hf w args o d hs (o - 1)
  rw [if_neg (by omega), if_pos ⟨rfl, hne⟩] at hfile
  exact (pending_of_body _ _ ⟨x, y, o - 1⟩ _ hfile).2 hmem

/-- A pixel that the job changed on the last plane of the block has its
footprint recorded under the target prefix, addressed to the plane after. -/
theorem blockJob_pending_end (fuel : Nat) (hf : 3 ≤ fuel) (w : World P)
    (args : BlockArgs P) (o : Int) (d : Nat) (hs : BlockSetup w args o d) (px py x y : Int)
    (hpx : 0 ≤ px ∧ px < w.1.dimensions.x) (hpy : 0 ≤ py ∧ py < w.1.dimensions.y)
    (hfoot : FootXY args.connectivity px py x y) (ho1 : o + (d : Int) < w.1.dimensions.z)
    (hch : w.1.pix px py (o + (d : Int) - 1)
      ≠ (blockJob referenceFloodFill fuel o d args w).1.pix px py (o + (d : Int) - 1)) :
    Pending (blockJob referenceFloodFill fuel o d args w).2 args.seedsTargetPrefix
      ⟨x, y, o + (d : Int)⟩ := by
  have ho := hs.ho
  have hod := hs.hod
  have hz1 := hs.hz1
  have hd := hs.hd
  have hx1 := hs.hx1
  have hy1 := hs.hy1
  have e1 : (toInt32 (o + (d : Int) - 1) + toInt32 1).val = o + (d : Int) := by
    rw [int32_add_def, (blockEndZ_atOrigin w args o d hs).2,
      toInt32_val_of_range 1 (by omega) (by omega),
      toInt32_val_of_range _ (by omega) (by omega)]
    omega
  have hw : ((readBlock w.1 o d).width : Int) < 2147483648 := by
    change ((w.1.dimensions.x.toNat : Nat) : Int) < 2147483648
    omega
  have hh : ((readBlock w.1 o d).height : Int) < 2147483648 := by
    change ((w.1.dimensions.y.toNat : Nat) : Int) < 2147483648
    omega
  obtain ⟨n, rfl⟩ := Int.eq_ofNat_of_zero_le hpx.1
  obtain ⟨m, rfl⟩ := Int.eq_ofNat_of_zero_le hpy.1
  have hn : n < (readBlock w.1 o d).width := by
    change n < w.1.dimensions.x.toNat
    omega
  have hm : m < (readBlock w.1 o d).height := by
    change m < w.1.dimensions.y.toNat
    omega
  have e : (d : Int) - 1 + o = o + (d : Int) - 1 := by omega
  have hch2 : (readBlock w.1 o d).pix (n : Int) (m : Int) ((d : Int) - 1)
      ≠ (blockAfter w args o d).pix (n : Int) (m : Int) ((d : Int) - 1) := by
    rw [changed_plane fuel hf w args o d hs _ (by omega) (by omega) n m hn hm, e]
    exact hch
  have hmem : ∃ r ∈ (endSeeds w args o d).map (fun p => (p.x, p.y)),
      r.1.val = x ∧ r.2.val = y := by
    unfold endSeeds
    rw [pending_expectedNewSeeds _ _ _ _ _ _ _ _ hw hh]
    exact ⟨by rw [e1]; omega, n, m, hn, hm, hch2, hfoot⟩
  have hne : endSeeds w args o d ≠ [] := by
    intro e
    rw [e] at hmem
    simp at hmem
  have hfile := blockJob_fileBody_tgt fuel hf w args o d hs (o + (d : Int))
  rw [if_pos ⟨rfl, hne⟩] at hfile
  exact (pending_of_body _ _ ⟨x, y, o + (d : Int)⟩ _ hfile).2 hmem

/-- A file under the target prefix is after the job what it was before, or it
records a seed. -/
theorem blockJob_file_nonempty (fuel : Nat) (hf : 3 ≤ fuel) (w : World P)
    (args : BlockArgs P) (o : Int) (d : Nat) (hs : BlockSetup w args o d) (k : Int) :
    fileBody (blockJob referenceFloodFill fuel o d args w).2 ⟨args.seedsTargetPrefix, k⟩
        = fileBody w.2 ⟨args.seedsTargetPrefix, k⟩ ∨
      ∃ x y : Int, Pending (blockJob referenceFloodFill fuel o d args w).2
        args.seedsTargetPrefix ⟨x, y, k⟩ := by
  have hfile := blockJob_fileBody_tgt fuel hf w args o d hs k
  have key : ∀ l : List Vec3sc, l ≠ [] →
      fileBody (blockJob referenceFloodFill fuel o d args w).2 ⟨args.seedsTargetPrefix, k⟩
        = some (l.flatMap FloodFillBlockCommand.writePoint) →
      ∃ x y : Int, Pending (blockJob referenceFloodFill fuel o d args w).2
        args.seedsTargetPrefix ⟨x, y, k⟩ := by
    intro l hl hb
    cases l with
    | nil => exact absurd rfl hl
    | cons s rest =>
      refine ⟨s.x.val, s.y.val, (pending_of_body _ _ ⟨s.x.val, s.y.val, k⟩ _ hb).2
        ⟨(s.x, s.y), ?_, rfl, rfl⟩⟩
      simp
  by_cases c1 : k = o + (d : Int) ∧ endSeeds w args o d ≠ []
  · rw [if_pos c1] at hfile
    exact Or.inr (key _ c1.2 hfile)
  · rw [if_neg c1] at hfile
    by_cases c2 : k = o - 1 ∧ beginSeeds w args o d ≠ []
    · rw [if_pos c2] at hfile
      exact Or.inr (key _ c2.2 hfile)
    · rw [if_neg c2] at hfile
      exact Or.inl hfile

/-- The files under the target prefix that the job does not address are what
they were. -/
theorem blockJob_files_tgt_other (fuel : Nat) (hf : 3 ≤ fuel) (w : World P)
    (args : BlockArgs P) (o : Int) (d : Nat) (hs : BlockSetup w args o d) (k : Int)
    (h1 : k ≠ o - 1) (h2 : k ≠ o + (d : Int)) :
    fileBody (blockJob referenceFloodFill fuel o d args w).2 ⟨args.seedsTargetPrefix, k⟩
      = fileBody w.2 ⟨args.seedsTargetPrefix, k⟩ := by
  rw [blockJob_fileBody_tgt fuel hf w args o d hs k, if_neg (fun c => h2 c.1),
    if_neg (fun c => h1 c.1)]

end blockjob3

section blockreach

variable {P : Type} [PixelType P]

theorem blockReach_seed {P : Type}
    (w : World P) (args : BlockArgs P) (o : Int) (d : Nat)
    (hs : BlockSetup w args o d) (q : Vec3c) (hin : InBlock w o d q)
    (hcol : w.1.pix q.x q.y q.z = args.origColor)
    (hp : Pending w.2 args.seedsSourcePrefix q)
    (hz : q.z = o ∨ q.z = args.startPoint.z ∨ q.z = o + (d : Int) - 1) :
    BlockReach w args o d q := by
  cases q with
  | mk x y z =>
    simp only at hcol hz
    unfold BlockReach
    apply Reach.seed
    · rw [mem_kernelSeeds w args o d hs]
      simp only [sub_add_cancel]
      exact ⟨hp, by omega⟩
    · rw [inside_readBlock w args o d hs]
      simp only [sub_add_cancel]
      exact hin
    · simp only [readBlock, sub_add_cancel]
      exact hcol

theorem blockReach_step {P : Type} (w : World P) (args : BlockArgs P) (o : Int) (d : Nat)
    (hs : BlockSetup w args o d) (p q : Vec3c) (hp : BlockReach w args o d p)
    (hadj : adjacent args.connectivity p q = true) (hin : InBlock w o d q)
    (hcol : w.1.pix q.x q.y q.z = args.origColor) :
    BlockReach w args o d q := by
  cases q with
  | mk x y z =>
    simp only at hcol
    unfold BlockReach at hp ⊢
    refine Reach.step _ _ hp ?_ ?_ ?_
    · rw [adjacent_shift]
      exact hadj
    · rw [inside_readBlock w args o d hs]
      simp only [sub_add_cancel]
      exact hin
    · simp only [readBlock, sub_add_cancel]
      exact hcol

theorem blockReach_induction {P : Type}
    (w : World P) (args : BlockArgs P) (o : Int) (d : Nat)
    (hs : BlockSetup w args o d) (M : Vec3c → Prop)
    (hseed : ∀ q : Vec3c, InBlock w o d q → w.1.pix q.x q.y q.z = args.origColor →
      Pending w.2 args.seedsSourcePrefix q →
      (q.z = o ∨ q.z = args.startPoint.z ∨ q.z = o + (d : Int) - 1) → M q)
    (hstep : ∀ p q : Vec3c, M p → adjacent args.connectivity p q = true → InBlock w o d q →
      w.1.pix q.x q.y q.z = args.origColor → M q)
    (p : Vec3c) (h : BlockReach w args o d p) : M p := by
  have key : ∀ pl : Vec3c, Reach (readBlock w.1 o d)
      ((FloodFillBlockCommand.kernelSeeds w.2 (readBlock w.1 o d) (args.atOrigin o)).map
        Vec3sc.toVec3c) args.origColor args.connectivity pl → M ⟨pl.x, pl.y, pl.z + o⟩ := by
    intro pl hr
    induction hr with
    | seed s hmem hi hc =>
      rw [mem_kernelSeeds w args o d hs] at hmem
      refine hseed ⟨s.x, s.y, s.z + o⟩ ((inside_readBlock w args o d hs s).1 hi) hc hmem.1 ?_
      simp only
      have := hmem.2
      omega
    | step a b _ hadj hi hc ih =>
      refine hstep ⟨a.x, a.y, a.z + o⟩ ⟨b.x, b.y, b.z + o⟩ ih ?_
        ((inside_readBlock w args o d hs b).1 hi) hc
      have := adjacent_shift args.connectivity ⟨a.x, a.y, a.z + o⟩ ⟨b.x, b.y, b.z + o⟩ o
      simp only [add_sub_cancel_right] at this
      rw [← this]
      exact hadj
  have := key _ h
  simp only [sub_add_cancel] at this
  exact this

end blockreach

theorem pending_congr (fs fs2 : FileSystem) (pre : String) (q : Vec3c)
    (h : fileBody fs ⟨pre, q.z⟩ = fileBody fs2 ⟨pre, q.z⟩) :
    Pending fs pre q ↔ Pending fs2 pre q := by
  unfold Pending
  rw [h]

theorem BlockSetup.of_dims {P : Type} (w0 w : World P) (args : BlockArgs P) (o : Int)
    (d : Nat) (hs : BlockSetup w0 args o d) (hd : w.1.dimensions = w0.1.dimensions) :
    BlockSetup w args o d := by
  constructor
  · rw [hd]; exact hs.hx0
  · rw [hd]; exact hs.hx1
  · rw [hd]; exact hs.hy0
  · rw [hd]; exact hs.hy1
  · rw [hd]; exact hs.hz1
  · exact hs.ho
  · rw [hd]; exact hs.hod
  · exact hs.hd
  · exact hs.hsp0
  · rw [hd]; exact hs.hsp1
  · exact hs.hconn
  · rw [hd]; exact hs.hsize
  · exact hs.hne

theorem inBlock_of_dims {P : Type} (w0 w : World P) (o : Int) (d : Nat) (p : Vec3c)
    (hd : w.1.dimensions = w0.1.dimensions) : InBlock w o d p ↔ InBlock w0 o d p := by
  unfold InBlock
  rw [hd]

theorem apart_disjoint {P : Type} (w : World P) (b c : Int × Nat) (h : Apart b c) (p : Vec3c)
    (hb : InBlock w b.1 b.2 p) : ¬ InBlock w c.1 c.2 p := by
  unfold Apart at h
  unfold InBlock at hb ⊢
  omega

theorem iterInv_start {P : Type} (w0 : World P) (args : BlockArgs P) (M : Vec3c → Prop) :
    IterInv w0 w0 args M [] := by
  constructor
  · exact fun _ _ => rfl
  · rfl
  · exact fun _ _ => rfl
  · exact fun _ => Or.inl rfl
  · intro b hb
    cases hb
  · intro b hb
    cases hb
  · exact fun _ h => Or.inl h
  · intro b hb
    cases hb
  · exact fun _ => Or.inl rfl

section step

variable {P : Type} [DecidableEq P] [PixelType P] [ExactPixel P]

/-- One more block job keeps the description of the state of the dispatch. -/
theorem iterInv_step (fuel : Nat) (hf : 3 ≤ fuel) (w0 w : World P) (args : BlockArgs P)
    (M : Vec3c → Prop) (done : List (Int × Nat)) (o : Int) (d : Nat)
    (horig : args.origColor ≠ args.fillColor)
    (hMseed : ∀ q : Vec3c, InImage w0.1 q → w0.1.pix q.x q.y q.z = args.origColor →
      Pending w0.2 args.seedsSourcePrefix q → M q)
    (hMstep : ∀ p q : Vec3c, M p → adjacent args.connectivity p q = true → InImage w0.1 q →
      w0.1.pix q.x q.y q.z = args.origColor → M q)
    (hs0 : BlockSetup w0 args o d)
    (hdone : ∀ b ∈ done, 2 ≤ b.2 ∧ Apart b (o, d))
    (hI : IterInv w0 w args M done) :
    IterInv w0 (blockJob referenceFloodFill fuel o d args w) args M (done ++ [(o, d)]) := by
  have hs : BlockSetup w args o d := BlockSetup.of_dims w0 w args o d hs0 hI.dims
  have hib : ∀ p, InBlock w o d p ↔ InBlock w0 o d p := fun p => inBlock_of_dims w0 w o d p hI.dims
  have ho := hs0.ho
  have hod := hs0.hod
  have hd2 := hs0.hd
  have hx0 := hs0.hx0
  have hy0 := hs0.hy0
  -- pixels of the block are those at the start of the dispatch
  have hpixin : ∀ p : Vec3c, InBlock w0 o d p →
      w.1.pix p.x p.y p.z = w0.1.pix p.x p.y p.z := by
    intro p hp
    apply hI.untouched
    intro b hb hpb
    exact apart_disjoint w0 b (o, d) (hdone b hb).2 p hpb hp
  have himg : ∀ p : Vec3c, InBlock w0 o d p → InImage w0.1 p := by
    intro p hp
    unfold InBlock at hp
    unfold InImage
    omega
  have hpend : ∀ q : Vec3c, Pending w.2 args.seedsSourcePrefix q ↔
      Pending w0.2 args.seedsSourcePrefix q :=
    fun q => pending_congr _ _ _ q (hI.files _ hs0.hne)
  have hreach : ∀ p : Vec3c, BlockReach w args o d p →
      InBlock w0 o d p ∧ w0.1.pix p.x p.y p.z = args.origColor := by
    intro p hp
    have h1 := blockReach_inBlock w args o d hs p hp
    have h2 := (hib p).1 h1.1
    exact ⟨h2, by rw [← hpixin p h2]; exact h1.2⟩
  have hout : ∀ p : Vec3c, ¬ InBlock w0 o d p →
      (blockJob referenceFloodFill fuel o d args w).1.pix p.x p.y p.z
        = w.1.pix p.x p.y p.z := by
    intro p hp
    apply blockJob_pix_not_reach fuel hf w args o d hs p
    exact fun hr => hp (hreach p hr).1
  have hnot : ∀ p : Vec3c, w.1.pix p.x p.y p.z ≠ args.origColor →
      (blockJob referenceFloodFill fuel o d args w).1.pix p.x p.y p.z
        = w.1.pix p.x p.y p.z := by
    intro p hp
    apply blockJob_pix_not_reach fuel hf w args o d hs p
    exact fun hr => hp (blockReach_inBlock w args o d hs p hr).2
  have hM : ∀ p : Vec3c, BlockReach w args o d p → M p := by
    intro p hp
    refine blockReach_induction w args o d hs M ?_ ?_ p hp
    · intro q hq hc hpq _
      have hq0 := (hib q).1 hq
      exact hMseed q (himg q hq0) (by rw [← hpixin q hq0]; exact hc) ((hpend q).1 hpq)
    · intro a b ha hadj hb hc
      have hb0 := (hib b).1 hb
      exact hMstep a b ha hadj (himg b hb0) (by rw [← hpixin b hb0]; exact hc)
  have hdisj : ∀ b ∈ done, ∀ p : Vec3c, InBlock w0 b.1 b.2 p → ¬ InBlock w0 o d p :=
    fun b hb p hp => apart_disjoint w0 b (o, d) (hdone b hb).2 p hp
  have hkeep : ∀ p : Vec3c, w0.1.pix p.x p.y p.z ≠ w.1.pix p.x p.y p.z →
      (blockJob referenceFloodFill fuel o d args w).1.pix p.x p.y p.z
        = w.1.pix p.x p.y p.z := by
    intro p hp
    apply hnot
    rcases hI.mono p with h | ⟨_, h2, _⟩
    · exact absurd h.symm hp
    · rw [h2]
      exact fun e => horig e.symm
  constructor
  · -- files
    intro f hfne
    rw [blockJob_files_other fuel hf w args o d hs f hfne]
    exact hI.files f hfne
  · -- dims
    rw [blockJob_dimensions fuel hf w args o d hs]
    exact hI.dims
  · -- untouched
    intro p hp
    have h1 : ¬ InBlock w0 o d p := hp (o, d) (by simp)
    rw [hout p h1]
    exact hI.untouched p (fun b hb => hp b (by simp [hb]))
  · -- mono
    intro p
    by_cases hr : BlockReach w args o d p
    · right
      exact ⟨(hreach p hr).2, blockJob_pix_reach fuel hf w args o d hs p hr, hM p hr⟩
    · rw [blockJob_pix_not_reach fuel hf w args o d hs p hr]
      exact hI.mono p
  · -- closure
    intro b hb p q hp hq hadj hpo hpf hqo
    rw [List.mem_append, List.mem_singleton] at hb
    rcases hb with hb | rfl
    · rw [hout p (hdisj b hb p hp)] at hpf
      rw [hout q (hdisj b hb q hq)]
      exact hI.closure b hb p q hp hq hadj hpo hpf hqo
    · simp only at hp hq
      have hwp : w.1.pix p.x p.y p.z = args.origColor := by rw [hpixin p hp]; exact hpo
      have hwq : w.1.pix q.x q.y q.z = args.origColor := by rw [hpixin q hq]; exact hqo
      have hrp : BlockReach w args o d p := by
        by_contra hn
        rw [blockJob_pix_not_reach fuel hf w args o d hs p hn, hwp] at hpf
        exact horig hpf
      exact blockJob_pix_reach fuel hf w args o d hs q
        (blockReach_step w args o d hs p q hrp hadj ((hib q).2 hq) hwq)
  · -- consumed
    intro b hb q hq hqo hpq hz
    rw [List.mem_append, List.mem_singleton] at hb
    rcases hb with hb | rfl
    · rw [hout q (hdisj b hb q hq)]
      exact hI.consumed b hb q hq hqo hpq hz
    · simp only at hq hz
      have hwq : w.1.pix q.x q.y q.z = args.origColor := by rw [hpixin q hq]; exact hqo
      exact blockJob_pix_reach fuel hf w args o d hs q
        (blockReach_seed w args o d hs q ((hib q).2 hq) hwq ((hpend q).2 hpq) hz)
  · -- tgtSound
    intro q hq
    rcases blockJob_pending_sound fuel hf w args o d hs q hq with h | ⟨px, py, hxy, hfoot, h⟩
    · rcases hI.tgtSound q h with h1 | ⟨p, hp1, hp2, hp3⟩
      · exact Or.inl h1
      · exact Or.inr ⟨p, hp1, by rw [hkeep p hp2]; exact hp2, hp3⟩
    · right
      rw [hI.dims] at hxy h
      rcases h with ⟨h1, h2, h3⟩ | ⟨h1, h2, h3⟩
      · have hin : InBlock w0 o d ⟨px, py, o⟩ := by
          unfold InBlock
          simp only
          omega
        refine ⟨⟨px, py, o⟩, himg _ hin, ?_, hfoot, Or.inl (by simp only; omega)⟩
        have := hpixin _ hin
        simp only at this
        simp only
        rw [← this]
        exact h3
      · have hin : InBlock w0 o d ⟨px, py, o + (d : Int) - 1⟩ := by
          unfold InBlock
          simp only
          omega
        refine ⟨⟨px, py, o + (d : Int) - 1⟩, himg _ hin, ?_, hfoot,
          Or.inr (by simp only; omega)⟩
        have := hpixin _ hin
        simp only at this
        simp only
        rw [← this]
        exact h3
  · -- tgtComplete
    intro b hb p q hp hch hfoot hz
    rw [List.mem_append, List.mem_singleton] at hb
    rcases hb with hb | rfl
    · rw [hout p (hdisj b hb p hp)] at hch
      have h1 := hI.tgtComplete b hb p q hp hch hfoot hz
      have hap := (hdone b hb).2
      have hb2 := (hdone b hb).1
      unfold Apart at hap
      simp only at hap
      refine (pending_congr _ _ _ q ?_).2 h1
      apply blockJob_files_tgt_other fuel hf w args o d hs q.z
      · omega
      · omega
    · simp only at hp hz
      have hch2 : w.1.pix p.x p.y p.z
          ≠ (blockJob referenceFloodFill fuel o d args w).1.pix p.x p.y p.z := by
        rw [hpixin p hp]
        exact hch
      have hpxy : (0 ≤ p.x ∧ p.x < w.1.dimensions.x) ∧ (0 ≤ p.y ∧ p.y < w.1.dimensions.y) := by
        rw [hI.dims]
        unfold InBlock at hp
        omega
      cases q with
      | mk qx qy qz =>
        simp only at hfoot hz
        rcases hz with ⟨h1, h2, h3⟩ | ⟨h1, h2, h3⟩
        · rw [h1] at hch2
          rw [h3]
          exact blockJob_pending_begin fuel hf w args o d hs p.x p.y qx qy hpxy.1 hpxy.2 hfoot
            h2 hch2
        · rw [h1] at hch2
          rw [h3]
          exact blockJob_pending_end fuel hf w args o d hs p.x p.y qx qy hpxy.1 hpxy.2 hfoot
            (by rw [hI.dims]; exact h2) hch2
  · -- tgtFiles
    intro k
    rcases blockJob_file_nonempty fuel hf w args o d hs k with h | h
    · rcases hI.tgtFiles k with h1 | ⟨x, y, h1⟩
      · exact Or.inl (h.trans h1)
      · exact Or.inr ⟨x, y, (pending_congr _ _ _ ⟨x, y, k⟩ h).2 h1⟩
    · exact Or.inr h

/-- The jobs of a list of blocks, one after the other, keep the description of
the state of the dispatch. -/
theorem iterInv_fold (fuel : Nat) (hf : 3 ≤ fuel) (w0 : World P) (args : BlockArgs P)
    (M : Vec3c → Prop)
    (horig : args.origColor ≠ args.fillColor)
    (hMseed : ∀ q : Vec3c, InImage w0.1 q → w0.1.pix q.x q.y q.z = args.origColor →
      Pending w0.2 args.seedsSourcePrefix q → M q)
    (hMstep : ∀ p q : Vec3c, M p → adjacent args.connectivity p q = true → InImage w0.1 q →
      w0.1.pix q.x q.y q.z = args.origColor → M q) :
    ∀ (bl done : List (Int × Nat)) (w : World P),
      (∀ b ∈ bl, BlockSetup w0 args b.1 b.2) →
      bl.Pairwise Apart →
      (∀ b ∈ done, 2 ≤ b.2 ∧ ∀ c ∈ bl, Apart b c) →
      IterInv w0 w args M done →
      IterInv w0 (bl.foldl (fun w1 b => blockJob referenceFloodFill fuel b.1 b.2 args w1) w)
        args M (done ++ bl)
  | [], done, w, _, _, _, hI => by
    rw [List.append_nil]
    exact hI
  | b :: rest, done, w, hsetup, hpw, hdone, hI => by
    rw [List.foldl_cons]
    have hstep := iterInv_step fuel hf w0 w args M done b.1 b.2 horig hMseed hMstep
      (hsetup b (by simp)) (fun c hc => ⟨(hdone c hc).1, (hdone c hc).2 b (by simp)⟩) hI
    have hrec := iterInv_fold fuel hf w0 args M horig hMseed hMstep rest (done ++ [b])
      (blockJob referenceFloodFill fuel b.1 b.2 args w)
      (fun c hc => hsetup c (by simp [hc]))
      (List.Pairwise.of_cons hpw)
      (by
        intro c hc
        rw [List.mem_append, List.mem_singleton] at hc
        rcases hc with hc | rfl
        · exact ⟨(hdone c hc).1, fun e he => (hdone c hc).2 e (by simp [he])⟩
        · exact ⟨(hsetup c (by simp)).hd, fun e he => (List.pairwise_cons.1 hpw).1 e he⟩)
      hstep
    rw [List.append_assoc] at hrec
    exact hrec

end step

theorem blockOrigins_first (z : Int) (ds : List Nat) (hds : ∀ d ∈ ds, 2 ≤ d) :
    ∀ b ∈ blockOrigins z ds, b.1 = z ∨ z + 2 ≤ b.1 := by
  induction ds generalizing z with
  | nil =>
    intro b hb
    cases hb
  | cons d rest ih =>
    intro b hb
    rw [blockOrigins, List.mem_cons] at hb
    rcases hb with rfl | hb
    · exact Or.inl rfl
    · have h1 := ih (z + (d : Int)) (fun e he => hds e (by simp [he])) b hb
      have h2 := hds d (by simp)
      omega

theorem blockOrigins_pairwise (z : Int) (ds : List Nat) (hds : ∀ d ∈ ds, 2 ≤ d) :
    (blockOrigins z ds).Pairwise Apart := by
  induction ds generalizing z with
  | nil => exact List.Pairwise.nil
  | cons d rest ih =>
    rw [blockOrigins, List.pairwise_cons]
    refine ⟨?_, ih (z + (d : Int)) (fun e he => hds e (by simp [he]))⟩
    intro b hb
    have h1 := blockOrigins_first (z + (d : Int)) rest (fun e he => hds e (by simp [he])) b hb
    unfold Apart
    simp only
    omega

theorem blockOrigins_inside (z : Int) (ds : List Nat) (hds : ∀ d ∈ ds, 2 ≤ d) :
    ∀ b ∈ blockOrigins z ds, z ≤ b.1 ∧ b.1 + (b.2 : Int) ≤ z + ((ds.sum : Nat) : Int) ∧
      2 ≤ b.2 := by
  induction ds generalizing z with
  | nil =>
    intro b hb
    cases hb
  | cons d rest ih =>
    intro b hb
    rw [blockOrigins, List.mem_cons] at hb
    rw [List.sum_cons, Nat.cast_add]
    rcases hb with rfl | hb
    · have := hds d (by simp)
      simp only
      omega
    · have h1 := ih (z + (d : Int)) (fun e he => hds e (by simp [he])) b hb
      omega

theorem blockOrigins_cover (z : Int) (ds : List Nat) :
    ∀ k : Int, z ≤ k → k < z + ((ds.sum : Nat) : Int) →
      ∃ b ∈ blockOrigins z ds, b.1 ≤ k ∧ k < b.1 + (b.2 : Int) := by
  induction ds generalizing z with
  | nil =>
    intro k h1 h2
    simp at h2
    omega
  | cons d rest ih =>
    intro k h1 h2
    rw [List.sum_cons, Nat.cast_add] at h2
    by_cases hk : k < z + (d : Int)
    · exact ⟨(z, d), by simp [blockOrigins], h1, hk⟩
    · obtain ⟨b, hb, hb1⟩ := ih (z + (d : Int)) k (by omega) (by omega)
      exact ⟨b, by simp [blockOrigins, hb], hb1⟩

theorem zPartition_blockOrigins {P : Type} (img0 : DistributedImage P) (depths : List Nat)
    (hds : ∀ d ∈ depths, 2 ≤ d) (hsum : ((depths.sum : Nat) : Int) = img0.dimensions.z) :
    ZPartition img0 (blockOrigins 0 depths) := by
  constructor
  · exact blockOrigins_pairwise 0 depths hds
  · intro b hb
    have := blockOrigins_inside 0 depths hds b hb
    omega
  · intro z h0 h1
    exact blockOrigins_cover 0 depths z h0 (by omega)

theorem pairwise_apart_mem : ∀ (bl : List (Int × Nat)), bl.Pairwise Apart →
    ∀ b ∈ bl, ∀ c ∈ bl, b = c ∨ Apart b c
  | [], _ => by
    intro b hb
    cases hb
  | a :: rest, h => by
    intro b hb c hc
    rw [List.pairwise_cons] at h
    rw [List.mem_cons] at hb hc
    rcases hb with rfl | hb <;> rcases hc with rfl | hc
    · exact Or.inl rfl
    · exact Or.inr (h.1 c hc)
    · right
      have := h.1 b hb
      unfold Apart at this ⊢
      omega
    · exact pairwise_apart_mem rest h.2 b hb c hc

theorem inside_toImage {P : Type} (img : DistributedImage P) (p : Vec3c) :
    img.toImage.inside p = true ↔ InImage img p := by
  unfold Image.inside DistributedImage.toImage InImage
  simp only [decide_eq_true_eq]
  omega

theorem isInImage_iff {P : Type} (img : DistributedImage P) (p : Vec3c) :
    img.isInImage p = true ↔ InImage img p := by
  unfold DistributedImage.isInImage InImage
  simp only [decide_eq_true_eq]

theorem fileBody_deleteSources_self (fs : FileSystem) (p : String) (k : Int) :
    fileBody (FloodFillCommand.deleteSources fs p) ⟨p, k⟩ = none := by
  rw [deleteSources_eq]
  unfold fileBody
  rw [Option.map_eq_none', List.find?_eq_none]
  intro e he
  rw [List.mem_filter] at he
  simp only [decide_eq_true_eq] at he ⊢
  intro h
  exact he.2 (by rw [h])

theorem fileBody_none_of_buildFileList (fs : FileSystem) (p : String)
    (h : buildFileList fs p = []) (k : Int) : fileBody fs ⟨p, k⟩ = none := by
  unfold buildFileList at h
  rw [List.map_eq_nil_iff, List.filter_eq_nil_iff] at h
  unfold fileBody
  rw [Option.map_eq_none', List.find?_eq_none]
  intro e he
  have := h e he
  simp only [decide_eq_true_eq] at this ⊢
  intro h2
  exact this (by rw [h2])

theorem exists_file_of_buildFileList (fs : FileSystem) (p : String)
    (h : buildFileList fs p ≠ []) : ∃ k : Int, fileBody fs ⟨p, k⟩ ≠ none := by
  unfold buildFileList at h
  rw [Ne, List.map_eq_nil_iff, List.filter_eq_nil_iff] at h
  simp only [not_forall, decide_eq_true_eq, not_not] at h
  obtain ⟨e, he, hp⟩ := h
  refine ⟨e.1.z, ?_⟩
  have hex : fileExists fs ⟨p, e.1.z⟩ = true := by
    unfold fileExists
    rw [List.any_eq_true]
    refine ⟨e, he, ?_⟩
    simp only [decide_eq_true_eq]
    cases e with
    | mk f body =>
      cases f
      simp only at hp ⊢
      rw [hp]
  rw [fileExists_eq_isSome] at hex
  intro hn
  rw [hn] at hex
  cases hex

theorem not_pending_of_none (fs : FileSystem) (pre : String) (q : Vec3c)
    (h : fileBody fs ⟨pre, q.z⟩ = none) : ¬ Pending fs pre q := by
  rintro ⟨body, hb, _⟩
  rw [h] at hb
  cases hb

theorem footAdj_adjacent (c : Connectivity) (p q : Vec3c) (h : FootAdj c p q) :
    adjacent c p q = true := by
  cases c with
  | NearestNeighbours =>
    simp only [FootAdj, FootXY] at h
    simp only [adjacent, decide_eq_true_eq]
    omega
  | AllNeighbours =>
    simp only [FootAdj, FootXY] at h
    simp only [adjacent, decide_eq_true_eq]
    omega
  | Unsupported =>
    simp only [FootAdj, FootXY] at h
    exact absurd h.1 id

theorem adjacent_cross (c : Connectivity) (p q : Vec3c) (h : adjacent c p q = true)
    (hz : q.z ≠ p.z) :
    FootXY c p.x p.y q.x q.y ∧ (q.z = p.z - 1 ∨ q.z = p.z + 1) := by
  cases c with
  | NearestNeighbours =>
    simp only [adjacent, decide_eq_true_eq] at h
    simp only [FootXY]
    omega
  | AllNeighbours =>
    simp only [adjacent, decide_eq_true_eq] at h
    simp only [FootXY]
    omega
  | Unsupported => simp [adjacent] at h

theorem globalReach_inImage {P : Type} (img0 : DistributedImage P) (sp : Vec3c)
    (c : Connectivity) (p : Vec3c) (h : GlobalReach img0 sp c p) :
    InImage img0 p ∧ img0.pix p.x p.y p.z = img0.getPixel sp := by
  have h1 := Reach.inside_orig _ _ _ _ _ h
  exact ⟨(inside_toImage img0 p).1 h1.1, h1.2⟩

section loop

theorem blockSetup_of_fillInv {P : Type} [PixelType P] [ExactPixel P] (img0 : DistributedImage P) (sp : Vec3c) (fill : P)
    (c : Connectivity) (bl : List (Int × Nat)) (hset : FillSetup img0 sp fill c)
    (hpart : ZPartition img0 bl) (s : LoopState P) (hI : FillInv img0 sp fill c bl s) :
    ∀ b ∈ bl, BlockSetup s.world
      (FloodFillCommand.dispatchArgs sp (img0.getPixel sp) fill c s) b.1 b.2 := by
  intro b hb
  have h1 := hpart.inside b hb
  have h2 := hset.hin
  unfold InImage at h2
  constructor
  · rw [hI.dims]; omega
  · rw [hI.dims]; exact hset.hx1
  · rw [hI.dims]; omega
  · rw [hI.dims]; exact hset.hy1
  · rw [hI.dims]; exact hset.hz1
  · exact h1.1
  · rw [hI.dims]; exact h1.2.1
  · exact h1.2.2
  · exact h2.2.2.2.2.1
  · rw [hI.dims]; exact h2.2.2.2.2.2
  · exact hset.hconn
  · rfl
  · exact hI.ne

variable {P : Type} [DecidableEq P] [PixelType P] [ExactPixel P]

/-- For a pixel type that the round trip through `double` leaves alone, the
block commands of a dispatch hold the two colours themselves. -/
theorem dispatchArgs_exact {P : Type} [PixelType P] [ExactPixel P]
    (sp : Vec3c) (orig fill : P) (c : Connectivity) (s : LoopState P) :
    FloodFillCommand.dispatchArgs sp orig fill c s =
      ⟨s.seedsSourceFilenamePrefix, s.seedsTargetFilenamePrefix, sp, orig, fill, c,
        s.world.1.dimensions, ⟨0, 0, 0⟩⟩ := by
  unfold FloodFillCommand.dispatchArgs
  rw [pixel_viaDouble, pixel_viaDouble]

/-- The invariant of a dispatch passes to an equal argument list. -/
theorem iterInv_args {P : Type} {w0 w : World P} {args args2 : BlockArgs P} {M : Vec3c → Prop}
    {done : List (Int × Nat)} (h : IterInv w0 w args M done) (e : args = args2) :
    IterInv w0 w args2 M done := e ▸ h

/-- The dispatch over the blocks, described against the state at its start. -/
theorem iterInv_dispatch (jobFuel : Nat) (hjf : 3 ≤ jobFuel) (img0 : DistributedImage P)
    (sp : Vec3c) (fill : P) (c : Connectivity) (bl : List (Int × Nat))
    (hset : FillSetup img0 sp fill c) (hpart : ZPartition img0 bl) (s : LoopState P)
    (hI : FillInv img0 sp fill c bl s) :
    IterInv s.world
      (distributeList referenceFloodFill jobFuel bl
        (FloodFillCommand.dispatchArgs sp (img0.getPixel sp) fill c s) s.world)
      ⟨s.seedsSourceFilenamePrefix, s.seedsTargetFilenamePrefix, sp, img0.getPixel sp, fill, c,
        s.world.1.dimensions, ⟨0, 0, 0⟩⟩
      (GlobalReach img0 sp c) bl := by
  have e := dispatchArgs_exact sp (img0.getPixel sp) fill c s
  have hq : ∀ q : Vec3c, InImage s.world.1 q ↔ InImage img0 q := by
    intro q
    unfold InImage
    rw [hI.dims]
  have h := iterInv_fold jobFuel hjf s.world
    (FloodFillCommand.dispatchArgs sp (img0.getPixel sp) fill c s) (GlobalReach img0 sp c)
    (by rw [e]; exact hset.hcol)
    (by
      rw [e]
      intro q hq1 hq2 hq3
      rcases hI.sound q with h1 | h1
      · exact hI.pendingSound q hq3 ((hq q).1 hq1) (h1.symm.trans hq2)
      · exact h1.1)
    (by
      rw [e]
      intro p q hp hadj hq1 hq2
      rcases hI.sound q with h1 | h1
      · exact Reach.step p q hp hadj ((inside_toImage img0 q).2 ((hq q).1 hq1))
          (h1.symm.trans hq2)
      · exact h1.1)
    bl [] s.world (blockSetup_of_fillInv img0 sp fill c bl hset hpart s hI) hpart.pairwise
    (by intro b hb; cases hb) (iterInv_start _ _ _)
  rw [List.nil_append] at h
  exact iterInv_args h e

/-- The invariant of the outer loop holds again after the dispatch, the
start point is filled, and the number of pixels of the original colour has gone
down if a file is left under the target prefix. -/
theorem fillInv_afterDispatch (jobFuel : Nat) (hjf : 3 ≤ jobFuel) (img0 : DistributedImage P)
    (sp : Vec3c) (fill : P) (c : Connectivity) (bl : List (Int × Nat))
    (hset : FillSetup img0 sp fill c) (hpart : ZPartition img0 bl) (s : LoopState P)
    (hI : FillInv img0 sp fill c bl s) :
    FillInv img0 sp fill c bl
        (afterDispatch (distributeList referenceFloodFill jobFuel bl) sp (img0.getPixel sp)
          fill c s) ∧
      (afterDispatch (distributeList referenceFloodFill jobFuel bl) sp (img0.getPixel sp)
          fill c s).world.1.pix sp.x sp.y sp.z = fill ∧
      ((∃ k : Int, fileBody
          (afterDispatch (distributeList referenceFloodFill jobFuel bl) sp (img0.getPixel sp)
            fill c s).world.2 ⟨s.seedsTargetFilenamePrefix, k⟩ ≠ none) →
        countColor img0
            (afterDispatch (distributeList referenceFloodFill jobFuel bl) sp
              (img0.getPixel sp) fill c s).world.1 (img0.getPixel sp)
          < countColor img0 s.world.1 (img0.getPixel sp)) := by
  have hIt := iterInv_dispatch jobFuel hjf img0 sp fill c bl hset hpart s hI
  have horig : img0.getPixel sp ≠ fill := hset.hcol
  have hsp := hset.hin
  -- abbreviations for the state after the dispatch
  have hpendT : ∀ q : Vec3c,
      Pending (afterDispatch (distributeList referenceFloodFill jobFuel bl) sp
          (img0.getPixel sp) fill c s).world.2 s.seedsTargetFilenamePrefix q ↔
        Pending (distributeList referenceFloodFill jobFuel bl
          (FloodFillCommand.dispatchArgs sp (img0.getPixel sp) fill c s) s.world).2
          s.seedsTargetFilenamePrefix q := by
    intro q
    apply pending_congr
    exact fileBody_deleteSources_other _ _ _ (fun e => hI.ne e.symm)
  have hnoT : ∀ q : Vec3c, ¬ Pending s.world.2 s.seedsTargetFilenamePrefix q :=
    fun q => not_pending_of_none _ _ q (hI.fresh q.z)
  have hchanged : ∀ p : Vec3c, s.world.1.pix p.x p.y p.z
        ≠ (distributeList referenceFloodFill jobFuel bl
          (FloodFillCommand.dispatchArgs sp (img0.getPixel sp) fill c s) s.world).1.pix
            p.x p.y p.z →
      s.world.1.pix p.x p.y p.z = img0.getPixel sp ∧
        (distributeList referenceFloodFill jobFuel bl
          (FloodFillCommand.dispatchArgs sp (img0.getPixel sp) fill c s) s.world).1.pix
            p.x p.y p.z = fill ∧ GlobalReach img0 sp c p := by
    intro p hp
    rcases hIt.mono p with h | h
    · exact absurd h.symm hp
    · exact h
  have hinb : ∀ (b : Int × Nat) (q : Vec3c), InImage img0 q → b.1 ≤ q.z →
      q.z < b.1 + (b.2 : Int) → InBlock s.world b.1 b.2 q := by
    intro b q hq h1 h2
    unfold InImage at hq
    unfold InBlock
    rw [hI.dims]
    omega
  have hstart : (distributeList referenceFloodFill jobFuel bl
      (FloodFillCommand.dispatchArgs sp (img0.getPixel sp) fill c s) s.world).1.pix
        sp.x sp.y sp.z = fill := by
    by_cases h0 : s.world.1.pix sp.x sp.y sp.z = fill
    · rcases hIt.mono sp with h | h
      · rw [h]; exact h0
      · exact h.2.1
    · rcases hI.start with h | h
      · exact absurd h h0
      · have hso : s.world.1.pix sp.x sp.y sp.z = img0.getPixel sp := by
          rcases hI.sound sp with h1 | h1
          · exact h1
          · exact absurd h1.2 h0
        obtain ⟨b, hb, hb1, hb2⟩ := hpart.cover sp.z hsp.2.2.2.2.1 hsp.2.2.2.2.2
        exact hIt.consumed b hb sp (hinb b sp hsp hb1 hb2) hso h (Or.inr (Or.inl rfl))
  refine ⟨?_, hstart, ?_⟩
  · constructor
    · -- dims
      exact hIt.dims.trans hI.dims
    · -- sound
      intro p
      rcases hIt.mono p with h | h
      · rcases hI.sound p with h1 | h1
        · exact Or.inl (h.trans h1)
        · exact Or.inr ⟨h1.1, h.trans h1.2⟩
      · exact Or.inr ⟨h.2.2, h.2.1⟩
    · -- pendingSound
      intro q hq hqi hqo
      rcases hIt.tgtSound q ((hpendT q).1 hq) with h | ⟨p, _, hp2, hp3⟩
      · exact absurd h (hnoT q)
      · exact Reach.step p q (hchanged p hp2).2.2 (footAdj_adjacent c p q hp3)
          ((inside_toImage img0 q).2 hqi) hqo
    · -- frontier
      intro p q hG hpf hadj hq hqo
      have hq0 : s.world.1.pix q.x q.y q.z = img0.getPixel sp := by
        rcases hIt.mono q with h | h
        · rw [← h]; exact hqo
        · exact h.1
      have hpin := (globalReach_inImage img0 sp c p hG).1
      have hqne : (distributeList referenceFloodFill jobFuel bl
          (FloodFillCommand.dispatchArgs sp (img0.getPixel sp) fill c s) s.world).1.pix
            q.x q.y q.z ≠ fill := by
        intro e
        exact horig (hqo.symm.trans e)
      by_cases hp0 : s.world.1.pix p.x p.y p.z = fill
      · obtain ⟨hpend, hread⟩ := hI.frontier p q hG hp0 hadj hq hq0
        obtain ⟨b, hb, hb1, hb2⟩ := hpart.cover q.z hq.2.2.2.2.1 hq.2.2.2.2.2
        exact absurd (hIt.consumed b hb q (hinb b q hq hb1 hb2) hq0 hpend (hread b hb hb1 hb2))
          hqne
      · have hch : s.world.1.pix p.x p.y p.z
            ≠ (distributeList referenceFloodFill jobFuel bl
              (FloodFillCommand.dispatchArgs sp (img0.getPixel sp) fill c s) s.world).1.pix
                p.x p.y p.z := by
          intro e
          exact hp0 (e.trans hpf)
        have hpo := (hchanged p hch).1
        obtain ⟨b, hb, hb1, hb2⟩ := hpart.cover p.z hpin.2.2.2.2.1 hpin.2.2.2.2.2
        have hpb := hinb b p hpin hb1 hb2
        by_cases hqb : InBlock s.world b.1 b.2 q
        · exact absurd (hIt.closure b hb p q hpb hqb hadj hpo hpf hq0) hqne
        · have hqz : q.z < b.1 ∨ b.1 + (b.2 : Int) ≤ q.z := by
            by_contra hcon
            exact hqb (hinb b q hq (by omega) (by omega))
          have hcross := adjacent_cross c p q hadj (by omega)
          have hbi := hpart.inside b hb
          unfold InImage at hq
          constructor
          · refine (hpendT q).2 (hIt.tgtComplete b hb p q hpb hch hcross.1 ?_)
            rw [hI.dims]
            omega
          · intro e he h1 h2
            rcases pairwise_apart_mem bl hpart.pairwise b hb e he with rfl | hap
            · omega
            · have hei := hpart.inside e he
              unfold Apart at hap
              omega
    · -- start
      exact Or.inl hstart
    · -- fresh
      intro k
      exact fileBody_deleteSources_self _ _ k
    · -- ne
      exact fun e => hI.ne e.symm
  · -- progress
    rintro ⟨k, hk⟩
    have hk2 : fileBody (distributeList referenceFloodFill jobFuel bl
        (FloodFillCommand.dispatchArgs sp (img0.getPixel sp) fill c s) s.world).2
        ⟨s.seedsTargetFilenamePrefix, k⟩ ≠ none := by
      intro e
      apply hk
      change fileBody (FloodFillCommand.deleteSources _ _) _ = none
      rw [fileBody_deleteSources_other _ _ _ (fun e => hI.ne e.symm)]
      exact e
    have hex : ∃ p : Vec3c, InImage img0 p ∧ s.world.1.pix p.x p.y p.z
        ≠ (distributeList referenceFloodFill jobFuel bl
          (FloodFillCommand.dispatchArgs sp (img0.getPixel sp) fill c s) s.world).1.pix
            p.x p.y p.z := by
      rcases hIt.tgtFiles k with h | ⟨x, y, h⟩
      · exact absurd (h.trans (hI.fresh k)) hk2
      · rcases hIt.tgtSound _ h with h1 | ⟨p, hp1, hp2, _⟩
        · exact absurd h1 (hnoT _)
        · refine ⟨p, ?_, hp2⟩
          unfold InImage at hp1 ⊢
          rw [← hI.dims]
          exact hp1
    obtain ⟨p, hp1, hp2⟩ := hex
    have hp3 := hchanged p hp2
    unfold countColor
    apply Finset.card_lt_card
    rw [Finset.ssubset_iff_of_subset]
    · refine ⟨p, ?_, ?_⟩
      · rw [Finset.mem_filter]
        exact ⟨(mem_box _ p).2 ((inside_toImage img0 p).2 hp1), hp3.1⟩
      · rw [Finset.mem_filter]
        intro h
        have h2 : (distributeList referenceFloodFill jobFuel bl
            (FloodFillCommand.dispatchArgs sp (img0.getPixel sp) fill c s) s.world).1.pix
              p.x p.y p.z = img0.getPixel sp := h.2
        rw [hp3.2.1] at h2
        exact horig h2.symm
    · intro q hq
      rw [Finset.mem_filter] at hq ⊢
      refine ⟨hq.1, ?_⟩
      have h2 : (distributeList referenceFloodFill jobFuel bl
          (FloodFillCommand.dispatchArgs sp (img0.getPixel sp) fill c s) s.world).1.pix
            q.x q.y q.z = img0.getPixel sp := hq.2
      rcases hIt.mono q with h | h
      · rw [← h]; exact h2
      · exact h.1

end loop

section outer

variable {P : Type} [DecidableEq P] [PixelType P] [ExactPixel P]

theorem loopBody_eq_afterDispatch {P : Type} [PixelType P]
    (distribute : Distributor P) (sp : Vec3c) (orig fill : P)
    (c : Connectivity) (s : LoopState P) :
    FloodFillCommand.loopBody distribute sp orig fill c s
      = if (buildFileList (afterDispatch distribute sp orig fill c s).world.2
            s.seedsTargetFilenamePrefix).length ≤ 0 then
          Sum.inr (afterDispatch distribute sp orig fill c s).world
        else
          Sum.inl (afterDispatch distribute sp orig fill c s) := rfl

theorem runDistributed_eq_outerLoop {P : Type} [PixelType P]
    (distribute : Distributor P) (src tgt : String)
    (fuel : Nat) (w : World P) (sp : Vec3c) (fill : P) (c : Connectivity)
    (hin : w.1.isInImage sp = true)
    (hcol : PixelType.eq (w.1.getPixel sp) fill = false) :
    FloodFillCommand.runDistributed distribute src tgt fuel w sp fill c
      = (FloodFillCommand.outerLoop distribute sp (w.1.getPixel sp) fill c fuel
          (FloodFillCommand.initialLoopState src tgt w sp)).map (fun w2 => ([], w2)) := by
  unfold FloodFillCommand.runDistributed
  rw [hin]
  simp only [Bool.not_true, Bool.false_eq_true, if_false, hcol]
  cases FloodFillCommand.outerLoop distribute sp (w.1.getPixel sp) fill c fuel
      (FloodFillCommand.initialLoopState src tgt w sp) with
  | none => rfl
  | some w2 => rfl

theorem fillResult_of_exit {P : Type} (img0 : DistributedImage P) (sp : Vec3c) (fill : P)
    (c : Connectivity) (bl : List (Int × Nat)) (t : LoopState P)
    (hI : FillInv img0 sp fill c bl t) (hstart : t.world.1.pix sp.x sp.y sp.z = fill)
    (hnone : ∀ k : Int, fileBody t.world.2 ⟨t.seedsSourceFilenamePrefix, k⟩ = none) :
    FillResult img0 sp fill c t.world := by
  refine ⟨hI.dims, fun p => ⟨?_, ?_⟩⟩
  · intro hG
    unfold GlobalReach at hG
    induction hG with
    | seed a ha _ _ =>
      rw [List.mem_singleton] at ha
      rw [ha]
      exact hstart
    | step a b ha hadj hin hcol ih =>
      rcases hI.sound b with h | h
      · have hb : t.world.1.pix b.x b.y b.z = img0.getPixel sp := h.trans hcol
        have := (hI.frontier a b ha ih hadj ((inside_toImage img0 b).1 hin) hb).1
        exact absurd this (not_pending_of_none _ _ b (hnone b.z))
      · exact h.2
  · intro hG
    rcases hI.sound p with h | h
    · exact h
    · exact absurd h.1 hG

/-- Whenever the outer loop over the blocks ends, the image is the flood-filled
one. -/
theorem outerLoop_fillResult (jobFuel : Nat) (hjf : 3 ≤ jobFuel) (img0 : DistributedImage P)
    (sp : Vec3c) (fill : P) (c : Connectivity) (bl : List (Int × Nat))
    (hset : FillSetup img0 sp fill c) (hpart : ZPartition img0 bl) :
    ∀ (fuel : Nat) (s : LoopState P) (w : World P), FillInv img0 sp fill c bl s →
      FloodFillCommand.outerLoop (distributeList referenceFloodFill jobFuel bl) sp
        (img0.getPixel sp) fill c fuel s = some w →
      FillResult img0 sp fill c w
  | 0, _, _, _, h => by cases h
  | fuel + 1, s, w, hI, h => by
    have hpost := fillInv_afterDispatch jobFuel hjf img0 sp fill c bl hset hpart s hI
    unfold FloodFillCommand.outerLoop at h
    rw [loopBody_eq_afterDispatch] at h
    by_cases hex : (buildFileList (afterDispatch (distributeList referenceFloodFill jobFuel bl)
        sp (img0.getPixel sp) fill c s).world.2 s.seedsTargetFilenamePrefix).length ≤ 0
    · rw [if_pos hex] at h
      simp only [Option.some.injEq] at h
      rw [← h]
      apply fillResult_of_exit img0 sp fill c bl _ hpost.1 hpost.2.1
      intro k
      apply fileBody_none_of_buildFileList
      exact List.length_eq_zero.1 (Nat.le_zero.1 hex)
    · rw [if_neg hex] at h
      exact outerLoop_fillResult jobFuel hjf img0 sp fill c bl hset hpart fuel _ w hpost.1 h

/-- The outer loop over the blocks ends within as many iterations as the
image has pixels of the original colour, plus one. -/
theorem outerLoop_terminates (jobFuel : Nat) (hjf : 3 ≤ jobFuel) (img0 : DistributedImage P)
    (sp : Vec3c) (fill : P) (c : Connectivity) (bl : List (Int × Nat))
    (hset : FillSetup img0 sp fill c) (hpart : ZPartition img0 bl) :
    ∀ (n fuel : Nat) (s : LoopState P), FillInv img0 sp fill c bl s →
      countColor img0 s.world.1 (img0.getPixel sp) ≤ n → n + 1 ≤ fuel →
      ∃ w : World P, FloodFillCommand.outerLoop (distributeList referenceFloodFill jobFuel bl)
        sp (img0.getPixel sp) fill c fuel s = some w
  | _, 0, _, _, _, hf => by omega
  | n, fuel + 1, s, hI, hn, hf => by
    have hpost := fillInv_afterDispatch jobFuel hjf img0 sp fill c bl hset hpart s hI
    unfold FloodFillCommand.outerLoop
    rw [loopBody_eq_afterDispatch]
    by_cases hex : (buildFileList (afterDispatch (distributeList referenceFloodFill jobFuel bl)
        sp (img0.getPixel sp) fill c s).world.2 s.seedsTargetFilenamePrefix).length ≤ 0
    · rw [if_pos hex]
      exact ⟨_, rfl⟩
    · rw [if_neg hex]
      have hne : buildFileList (afterDispatch (distributeList referenceFloodFill jobFuel bl)
          sp (img0.getPixel sp) fill c s).world.2 s.seedsTargetFilenamePrefix ≠ [] := by
        intro e
        rw [e] at hex
        exact hex (Nat.le_refl 0)
      have hlt := hpost.2.2 (exists_file_of_buildFileList _ _ hne)
      cases n with
      | zero => omega
      | succ m =>
        exact outerLoop_terminates jobFuel hjf img0 sp fill c bl hset hpart m fuel _ hpost.1
          (by omega) (by omega)

theorem countColor_le {P : Type} [DecidableEq P]
    (img0 img : DistributedImage P) (color : P) :
    countColor img0 img color
      ≤ img0.dimensions.x.toNat * img0.dimensions.y.toNat * img0.dimensions.z.toNat := by
  unfold countColor
  exact le_trans (Finset.card_filter_le _ _) (card_box_le img0.toImage)

theorem pending_initial (fs : FileSystem) (src : String) (sp q : Vec3c)
    (hfresh : ∀ k : Int, fileBody fs ⟨src, k⟩ = none)
    (hx0 : 0 ≤ sp.x) (hx1 : sp.x < 2147483648) (hy0 : 0 ≤ sp.y) (hy1 : sp.y < 2147483648) :
    Pending (FloodFillBlockCommand.writeOutputFile fs
        (FloodFillCommand.initialSeedFile src sp) (FloodFillCommand.initialSeeds sp)) src q
      ↔ q = sp := by
  unfold Pending
  rw [FloodFillBlockCommand.fileBody_writeOutputFile]
  unfold FloodFillCommand.initialSeedFile FloodFillCommand.initialSeeds
  have e1 : (toInt32 sp.x).val = sp.x := toInt32_val_of_range sp.x (by omega) hx1
  have e2 : (toInt32 sp.y).val = sp.y := toInt32_val_of_range sp.y (by omega) hy1
  by_cases hz : q.z = sp.z
  · simp only [hz, if_true, Option.some.injEq, exists_eq_left', List.nil_append,
      List.flatMap_cons, List.flatMap_nil, List.append_nil, fileRecords_writePoint,
      List.mem_singleton, exists_eq_left, Vec3sc.ofVec3c, e1, e2]
    constructor
    · rintro ⟨h1, h2⟩
      cases q
      cases sp
      simp only [Vec3c.mk.injEq]
      simp only at h1 h2 hz
      exact ⟨h1.symm, h2.symm, hz⟩
    · rintro rfl
      exact ⟨rfl, rfl⟩
  · have hne : (⟨src, q.z⟩ : FileName) ≠ ⟨src, sp.z⟩ := by
      intro e
      simp only [FileName.mk.injEq, true_and] at e
      exact hz e
    rw [if_neg hne, hfresh]
    constructor
    · rintro ⟨body, hb, _⟩
      cases hb
    · rintro rfl
      exact absurd rfl hz

/-- The invariant of the outer loop holds when the loop is entered. -/
theorem fillInv_initial {P : Type} (src tgt : String) (w : World P) (sp : Vec3c) (fill : P)
    (c : Connectivity) (bl : List (Int × Nat)) (hset : FillSetup w.1 sp fill c)
    (hne : src ≠ tgt) (hsrc : buildFileList w.2 src = []) (htgt : buildFileList w.2 tgt = []) :
    FillInv w.1 sp fill c bl (FloodFillCommand.initialLoopState src tgt w sp) := by
  have hin := hset.hin
  have hx1 := hset.hx1
  have hy1 := hset.hy1
  unfold InImage at hin
  have hp : ∀ q : Vec3c, Pending (FloodFillCommand.initialLoopState src tgt w sp).world.2 src q
      ↔ q = sp :=
    fun q => pending_initial w.2 src sp q (fileBody_none_of_buildFileList w.2 src hsrc)
      (by omega) (by omega) (by omega) (by omega)
  constructor
  · rfl
  · exact fun _ => Or.inl rfl
  · intro q hq _ _
    rw [(hp q).1 hq]
    exact Reach.seed sp (List.mem_singleton.2 rfl) ((inside_toImage w.1 sp).2 hset.hin) rfl
  · intro p q hG hpf _ _ _
    have h1 := (globalReach_inImage w.1 sp c p hG).2
    exact absurd (h1.symm.trans hpf) hset.hcol
  · exact Or.inr ((hp sp).2 rfl)
  · intro k
    change fileBody (FloodFillBlockCommand.writeOutputFile w.2 _ _) ⟨tgt, k⟩ = none
    rw [FloodFillBlockCommand.fileBody_writeOutputFile, if_neg]
    · exact fileBody_none_of_buildFileList w.2 tgt htgt k
    · unfold FloodFillCommand.initialSeedFile
      intro e
      simp only [FileName.mk.injEq] at e
      exact hne e.1.symm
  · exact hne

end outer

section results

variable {P : Type} [DecidableEq P] [PixelType P] [ExactPixel P]

theorem fillSetup_of {P : Type} (w : World P) (sp : Vec3c) (fill : P) (c : Connectivity)
    (hx : w.1.dimensions.x < 2147483648) (hy : w.1.dimensions.y < 2147483648)
    (hz : w.1.dimensions.z < 2147483648)
    (hin : w.1.isInImage sp = true) (hcol : w.1.getPixel sp ≠ fill)
    (hconn : c = Connectivity.NearestNeighbours ∨ c = Connectivity.AllNeighbours) :
    FillSetup w.1 sp fill c :=
  ⟨hx, hy, hz, (isInImage_iff w.1 sp).1 hin, hcol, hconn⟩

/-- Whenever the distributed flood fill over a division into blocks returns,
the image is the flood-filled one. -/
theorem runDistributed_fillResult (src tgt : String) (jobFuel fuel : Nat) (w : World P)
    (sp : Vec3c) (fill : P) (c : Connectivity) (bl : List (Int × Nat))
    (hne : src ≠ tgt) (hsrc : buildFileList w.2 src = []) (htgt : buildFileList w.2 tgt = [])
    (hset : FillSetup w.1 sp fill c) (hpart : ZPartition w.1 bl) (hjf : 3 ≤ jobFuel)
    (hin : w.1.isInImage sp = true) (r : List String × World P)
    (h : FloodFillCommand.runDistributed (distributeList referenceFloodFill jobFuel bl)
      src tgt fuel w sp fill c = some r) :
    r.1 = [] ∧ FillResult w.1 sp fill c r.2 ∧
      buildFileList r.2.2 src = [] ∧ buildFileList r.2.2 tgt = [] := by
  rw [runDistributed_eq_outerLoop _ _ _ _ _ _ _ _ hin (pixel_eq_false hset.hcol)] at h
  cases ho : FloodFillCommand.outerLoop (distributeList referenceFloodFill jobFuel bl) sp
      (w.1.getPixel sp) fill c fuel (FloodFillCommand.initialLoopState src tgt w sp) with
  | none =>
    rw [ho] at h
    cases h
  | some w2 =>
    rw [ho] at h
    simp only [Option.map_some', Option.some.injEq] at h
    rw [← h]
    refine ⟨rfl, ?_, ?_⟩
    · exact outerLoop_fillResult jobFuel hjf w.1 sp fill c bl hset hpart fuel _ w2
        (fillInv_initial src tgt w sp fill c bl hset hne hsrc htgt) ho
    · exact FloodFillCommand.outerLoop_exit _ _ _ _ _ fuel _ w2 ho

/-- The distributed flood fill over a division into blocks returns when the
outer loop may make one iteration more than the image has pixels. -/
theorem runDistributed_terminates (src tgt : String) (jobFuel fuel : Nat) (w : World P)
    (sp : Vec3c) (fill : P) (c : Connectivity) (bl : List (Int × Nat))
    (hne : src ≠ tgt) (hsrc : buildFileList w.2 src = []) (htgt : buildFileList w.2 tgt = [])
    (hset : FillSetup w.1 sp fill c) (hpart : ZPartition w.1 bl) (hjf : 3 ≤ jobFuel)
    (hin : w.1.isInImage sp = true)
    (hfuel : w.1.dimensions.x.toNat * w.1.dimensions.y.toNat * w.1.dimensions.z.toNat + 1
      ≤ fuel) :
    ∃ w2 : World P, FloodFillCommand.runDistributed (distributeList referenceFloodFill jobFuel bl)
      src tgt fuel w sp fill c = some ([], w2) := by
  rw [runDistributed_eq_outerLoop _ _ _ _ _ _ _ _ hin (pixel_eq_false hset.hcol)]
  obtain ⟨w2, hw2⟩ := outerLoop_terminates jobFuel hjf w.1 sp fill c bl hset hpart
    (w.1.dimensions.x.toNat * w.1.dimensions.y.toNat * w.1.dimensions.z.toNat) fuel
    (FloodFillCommand.initialLoopState src tgt w sp)
    (fillInv_initial src tgt w sp fill c bl hset hne hsrc htgt)
    (countColor_le w.1 _ _) hfuel
  exact ⟨w2, by rw [hw2]; rfl⟩

/-- A flood-filled image has the pixels of the flood fill that is not
distributed. -/
theorem fillResult_pix {P : Type} [DecidableEq P]
    (img0 : DistributedImage P) (sp : Vec3c) (fill : P) (c : Connectivity)
    (w2 : World P) (h : FillResult img0 sp fill c w2) :
    w2.1.pix = (FloodFillCommand.run referenceFloodFillFrom img0.toImage sp fill c).pix := by
  funext x y z
  change _ = referenceFloodFillFrom img0.toImage sp fill fill c x y z
  unfold referenceFloodFillFrom
  have key : reachedWithin img0.toImage [sp] (img0.toImage.pix sp.x sp.y sp.z) c
      (img0.toImage.width * img0.toImage.height * img0.toImage.depth) ⟨x, y, z⟩ = true
        ↔ GlobalReach img0 sp c ⟨x, y, z⟩ :=
    reachedWithin_iff_reach img0.toImage [sp] (img0.toImage.pix sp.x sp.y sp.z) c ⟨x, y, z⟩
  by_cases hr : reachedWithin img0.toImage [sp] (img0.toImage.pix sp.x sp.y sp.z) c
      (img0.toImage.width * img0.toImage.height * img0.toImage.depth) ⟨x, y, z⟩ = true
  · rw [if_pos hr]
    exact (h.2 ⟨x, y, z⟩).1 (key.1 hr)
  · rw [if_neg hr]
    exact (h.2 ⟨x, y, z⟩).2 (fun hG => hr (key.2 hG))

end results

theorem reach_line {Q : Type} (img : Image Q) (seeds : List Vec3c) (orig : Q)
    (c : Connectivity) (f : Int → Vec3c)
    (hadj : ∀ t : Int, adjacent c (f t) (f (t + 1)) = true ∧
      adjacent c (f (t + 1)) (f t) = true)
    (hin : ∀ a b t : Int, a ≤ t → t ≤ b → img.inside (f a) = true → img.inside (f b) = true →
      img.inside (f t) = true)
    (hcol : ∀ t : Int, img.inside (f t) = true → img.pix (f t).x (f t).y (f t).z = orig)
    (a b : Int) (ha : Reach img seeds orig c (f a)) (hb : img.inside (f b) = true) :
    Reach img seeds orig c (f b) := by
  have hia := (Reach.inside_orig _ _ _ _ _ ha).1
  by_cases hab : a ≤ b
  · have key : ∀ n : Nat, a + (n : Int) ≤ b → Reach img seeds orig c (f (a + (n : Int))) := by
      intro n
      induction n with
      | zero =>
        intro _
        rw [Nat.cast_zero, add_zero]
        exact ha
      | succ n ih =>
        intro hn
        have e : a + ((n + 1 : Nat) : Int) = a + (n : Int) + 1 := by
          push_cast
          ring
        rw [e] at hn ⊢
        have hi := hin a b (a + (n : Int) + 1) (by omega) hn hia hb
        exact Reach.step _ _ (ih (by omega)) (hadj _).1 hi (hcol _ hi)
    have := key (b - a).toNat (by omega)
    have e : a + ((b - a).toNat : Int) = b := by omega
    rw [e] at this
    exact this
  · have key : ∀ n : Nat, b ≤ a - (n : Int) → Reach img seeds orig c (f (a - (n : Int))) := by
      intro n
      induction n with
      | zero =>
        intro _
        rw [Nat.cast_zero, sub_zero]
        exact ha
      | succ n ih =>
        intro hn
        have e : a - ((n + 1 : Nat) : Int) = a - (n : Int) - 1 := by
          push_cast
          ring
        rw [e] at hn ⊢
        have hi := hin b a (a - (n : Int) - 1) hn (by omega) hb hia
        have h1 := (hadj (a - (n : Int) - 1)).2
        rw [sub_add_cancel] at h1
        exact Reach.step _ _ (ih (by omega)) h1 hi (hcol _ hi)
    have := key (a - b).toNat (by omega)
    have e : a - ((a - b).toNat : Int) = b := by omega
    rw [e] at this
    exact this

/-- In an image of one colour the flood fill reaches every pixel. -/
theorem globalReach_uniform {Q : Type} (img0 : DistributedImage Q) (sp : Vec3c)
    (c : Connectivity)
    (hconn : c = Connectivity.NearestNeighbours ∨ c = Connectivity.AllNeighbours)
    (color : Q) (huni : ∀ x y z : Int, img0.pix x y z = color) (hsp : InImage img0 sp)
    (p : Vec3c) (hp : InImage img0 p) : GlobalReach img0 sp c p := by
  have hcol : ∀ q : Vec3c, img0.toImage.pix q.x q.y q.z = img0.getPixel sp := by
    intro q
    change img0.pix q.x q.y q.z = img0.pix sp.x sp.y sp.z
    rw [huni, huni]
  have h0 : GlobalReach img0 sp c sp :=
    Reach.seed sp (List.mem_singleton.2 rfl) ((inside_toImage img0 sp).2 hsp) rfl
  unfold InImage at hsp hp
  have h1 : GlobalReach img0 sp c ⟨p.x, sp.y, sp.z⟩ := by
    refine reach_line img0.toImage [sp] _ c (fun t => ⟨t, sp.y, sp.z⟩) ?_ ?_
      (fun t _ => hcol _) sp.x p.x h0 ?_
    · intro t
      rcases hconn with rfl | rfl <;>
        simp only [adjacent, decide_eq_true_eq, true_and, and_true, true_or, or_true] <;> omega
    · intro a b t h1 h2 h3 h4
      rw [inside_toImage] at h3 h4 ⊢
      unfold InImage at h3 h4 ⊢
      simp only at h3 h4 ⊢
      omega
    · rw [inside_toImage]
      unfold InImage
      simp only
      omega
  have h2 : GlobalReach img0 sp c ⟨p.x, p.y, sp.z⟩ := by
    refine reach_line img0.toImage [sp] _ c (fun t => ⟨p.x, t, sp.z⟩) ?_ ?_
      (fun t _ => hcol _) sp.y p.y h1 ?_
    · intro t
      rcases hconn with rfl | rfl <;>
        simp only [adjacent, decide_eq_true_eq, true_and, and_true, true_or, or_true] <;> omega
    · intro a b t h1 h2 h3 h4
      rw [inside_toImage] at h3 h4 ⊢
      unfold InImage at h3 h4 ⊢
      simp only at h3 h4 ⊢
      omega
    · rw [inside_toImage]
      unfold InImage
      simp only
      omega
  have h3 : GlobalReach img0 sp c ⟨p.x, p.y, p.z⟩ := by
    refine reach_line img0.toImage [sp] _ c (fun t => ⟨p.x, p.y, t⟩) ?_ ?_
      (fun t _ => hcol _) sp.z p.z h2 ?_
    · intro t
      rcases hconn with rfl | rfl <;>
        simp only [adjacent, decide_eq_true_eq, true_and, and_true, true_or, or_true] <;> omega
    · intro a b t h1 h2 h3 h4
      rw [inside_toImage] at h3 h4 ⊢
      unfold InImage at h3 h4 ⊢
      simp only at h3 h4 ⊢
      omega
    · rw [inside_toImage]
      unfold InImage
      simp only
      omega
  exact h3

section claims

variable {P : Type} [DecidableEq P] [PixelType P] [ExactPixel P]

/-- The distributed flood fill is correct for a pixel type whose comparison is
exact and whose colours pass through `double` unchanged: for every image of
such pixels whose dimensions fit `int32_t`, every division of it
along `z` into consecutive blocks at least two planes deep, every start point
in the image whose colour is not the fill colour and either connectivity,
with the reference flood fill as kernel and two different prefixes under which
no file exists: whenever `FloodFillCommand::runDistributed` returns, it returns
the empty list and the image has the dimensions and the pixels that the flood
fill that is not distributed gives from the same start point, fill colour and
connectivity; and it does return when the outer loop may make one iteration
more than the image has pixels. -/
theorem distributed_flood_fill_correct (src tgt : String) (jobFuel fuel : Nat) (w : World P)
    (sp : Vec3c) (fill : P) (c : Connectivity) (depths : List Nat)
    (hne : src ≠ tgt) (hsrc : buildFileList w.2 src = []) (htgt : buildFileList w.2 tgt = [])
    (hx : w.1.dimensions.x < 2147483648) (hy : w.1.dimensions.y < 2147483648)
    (hz : w.1.dimensions.z < 2147483648)
    (hdepths : ∀ d ∈ depths, 2 ≤ d) (hsum : ((depths.sum : Nat) : Int) = w.1.dimensions.z)
    (hin : w.1.isInImage sp = true) (hcol : w.1.getPixel sp ≠ fill)
    (hconn : c = Connectivity.NearestNeighbours ∨ c = Connectivity.AllNeighbours)
    (hjf : 3 ≤ jobFuel) :
    (∀ r : List String × World P,
      FloodFillCommand.runDistributed (distributeBlocks referenceFloodFill jobFuel depths)
        src tgt fuel w sp fill c = some r →
      r.1 = [] ∧ r.2.1.dimensions = w.1.dimensions ∧
        r.2.1.pix = (FloodFillCommand.run referenceFloodFillFrom w.1.toImage sp fill c).pix) ∧
    (w.1.dimensions.x.toNat * w.1.dimensions.y.toNat * w.1.dimensions.z.toNat + 1 ≤ fuel →
      ∃ w2 : World P,
        FloodFillCommand.runDistributed (distributeBlocks referenceFloodFill jobFuel depths)
          src tgt fuel w sp fill c = some ([], w2)) := by
  have hset := fillSetup_of w sp fill c hx hy hz hin hcol hconn
  have hpart := zPartition_blockOrigins w.1 depths hdepths hsum
  constructor
  · intro r hr
    have h := runDistributed_fillResult src tgt jobFuel fuel w sp fill c
      (blockOrigins 0 depths) hne hsrc htgt hset hpart hjf hin r hr
    exact ⟨h.1, h.2.1.1, fillResult_pix w.1 sp fill c r.2 h.2.1⟩
  · intro hfuel
    exact runDistributed_terminates src tgt jobFuel fuel w sp fill c
      (blockOrigins 0 depths) hne hsrc htgt hset hpart hjf hin hfuel

theorem distributed_flood_fill_correct_witness :
    ∃ w2 : World Nat,
      FloodFillCommand.runDistributed (distributeBlocks referenceFloodFill 3 [2, 2, 4])
        "s1" "s2" 33 (sampleWhole, []) ⟨1, 0, 4⟩ 7 Connectivity.AllNeighbours
          = some ([], w2) :=
  (distributed_flood_fill_correct "s1" "s2" 3 33 (sampleWhole, []) ⟨1, 0, 4⟩ 7
    Connectivity.AllNeighbours [2, 2, 4] (by decide) rfl rfl (by decide) (by decide)
    (by decide) (by decide) (by decide) (by decide) (by decide) (Or.inr rfl)
    (by decide)).2 (by decide)

/-- The fill crosses the block boundaries, for a pixel type whose comparison is
exact and whose colours pass through `double` unchanged: for an image of such
pixels of one colour whose dimensions fit `int32_t`, divided
along `z` into three consecutive blocks each at least two planes deep, a start
point in the middle block, a fill colour different from the colour of the image
and either connectivity, with the reference flood fill as kernel and two
different prefixes under which no file exists: the distributed flood fill
returns when the outer loop may make one iteration more than the image has
pixels, and whenever it returns every pixel of the image has the fill colour
and no file exists under either prefix. -/
theorem cross_boundary_propagation (src tgt : String) (jobFuel fuel : Nat) (w : World P)
    (sp : Vec3c) (color fill : P) (c : Connectivity) (d1 d2 d3 : Nat)
    (hne : src ≠ tgt) (hsrc : buildFileList w.2 src = []) (htgt : buildFileList w.2 tgt = [])
    (hx : w.1.dimensions.x < 2147483648) (hy : w.1.dimensions.y < 2147483648)
    (hz : w.1.dimensions.z < 2147483648)
    (hd1 : 2 ≤ d1) (hd2 : 2 ≤ d2) (hd3 : 2 ≤ d3)
    (hsum : (d1 : Int) + (d2 : Int) + (d3 : Int) = w.1.dimensions.z)
    (huni : ∀ x y z : Int, w.1.pix x y z = color) (hfill : fill ≠ color)
    (hmid : 0 ≤ sp.x ∧ sp.x < w.1.dimensions.x ∧ 0 ≤ sp.y ∧ sp.y < w.1.dimensions.y ∧
      (d1 : Int) ≤ sp.z ∧ sp.z < (d1 : Int) + (d2 : Int))
    (hconn : c = Connectivity.NearestNeighbours ∨ c = Connectivity.AllNeighbours)
    (hjf : 3 ≤ jobFuel) :
    (∀ r : List String × World P,
      FloodFillCommand.runDistributed (distributeBlocks referenceFloodFill jobFuel [d1, d2, d3])
        src tgt fuel w sp fill c = some r →
      (∀ p : Vec3c, w.1.isInImage p = true → r.2.1.pix p.x p.y p.z = fill) ∧
        buildFileList r.2.2 src = [] ∧ buildFileList r.2.2 tgt = []) ∧
    (w.1.dimensions.x.toNat * w.1.dimensions.y.toNat * w.1.dimensions.z.toNat + 1 ≤ fuel →
      ∃ w2 : World P,
        FloodFillCommand.runDistributed
          (distributeBlocks referenceFloodFill jobFuel [d1, d2, d3])
          src tgt fuel w sp fill c = some ([], w2)) := by
  have hin : w.1.isInImage sp = true := by
    rw [isInImage_iff]
    unfold InImage
    omega
  have hcol : w.1.getPixel sp ≠ fill := by
    change w.1.pix sp.x sp.y sp.z ≠ fill
    rw [huni]
    exact fun e => hfill e.symm
  have hset := fillSetup_of w sp fill c hx hy hz hin hcol hconn
  have hpart := zPartition_blockOrigins w.1 [d1, d2, d3]
    (by
      intro d hd
      simp only [List.mem_cons, List.mem_singleton, List.not_mem_nil, or_false] at hd
      rcases hd with rfl | rfl | rfl
      · exact hd1
      · exact hd2
      · exact hd3)
    (by
      simp only [List.sum_cons, List.sum_nil]
      push_cast
      omega)
  constructor
  · intro r hr
    have h := runDistributed_fillResult src tgt jobFuel fuel w sp fill c
      (blockOrigins 0 [d1, d2, d3]) hne hsrc htgt hset hpart hjf hin r hr
    refine ⟨?_, h.2.2⟩
    intro p hp
    exact (h.2.1.2 p).1
      (globalReach_uniform w.1 sp c hconn color huni hset.hin p ((isInImage_iff w.1 p).1 hp))
  · intro hfuel
    exact runDistributed_terminates src tgt jobFuel fuel w sp fill c
      (blockOrigins 0 [d1, d2, d3]) hne hsrc htgt hset hpart hjf hin hfuel

theorem cross_boundary_propagation_witness :
    ∃ w2 : World Nat,
      FloodFillCommand.runDistributed (distributeBlocks referenceFloodFill 3 [2, 2, 4])
        "s1" "s2" 33 (sampleWhole, []) ⟨1, 0, 3⟩ 7 Connectivity.NearestNeighbours
          = some ([], w2) :=
  (cross_boundary_propagation "s1" "s2" 3 33 (sampleWhole, []) ⟨1, 0, 3⟩ 0 7
    Connectivity.NearestNeighbours 2 2 4 (by decide) rfl rfl (by decide) (by decide)
    (by decide) (by decide) (by decide) (by decide) (by decide) (fun _ _ _ => rfl)
    (by decide) (by decide) (Or.inl rfl) (by decide)).2 (by decide)

end claims

theorem readBlock_whole {Q : Type} (img : DistributedImage Q) (depth : Nat)
    (h : (depth : Int) = img.dimensions.z) : readBlock img 0 depth = img.toImage := by
  have e : depth = img.dimensions.z.toNat := by omega
  unfold readBlock DistributedImage.toImage
  simp only [add_zero]
  rw [← e]

theorem seedsAddressedTo_initial (fs : FileSystem) (src : String) (sp : Vec3c) (k : Int)
    (hsrc : buildFileList fs src = [])
    (hz0 : 0 ≤ sp.z) (hz1 : sp.z < 2147483648) :
    seedsAddressedTo (FloodFillBlockCommand.writeOutputFile fs
        (FloodFillCommand.initialSeedFile src sp) (FloodFillCommand.initialSeeds sp)) src k
        (toInt32 0)
      = if k = sp.z then [Vec3sc.ofVec3c sp] else [] := by
  unfold seedsAddressedTo
  rw [FloodFillBlockCommand.fileBody_writeOutputFile]
  unfold FloodFillCommand.initialSeedFile FloodFillCommand.initialSeeds
  by_cases hk : k = sp.z
  · have e : (toInt32 sp.z - toInt32 0) = toInt32 sp.z := by
      rw [int32_sub_def, toInt32_val_of_range sp.z (by omega) hz1,
        toInt32_val_of_range 0 (by omega) (by omega), sub_zero]
    rw [hk]
    simp only [if_true, List.nil_append, List.flatMap_cons, List.flatMap_nil, List.append_nil,
      fileRecords_writePoint, List.map_cons, List.map_nil, e]
    rfl
  · have hne : (⟨src, k⟩ : FileName) ≠ ⟨src, sp.z⟩ := by
      intro e
      simp only [FileName.mk.injEq, true_and] at e
      exact hk e
    rw [if_neg hne, fileBody_none_of_buildFileList fs src hsrc k, if_neg hk]

theorem replicate_of_ite {α : Type} (a b : Prop) [Decidable a] [Decidable b] (s : α) :
    ∃ n m : Nat, (if a then [s] else []) ++ [s] ++ (if b then [s] else [])
      = List.replicate n s ++ [s] ++ List.replicate m s := by
  by_cases ha : a <;> by_cases hb : b
  · exact ⟨1, 1, by rw [if_pos ha, if_pos hb]; rfl⟩
  · exact ⟨1, 0, by rw [if_pos ha, if_neg hb]; rfl⟩
  · exact ⟨0, 1, by rw [if_neg ha, if_pos hb]; rfl⟩
  · exact ⟨0, 0, by rw [if_neg ha, if_neg hb]; rfl⟩

theorem expectedNewSeeds_out_of_range {Q : Type} [PixelType Q] (c : Connectivity)
    (origSize : Vec3c) (before after : Image Q) (z : Int) (newZ : int32_t)
    (h : ¬ (0 ≤ newZ.val ∧ newZ.val < origSize.z)) :
    expectedNewSeeds c origSize before after z newZ = [] := by
  unfold expectedNewSeeds
  rw [if_neg h]

section single

variable {P : Type} [DecidableEq P] [PixelType P] [ExactPixel P]

theorem singleBlockImage_eq {P : Type} [PixelType P] [ExactPixel P] (floodfill : FloodFillKernel P) (src tgt : String) (w : World P)
    (sp : Vec3c) (fill : P) (c : Connectivity) (depth : Nat)
    (hwhole : (depth : Int) = w.1.dimensions.z) :
    singleBlockImage floodfill src tgt w sp fill c depth
      = writeBlock w.1 0 (FloodFillBlockCommand.filledBlock floodfill
          (FloodFillCommand.initialLoopState src tgt w sp).world.2 (readBlock w.1 0 depth)
          ((FloodFillCommand.dispatchArgs sp (w.1.getPixel sp) fill c
            (FloodFillCommand.initialLoopState src tgt w sp)).atOrigin 0)) := by
  unfold singleBlockImage singleBlockSeeds FloodFillBlockCommand.filledBlock
  rw [readBlock_whole w.1 depth hwhole]
  have eo : ((FloodFillCommand.dispatchArgs sp (w.1.getPixel sp) fill c
      (FloodFillCommand.initialLoopState src tgt w sp)).atOrigin 0).origColor
        = w.1.getPixel sp := pixel_viaDouble _
  have ef : ((FloodFillCommand.dispatchArgs sp (w.1.getPixel sp) fill c
      (FloodFillCommand.initialLoopState src tgt w sp)).atOrigin 0).fillColor
        = fill := pixel_viaDouble _
  rw [eo, ef]
  rfl

theorem singleBlockSeeds_eq {P : Type} [PixelType P] (src tgt : String) (w : World P) (sp : Vec3c) (fill : P)
    (c : Connectivity) (depth : Nat) (hsrc : buildFileList w.2 src = [])
    (hz0 : 0 ≤ sp.z) (hz1 : sp.z < 2147483648) :
    ∃ n m : Nat, singleBlockSeeds src tgt w sp fill c depth
      = List.replicate n (Vec3sc.ofVec3c sp) ++ [Vec3sc.ofVec3c sp]
        ++ List.replicate m (Vec3sc.ofVec3c sp) := by
  unfold singleBlockSeeds
  rw [FloodFillBlockCommand.kernelSeeds_eq]
  change ∃ n m : Nat,
    seedsAddressedTo (FloodFillBlockCommand.writeOutputFile w.2
        (FloodFillCommand.initialSeedFile src sp) (FloodFillCommand.initialSeeds sp)) src _
        (toInt32 0)
      ++ seedsAddressedTo (FloodFillBlockCommand.writeOutputFile w.2
        (FloodFillCommand.initialSeedFile src sp) (FloodFillCommand.initialSeeds sp)) src sp.z
        (toInt32 0)
      ++ seedsAddressedTo (FloodFillBlockCommand.writeOutputFile w.2
        (FloodFillCommand.initialSeedFile src sp) (FloodFillCommand.initialSeeds sp)) src _
        (toInt32 0) = _
  rw [seedsAddressedTo_initial w.2 src sp _ hsrc hz0 hz1,
    seedsAddressedTo_initial w.2 src sp sp.z hsrc hz0 hz1,
    seedsAddressedTo_initial w.2 src sp _ hsrc hz0 hz1, if_pos rfl]
  exact replicate_of_ite _ _ _

theorem blockSetup_single {P : Type} [PixelType P] [ExactPixel P] (src tgt : String) (w : World P) (sp : Vec3c) (fill : P)
    (c : Connectivity) (depth : Nat) (hne : src ≠ tgt)
    (hset : FillSetup w.1 sp fill c) (hdepth : 2 ≤ depth)
    (hwhole : (depth : Int) = w.1.dimensions.z) :
    BlockSetup (FloodFillCommand.initialLoopState src tgt w sp).world
      (FloodFillCommand.dispatchArgs sp (w.1.getPixel sp) fill c
        (FloodFillCommand.initialLoopState src tgt w sp)) 0 depth := by
  have h2 := hset.hin
  unfold InImage at h2
  constructor
  · change 0 ≤ w.1.dimensions.x; omega
  · exact hset.hx1
  · change 0 ≤ w.1.dimensions.y; omega
  · exact hset.hy1
  · exact hset.hz1
  · exact le_refl 0
  · change 0 + (depth : Int) ≤ w.1.dimensions.z; omega
  · exact hdepth
  · exact h2.2.2.2.2.1
  · exact h2.2.2.2.2.2
  · exact hset.hconn
  · rfl
  · exact hne

/-- With a single block covering the whole image the first dispatch invokes the
kernel once on the whole image and writes no file. -/
theorem singleBlock_dispatch {P : Type} [PixelType P] [ExactPixel P]
    (floodfill : FloodFillKernel P) (src tgt : String)
    (jobFuel : Nat) (w : World P) (sp : Vec3c) (fill : P) (c : Connectivity) (depth : Nat)
    (hne : src ≠ tgt) (hset : FillSetup w.1 sp fill c) (hdepth : 2 ≤ depth)
    (hwhole : (depth : Int) = w.1.dimensions.z) (hjf : 3 ≤ jobFuel) :
    distributeBlocks floodfill jobFuel [depth]
        (FloodFillCommand.dispatchArgs sp (w.1.getPixel sp) fill c
          (FloodFillCommand.initialLoopState src tgt w sp))
        (FloodFillCommand.initialLoopState src tgt w sp).world
      = (singleBlockImage floodfill src tgt w sp fill c depth,
          (FloodFillCommand.initialLoopState src tgt w sp).world.2) := by
  have hs := blockSetup_single src tgt w sp fill c depth hne hset hdepth hwhole
  have hin := hset.hin
  unfold InImage at hin
  have hz1 := hset.hz1
  have e0 : (toInt32 0).val = 0 := toInt32_val_of_range 0 (by omega) (by omega)
  have hn : FloodFillBlockCommand.needsToRunBlock
      (FloodFillCommand.initialLoopState src tgt w sp).world.2 src sp ⟨0, 0, 0⟩
      ⟨w.1.dimensions.x, w.1.dimensions.y, (depth : Int)⟩ = true := by
    cases hv : FloodFillBlockCommand.needsToRunBlock
      (FloodFillCommand.initialLoopState src tgt w sp).world.2 src sp ⟨0, 0, 0⟩
      ⟨w.1.dimensions.x, w.1.dimensions.y, (depth : Int)⟩ with
    | true => rfl
    | false =>
      exfalso
      rw [FloodFillBlockCommand.needsToRunBlock_eq_false] at hv
      simp only [e0] at hv
      have e1 : (toInt32 (0 + (depth : Int) - 1)).val = 0 + (depth : Int) - 1 :=
        toInt32_val_of_range _ (by omega) (by omega)
      rw [e1] at hv
      rcases hv.2.2 with h | h
      · exact h (by omega)
      · have : fileExists (FloodFillCommand.initialLoopState src tgt w sp).world.2
            ⟨src, sp.z⟩ = true := fileExists_storeFile _ _ _
        rw [this] at h
        cases h
  change blockJob floodfill jobFuel 0 depth _ _ = _
  rw [blockJob_run floodfill jobFuel hjf _ _ 0 depth hs hn, expectedNewSeeds_out_of_range,
    expectedNewSeeds_out_of_range, FloodFillBlockCommand.persist_nil,
    singleBlockImage_eq floodfill src tgt w sp fill c depth hwhole]
  · rfl
  · change ¬ (0 ≤ (toInt32 (0 + (depth : Int) - 1) + toInt32 1).val ∧
      (toInt32 (0 + (depth : Int) - 1) + toInt32 1).val < w.1.dimensions.z)
    rw [int32_add_def, toInt32_val_of_range (0 + (depth : Int) - 1) (by omega) (by omega),
      toInt32_val_of_range 1 (by omega) (by omega),
      toInt32_val_of_range _ (by omega) (by omega)]
    omega
  · change ¬ (0 ≤ (toInt32 0 - toInt32 1).val ∧ (toInt32 0 - toInt32 1).val < w.1.dimensions.z)
    rw [int32_sub_def, e0, toInt32_val_of_range 1 (by omega) (by omega),
      toInt32_val_of_range _ (by omega) (by omega)]
    omega

/-- With a single block covering the whole image the outer loop is left in its
first iteration. -/
theorem singleBlock_loopBody {P : Type} [PixelType P] [ExactPixel P]
    (floodfill : FloodFillKernel P) (src tgt : String)
    (jobFuel : Nat) (w : World P) (sp : Vec3c) (fill : P) (c : Connectivity) (depth : Nat)
    (hne : src ≠ tgt) (htgt : buildFileList w.2 tgt = [])
    (hset : FillSetup w.1 sp fill c) (hdepth : 2 ≤ depth)
    (hwhole : (depth : Int) = w.1.dimensions.z) (hjf : 3 ≤ jobFuel) :
    FloodFillCommand.loopBody (distributeBlocks floodfill jobFuel [depth]) sp
        (w.1.getPixel sp) fill c (FloodFillCommand.initialLoopState src tgt w sp)
      = Sum.inr (singleBlockImage floodfill src tgt w sp fill c depth,
          FloodFillCommand.deleteSources
            (FloodFillCommand.initialLoopState src tgt w sp).world.2 src) := by
  rw [loopBody_eq_afterDispatch]
  unfold afterDispatch
  rw [singleBlock_dispatch floodfill src tgt jobFuel w sp fill c depth hne hset hdepth hwhole
    hjf]
  have h : buildFileList (FloodFillCommand.deleteSources
      (FloodFillCommand.initialLoopState src tgt w sp).world.2 src) tgt = [] := by
    rw [buildFileList_deleteSources_other _ _ _ (fun e => hne e.symm)]
    change buildFileList (FloodFillBlockCommand.writeOutputFile w.2 _ _) tgt = []
    rw [FloodFillCommand.buildFileList_writeOutputFile_other _ _ _ _ hne]
    exact htgt
  change (if (buildFileList (FloodFillCommand.deleteSources
      (FloodFillCommand.initialLoopState src tgt w sp).world.2 src) tgt).length ≤ 0 then _
    else _) = _
  rw [h]
  rfl

/-- With a single block covering the whole image the distributed flood fill
returns after one dispatch. -/
theorem singleBlock_run {P : Type} [PixelType P] [ExactPixel P]
    (floodfill : FloodFillKernel P) (src tgt : String)
    (jobFuel fuel : Nat) (w : World P) (sp : Vec3c) (fill : P) (c : Connectivity) (depth : Nat)
    (hne : src ≠ tgt) (htgt : buildFileList w.2 tgt = [])
    (hset : FillSetup w.1 sp fill c) (hdepth : 2 ≤ depth)
    (hwhole : (depth : Int) = w.1.dimensions.z) (hjf : 3 ≤ jobFuel)
    (hin : w.1.isInImage sp = true) (hfuel : 1 ≤ fuel) :
    FloodFillCommand.runDistributed (distributeBlocks floodfill jobFuel [depth]) src tgt fuel
        w sp fill c
      = some ([], (singleBlockImage floodfill src tgt w sp fill c depth,
          FloodFillCommand.deleteSources
            (FloodFillCommand.initialLoopState src tgt w sp).world.2 src)) := by
  rw [runDistributed_eq_outerLoop _ _ _ _ _ _ _ _ hin (pixel_eq_false hset.hcol)]
  cases fuel with
  | zero => omega
  | succ f =>
    unfold FloodFillCommand.outerLoop
    rw [singleBlock_loopBody floodfill src tgt jobFuel w sp fill c depth hne htgt hset hdepth
      hwhole hjf]
    rfl

/-- One block is as good as no division, for a pixel type whose comparison is
exact and whose colours pass through `double` unchanged: when an image of such
pixels whose depth is at least 2 and whose dimensions fit
`int32_t` is processed as one block covering the whole image (two different
prefixes under which no file exists, either connectivity, a start point in the
image whose colour is not the fill colour), the block that the job gets is the
whole image, its seed list is not empty and holds the start point only, the
dispatch invokes the kernel once on the whole image with this seed list, the
colour of the start point, the fill colour and the connectivity and changes no
file, the outer loop is left in its first iteration so that there is exactly one
dispatch, `runDistributed` returns the image of this one kernel call, and with
the reference flood fill as kernel that image has the pixels of the flood fill
that is not distributed. -/
theorem single_block_equivalence (floodfill : FloodFillKernel P) (src tgt : String)
    (jobFuel fuel : Nat) (w : World P) (sp : Vec3c) (fill : P) (c : Connectivity) (depth : Nat)
    (hne : src ≠ tgt) (hsrc : buildFileList w.2 src = []) (htgt : buildFileList w.2 tgt = [])
    (hx : w.1.dimensions.x < 2147483648) (hy : w.1.dimensions.y < 2147483648)
    (hz : w.1.dimensions.z < 2147483648)
    (hdepth : 2 ≤ depth) (hwhole : (depth : Int) = w.1.dimensions.z)
    (hin : w.1.isInImage sp = true) (hcol : w.1.getPixel sp ≠ fill)
    (hconn : c = Connectivity.NearestNeighbours ∨ c = Connectivity.AllNeighbours)
    (hjf : 3 ≤ jobFuel) (hfuel : 1 ≤ fuel) :
    readBlock w.1 0 depth = w.1.toImage ∧
    (singleBlockSeeds src tgt w sp fill c depth ≠ [] ∧
      ∀ s ∈ singleBlockSeeds src tgt w sp fill c depth, s = Vec3sc.ofVec3c sp) ∧
    distributeBlocks floodfill jobFuel [depth]
        (FloodFillCommand.dispatchArgs sp (w.1.getPixel sp) fill c
          (FloodFillCommand.initialLoopState src tgt w sp))
        (FloodFillCommand.initialLoopState src tgt w sp).world
      = (singleBlockImage floodfill src tgt w sp fill c depth,
          (FloodFillCommand.initialLoopState src tgt w sp).world.2) ∧
    FloodFillCommand.loopBody (distributeBlocks floodfill jobFuel [depth]) sp
        (w.1.getPixel sp) fill c (FloodFillCommand.initialLoopState src tgt w sp)
      = Sum.inr (singleBlockImage floodfill src tgt w sp fill c depth,
          FloodFillCommand.deleteSources
            (FloodFillCommand.initialLoopState src tgt w sp).world.2 src) ∧
    FloodFillCommand.runDistributed (distributeBlocks floodfill jobFuel [depth]) src tgt fuel
        w sp fill c
      = some ([], (singleBlockImage floodfill src tgt w sp fill c depth,
          FloodFillCommand.deleteSources
            (FloodFillCommand.initialLoopState src tgt w sp).world.2 src)) ∧
    (singleBlockImage referenceFloodFill src tgt w sp fill c depth).pix
      = (FloodFillCommand.run referenceFloodFillFrom w.1.toImage sp fill c).pix := by
  have hset := fillSetup_of w sp fill c hx hy hz hin hcol hconn
  have hsp := hset.hin
  unfold InImage at hsp
  refine ⟨readBlock_whole w.1 depth hwhole, ?_,
    singleBlock_dispatch floodfill src tgt jobFuel w sp fill c depth hne hset hdepth hwhole hjf,
    singleBlock_loopBody floodfill src tgt jobFuel w sp fill c depth hne htgt hset hdepth
      hwhole hjf,
    singleBlock_run floodfill src tgt jobFuel fuel w sp fill c depth hne htgt hset hdepth
      hwhole hjf hin hfuel, ?_⟩
  · obtain ⟨n, m, h⟩ := singleBlockSeeds_eq src tgt w sp fill c depth hsrc (by omega) (by omega)
    rw [h]
    constructor
    · simp
    · intro s hs
      simp only [List.mem_append, List.mem_replicate, List.mem_singleton] at hs
      rcases hs with (⟨_, h1⟩ | h1) | ⟨_, h1⟩ <;> exact h1
  · have hrun := singleBlock_run referenceFloodFill src tgt jobFuel fuel w sp fill c depth hne
      htgt hset hdepth hwhole hjf hin hfuel
    have hpart := zPartition_blockOrigins w.1 [depth]
      (by
        intro d hd
        rw [List.mem_singleton] at hd
        rw [hd]
        exact hdepth)
      (by
        simp only [List.sum_cons, List.sum_nil, Nat.add_zero]
        exact hwhole)
    have h := runDistributed_fillResult src tgt jobFuel fuel w sp fill c
      (blockOrigins 0 [depth]) hne hsrc htgt hset hpart hjf hin _ hrun
    exact fillResult_pix w.1 sp fill c _ h.2.1

theorem single_block_equivalence_witness :
    FloodFillCommand.runDistributed (distributeBlocks paintSeeds 3 [8]) "s1" "s2" 1
        (sampleWhole, []) ⟨1, 0, 4⟩ 7 Connectivity.AllNeighbours
      = some ([], (singleBlockImage paintSeeds "s1" "s2" (sampleWhole, []) ⟨1, 0, 4⟩ 7
          Connectivity.AllNeighbours 8,
          FloodFillCommand.deleteSources
            (FloodFillCommand.initialLoopState "s1" "s2" (sampleWhole, []) ⟨1, 0, 4⟩).world.2
            "s1")) :=
  (single_block_equivalence paintSeeds "s1" "s2" 3 1 (sampleWhole, []) ⟨1, 0, 4⟩ 7
    Connectivity.AllNeighbours 8 (by decide) rfl rfl (by decide) (by decide) (by decide)
    (by decide) (by decide) (by decide) (by decide) (Or.inr rfl) (by decide)
    (by decide)).2.2.2.2.1

end single

/-! ## Errors of the seed derivation and the snapshot of the boundary planes -/

namespace FloodFillBlockCommand

variable {P : Type} [PixelType P]

/-- C30: whenever the seed derivation of a run throws a logic error, be it for
the connectivity or for the shape of the block, the files after the run are the
files before it: no target seed file has been written. -/
theorem no_seed_file_on_logic_error (floodfill : FloodFillKernel P) (fuel : Nat)
    (fs : FileSystem) (img : Image P) (args : BlockArgs P) (res : RunResult P)
    (hrun : run floodfill fuel fs img args = some res) (herr : res.error ≠ none) :
    res.files = fs ∧
      ∃ (st : DeriveState) (e : LogicError),
        deriveNewSeeds floodfill fuel fs img args = some (st, some e) ∧ res.error = some e := by
  unfold run at hrun
  cases hder : deriveNewSeeds floodfill fuel fs img args with
  | none =>
    rw [hder] at hrun
    cases hrun
  | some r =>
    obtain ⟨st, e⟩ := r
    rw [hder] at hrun
    cases e with
    | none =>
      simp only [Option.some.injEq] at hrun
      rw [← hrun] at herr
      exact absurd rfl herr
    | some e =>
      simp only [Option.some.injEq] at hrun
      rw [← hrun]
      exact ⟨rfl, st, e, rfl, rfl⟩

theorem no_seed_file_on_logic_error_witness :
    (RunResult.mk (filledBlock paintSeeds sampleFiles sampleBlock
        (sampleArgs Connectivity.Unsupported)) sampleFiles
        (some LogicError.unsupportedConnectivity)).files = sampleFiles ∧
      ∃ (st : DeriveState) (e : LogicError),
        deriveNewSeeds paintSeeds 3 sampleFiles sampleBlock
            (sampleArgs Connectivity.Unsupported) = some (st, some e) ∧
          (RunResult.mk (filledBlock paintSeeds sampleFiles sampleBlock
            (sampleArgs Connectivity.Unsupported)) sampleFiles
            (some LogicError.unsupportedConnectivity)).error = some e :=
  no_seed_file_on_logic_error paintSeeds 3 sampleFiles sampleBlock
    (sampleArgs Connectivity.Unsupported) _
    (by
      have h : deriveNewSeeds paintSeeds 3 sampleFiles sampleBlock
          (sampleArgs Connectivity.Unsupported)
            = some (⟨0, [], []⟩, some LogicError.unsupportedConnectivity) := by decide
      unfold run
      rw [h])
    (by simp)

/-- The loop of the seed derivation on a block of depth at least two, with the
two passes through its body written out. -/
theorem deriveLoop_two_planes (img : Image P) (edgeValues : List P)
    (connectivity : Connectivity) (origSize : Vec3c) (blockStartZ : int32_t) (fuel : Nat)
    (st : DeriveState) (hd : 2 ≤ img.depth) (hf : 3 ≤ fuel) :
    deriveLoop img edgeValues connectivity origSize blockStartZ fuel 0 st
      = match visitPlane img edgeValues connectivity origSize 0 (toInt32 (-1))
            (toInt32 0 + blockStartZ + toInt32 (-1)) (st.n, st.beginNewSeeds) with
        | Except.error e => some (st, some e)
        | Except.ok r =>
          match visitPlane img edgeValues connectivity origSize ((img.depth : Int) - 1)
              (toInt32 1) (toInt32 ((img.depth : Int) - 1) + blockStartZ + toInt32 1)
              (r.1, st.endNewSeeds) with
          | Except.error e => some ({ st with n := r.1, beginNewSeeds := r.2 }, some e)
          | Except.ok r2 => some (⟨r2.1, r.2, r2.2⟩, none) := by
  obtain ⟨k, rfl⟩ : ∃ k, fuel = k + 3 := ⟨fuel - 3, by omega⟩
  have h0 : (0 : Int) < (img.depth : Int) := by omega
  have h1 : (img.depth : Int) - 1 < (img.depth : Int) := by omega
  have h1a : ¬ ((img.depth : Int) - 1 ≤ 0) := by omega
  have h2 : ¬ ((img.depth : Int) - 1 + ((img.depth : Int) - 1) < (img.depth : Int)) := by omega
  simp only [deriveLoop, h0, h1, h1a, h2, if_true, if_false, le_refl, zero_add, ge_iff_le]

theorem foldlM_error_of_step {α σ ε : Type} (f : σ → α → Except ε σ) (Q : ε → Prop)
    (hf : ∀ s a e, f s a = Except.error e → Q e) :
    ∀ (l : List α) (s : σ) (e : ε), l.foldlM f s = Except.error e → Q e
  | [], s, e, h => by cases h
  | a :: rest, s, e, h => by
    rw [List.foldlM_cons] at h
    cases hfa : f s a with
    | error e2 =>
      rw [hfa] at h
      cases h
      exact hf s a e hfa
    | ok s2 =>
      rw [hfa] at h
      exact foldlM_error_of_step f Q hf rest s2 e h

theorem visitPixel_error (img : Image P) (edgeValues : List P) (connectivity : Connectivity)
    (origSize : Vec3c) (z : Int) (dz newZ : int32_t) (y x : Nat) (s : Nat × List Vec3sc)
    (e : LogicError)
    (h : visitPixel img edgeValues connectivity origSize z dz newZ y x s = Except.error e) :
    e = LogicError.unsupportedConnectivity ∧ connectivity = Connectivity.Unsupported := by
  unfold visitPixel at h
  split_ifs at h
  cases connectivity with
  | NearestNeighbours => simp [pushNewSeeds] at h
  | AllNeighbours => simp [pushNewSeeds] at h
  | Unsupported =>
    simp only [pushNewSeeds, Except.error.injEq] at h
    exact ⟨h.symm, rfl⟩

theorem visitPlane_error (img : Image P) (edgeValues : List P) (connectivity : Connectivity)
    (origSize : Vec3c) (z : Int) (dz newZ : int32_t) (s : Nat × List Vec3sc) (e : LogicError)
    (h : visitPlane img edgeValues connectivity origSize z dz newZ s = Except.error e) :
    e = LogicError.unsupportedConnectivity ∧ connectivity = Connectivity.Unsupported := by
  unfold visitPlane at h
  refine foldlM_error_of_step _
    (fun e => e = LogicError.unsupportedConnectivity ∧ connectivity = Connectivity.Unsupported)
    ?_ _ s e h
  intro s1 y e1 h1
  unfold visitRow at h1
  exact foldlM_error_of_step _
    (fun e => e = LogicError.unsupportedConnectivity ∧ connectivity = Connectivity.Unsupported)
    (fun s2 x e2 h2 => visitPixel_error img edgeValues connectivity origSize z dz newZ y x s2 e2
      h2) _ s1 e1 h1

/-- The loop of the seed derivation never throws for the shape of the block:
the only exception it ends with is the one for the connectivity. -/
theorem deriveLoop_shape (img : Image P) (edgeValues : List P)
    (connectivity : Connectivity) (origSize : Vec3c) (blockStartZ : int32_t)
    (hd : 2 ≤ img.depth) :
    ∀ (fuel : Nat) (z : Int) (st : DeriveState) (r : DeriveState × Option LogicError),
      z = 0 ∨ (img.depth : Int) - 1 ≤ z →
      deriveLoop img edgeValues connectivity origSize blockStartZ fuel z st = some r →
      r.2 = none ∨ (r.2 = some LogicError.unsupportedConnectivity ∧
        connectivity = Connectivity.Unsupported)
  | 0, _, _, _, _, h => by cases h
  | fuel + 1, z, st, r, hz, h => by
    unfold deriveLoop at h
    by_cases hlt : z < (img.depth : Int)
    · rw [if_pos hlt] at h
      by_cases hz0 : z ≤ 0
      · rw [if_pos hz0] at h
        simp only at h
        cases hv : visitPlane img edgeValues connectivity origSize z (toInt32 (-1))
            (toInt32 z + blockStartZ + toInt32 (-1)) (st.n, st.beginNewSeeds) with
        | error e =>
          rw [hv] at h
          simp only [Option.some.injEq] at h
          rw [← h]
          have := visitPlane_error _ _ _ _ _ _ _ _ _ hv
          exact Or.inr ⟨by rw [this.1], this.2⟩
        | ok r1 =>
          rw [hv] at h
          exact deriveLoop_shape img edgeValues connectivity origSize blockStartZ hd fuel _ _ r
            (by omega) h
      · rw [if_neg hz0] at h
        by_cases hz1 : z ≥ (img.depth : Int) - 1
        · rw [if_pos hz1] at h
          simp only at h
          cases hv : visitPlane img edgeValues connectivity origSize z (toInt32 1)
              (toInt32 z + blockStartZ + toInt32 1) (st.n, st.endNewSeeds) with
          | error e =>
            rw [hv] at h
            simp only [Option.some.injEq] at h
            rw [← h]
            have := visitPlane_error _ _ _ _ _ _ _ _ _ hv
            exact Or.inr ⟨by rw [this.1], this.2⟩
          | ok r1 =>
            rw [hv] at h
            exact deriveLoop_shape img edgeValues connectivity origSize blockStartZ hd fuel _ _ r
              (by omega) h
        · omega
    · rw [if_neg hlt] at h
      simp only [Option.some.injEq] at h
      rw [← h]
      exact Or.inl rfl

/-- C25: on a block of depth at least two the logic error for an unsupported
block shape is never thrown, whatever the fuel, the kernel, the files and the
connectivity: a run that ends has no such error. The loop of the seed
derivation passes through its body twice, for `z = 0` with `dz = -1` and the
list `beginNewSeeds`, then for `z = depth - 1` with `dz = 1` and the list
`endNewSeeds`. -/
theorem block_shape_error_unreachable (floodfill : FloodFillKernel P) (fuel : Nat)
    (fs : FileSystem) (img : Image P) (args : BlockArgs P) (hd : 2 ≤ img.depth) :
    (∀ res : RunResult P, run floodfill fuel fs img args = some res →
      res.error ≠ some LogicError.unsupportedBlockShape) ∧
    (∀ (edgeValues : List P) (st : DeriveState), 3 ≤ fuel →
      deriveLoop (filledBlock floodfill fs img args) edgeValues args.connectivity args.origSize
          (blockStartZ args) fuel 0 st
        = match visitPlane (filledBlock floodfill fs img args) edgeValues args.connectivity
              args.origSize 0 (toInt32 (-1)) (toInt32 0 + blockStartZ args + toInt32 (-1))
              (st.n, st.beginNewSeeds) with
          | Except.error e => some (st, some e)
          | Except.ok r =>
            match visitPlane (filledBlock floodfill fs img args) edgeValues args.connectivity
                args.origSize ((img.depth : Int) - 1) (toInt32 1)
                (toInt32 ((img.depth : Int) - 1) + blockStartZ args + toInt32 1)
                (r.1, st.endNewSeeds) with
            | Except.error e => some ({ st with n := r.1, beginNewSeeds := r.2 }, some e)
            | Except.ok r2 => some (⟨r2.1, r.2, r2.2⟩, none)) := by
  constructor
  · intro res hrun hres
    unfold run at hrun
    cases hder : deriveNewSeeds floodfill fuel fs img args with
    | none =>
      rw [hder] at hrun
      cases hrun
    | some r =>
      obtain ⟨st, e⟩ := r
      rw [hder] at hrun
      unfold deriveNewSeeds at hder
      cases hsnap : snapshotLoop img fuel 0 [] with
      | none =>
        rw [hsnap] at hder
        cases hder
      | some edgeValues =>
        rw [hsnap] at hder
        have hshape := deriveLoop_shape (filledBlock floodfill fs img args) edgeValues
          args.connectivity args.origSize (blockStartZ args) hd fuel 0 _ _ (Or.inl rfl) hder
        cases e with
        | none =>
          simp only [Option.some.injEq] at hrun
          rw [← hrun] at hres
          cases hres
        | some e =>
          simp only [Option.some.injEq] at hrun
          rw [← hrun] at hres
          simp only [Option.some.injEq] at hres
          rw [hres] at hshape
          rcases hshape with h | h
          · cases h
          · cases h.1
  · intro edgeValues st hf
    exact deriveLoop_two_planes (filledBlock floodfill fs img args) edgeValues args.connectivity
      args.origSize (blockStartZ args) fuel st hd hf

theorem block_shape_error_unreachable_witness :
    (∀ res : RunResult Nat, run paintSeeds 3 sampleFiles sampleBlock
        (sampleArgs Connectivity.AllNeighbours) = some res →
      res.error ≠ some LogicError.unsupportedBlockShape) ∧
    (∀ (edgeValues : List Nat) (st : DeriveState), 3 ≤ 3 →
      deriveLoop (filledBlock paintSeeds sampleFiles sampleBlock
            (sampleArgs Connectivity.AllNeighbours)) edgeValues
          (sampleArgs Connectivity.AllNeighbours).connectivity
          (sampleArgs Connectivity.AllNeighbours).origSize
          (blockStartZ (sampleArgs Connectivity.AllNeighbours)) 3 0 st
        = match visitPlane (filledBlock paintSeeds sampleFiles sampleBlock
                (sampleArgs Connectivity.AllNeighbours)) edgeValues
              (sampleArgs Connectivity.AllNeighbours).connectivity
              (sampleArgs Connectivity.AllNeighbours).origSize 0 (toInt32 (-1))
              (toInt32 0 + blockStartZ (sampleArgs Connectivity.AllNeighbours) + toInt32 (-1))
              (st.n, st.beginNewSeeds) with
          | Except.error e => some (st, some e)
          | Except.ok r =>
            match visitPlane (filledBlock paintSeeds sampleFiles sampleBlock
                  (sampleArgs Connectivity.AllNeighbours)) edgeValues
                (sampleArgs Connectivity.AllNeighbours).connectivity
                (sampleArgs Connectivity.AllNeighbours).origSize
                ((sampleBlock.depth : Int) - 1) (toInt32 1)
                (toInt32 ((sampleBlock.depth : Int) - 1)
                  + blockStartZ (sampleArgs Connectivity.AllNeighbours) + toInt32 1)
                (r.1, st.endNewSeeds) with
            | Except.error e => some ({ st with n := r.1, beginNewSeeds := r.2 }, some e)
            | Except.ok r2 => some (⟨r2.1, r.2, r2.2⟩, none)) :=
  block_shape_error_unreachable paintSeeds 3 sampleFiles sampleBlock
    (sampleArgs Connectivity.AllNeighbours) (by decide)

theorem visitPixel_unsupported (before after : Image P) (edgeValues a b : List P)
    (origSize : Vec3c) (z : Int) (dz newZ : int32_t) (y x : Nat) (s : List Vec3sc)
    (he : edgeValues = a ++ before.pix (x : Int) (y : Int) z :: b) :
    (((dz.val ≠ 0 ∧ 0 ≤ newZ.val ∧ newZ.val < origSize.z) ∧
        PixelType.ne (before.pix (x : Int) (y : Int) z) (after.pix (x : Int) (y : Int) z) = true) ∧
      visitPixel after edgeValues Connectivity.Unsupported origSize z dz newZ y x (a.length, s)
        = Except.error LogicError.unsupportedConnectivity) ∨
    (¬ ((dz.val ≠ 0 ∧ 0 ≤ newZ.val ∧ newZ.val < origSize.z) ∧
        PixelType.ne (before.pix (x : Int) (y : Int) z) (after.pix (x : Int) (y : Int) z) = true) ∧
      visitPixel after edgeValues Connectivity.Unsupported origSize z dz newZ y x (a.length, s)
        = Except.ok ((a ++ [before.pix (x : Int) (y : Int) z]).length, s)) := by
  have hget : edgeValues[a.length]? = some (before.pix (x : Int) (y : Int) z) := by
    rw [he, List.getElem?_append_right (Nat.le_refl _)]; simp
  unfold visitPixel
  by_cases hr : dz.val ≠ 0 ∧ 0 ≤ newZ.val ∧ newZ.val < origSize.z
  · by_cases hp : PixelType.ne (before.pix (x : Int) (y : Int) z)
        (after.pix (x : Int) (y : Int) z) = true
    · left
      refine ⟨⟨hr, hp⟩, ?_⟩
      simp [hr, hget, hp, edgeDiffers, pushNewSeeds]
    · right
      refine ⟨fun h => hp h.2, ?_⟩
      simp [hr, hget, hp, edgeDiffers]
  · right
    refine ⟨fun h => hr h.1, ?_⟩
    simp [hr]

theorem visitRow_unsupported (before after : Image P) (edgeValues : List P)
    (origSize : Vec3c) (z : Int) (dz newZ : int32_t) (y : Nat) :
    ∀ (xs : List Nat) (a b : List P) (s : List Vec3sc),
      edgeValues = a ++ xs.map (fun (x : Nat) => before.pix (x : Int) (y : Int) z) ++ b →
      (((dz.val ≠ 0 ∧ 0 ≤ newZ.val ∧ newZ.val < origSize.z) ∧
          ∃ x ∈ xs, PixelType.ne (before.pix (x : Int) (y : Int) z) (after.pix (x : Int) (y : Int) z) = true) ∧
        xs.foldlM (fun st x =>
            visitPixel after edgeValues Connectivity.Unsupported origSize z dz newZ y x st)
            (a.length, s)
          = Except.error LogicError.unsupportedConnectivity) ∨
      (¬ ((dz.val ≠ 0 ∧ 0 ≤ newZ.val ∧ newZ.val < origSize.z) ∧
          ∃ x ∈ xs, PixelType.ne (before.pix (x : Int) (y : Int) z) (after.pix (x : Int) (y : Int) z) = true) ∧
        xs.foldlM (fun st x =>
            visitPixel after edgeValues Connectivity.Unsupported origSize z dz newZ y x st)
            (a.length, s)
          = Except.ok ((a ++ xs.map (fun (x : Nat) => before.pix (x : Int) (y : Int) z)).length,
              s))
  | [], a, b, s, _ => by
    right
    refine ⟨fun h => ?_, by simp [pure, Except.pure]⟩
    obtain ⟨_, x, hx, _⟩ := h
    cases hx
  | x :: rest, a, b, s, he => by
    have he1 : edgeValues = a ++ before.pix (x : Int) (y : Int) z ::
        (rest.map (fun (x : Nat) => before.pix (x : Int) (y : Int) z) ++ b) := by
      rw [he]; simp
    have he2 : edgeValues = (a ++ [before.pix (x : Int) (y : Int) z]) ++
        rest.map (fun (x : Nat) => before.pix (x : Int) (y : Int) z) ++ b := by
      rw [he]; simp
    rw [List.foldlM_cons]
    rcases visitPixel_unsupported before after edgeValues a _ origSize z dz newZ y x s he1
      with ⟨hc, hv⟩ | ⟨hc, hv⟩
    · left
      rw [hv]
      exact ⟨⟨hc.1, x, List.mem_cons_self x rest, hc.2⟩, rfl⟩
    · rw [hv]
      show _ ∨ (_ ∧ List.foldlM _ _ rest = _)
      rcases visitRow_unsupported before after edgeValues origSize z dz newZ y rest
        (a ++ [before.pix (x : Int) (y : Int) z]) b s he2 with ⟨hc2, hv2⟩ | ⟨hc2, hv2⟩
      · left
        obtain ⟨hr, x2, hx2, hne⟩ := hc2
        exact ⟨⟨hr, x2, List.mem_cons_of_mem _ hx2, hne⟩, hv2⟩
      · right
        refine ⟨?_, ?_⟩
        · rintro ⟨hr, x2, hx2, hne⟩
          rw [List.mem_cons] at hx2
          rcases hx2 with rfl | hx2
          · exact hc ⟨hr, hne⟩
          · exact hc2 ⟨hr, x2, hx2, hne⟩
        · rw [hv2]
          simp

theorem visitPlane_unsupported (before after : Image P) (edgeValues : List P)
    (origSize : Vec3c) (z : Int) (dz newZ : int32_t) (hw : after.width = before.width) :
    ∀ (ys : List Nat) (a b : List P) (s : List Vec3sc),
      edgeValues = a ++ ys.flatMap (fun (y : Nat) =>
          (List.range before.width).map (fun (x : Nat) => before.pix (x : Int) (y : Int) z)) ++ b →
      (((dz.val ≠ 0 ∧ 0 ≤ newZ.val ∧ newZ.val < origSize.z) ∧
          ∃ y ∈ ys, ∃ x ∈ List.range before.width,
            PixelType.ne (before.pix (x : Int) (y : Int) z) (after.pix (x : Int) (y : Int) z) = true) ∧
        ys.foldlM (fun st y =>
            visitRow after edgeValues Connectivity.Unsupported origSize z dz newZ y st)
            (a.length, s)
          = Except.error LogicError.unsupportedConnectivity) ∨
      (¬ ((dz.val ≠ 0 ∧ 0 ≤ newZ.val ∧ newZ.val < origSize.z) ∧
          ∃ y ∈ ys, ∃ x ∈ List.range before.width,
            PixelType.ne (before.pix (x : Int) (y : Int) z) (after.pix (x : Int) (y : Int) z) = true) ∧
        ys.foldlM (fun st y =>
            visitRow after edgeValues Connectivity.Unsupported origSize z dz newZ y st)
            (a.length, s)
          = Except.ok ((a ++ ys.flatMap (fun (y : Nat) =>
                (List.range before.width).map
                  (fun (x : Nat) => before.pix (x : Int) (y : Int) z))).length, s))
  | [], a, b, s, _ => by
    right
    refine ⟨fun h => ?_, by simp [pure, Except.pure]⟩
    obtain ⟨_, y, hy, _⟩ := h
    cases hy
  | y :: rest, a, b, s, he => by
    have he1 : edgeValues = a ++
        (List.range before.width).map (fun (x : Nat) => before.pix (x : Int) (y : Int) z) ++
        (rest.flatMap (fun (y : Nat) =>
          (List.range before.width).map (fun (x : Nat) => before.pix (x : Int) (y : Int) z))
          ++ b) := by
      rw [he]; simp
    have he2 : edgeValues =
        (a ++ (List.range before.width).map
          (fun (x : Nat) => before.pix (x : Int) (y : Int) z)) ++
        rest.flatMap (fun (y : Nat) =>
          (List.range before.width).map (fun (x : Nat) => before.pix (x : Int) (y : Int) z))
        ++ b := by
      rw [he]; simp
    rw [List.foldlM_cons]
    have hrow := visitRow_unsupported before after edgeValues origSize z dz newZ y
      (List.range before.width) a _ s he1
    have hrow2 : visitRow after edgeValues Connectivity.Unsupported origSize z dz newZ y
        (a.length, s)
          = (List.range before.width).foldlM (fun st x =>
              visitPixel after edgeValues Connectivity.Unsupported origSize z dz newZ y x st)
              (a.length, s) := by
      unfold visitRow
      rw [hw]
    rw [hrow2]
    rcases hrow with ⟨hc, hv⟩ | ⟨hc, hv⟩
    · left
      rw [hv]
      obtain ⟨hr, x, hx, hne⟩ := hc
      exact ⟨⟨hr, y, List.mem_cons_self y rest, x, hx, hne⟩, rfl⟩
    · rw [hv]
      show _ ∨ (_ ∧ List.foldlM _ _ rest = _)
      rcases visitPlane_unsupported before after edgeValues origSize z dz newZ hw rest
        (a ++ (List.range before.width).map (fun (x : Nat) => before.pix (x : Int) (y : Int) z))
        b s he2 with ⟨hc2, hv2⟩ | ⟨hc2, hv2⟩
      · left
        obtain ⟨hr, y2, hy2, hx⟩ := hc2
        exact ⟨⟨hr, y2, List.mem_cons_of_mem _ hy2, hx⟩, hv2⟩
      · right
        refine ⟨?_, ?_⟩
        · rintro ⟨hr, y2, hy2, x2, hx2, hne⟩
          rw [List.mem_cons] at hy2
          rcases hy2 with rfl | hy2
          · exact hc ⟨hr, x2, hx2, hne⟩
          · exact hc2 ⟨hr, y2, hy2, x2, hx2, hne⟩
        · rw [hv2]
          simp

/-- The seed derivation of `run` under a connectivity that is neither of the
two enumerators, on a block of depth at least two. -/
theorem deriveNewSeeds_unsupported (floodfill : FloodFillKernel P) (fuel : Nat)
    (fs : FileSystem) (img : Image P) (args : BlockArgs P)
    (hd : 2 ≤ img.depth) (hf : 3 ≤ fuel) (hc : args.connectivity = Connectivity.Unsupported) :
    ((BoundaryDiffers args.origSize img (filledBlock floodfill fs img args) 0
          (blockStartZ args - toInt32 1) ∨
        BoundaryDiffers args.origSize img (filledBlock floodfill fs img args)
          ((img.depth : Int) - 1) (blockEndZ img args + toInt32 1)) ∧
      ∃ st : DeriveState, deriveNewSeeds floodfill fuel fs img args
        = some (st, some LogicError.unsupportedConnectivity)) ∨
    (¬ (BoundaryDiffers args.origSize img (filledBlock floodfill fs img args) 0
          (blockStartZ args - toInt32 1) ∨
        BoundaryDiffers args.origSize img (filledBlock floodfill fs img args)
          ((img.depth : Int) - 1) (blockEndZ img args + toInt32 1)) ∧
      deriveNewSeeds floodfill fuel fs img args
        = some (⟨(planeValues img 0 ++ planeValues img ((img.depth : Int) - 1)).length, [], []⟩,
            none)) := by
  have hm1 : (toInt32 (-1)).val ≠ 0 := by decide
  have hp1 : (toInt32 1).val ≠ 0 := by decide
  have e1 := visitPlane_unsupported img (filledBlock floodfill fs img args)
    (planeValues img 0 ++ planeValues img ((img.depth : Int) - 1)) args.origSize
    0 (toInt32 (-1)) (blockStartZ args - toInt32 1) rfl (List.range img.height)
    [] (planeValues img ((img.depth : Int) - 1)) [] (by simp [planeValues])
  have e2 := visitPlane_unsupported img (filledBlock floodfill fs img args)
    (planeValues img 0 ++ planeValues img ((img.depth : Int) - 1)) args.origSize
    ((img.depth : Int) - 1) (toInt32 1)
    (toInt32 ((blockStartZ args).val + (img.depth : Int) - 1) + toInt32 1) rfl
    (List.range img.height) (planeValues img 0) [] [] (by simp [planeValues])
  have hb0 : BoundaryDiffers args.origSize img (filledBlock floodfill fs img args) 0
      (blockStartZ args - toInt32 1) ↔
      ((toInt32 (-1)).val ≠ 0 ∧ 0 ≤ (blockStartZ args - toInt32 1).val ∧
        (blockStartZ args - toInt32 1).val < args.origSize.z) ∧
      ∃ y ∈ List.range img.height, ∃ x ∈ List.range img.width,
        PixelType.ne (img.pix (x : Int) (y : Int) 0)
          ((filledBlock floodfill fs img args).pix (x : Int) (y : Int) 0) = true := by
    unfold BoundaryDiffers
    constructor
    · rintro ⟨hr, x, y, hx, hy, hne⟩
      exact ⟨⟨hm1, hr⟩, y, List.mem_range.2 hy, x, List.mem_range.2 hx, hne⟩
    · rintro ⟨⟨_, hr⟩, y, hy, x, hx, hne⟩
      exact ⟨hr, x, y, List.mem_range.1 hx, List.mem_range.1 hy, hne⟩
  have hb1 : BoundaryDiffers args.origSize img (filledBlock floodfill fs img args)
      ((img.depth : Int) - 1) (blockEndZ img args + toInt32 1) ↔
      ((toInt32 1).val ≠ 0 ∧
        0 ≤ (toInt32 ((blockStartZ args).val + (img.depth : Int) - 1) + toInt32 1).val ∧
        (toInt32 ((blockStartZ args).val + (img.depth : Int) - 1) + toInt32 1).val
          < args.origSize.z) ∧
      ∃ y ∈ List.range img.height, ∃ x ∈ List.range img.width,
        PixelType.ne (img.pix (x : Int) (y : Int) ((img.depth : Int) - 1))
          ((filledBlock floodfill fs img args).pix (x : Int) (y : Int)
              ((img.depth : Int) - 1)) = true := by
    unfold BoundaryDiffers blockEndZ
    constructor
    · rintro ⟨hr, x, y, hx, hy, hne⟩
      exact ⟨⟨hp1, hr⟩, y, List.mem_range.2 hy, x, List.mem_range.2 hx, hne⟩
    · rintro ⟨⟨_, hr⟩, y, hy, x, hx, hne⟩
      exact ⟨hr, x, y, List.mem_range.1 hx, List.mem_range.1 hy, hne⟩
  rw [← hb0] at e1
  rw [← hb1] at e2
  have hdep : (filledBlock floodfill fs img args).depth = img.depth := rfl
  have hh : (filledBlock floodfill fs img args).height = img.height := rfl
  unfold deriveNewSeeds
  simp only [snapshotLoop_eq img fuel hd hf]
  rw [deriveLoop_two_planes (filledBlock floodfill fs img args) _ _ _ _ fuel _ hd hf, hc]
  simp only [hdep, newZ_begin, newZ_end, visitPlane, hh, planeValues]
  simp only [List.length_nil, List.nil_append, planeValues] at e1 e2
  rcases e1 with ⟨c1, v1⟩ | ⟨c1, v1⟩
  · left
    rw [v1]
    exact ⟨Or.inl c1, _, rfl⟩
  · rw [v1]
    simp only []
    rcases e2 with ⟨c2, v2⟩ | ⟨c2, v2⟩
    · left
      rw [v2]
      exact ⟨Or.inr c2, _, rfl⟩
    · right
      rw [v2]
      refine ⟨?_, rfl⟩
      rintro (h | h)
      · exact c1 h
      · exact c2 h

/-- C21, as the claim has it, fails: a run on the sample block with a
connectivity that is neither of the two enumerators and with no seed file. The
fill changes nothing, the seed derivation ends without an exception and the run
has no error. -/
theorem unsupported_connectivity_without_error :
    (sampleArgs Connectivity.Unsupported).connectivity ≠ Connectivity.NearestNeighbours ∧
    (sampleArgs Connectivity.Unsupported).connectivity ≠ Connectivity.AllNeighbours ∧
    deriveNewSeeds paintSeeds 3 [] sampleBlock (sampleArgs Connectivity.Unsupported)
      = some (⟨8, [], []⟩, none) ∧
    (¬ ∃ (st : DeriveState) (e : LogicError),
      deriveNewSeeds paintSeeds 3 [] sampleBlock (sampleArgs Connectivity.Unsupported)
        = some (st, some e)) ∧
    (run paintSeeds 3 [] sampleBlock (sampleArgs Connectivity.Unsupported)).map
      (fun res => res.error) = some none := by
  have h : deriveNewSeeds paintSeeds 3 [] sampleBlock (sampleArgs Connectivity.Unsupported)
      = some (⟨8, [], []⟩, none) := by decide
  refine ⟨by decide, by decide, h, ?_, ?_⟩
  · rintro ⟨st, e, he⟩
    rw [h] at he
    cases he
  · unfold run
    rw [h]
    rfl

/-- For a pixel type whose `operator!=` is exact, the condition of the seed
derivation is that the fill has changed a pixel of the plane. -/
theorem boundaryDiffers_iff_changed (hne : ∀ a b : P, PixelType.ne a b = true ↔ a ≠ b)
    (origSize : Vec3c) (before after : Image P) (z : Int) (newZ : int32_t) :
    BoundaryDiffers origSize before after z newZ ↔
      BoundaryChanged origSize before after z newZ := by
  unfold BoundaryDiffers BoundaryChanged
  simp only [hne]

/-- C21, as the code has it, for a pixel type whose `operator!=` is exact (`hne`;
the integer pixel types): on a block of depth at least two, with a connectivity
that is neither `NearestNeighbours` nor `AllNeighbours`, the seed derivation
ends with the logic error for the connectivity exactly when the fill has changed
a pixel of a boundary plane whose neighbouring plane lies in the `z` extent of
the original image; otherwise it ends without an exception and with no new
seeds. -/
theorem unsupported_connectivity_error (hne : ∀ a b : P, PixelType.ne a b = true ↔ a ≠ b)
    (floodfill : FloodFillKernel P) (fuel : Nat) (fs : FileSystem) (img : Image P)
    (args : BlockArgs P)
    (hd : 2 ≤ img.depth) (hf : 3 ≤ fuel)
    (hc : args.connectivity ≠ Connectivity.NearestNeighbours ∧
      args.connectivity ≠ Connectivity.AllNeighbours) :
    ∃ (st : DeriveState) (e : Option LogicError),
      deriveNewSeeds floodfill fuel fs img args = some (st, e) ∧
      (e = some LogicError.unsupportedConnectivity ↔
        (BoundaryChanged args.origSize img (filledBlock floodfill fs img args) 0
            (blockStartZ args - toInt32 1) ∨
          BoundaryChanged args.origSize img (filledBlock floodfill fs img args)
            ((img.depth : Int) - 1) (blockEndZ img args + toInt32 1))) ∧
      (e = none ↔
        ¬ (BoundaryChanged args.origSize img (filledBlock floodfill fs img args) 0
            (blockStartZ args - toInt32 1) ∨
          BoundaryChanged args.origSize img (filledBlock floodfill fs img args)
            ((img.depth : Int) - 1) (blockEndZ img args + toInt32 1))) ∧
      (e = none → st.beginNewSeeds = [] ∧ st.endNewSeeds = []) := by
  have hu : args.connectivity = Connectivity.Unsupported := by
    cases hcon : args.connectivity with
    | NearestNeighbours => exact absurd hcon hc.1
    | AllNeighbours => exact absurd hcon hc.2
    | Unsupported => rfl
  have hgen := deriveNewSeeds_unsupported floodfill fuel fs img args hd hf hu
  rw [boundaryDiffers_iff_changed hne, boundaryDiffers_iff_changed hne] at hgen
  rcases hgen with ⟨hb, st, hder⟩ | ⟨hb, hder⟩
  · refine ⟨st, _, hder, ⟨fun _ => hb, fun _ => rfl⟩, ⟨fun h => ?_, fun h => absurd hb h⟩,
      fun h => ?_⟩
    · cases h
    · cases h
  · exact ⟨_, _, hder, ⟨fun h => (by cases h), fun h => absurd h hb⟩, ⟨fun _ => hb, fun _ => rfl⟩,
      fun _ => ⟨rfl, rfl⟩⟩

theorem unsupported_connectivity_error_witness :
    ∃ (st : DeriveState) (e : Option LogicError),
      deriveNewSeeds paintSeeds 3 sampleFiles sampleBlock (sampleArgs Connectivity.Unsupported)
        = some (st, e) ∧
      (e = some LogicError.unsupportedConnectivity ↔
        (BoundaryChanged (sampleArgs Connectivity.Unsupported).origSize sampleBlock
            (filledBlock paintSeeds sampleFiles sampleBlock (sampleArgs Connectivity.Unsupported))
            0 (blockStartZ (sampleArgs Connectivity.Unsupported) - toInt32 1) ∨
          BoundaryChanged (sampleArgs Connectivity.Unsupported).origSize sampleBlock
            (filledBlock paintSeeds sampleFiles sampleBlock (sampleArgs Connectivity.Unsupported))
            ((sampleBlock.depth : Int) - 1)
            (blockEndZ sampleBlock (sampleArgs Connectivity.Unsupported) + toInt32 1))) ∧
      (e = none ↔
        ¬ (BoundaryChanged (sampleArgs Connectivity.Unsupported).origSize sampleBlock
            (filledBlock paintSeeds sampleFiles sampleBlock (sampleArgs Connectivity.Unsupported))
            0 (blockStartZ (sampleArgs Connectivity.Unsupported) - toInt32 1) ∨
          BoundaryChanged (sampleArgs Connectivity.Unsupported).origSize sampleBlock
            (filledBlock paintSeeds sampleFiles sampleBlock (sampleArgs Connectivity.Unsupported))
            ((sampleBlock.depth : Int) - 1)
            (blockEndZ sampleBlock (sampleArgs Connectivity.Unsupported) + toInt32 1))) ∧
      (e = none → st.beginNewSeeds = [] ∧ st.endNewSeeds = []) :=
  unsupported_connectivity_error (fun _ _ => decide_eq_true_iff) paintSeeds 3 sampleFiles
    sampleBlock (sampleArgs Connectivity.Unsupported) (by decide) (by decide)
    ⟨by decide, by decide⟩

theorem snapshotLoop_single_slice {Q : Type} (img : Image Q) (hd : img.depth = 1) :
    ∀ (fuel : Nat) (edgeValues : List Q), snapshotLoop img fuel 0 edgeValues = none
  | 0, _ => rfl
  | fuel + 1, edgeValues => by
    unfold snapshotLoop
    rw [hd]
    simp only [Nat.cast_one, zero_lt_one, if_true, sub_self, add_zero]
    exact snapshotLoop_single_slice img hd fuel _

theorem length_planeValues {Q : Type} (img : Image Q) (z : Int) :
    (planeValues img z).length = img.width * img.height := by
  unfold planeValues
  rw [length_flatMap_const _ img.width (fun y => by simp), List.length_range]

/-- C24: on the block of width 1, height 1 and depth 1 the loop that takes the
snapshot of the boundary planes never ends, whatever the fuel, so no run on it
returns. On every block of depth at least two it ends and leaves the values of
plane `z = 0` followed by those of plane `z = depth - 1`, each in row-major
order, `2 * width * height` values in all; the comparison loop then counts
`2 * width * height` pixels and derives the new seeds from the pixels of the
two planes whose value after the fill differs from their own value before
it. -/
theorem snapshot_loop_single_slice_diverges :
    (∀ fuel : Nat, snapshotLoop singleSliceBlock fuel 0 [] = none) ∧
    (∀ (floodfill : FloodFillKernel Nat) (fuel : Nat) (fs : FileSystem) (args : BlockArgs Nat),
      run floodfill fuel fs singleSliceBlock args = none) ∧
    (∀ (img : Image Nat) (fuel : Nat), 2 ≤ img.depth → 3 ≤ fuel →
      snapshotLoop img fuel 0 []
          = some (planeValues img 0 ++ planeValues img ((img.depth : Int) - 1)) ∧
        (planeValues img 0 ++ planeValues img ((img.depth : Int) - 1)).length
          = 2 * img.width * img.height) ∧
    (∀ (floodfill : FloodFillKernel Nat) (fuel : Nat) (fs : FileSystem) (img : Image Nat)
        (args : BlockArgs Nat), 2 ≤ img.depth → 3 ≤ fuel →
      args.connectivity ≠ Connectivity.Unsupported →
      ∃ st : DeriveState, deriveNewSeeds floodfill fuel fs img args = some (st, none) ∧
        st.n = 2 * img.width * img.height ∧
        st.beginNewSeeds = expectedNewSeeds args.connectivity args.origSize img
          (filledBlock floodfill fs img args) 0 (blockStartZ args - toInt32 1) ∧
        st.endNewSeeds = expectedNewSeeds args.connectivity args.origSize img
          (filledBlock floodfill fs img args) ((img.depth : Int) - 1)
          (blockEndZ img args + toInt32 1)) := by
  refine ⟨fun fuel => snapshotLoop_single_slice singleSliceBlock rfl fuel [], ?_, ?_, ?_⟩
  · intro floodfill fuel fs args
    unfold run deriveNewSeeds
    rw [snapshotLoop_single_slice singleSliceBlock rfl fuel []]
  · intro img fuel hd hf
    refine ⟨snapshotLoop_eq img fuel hd hf, ?_⟩
    rw [List.length_append, length_planeValues, length_planeValues]
    ring
  · intro floodfill fuel fs img args hd hf hc
    refine ⟨_, deriveNewSeeds_eq floodfill fuel fs img args hd hf (Or.inl hc), ?_, rfl, rfl⟩
    change (planeValues img 0 ++ planeValues img ((img.depth : Int) - 1)).length = _
    rw [List.length_append, length_planeValues, length_planeValues]
    ring

end FloodFillBlockCommand

/-! ## The addresses of the seed files in a division along `z` -/

theorem beginTarget_atOrigin {Q : Type} (args : BlockArgs Q) (o : Int) (h0 : 0 ≤ o)
    (h1 : o < 2147483648) :
    FloodFillBlockCommand.beginTarget (args.atOrigin o) = ⟨args.seedsTargetPrefix, o - 1⟩ := by
  simp only [FloodFillBlockCommand.beginTarget, FloodFillBlockCommand.blockStartZ,
    BlockArgs.atOrigin, int32_sub_def, toInt32_val_eq, FileName.mk.injEq, true_and]
  unfold wrap32
  omega

theorem endTarget_atOrigin {Q : Type} (img : DistributedImage Q) (args : BlockArgs Q) (o : Int)
    (d : Nat) (h0 : 0 ≤ o) (h1 : o + (d : Int) < 2147483648) :
    FloodFillBlockCommand.endTarget (readBlock img o d) (args.atOrigin o)
      = ⟨args.seedsTargetPrefix, o + (d : Int)⟩ := by
  simp only [FloodFillBlockCommand.endTarget, FloodFillBlockCommand.blockEndZ,
    FloodFillBlockCommand.blockStartZ, BlockArgs.atOrigin, readBlock, int32_add_def,
    toInt32_val_eq, FileName.mk.injEq, true_and]
  unfold wrap32
  omega

theorem blockOrigins_bounds (z : Int) (ds : List Nat) :
    ∀ b ∈ blockOrigins z ds, z ≤ b.1 ∧ b.1 + (b.2 : Int) ≤ z + ((ds.sum : Nat) : Int) := by
  induction ds generalizing z with
  | nil =>
    intro b hb
    cases hb
  | cons d rest ih =>
    intro b hb
    rw [blockOrigins, List.mem_cons] at hb
    rw [List.sum_cons, Nat.cast_add]
    rcases hb with rfl | hb
    · simp only
      omega
    · have h1 := ih (z + (d : Int)) b hb
      omega

theorem blockOrigins_depth (z : Int) (ds : List Nat) :
    ∀ b ∈ blockOrigins z ds, b.2 ∈ ds := by
  induction ds generalizing z with
  | nil =>
    intro b hb
    cases hb
  | cons d rest ih =>
    intro b hb
    rw [blockOrigins, List.mem_cons] at hb
    rcases hb with rfl | hb
    · exact List.mem_cons_self _ _
    · exact List.mem_cons_of_mem _ (ih _ b hb)

/-- The one block of a division along `z` that holds the plane `k`. -/
theorem blockOrigins_filter (k : Int) :
    ∀ (ds : List Nat) (z : Int), (∀ d ∈ ds, 1 ≤ d) → z ≤ k → k < z + ((ds.sum : Nat) : Int) →
      ∃ b ∈ blockOrigins z ds, (b.1 ≤ k ∧ k < b.1 + (b.2 : Int)) ∧
        (blockOrigins z ds).filter (fun c => decide (c.1 ≤ k ∧ k < c.1 + (c.2 : Int))) = [b]
  | [], z, _, h1, h2 => by
    simp at h2
    omega
  | d :: rest, z, hds, h1, h2 => by
    rw [List.sum_cons, Nat.cast_add] at h2
    by_cases hk : k < z + (d : Int)
    · refine ⟨(z, d), by simp [blockOrigins], ⟨h1, hk⟩, ?_⟩
      rw [blockOrigins, List.filter_cons_of_pos (by simp only [decide_eq_true_eq]; exact ⟨h1, hk⟩)]
      congr 1
      rw [List.filter_eq_nil_iff]
      intro c hc
      have := (blockOrigins_bounds (z + (d : Int)) rest c hc).1
      simp only [decide_eq_true_eq, not_and]
      intro h
      omega
    · obtain ⟨b, hb, hb1, hb2⟩ := blockOrigins_filter k rest (z + (d : Int))
        (fun e he => hds e (List.mem_cons_of_mem _ he)) (by omega) (by omega)
      refine ⟨b, by simp [blockOrigins, hb], hb1, ?_⟩
      rw [blockOrigins, List.filter_cons_of_neg (by simp only [decide_eq_true_eq]; omega)]
      exact hb2

namespace FloodFillBlockCommand

/-- The answer of `needsToRunBlock` when the initial seed file is the only file
under the source prefix. -/
theorem needsToRunBlock_initial (fs : FileSystem) (src : String) (sp readStart readSize : Vec3c)
    (hfiles : ∀ k : Int, fileExists fs ⟨src, k⟩ = true ↔ k = sp.z)
    (h0 : 0 ≤ readStart.z) (h1 : 1 ≤ readSize.z)
    (h2 : readStart.z + readSize.z ≤ 2147483648) :
    (needsToRunBlock fs src sp readStart readSize = true ↔
      (toInt32 readStart.z).val ≤ sp.z ∧
        sp.z ≤ (toInt32 ((toInt32 readStart.z).val + readSize.z - 1)).val) ∧
    (toInt32 readStart.z).val = readStart.z ∧
    (toInt32 ((toInt32 readStart.z).val + readSize.z - 1)).val
      = readStart.z + readSize.z - 1 := by
  have e1 : (toInt32 readStart.z).val = readStart.z :=
    toInt32_val_of_range _ (by omega) (by omega)
  have e3 : (toInt32 (readStart.z + readSize.z - 1)).val = readStart.z + readSize.z - 1 :=
    toInt32_val_of_range _ (by omega) (by omega)
  have e2 : (toInt32 ((toInt32 readStart.z).val + readSize.z - 1)).val
      = readStart.z + readSize.z - 1 := by
    rw [e1]
    exact e3
  refine ⟨?_, e1, e2⟩
  unfold needsToRunBlock
  simp only [e1, e3]
  by_cases ha : fileExists fs ⟨src, readStart.z⟩ = true
  · have := (hfiles _).1 ha
    simp only [ha, Bool.true_or, if_true, true_iff]
    omega
  · by_cases hb : fileExists fs ⟨src, readStart.z + readSize.z - 1⟩ = true
    · have := (hfiles _).1 hb
      simp only [hb, Bool.or_true, if_true, true_iff]
      omega
    · simp only [Bool.not_eq_true] at ha hb
      simp only [ha, hb, Bool.or_false, Bool.false_eq_true, if_false]
      by_cases hin : readStart.z ≤ sp.z ∧ sp.z ≤ readStart.z + readSize.z - 1
      · rw [if_pos hin]
        simp only [(hfiles sp.z).2 rfl, true_iff]
        exact hin
      · rw [if_neg hin]
        simp only [Bool.false_eq_true, false_iff]
        exact hin

/-- C29: when the file addressed to the `z` of the start point is the only
file under the source prefix, `needsToRunBlock` answers `true` for a block
exactly when `blockStartZ ≤ startPoint.z ≤ blockEndZ`; and of the blocks of a
division of the image along `z` exactly one is run, the block that holds the
start point. -/
theorem first_iteration_runs_one_block (fs : FileSystem) (src : String) (sp dims : Vec3c)
    (depths : List Nat)
    (hfiles : ∀ k : Int, fileExists fs ⟨src, k⟩ = true ↔ k = sp.z)
    (hds : ∀ d ∈ depths, 1 ≤ d) (hsum : ((depths.sum : Nat) : Int) = dims.z)
    (hz1 : dims.z < 2147483648) (hsp0 : 0 ≤ sp.z) (hsp1 : sp.z < dims.z) :
    (∀ readStart readSize : Vec3c, 0 ≤ readStart.z → 1 ≤ readSize.z →
      readStart.z + readSize.z ≤ 2147483648 →
      (needsToRunBlock fs src sp readStart readSize = true ↔
        (toInt32 readStart.z).val ≤ sp.z ∧
          sp.z ≤ (toInt32 ((toInt32 readStart.z).val + readSize.z - 1)).val)) ∧
    ∃ b ∈ blockOrigins 0 depths, (b.1 ≤ sp.z ∧ sp.z < b.1 + (b.2 : Int)) ∧
      (blockOrigins 0 depths).filter (fun c =>
        needsToRunBlock fs src sp ⟨0, 0, c.1⟩ ⟨dims.x, dims.y, (c.2 : Int)⟩) = [b] := by
  refine ⟨fun readStart readSize h0 h1 h2 =>
    (needsToRunBlock_initial fs src sp readStart readSize hfiles h0 h1 h2).1, ?_⟩
  obtain ⟨b, hb, hb1, hb2⟩ := blockOrigins_filter sp.z depths 0 hds hsp0 (by omega)
  refine ⟨b, hb, hb1, ?_⟩
  rw [← hb2]
  apply List.filter_congr
  intro c hc
  have hbd := blockOrigins_bounds 0 depths c hc
  have hd1 := hds c.2 (blockOrigins_depth 0 depths c hc)
  have hn := needsToRunBlock_initial fs src sp ⟨0, 0, c.1⟩ ⟨dims.x, dims.y, (c.2 : Int)⟩ hfiles
    (by simp only; omega) (by simp only; omega) (by simp only; omega)
  simp only at hn
  have h1 := hn.1
  rw [hn.2.2, hn.2.1] at h1
  rw [Bool.eq_iff_iff, h1, decide_eq_true_eq]
  omega

theorem fileExists_initial (fs : FileSystem) (src : String) (sp : Vec3c)
    (hsrc : buildFileList fs src = []) (k : Int) :
    fileExists (writeOutputFile fs (FloodFillCommand.initialSeedFile src sp)
        (FloodFillCommand.initialSeeds sp)) ⟨src, k⟩ = true ↔ k = sp.z := by
  rw [fileExists_eq_isSome, fileBody_writeOutputFile]
  unfold FloodFillCommand.initialSeedFile
  by_cases hk : k = sp.z
  · rw [hk]
    simp
  · have hne : (⟨src, k⟩ : FileName) ≠ ⟨src, sp.z⟩ := by
      intro e
      simp only [FileName.mk.injEq, true_and] at e
      exact hk e
    rw [if_neg hne, fileBody_none_of_buildFileList fs src hsrc k]
    simp [hk]

theorem first_iteration_runs_one_block_witness :
    (∀ readStart readSize : Vec3c, 0 ≤ readStart.z → 1 ≤ readSize.z →
      readStart.z + readSize.z ≤ 2147483648 →
      (needsToRunBlock (writeOutputFile [] (FloodFillCommand.initialSeedFile "s1" ⟨1, 0, 4⟩)
          (FloodFillCommand.initialSeeds ⟨1, 0, 4⟩)) "s1" ⟨1, 0, 4⟩ readStart readSize = true ↔
        (toInt32 readStart.z).val ≤ (⟨1, 0, 4⟩ : Vec3c).z ∧
          (⟨1, 0, 4⟩ : Vec3c).z
            ≤ (toInt32 ((toInt32 readStart.z).val + readSize.z - 1)).val)) ∧
    ∃ b ∈ blockOrigins 0 [2, 2, 2, 2],
      (b.1 ≤ (⟨1, 0, 4⟩ : Vec3c).z ∧ (⟨1, 0, 4⟩ : Vec3c).z < b.1 + (b.2 : Int)) ∧
      (blockOrigins 0 [2, 2, 2, 2]).filter (fun c =>
        needsToRunBlock (writeOutputFile [] (FloodFillCommand.initialSeedFile "s1" ⟨1, 0, 4⟩)
          (FloodFillCommand.initialSeeds ⟨1, 0, 4⟩)) "s1" ⟨1, 0, 4⟩ ⟨0, 0, c.1⟩
          ⟨(⟨2, 2, 8⟩ : Vec3c).x, (⟨2, 2, 8⟩ : Vec3c).y, (c.2 : Int)⟩) = [b] :=
  first_iteration_runs_one_block _ "s1" ⟨1, 0, 4⟩ ⟨2, 2, 8⟩ [2, 2, 2, 2]
    (fileExists_initial [] "s1" ⟨1, 0, 4⟩ rfl) (by decide) (by decide) (by decide) (by decide)
    (by decide)

variable {P : Type} [PixelType P]

/-- C28: in a division of the image along `z` into consecutive blocks of depth
at least two, the two target files of a block (addressed to `blockStartZ - 1`
and `blockEndZ + 1`) are none of the two target files of another block, so the
run of the other block leaves them as they are. -/
theorem no_write_collision (w : World P) (args : BlockArgs P) (depths : List Nat)
    (b c : Int × Nat) (hds : ∀ d ∈ depths, 2 ≤ d)
    (hsum : ((depths.sum : Nat) : Int) = w.1.dimensions.z)
    (hz1 : w.1.dimensions.z < 2147483648)
    (hb : b ∈ blockOrigins 0 depths) (hc : c ∈ blockOrigins 0 depths) (hbc : b ≠ c) :
    beginTarget (args.atOrigin b.1) ≠ beginTarget (args.atOrigin c.1) ∧
    beginTarget (args.atOrigin b.1) ≠ endTarget (readBlock w.1 c.1 c.2) (args.atOrigin c.1) ∧
    endTarget (readBlock w.1 b.1 b.2) (args.atOrigin b.1) ≠ beginTarget (args.atOrigin c.1) ∧
    endTarget (readBlock w.1 b.1 b.2) (args.atOrigin b.1)
      ≠ endTarget (readBlock w.1 c.1 c.2) (args.atOrigin c.1) ∧
    ∀ (floodfill : FloodFillKernel P) (fuel : Nat) (fs : FileSystem) (res : RunResult P),
      run floodfill fuel fs (readBlock w.1 c.1 c.2) (args.atOrigin c.1) = some res →
      fileBody res.files (beginTarget (args.atOrigin b.1))
          = fileBody fs (beginTarget (args.atOrigin b.1)) ∧
        fileBody res.files (endTarget (readBlock w.1 b.1 b.2) (args.atOrigin b.1))
          = fileBody fs (endTarget (readBlock w.1 b.1 b.2) (args.atOrigin b.1)) := by
  have hbi := blockOrigins_inside 0 depths hds b hb
  have hci := blockOrigins_inside 0 depths hds c hc
  have hap : Apart b c :=
    (pairwise_apart_mem _ (blockOrigins_pairwise 0 depths hds) b hb c hc).resolve_left hbc
  unfold Apart at hap
  have eb1 := beginTarget_atOrigin args b.1 (by omega) (by omega)
  have eb2 := endTarget_atOrigin w.1 args b.1 b.2 (by omega) (by omega)
  have ec1 := beginTarget_atOrigin args c.1 (by omega) (by omega)
  have ec2 := endTarget_atOrigin w.1 args c.1 c.2 (by omega) (by omega)
  have n1 : beginTarget (args.atOrigin b.1) ≠ beginTarget (args.atOrigin c.1) := by
    rw [eb1, ec1]
    intro e
    simp only [FileName.mk.injEq, true_and] at e
    omega
  have n2 : beginTarget (args.atOrigin b.1)
      ≠ endTarget (readBlock w.1 c.1 c.2) (args.atOrigin c.1) := by
    rw [eb1, ec2]
    intro e
    simp only [FileName.mk.injEq, true_and] at e
    omega
  have n3 : endTarget (readBlock w.1 b.1 b.2) (args.atOrigin b.1)
      ≠ beginTarget (args.atOrigin c.1) := by
    rw [eb2, ec1]
    intro e
    simp only [FileName.mk.injEq, true_and] at e
    omega
  have n4 : endTarget (readBlock w.1 b.1 b.2) (args.atOrigin b.1)
      ≠ endTarget (readBlock w.1 c.1 c.2) (args.atOrigin c.1) := by
    rw [eb2, ec2]
    intro e
    simp only [FileName.mk.injEq, true_and] at e
    omega
  refine ⟨n1, n2, n3, n4, ?_⟩
  intro floodfill fuel fs res hrun
  have hfile : ∀ g : FileName,
      g ≠ beginTarget (args.atOrigin c.1) →
      g ≠ endTarget (readBlock w.1 c.1 c.2) (args.atOrigin c.1) →
      fileBody res.files g = fileBody fs g := by
    intro g hg1 hg2
    rcases (run_files floodfill fuel fs _ _ res hrun).2 with h | ⟨st, _, h⟩
    · rw [h]
    · rw [h, fileBody_persist, if_neg (fun e => hg2 e.1), if_neg (fun e => hg1 e.1)]
  exact ⟨hfile _ n1 n2, hfile _ n3 n4⟩

theorem no_write_collision_witness :
    beginTarget ((sampleArgs Connectivity.AllNeighbours).atOrigin ((2 : Int), 2).1)
      ≠ beginTarget ((sampleArgs Connectivity.AllNeighbours).atOrigin ((4 : Int), 2).1) ∧
    beginTarget ((sampleArgs Connectivity.AllNeighbours).atOrigin ((2 : Int), 2).1)
      ≠ endTarget (readBlock (sampleWhole, sampleFiles).1 ((4 : Int), 2).1 ((4 : Int), 2).2)
          ((sampleArgs Connectivity.AllNeighbours).atOrigin ((4 : Int), 2).1) ∧
    endTarget (readBlock (sampleWhole, sampleFiles).1 ((2 : Int), 2).1 ((2 : Int), 2).2)
        ((sampleArgs Connectivity.AllNeighbours).atOrigin ((2 : Int), 2).1)
      ≠ beginTarget ((sampleArgs Connectivity.AllNeighbours).atOrigin ((4 : Int), 2).1) ∧
    endTarget (readBlock (sampleWhole, sampleFiles).1 ((2 : Int), 2).1 ((2 : Int), 2).2)
        ((sampleArgs Connectivity.AllNeighbours).atOrigin ((2 : Int), 2).1)
      ≠ endTarget (readBlock (sampleWhole, sampleFiles).1 ((4 : Int), 2).1 ((4 : Int), 2).2)
          ((sampleArgs Connectivity.AllNeighbours).atOrigin ((4 : Int), 2).1) ∧
    ∀ (floodfill : FloodFillKernel Nat) (fuel : Nat) (fs : FileSystem) (res : RunResult Nat),
      run floodfill fuel fs
          (readBlock (sampleWhole, sampleFiles).1 ((4 : Int), 2).1 ((4 : Int), 2).2)
          ((sampleArgs Connectivity.AllNeighbours).atOrigin ((4 : Int), 2).1) = some res →
      fileBody res.files
            (beginTarget ((sampleArgs Connectivity.AllNeighbours).atOrigin ((2 : Int), 2).1))
          = fileBody fs
            (beginTarget ((sampleArgs Connectivity.AllNeighbours).atOrigin ((2 : Int), 2).1)) ∧
        fileBody res.files
            (endTarget (readBlock (sampleWhole, sampleFiles).1 ((2 : Int), 2).1 ((2 : Int), 2).2)
              ((sampleArgs Connectivity.AllNeighbours).atOrigin ((2 : Int), 2).1))
          = fileBody fs
            (endTarget (readBlock (sampleWhole, sampleFiles).1 ((2 : Int), 2).1 ((2 : Int), 2).2)
              ((sampleArgs Connectivity.AllNeighbours).atOrigin ((2 : Int), 2).1)) :=
  no_write_collision (sampleWhole, sampleFiles) (sampleArgs Connectivity.AllNeighbours)
    [2, 2, 2, 2] (2, 2) (4, 2) (by decide) (by decide) (by decide) (by decide) (by decide)
    (by decide)

/-- A seed file addressed to the first or the last plane of a block makes
`needsToRunBlock` answer `true` for the block, and the run of the block hands
every record of the file to the kernel, at the block-local `z` of the plane. -/
theorem delivered_seeds {Q : Type} (fs2 : FileSystem) (img2 : DistributedImage Q)
    (args2 : BlockArgs Q) (o1 : Int) (d1 : Nat) (k : Int) (list : List Vec3sc)
    (h0 : 0 ≤ o1) (h1 : 1 ≤ d1) (h2 : o1 + (d1 : Int) < 2147483648)
    (hk : k = o1 ∨ k = o1 + (d1 : Int) - 1)
    (hfile : fileBody fs2 ⟨args2.seedsSourcePrefix, k⟩ = some (list.flatMap writePoint)) :
    needsToRunBlock fs2 args2.seedsSourcePrefix args2.startPoint ⟨0, 0, o1⟩
        ⟨img2.dimensions.x, img2.dimensions.y, (d1 : Int)⟩ = true ∧
    ∀ s ∈ list, (⟨s.x, s.y, toInt32 (k - o1)⟩ : Vec3sc)
      ∈ kernelSeeds fs2 (readBlock img2 o1 d1) (args2.atOrigin o1) := by
  have e1 : (toInt32 o1).val = o1 := toInt32_val_of_range _ (by omega) (by omega)
  have e3 : (toInt32 (o1 + (d1 : Int) - 1)).val = o1 + (d1 : Int) - 1 :=
    toInt32_val_of_range _ (by omega) (by omega)
  have hex := fileExists_of_fileBody _ _ _ hfile
  constructor
  · unfold needsToRunBlock
    simp only [e1, e3]
    rcases hk with hk | hk
    · rw [hk] at hex
      simp [hex]
    · rw [hk] at hex
      simp [hex]
  · intro s hs
    rw [kernelSeeds_eq]
    have hbs : blockStartZ (args2.atOrigin o1) = toInt32 o1 := rfl
    have hbe : (blockEndZ (readBlock img2 o1 d1) (args2.atOrigin o1)).val
        = o1 + (d1 : Int) - 1 := by
      unfold blockEndZ
      rw [hbs, e1]
      exact e3
    have hsrc : (args2.atOrigin o1).seedsSourcePrefix = args2.seedsSourcePrefix := rfl
    have hz : toInt32 k - toInt32 o1 = toInt32 (k - o1) := by
      apply int32_ext
      simp only [int32_sub_def, toInt32_val_eq, wrap32]
      omega
    have hmem : (⟨s.x, s.y, toInt32 (k - o1)⟩ : Vec3sc)
        ∈ seedsAddressedTo fs2 args2.seedsSourcePrefix k (toInt32 o1) := by
      rw [mem_seedsAddressedTo]
      refine ⟨_, hfile, (s.x, s.y), ?_, by rw [hz]⟩
      rw [fileRecords_flatMap_writePoint]
      exact List.mem_map_of_mem _ hs
    rw [hbs, hbe, hsrc, e1]
    rcases hk with hk | hk
    · rw [hk] at hmem ⊢
      exact List.mem_append_left _ (List.mem_append_left _ hmem)
    · rw [hk] at hmem ⊢
      exact List.mem_append_right _ hmem

/-- C27: a run on a block of a division along `z` writes no file but the two
addressed to `blockStartZ - 1`, the last plane of the block before it, and to
`blockEndZ + 1`, the first plane of the block after it; a file is written only
when its address lies in the image. When such a file is still there in the next
iteration, under what is then the source prefix, `needsToRunBlock` answers
`true` for the neighbouring block, and the run of that block hands every seed of
the file to the kernel, at the block-local `z = depth - 1` for the block before
and at `z = 0` for the block after. -/
theorem seed_delivery (floodfill : FloodFillKernel P) (fuel : Nat) (hf : 3 ≤ fuel)
    (w : World P) (args : BlockArgs P) (o : Int) (d : Nat) (hs : BlockSetup w args o d) :
    ∃ (res : RunResult P) (st : DeriveState),
      run floodfill fuel w.2 (readBlock w.1 o d) (args.atOrigin o) = some res ∧
      res.error = none ∧
      deriveNewSeeds floodfill fuel w.2 (readBlock w.1 o d) (args.atOrigin o)
        = some (st, none) ∧
      (∀ f : FileName, f ≠ ⟨args.seedsTargetPrefix, o - 1⟩ →
        f ≠ ⟨args.seedsTargetPrefix, o + (d : Int)⟩ → fileBody res.files f = fileBody w.2 f) ∧
      (st.beginNewSeeds = [] →
        fileBody res.files ⟨args.seedsTargetPrefix, o - 1⟩
          = fileBody w.2 ⟨args.seedsTargetPrefix, o - 1⟩) ∧
      (st.endNewSeeds = [] →
        fileBody res.files ⟨args.seedsTargetPrefix, o + (d : Int)⟩
          = fileBody w.2 ⟨args.seedsTargetPrefix, o + (d : Int)⟩) ∧
      (st.beginNewSeeds ≠ [] → 1 ≤ o ∧
        fileBody res.files ⟨args.seedsTargetPrefix, o - 1⟩
          = some (st.beginNewSeeds.flatMap writePoint) ∧
        ∀ (w2 : World P) (args2 : BlockArgs P) (o1 : Int) (d1 : Nat),
          args2.seedsSourcePrefix = args.seedsTargetPrefix →
          fileBody w2.2 ⟨args.seedsTargetPrefix, o - 1⟩
            = fileBody res.files ⟨args.seedsTargetPrefix, o - 1⟩ →
          0 ≤ o1 → 1 ≤ d1 → o1 + (d1 : Int) = o →
          (blockEndZ (readBlock w2.1 o1 d1) (args2.atOrigin o1)).val = o - 1 ∧
          needsToRunBlock w2.2 args2.seedsSourcePrefix args2.startPoint ⟨0, 0, o1⟩
            ⟨w2.1.dimensions.x, w2.1.dimensions.y, (d1 : Int)⟩ = true ∧
          ∀ s ∈ st.beginNewSeeds, (⟨s.x, s.y, toInt32 ((d1 : Int) - 1)⟩ : Vec3sc)
            ∈ kernelSeeds w2.2 (readBlock w2.1 o1 d1) (args2.atOrigin o1)) ∧
      (st.endNewSeeds ≠ [] → o + (d : Int) < w.1.dimensions.z ∧
        fileBody res.files ⟨args.seedsTargetPrefix, o + (d : Int)⟩
          = some (st.endNewSeeds.flatMap writePoint) ∧
        ∀ (w2 : World P) (args2 : BlockArgs P) (d1 : Nat),
          args2.seedsSourcePrefix = args.seedsTargetPrefix →
          fileBody w2.2 ⟨args.seedsTargetPrefix, o + (d : Int)⟩
            = fileBody res.files ⟨args.seedsTargetPrefix, o + (d : Int)⟩ →
          1 ≤ d1 → o + (d : Int) + (d1 : Int) ≤ w.1.dimensions.z →
          (blockStartZ (args2.atOrigin (o + (d : Int)))).val = o + (d : Int) ∧
          needsToRunBlock w2.2 args2.seedsSourcePrefix args2.startPoint ⟨0, 0, o + (d : Int)⟩
            ⟨w2.1.dimensions.x, w2.1.dimensions.y, (d1 : Int)⟩ = true ∧
          ∀ s ∈ st.endNewSeeds, (⟨s.x, s.y, toInt32 0⟩ : Vec3sc)
            ∈ kernelSeeds w2.2 (readBlock w2.1 (o + (d : Int)) d1)
                (args2.atOrigin (o + (d : Int)))) := by
  have ho := hs.ho
  have hod := hs.hod
  have hz1 := hs.hz1
  have hd := hs.hd
  have hder := deriveNewSeeds_eq floodfill fuel w.2 (readBlock w.1 o d) (args.atOrigin o)
    hs.hd hf (Or.inl (connectivity_supported _ hs.hconn))
  have hrun := run_eq_of_derive floodfill fuel w.2 _ _ _ hder
  have hbt : (⟨args.seedsTargetPrefix, (blockStartZ (args.atOrigin o) - toInt32 1).val⟩
      : FileName) = ⟨args.seedsTargetPrefix, o - 1⟩ :=
    beginTarget_atOrigin args o (by omega) (by omega)
  have het : (⟨args.seedsTargetPrefix,
      (blockEndZ (readBlock w.1 o d) (args.atOrigin o) + toInt32 1).val⟩ : FileName)
        = ⟨args.seedsTargetPrefix, o + (d : Int)⟩ :=
    endTarget_atOrigin w.1 args o d (by omega) (by omega)
  have hne : (⟨args.seedsTargetPrefix, o - 1⟩ : FileName)
      ≠ ⟨args.seedsTargetPrefix, o + (d : Int)⟩ := by
    intro e
    simp only [FileName.mk.injEq, true_and] at e
    omega
  have hsz : (args.atOrigin o).origSize = w.1.dimensions := hs.hsize
  have hbv : (blockStartZ (args.atOrigin o) - toInt32 1).val = o - 1 := congrArg FileName.z hbt
  have hev : (blockEndZ (readBlock w.1 o d) (args.atOrigin o) + toInt32 1).val
      = o + (d : Int) := congrArg FileName.z het
  obtain ⟨res, st, hrun, herr, hder, hfiles, hB, hE⟩ : ∃ (res : RunResult P) (st : DeriveState),
      run floodfill fuel w.2 (readBlock w.1 o d) (args.atOrigin o) = some res ∧
      res.error = none ∧
      deriveNewSeeds floodfill fuel w.2 (readBlock w.1 o d) (args.atOrigin o)
        = some (st, none) ∧
      res.files = persist w.2 args.seedsTargetPrefix (blockStartZ (args.atOrigin o))
        (blockEndZ (readBlock w.1 o d) (args.atOrigin o)) st.beginNewSeeds st.endNewSeeds ∧
      (st.beginNewSeeds ≠ [] → 1 ≤ o) ∧
      (st.endNewSeeds ≠ [] → o + (d : Int) < w.1.dimensions.z) := by
    refine ⟨_, _, hrun, rfl, hder, rfl, ?_, ?_⟩
    · intro hnn
      obtain ⟨s0, hs0⟩ := List.exists_mem_of_ne_nil _ hnn
      have hr := (expectedNewSeeds_z _ _ _ _ _ _ _ hs0).2
      rw [hbv] at hr
      omega
    · intro hnn
      obtain ⟨s0, hs0⟩ := List.exists_mem_of_ne_nil _ hnn
      have hr := (expectedNewSeeds_z _ _ _ _ _ _ _ hs0).2
      rw [hev, hsz] at hr
      exact hr.2
  have hfile : ∀ g : FileName, fileBody res.files g
      = if g = ⟨args.seedsTargetPrefix, o + (d : Int)⟩ ∧ st.endNewSeeds ≠ [] then
          some (st.endNewSeeds.flatMap writePoint)
        else if g = ⟨args.seedsTargetPrefix, o - 1⟩ ∧ st.beginNewSeeds ≠ [] then
          some (st.beginNewSeeds.flatMap writePoint)
        else fileBody w.2 g := by
    intro g
    rw [hfiles, fileBody_persist, hbt, het]
  refine ⟨res, st, hrun, herr, hder, ?_, ?_, ?_, ?_, ?_⟩
  · intro f hf1 hf2
    rw [hfile, if_neg (fun e => hf2 e.1), if_neg (fun e => hf1 e.1)]
  · intro hnil
    rw [hfile, if_neg (fun e => hne e.1), if_neg (fun e => e.2 hnil)]
  · intro hnil
    rw [hfile, if_neg (fun e => e.2 hnil)]
    split_ifs with h
    · exact absurd h.1.symm hne
    · rfl
  · intro hnn
    have hfb : fileBody res.files ⟨args.seedsTargetPrefix, o - 1⟩
        = some (st.beginNewSeeds.flatMap writePoint) := by
      rw [hfile, if_neg (fun e => hne e.1), if_pos ⟨rfl, hnn⟩]
    refine ⟨hB hnn, hfb, ?_⟩
    intro w2 args2 o1 d1 hsrc hkeep h0 h1 hsum
    have hfile2 : fileBody w2.2 ⟨args2.seedsSourcePrefix, o - 1⟩
        = some (st.beginNewSeeds.flatMap writePoint) := by
      rw [hsrc, hkeep]
      exact hfb
    have hdel := delivered_seeds w2.2 w2.1 args2 o1 d1 (o - 1) _ h0 h1 (by omega)
      (Or.inr (by omega)) hfile2
    have hz : o - 1 - o1 = (d1 : Int) - 1 := by omega
    rw [hz] at hdel
    refine ⟨?_, hdel.1, hdel.2⟩
    simp only [blockEndZ, blockStartZ, BlockArgs.atOrigin, readBlock, toInt32_val_eq, wrap32]
    omega
  · intro hnn
    have hfb : fileBody res.files ⟨args.seedsTargetPrefix, o + (d : Int)⟩
        = some (st.endNewSeeds.flatMap writePoint) := by
      rw [hfile, if_pos ⟨rfl, hnn⟩]
    refine ⟨hE hnn, hfb, ?_⟩
    intro w2 args2 d1 hsrc hkeep h1 hsum
    have hfile2 : fileBody w2.2 ⟨args2.seedsSourcePrefix, o + (d : Int)⟩
        = some (st.endNewSeeds.flatMap writePoint) := by
      rw [hsrc, hkeep]
      exact hfb
    have hdel := delivered_seeds w2.2 w2.1 args2 (o + (d : Int)) d1 (o + (d : Int)) _
      (by omega) h1 (by omega) (Or.inl rfl) hfile2
    rw [sub_self] at hdel
    refine ⟨?_, hdel.1, hdel.2⟩
    simp only [blockStartZ, BlockArgs.atOrigin, toInt32_val_eq, wrap32]
    omega

theorem seed_delivery_witness :
    ∃ (res : RunResult Nat) (st : DeriveState),
      run paintSeeds 3 (sampleWhole, sampleFiles).2 (readBlock (sampleWhole, sampleFiles).1 4 2)
        ((sampleArgs Connectivity.AllNeighbours).atOrigin 4) = some res ∧
      res.error = none ∧
      deriveNewSeeds paintSeeds 3 (sampleWhole, sampleFiles).2
        (readBlock (sampleWhole, sampleFiles).1 4 2)
        ((sampleArgs Connectivity.AllNeighbours).atOrigin 4) = some (st, none) ∧
      (st.beginNewSeeds ≠ [] →
        fileBody res.files ⟨(sampleArgs Connectivity.AllNeighbours).seedsTargetPrefix, 4 - 1⟩
          = some (st.beginNewSeeds.flatMap writePoint)) := by
  obtain ⟨res, st, h1, h2, h3, _, _, _, h7, _⟩ :=
    seed_delivery paintSeeds 3 (by decide) (sampleWhole, sampleFiles)
      (sampleArgs Connectivity.AllNeighbours) 4 2
      ⟨by decide, by decide, by decide, by decide, by decide, by decide, by decide, by decide,
        by decide, by decide, Or.inr rfl, rfl, by decide⟩
  exact ⟨res, st, h1, h2, h3, fun h => (h7 h).2.1⟩

end FloodFillBlockCommand

/-! ## The outer loop of the flood fill for any kernel that only fills -/

theorem dispatchProgress_refl {P : Type} (w : World P) (args : BlockArgs P) : DispatchProgress w w args :=
  ⟨rfl, fun _ => Or.inl rfl, Or.inl (fun _ => rfl)⟩

theorem dispatchProgress_args {P : Type} {w0 w : World P} {args args2 : BlockArgs P}
    (h : DispatchProgress w0 w args) (e : args = args2) : DispatchProgress w0 w args2 := e ▸ h

theorem dispatchProgress_trans {P : Type} (w0 w w1 : World P) (args : BlockArgs P)
    (hne : args.origColor ≠ args.fillColor)
    (h1 : DispatchProgress w0 w args) (h2 : DispatchProgress w w1 args) :
    DispatchProgress w0 w1 args := by
  have hin : ∀ p : Vec3c, InImage w.1 p ↔ InImage w0.1 p := by
    intro p
    unfold InImage
    rw [h1.dims]
  have hmono : ∀ p : Vec3c, w1.1.pix p.x p.y p.z = w0.1.pix p.x p.y p.z ∨
      (InImage w0.1 p ∧ w0.1.pix p.x p.y p.z = args.origColor ∧
        w1.1.pix p.x p.y p.z = args.fillColor) := by
    intro p
    rcases h2.mono p with e2 | ⟨i2, a2, b2⟩
    · rcases h1.mono p with e1 | ⟨i1, a1, b1⟩
      · exact Or.inl (e2.trans e1)
      · exact Or.inr ⟨i1, a1, e2.trans b1⟩
    · rcases h1.mono p with e1 | ⟨i1, a1, b1⟩
      · exact Or.inr ⟨(hin p).1 i2, e1.symm.trans a2, b2⟩
      · exact absurd (a2.symm.trans b1) hne
  have hkeep : ∀ p : Vec3c, InImage w0.1 p → w0.1.pix p.x p.y p.z = args.origColor →
      w.1.pix p.x p.y p.z = args.fillColor → w1.1.pix p.x p.y p.z = args.fillColor := by
    intro p _ _ hb
    rcases h2.mono p with e2 | ⟨_, a2, _⟩
    · exact e2.trans hb
    · exact absurd (a2.symm.trans hb) hne
  refine ⟨h2.dims.trans h1.dims, hmono, ?_⟩
  rcases h2.files with f2 | ⟨p, i2, a2, b2⟩
  · rcases h1.files with f1 | ⟨p, i1, a1, b1⟩
    · exact Or.inl (fun k => (f2 k).trans (f1 k))
    · exact Or.inr ⟨p, i1, a1, hkeep p i1 a1 b1⟩
  · right
    refine ⟨p, (hin p).1 i2, ?_, b2⟩
    rcases h1.mono p with e1 | ⟨_, _, b1⟩
    · exact e1.symm.trans a2
    · exact absurd (a2.symm.trans b1) hne

/-- A pixel of the block that the kernel has changed is a pixel of the image
that has gone from the original colour to the fill colour. -/
theorem changed_of_local {P : Type} (floodfill : FloodFillKernel P) (hK : OnlyFills floodfill)
    (w : World P) (args : BlockArgs P) (o : Int) (d : Nat) (hs : BlockSetup w args o d)
    (px py : Nat) (lz : Int) (hx : px < (readBlock w.1 o d).width)
    (hy : py < (readBlock w.1 o d).height) (hz0 : 0 ≤ lz) (hz1 : lz < (d : Int))
    (hch : (readBlock w.1 o d).pix (px : Int) (py : Int) lz
      ≠ (FloodFillBlockCommand.filledBlock floodfill w.2 (readBlock w.1 o d)
          (args.atOrigin o)).pix (px : Int) (py : Int) lz) :
    ∃ p : Vec3c, InImage w.1 p ∧ w.1.pix p.x p.y p.z = args.origColor ∧
      (writeBlock w.1 o (FloodFillBlockCommand.filledBlock floodfill w.2 (readBlock w.1 o d)
        (args.atOrigin o))).pix p.x p.y p.z = args.fillColor := by
  have hx0 := hs.hx0
  have hy0 := hs.hy0
  have ho := hs.ho
  have hod := hs.hod
  have hk := hK (readBlock w.1 o d)
    (FloodFillBlockCommand.kernelSeeds w.2 (readBlock w.1 o d) (args.atOrigin o))
    args.origColor args.fillColor args.fillColor args.connectivity (px : Int) (py : Int) lz
  have hfb : (FloodFillBlockCommand.filledBlock floodfill w.2 (readBlock w.1 o d)
      (args.atOrigin o)).pix (px : Int) (py : Int) lz
        = floodfill (readBlock w.1 o d)
          (FloodFillBlockCommand.kernelSeeds w.2 (readBlock w.1 o d) (args.atOrigin o))
          args.origColor args.fillColor args.fillColor args.connectivity (px : Int) (py : Int)
          lz := rfl
  rw [hfb] at hch
  rcases hk with hk | ⟨hk1, hk2⟩
  · exact absurd hk.symm hch
  · have hxw : (readBlock w.1 o d).width = w.1.dimensions.x.toNat := rfl
    have hyw : (readBlock w.1 o d).height = w.1.dimensions.y.toNat := rfl
    rw [hxw] at hx
    rw [hyw] at hy
    refine ⟨⟨(px : Int), (py : Int), lz + o⟩, ?_, hk1, ?_⟩
    · unfold InImage
      simp only
      omega
    · unfold writeBlock
      simp only
      rw [if_pos, add_sub_cancel_right, hfb]
      · exact hk2
      · change _ ∧ _ < ((w.1.dimensions.x.toNat : Nat) : Int) ∧ _ ∧
          _ < ((w.1.dimensions.y.toNat : Nat) : Int) ∧ _ ∧ _ < o + ((d : Nat) : Int)
        omega

section progress

variable {P : Type} [DecidableEq P] [PixelType P] [ExactPixel P]

/-- One block job, for any kernel that only fills. -/
theorem blockJob_progress {P : Type} [PixelType P] [ExactPixel P]
    (floodfill : FloodFillKernel P) (hK : OnlyFills floodfill)
    (fuel : Nat) (hf : 3 ≤ fuel) (w : World P) (args : BlockArgs P) (o : Int) (d : Nat)
    (hs : BlockSetup w args o d) :
    DispatchProgress w (blockJob floodfill fuel o d args w) args := by
  by_cases hn : FloodFillBlockCommand.needsToRunBlock w.2 args.seedsSourcePrefix
      args.startPoint ⟨0, 0, o⟩ ⟨w.1.dimensions.x, w.1.dimensions.y, (d : Int)⟩ = true
  · rw [blockJob_run floodfill fuel hf w args o d hs hn]
    have hx0 := hs.hx0
    have hy0 := hs.hy0
    have ho := hs.ho
    have hod := hs.hod
    have hd := hs.hd
    refine ⟨rfl, ?_, ?_⟩
    · intro p
      by_cases hin : 0 ≤ p.x ∧ p.x < ((w.1.dimensions.x.toNat : Nat) : Int) ∧ 0 ≤ p.y ∧
          p.y < ((w.1.dimensions.y.toNat : Nat) : Int) ∧ o ≤ p.z ∧ p.z < o + ((d : Nat) : Int)
      · have hk := hK (readBlock w.1 o d)
          (FloodFillBlockCommand.kernelSeeds w.2 (readBlock w.1 o d) (args.atOrigin o))
          args.origColor args.fillColor args.fillColor args.connectivity p.x p.y (p.z - o)
        have hrb : (readBlock w.1 o d).pix p.x p.y (p.z - o) = w.1.pix p.x p.y p.z := by
          change w.1.pix p.x p.y (p.z - o + o) = _
          rw [sub_add_cancel]
        have hwb : (writeBlock w.1 o (FloodFillBlockCommand.filledBlock floodfill w.2
            (readBlock w.1 o d) (args.atOrigin o))).pix p.x p.y p.z
              = floodfill (readBlock w.1 o d)
                (FloodFillBlockCommand.kernelSeeds w.2 (readBlock w.1 o d) (args.atOrigin o))
                args.origColor args.fillColor args.fillColor args.connectivity p.x p.y
                (p.z - o) := by
          unfold writeBlock
          exact (if_pos hin).trans rfl
        change (writeBlock _ _ _).pix p.x p.y p.z = _ ∨ (_ ∧ _ ∧ (writeBlock _ _ _).pix p.x p.y p.z = _)
        rw [hwb]
        rcases hk with hk | ⟨hk1, hk2⟩
        · exact Or.inl (hk.trans hrb)
        · refine Or.inr ⟨?_, hrb.symm.trans hk1, hk2⟩
          unfold InImage
          omega
      · left
        change (writeBlock _ _ _).pix p.x p.y p.z = _
        unfold writeBlock
        exact if_neg hin
    · by_cases hB : expectedNewSeeds args.connectivity w.1.dimensions (readBlock w.1 o d)
          (FloodFillBlockCommand.filledBlock floodfill w.2 (readBlock w.1 o d)
            (args.atOrigin o)) 0 (toInt32 o - toInt32 1) = []
      · by_cases hE : expectedNewSeeds args.connectivity w.1.dimensions (readBlock w.1 o d)
            (FloodFillBlockCommand.filledBlock floodfill w.2 (readBlock w.1 o d)
              (args.atOrigin o)) ((d : Int) - 1) (toInt32 (o + (d : Int) - 1) + toInt32 1) = []
        · left
          intro k
          simp only [hB, hE, FloodFillBlockCommand.persist_nil]
        · right
          obtain ⟨s, hs1⟩ := List.exists_mem_of_ne_nil _ hE
          rw [mem_expectedNewSeeds] at hs1
          obtain ⟨_, px, py, hpx, hpy, hch, _⟩ := hs1
          exact changed_of_local floodfill hK w args o d hs px py _ hpx hpy (by omega)
            (by omega) hch
      · right
        obtain ⟨s, hs1⟩ := List.exists_mem_of_ne_nil _ hB
        rw [mem_expectedNewSeeds] at hs1
        obtain ⟨_, px, py, hpx, hpy, hch, _⟩ := hs1
        exact changed_of_local floodfill hK w args o d hs px py _ hpx hpy (le_refl 0)
          (by omega) hch
  · unfold blockJob
    rw [if_neg hn]
    exact dispatchProgress_refl w args

theorem blockSetup_of_dims {P : Type} (w0 w : World P) (args : BlockArgs P) (o : Int) (d : Nat)
    (hdims : w.1.dimensions = w0.1.dimensions) (hs : BlockSetup w0 args o d) :
    BlockSetup w args o d := by
  constructor
  · rw [hdims]; exact hs.hx0
  · rw [hdims]; exact hs.hx1
  · rw [hdims]; exact hs.hy0
  · rw [hdims]; exact hs.hy1
  · rw [hdims]; exact hs.hz1
  · exact hs.ho
  · rw [hdims]; exact hs.hod
  · exact hs.hd
  · exact hs.hsp0
  · rw [hdims]; exact hs.hsp1
  · exact hs.hconn
  · rw [hdims]; exact hs.hsize
  · exact hs.hne

/-- One dispatch over a list of blocks, for any kernel that only fills. -/
theorem distributeList_progress {P : Type} [PixelType P] [ExactPixel P]
    (floodfill : FloodFillKernel P) (hK : OnlyFills floodfill)
    (fuel : Nat) (hf : 3 ≤ fuel) (args : BlockArgs P) (hne : args.origColor ≠ args.fillColor)
    (w0 : World P) :
    ∀ (bl : List (Int × Nat)) (w : World P), (∀ b ∈ bl, BlockSetup w0 args b.1 b.2) →
      DispatchProgress w0 w args →
      DispatchProgress w0 (bl.foldl (fun w1 b => blockJob floodfill fuel b.1 b.2 args w1) w) args
  | [], _, _, h => h
  | b :: rest, w, hbl, h => by
    rw [List.foldl_cons]
    apply distributeList_progress floodfill hK fuel hf args hne w0 rest _
      (fun c hc => hbl c (List.mem_cons_of_mem _ hc))
    exact dispatchProgress_trans w0 w _ args hne h
      (blockJob_progress floodfill hK fuel hf w args b.1 b.2
        (blockSetup_of_dims w0 w args b.1 b.2 h.dims (hbl b (List.mem_cons_self _ _))))

theorem blockSetup_of_loopReady {P : Type} [PixelType P] [ExactPixel P] (img0 : DistributedImage P) (sp : Vec3c)
    (orig fill : P) (c : Connectivity) (bl : List (Int × Nat))
    (hset : FillSetup img0 sp fill c) (hpart : ZPartition img0 bl) (s : LoopState P)
    (hI : LoopReady img0 s) :
    ∀ b ∈ bl, BlockSetup s.world (FloodFillCommand.dispatchArgs sp orig fill c s) b.1 b.2 := by
  intro b hb
  have h1 := hpart.inside b hb
  have h2 := hset.hin
  unfold InImage at h2
  constructor
  · rw [hI.dims]; omega
  · rw [hI.dims]; exact hset.hx1
  · rw [hI.dims]; omega
  · rw [hI.dims]; exact hset.hy1
  · rw [hI.dims]; exact hset.hz1
  · exact h1.1
  · rw [hI.dims]; exact h1.2.1
  · exact h1.2.2
  · exact h2.2.2.2.2.1
  · rw [hI.dims]; exact h2.2.2.2.2.2
  · exact hset.hconn
  · rfl
  · exact hI.ne

/-- The state of the outer loop after a dispatch, for any kernel that only
fills: it is ready for the next dispatch, no more pixels have the original
colour than before, and fewer if a file is left under the target prefix. -/
theorem loopReady_afterDispatch (floodfill : FloodFillKernel P) (hK : OnlyFills floodfill)
    (jobFuel : Nat) (hjf : 3 ≤ jobFuel) (img0 : DistributedImage P) (sp : Vec3c) (fill : P)
    (c : Connectivity) (bl : List (Int × Nat)) (hset : FillSetup img0 sp fill c)
    (hpart : ZPartition img0 bl) (s : LoopState P) (hI : LoopReady img0 s) :
    LoopReady img0
        (afterDispatch (distributeList floodfill jobFuel bl) sp (img0.getPixel sp) fill c s) ∧
      countColor img0
          (afterDispatch (distributeList floodfill jobFuel bl) sp (img0.getPixel sp)
            fill c s).world.1 (img0.getPixel sp)
        ≤ countColor img0 s.world.1 (img0.getPixel sp) ∧
      (buildFileList
          (afterDispatch (distributeList floodfill jobFuel bl) sp (img0.getPixel sp)
            fill c s).world.2 s.seedsTargetFilenamePrefix ≠ [] →
        countColor img0
            (afterDispatch (distributeList floodfill jobFuel bl) sp (img0.getPixel sp)
              fill c s).world.1 (img0.getPixel sp)
          < countColor img0 s.world.1 (img0.getPixel sp)) := by
  have horig : img0.getPixel sp ≠ fill := hset.hcol
  have e := dispatchArgs_exact sp (img0.getPixel sp) fill c s
  have hprog : DispatchProgress s.world
      (distributeList floodfill jobFuel bl
        (FloodFillCommand.dispatchArgs sp (img0.getPixel sp) fill c s) s.world)
      ⟨s.seedsSourceFilenamePrefix, s.seedsTargetFilenamePrefix, sp, img0.getPixel sp, fill, c,
        s.world.1.dimensions, ⟨0, 0, 0⟩⟩ :=
    dispatchProgress_args
      (distributeList_progress floodfill hK jobFuel hjf _ (by rw [e]; exact horig) s.world bl
        s.world (blockSetup_of_loopReady img0 sp (img0.getPixel sp) fill c bl hset hpart s hI)
        (dispatchProgress_refl _ _)) e
  have hsub : ∀ q : Vec3c,
      (distributeList floodfill jobFuel bl
        (FloodFillCommand.dispatchArgs sp (img0.getPixel sp) fill c s) s.world).1.pix
          q.x q.y q.z = img0.getPixel sp →
      s.world.1.pix q.x q.y q.z = img0.getPixel sp := by
    intro q hq
    rcases hprog.mono q with h | ⟨_, h, h2⟩
    · rw [← h]
      exact hq
    · exact h
  refine ⟨⟨hprog.dims.trans hI.dims, fun e => hI.ne e.symm,
    fun k => fileBody_deleteSources_self _ _ k⟩, ?_, ?_⟩
  · unfold countColor
    apply Finset.card_le_card
    intro q hq
    rw [Finset.mem_filter] at hq ⊢
    exact ⟨hq.1, hsub q hq.2⟩
  · intro hne
    obtain ⟨k, hk⟩ := exists_file_of_buildFileList _ _ hne
    have hk2 : fileBody (distributeList floodfill jobFuel bl
        (FloodFillCommand.dispatchArgs sp (img0.getPixel sp) fill c s) s.world).2
        ⟨s.seedsTargetFilenamePrefix, k⟩ ≠ none := by
      intro e
      apply hk
      change fileBody (FloodFillCommand.deleteSources _ _) _ = none
      rw [fileBody_deleteSources_other _ _ _ (fun e => hI.ne e.symm)]
      exact e
    rcases hprog.files with h | ⟨p, hp1, hp2, hp3⟩
    · exact absurd ((h k).trans (hI.fresh k)) hk2
    · have hp1b : InImage img0 p := by
        unfold InImage at hp1 ⊢
        rw [← hI.dims]
        exact hp1
      unfold countColor
      apply Finset.card_lt_card
      rw [Finset.ssubset_iff_of_subset]
      · refine ⟨p, ?_, ?_⟩
        · rw [Finset.mem_filter]
          exact ⟨(mem_box _ p).2 ((inside_toImage img0 p).2 hp1b), hp2⟩
        · rw [Finset.mem_filter]
          intro h
          have h2 : (distributeList floodfill jobFuel bl
              (FloodFillCommand.dispatchArgs sp (img0.getPixel sp) fill c s) s.world).1.pix
                p.x p.y p.z = img0.getPixel sp := h.2
          rw [hp3] at h2
          exact horig h2.symm
      · intro q hq
        rw [Finset.mem_filter] at hq ⊢
        exact ⟨hq.1, hsub q hq.2⟩

/-- The outer loop ends within as many iterations as the image has pixels of
the original colour, plus one, for any kernel that only fills. -/
theorem outerLoop_terminates_onlyFills (floodfill : FloodFillKernel P)
    (hK : OnlyFills floodfill) (jobFuel : Nat) (hjf : 3 ≤ jobFuel) (img0 : DistributedImage P)
    (sp : Vec3c) (fill : P) (c : Connectivity) (bl : List (Int × Nat))
    (hset : FillSetup img0 sp fill c) (hpart : ZPartition img0 bl) :
    ∀ (n fuel : Nat) (s : LoopState P), LoopReady img0 s →
      countColor img0 s.world.1 (img0.getPixel sp) ≤ n → n + 1 ≤ fuel →
      ∃ w : World P, FloodFillCommand.outerLoop (distributeList floodfill jobFuel bl)
        sp (img0.getPixel sp) fill c fuel s = some w
  | _, 0, _, _, _, hf => by omega
  | n, fuel + 1, s, hI, hn, hf => by
    have hpost := loopReady_afterDispatch floodfill hK jobFuel hjf img0 sp fill c bl hset hpart
      s hI
    unfold FloodFillCommand.outerLoop
    rw [loopBody_eq_afterDispatch]
    by_cases hex : (buildFileList (afterDispatch (distributeList floodfill jobFuel bl)
        sp (img0.getPixel sp) fill c s).world.2 s.seedsTargetFilenamePrefix).length ≤ 0
    · rw [if_pos hex]
      exact ⟨_, rfl⟩
    · rw [if_neg hex]
      have hne : buildFileList (afterDispatch (distributeList floodfill jobFuel bl)
          sp (img0.getPixel sp) fill c s).world.2 s.seedsTargetFilenamePrefix ≠ [] := by
        intro e
        rw [e] at hex
        exact hex (Nat.le_refl 0)
      have hlt := hpost.2.2 hne
      cases n with
      | zero => omega
      | succ m =>
        exact outerLoop_terminates_onlyFills floodfill hK jobFuel hjf img0 sp fill c bl hset
          hpart m fuel _ hpost.1 (by omega) (by omega)

/-- Every iteration of the outer loop that leaves a file under the target
prefix takes a pixel from the pixels of the original colour. -/
theorem dispatchStart_count (floodfill : FloodFillKernel P)
    (hK : OnlyFills floodfill) (jobFuel : Nat) (hjf : 3 ≤ jobFuel) (img0 : DistributedImage P)
    (sp : Vec3c) (fill : P) (c : Connectivity) (bl : List (Int × Nat))
    (hset : FillSetup img0 sp fill c) (hpart : ZPartition img0 bl) :
    ∀ (k : Nat) (s0 s : LoopState P), LoopReady img0 s0 →
      FloodFillCommand.dispatchStart (distributeList floodfill jobFuel bl) sp
        (img0.getPixel sp) fill c k s0 = some s →
      k + countColor img0 s.world.1 (img0.getPixel sp)
        ≤ countColor img0 s0.world.1 (img0.getPixel sp)
  | 0, s0, s, _, h => by
    simp only [FloodFillCommand.dispatchStart, Option.some.injEq] at h
    rw [h]
    omega
  | k + 1, s0, s, hI, h => by
    have hpost := loopReady_afterDispatch floodfill hK jobFuel hjf img0 sp fill c bl hset hpart
      s0 hI
    unfold FloodFillCommand.dispatchStart at h
    rw [loopBody_eq_afterDispatch] at h
    by_cases hex : (buildFileList (afterDispatch (distributeList floodfill jobFuel bl)
        sp (img0.getPixel sp) fill c s0).world.2 s0.seedsTargetFilenamePrefix).length ≤ 0
    · rw [if_pos hex] at h
      cases h
    · rw [if_neg hex] at h
      have hne : buildFileList (afterDispatch (distributeList floodfill jobFuel bl)
          sp (img0.getPixel sp) fill c s0).world.2 s0.seedsTargetFilenamePrefix ≠ [] := by
        intro e
        rw [e] at hex
        exact hex (Nat.le_refl 0)
      have hlt := hpost.2.2 hne
      have ih := dispatchStart_count floodfill hK jobFuel hjf img0 sp fill c bl hset hpart k _ s
        hpost.1 h
      omega

theorem loopReady_initial {P : Type} (src tgt : String) (w : World P) (sp : Vec3c)
    (hne : src ≠ tgt) (htgt : buildFileList w.2 tgt = []) :
    LoopReady w.1 (FloodFillCommand.initialLoopState src tgt w sp) := by
  refine ⟨rfl, hne, ?_⟩
  intro k
  change fileBody (FloodFillBlockCommand.writeOutputFile w.2 _ _) ⟨tgt, k⟩ = none
  rw [FloodFillBlockCommand.fileBody_writeOutputFile, if_neg]
  · exact fileBody_none_of_buildFileList w.2 tgt htgt k
  · unfold FloodFillCommand.initialSeedFile
    intro e
    simp only [FileName.mk.injEq] at e
    exact hne e.1.symm

/-- The outer loop ends, for a pixel type whose comparison is exact and whose
colours pass through `double` unchanged: for every image of such pixels divided
along `z` into blocks of depth at least two
and every kernel that changes no pixel but from the original colour to the fill
colour, the outer loop of the distributed flood fill ends: with fuel for one
iteration more than the image has pixels of the original colour the command
returns. The iterations that leave a file under the target prefix, so that the
loop goes on, are at most as many as the image has pixels of the original
colour. -/
theorem outer_loop_terminates (floodfill : FloodFillKernel P) (hK : OnlyFills floodfill)
    (src tgt : String) (jobFuel fuel : Nat) (w : World P) (sp : Vec3c) (fill : P)
    (c : Connectivity) (depths : List Nat)
    (hne : src ≠ tgt) (htgt : buildFileList w.2 tgt = [])
    (hx : w.1.dimensions.x < 2147483648) (hy : w.1.dimensions.y < 2147483648)
    (hz : w.1.dimensions.z < 2147483648)
    (hconn : c = Connectivity.NearestNeighbours ∨ c = Connectivity.AllNeighbours)
    (hds : ∀ d ∈ depths, 2 ≤ d) (hsum : ((depths.sum : Nat) : Int) = w.1.dimensions.z)
    (hjf : 3 ≤ jobFuel) :
    (countColor w.1 w.1 (w.1.getPixel sp) + 1 ≤ fuel →
      ∃ w2 : World P,
        FloodFillCommand.runDistributed (distributeBlocks floodfill jobFuel depths)
          src tgt fuel w sp fill c = some ([], w2)) ∧
    (w.1.isInImage sp = true → w.1.getPixel sp ≠ fill →
      ∀ (k : Nat) (s : LoopState P),
        FloodFillCommand.dispatchStart (distributeBlocks floodfill jobFuel depths) sp
          (w.1.getPixel sp) fill c k (FloodFillCommand.initialLoopState src tgt w sp) = some s →
        k ≤ countColor w.1 w.1 (w.1.getPixel sp)) := by
  have hpart := zPartition_blockOrigins w.1 depths hds hsum
  have hready := loopReady_initial src tgt w sp hne htgt
  constructor
  · intro hfuel
    by_cases hin : w.1.isInImage sp = true
    · by_cases hcol : w.1.getPixel sp = fill
      · refine ⟨w, ?_⟩
        unfold FloodFillCommand.runDistributed
        rw [hin]
        simp only [Bool.not_true, Bool.false_eq_true, if_false, (pixel_eq_iff _ _).2 hcol,
          if_true]
      · have hset := fillSetup_of w sp fill c hx hy hz hin hcol hconn
        rw [runDistributed_eq_outerLoop _ _ _ _ _ _ _ _ hin (pixel_eq_false hcol)]
        obtain ⟨w2, hw2⟩ := outerLoop_terminates_onlyFills floodfill hK jobFuel hjf w.1 sp fill
          c (blockOrigins 0 depths) hset hpart (countColor w.1 w.1 (w.1.getPixel sp)) fuel
          (FloodFillCommand.initialLoopState src tgt w sp) hready (le_refl _) hfuel
        refine ⟨w2, ?_⟩
        unfold distributeBlocks
        rw [hw2]
        rfl
    · refine ⟨w, ?_⟩
      unfold FloodFillCommand.runDistributed
      simp only [Bool.not_eq_true] at hin
      rw [hin]
      rfl
  · intro hin hcol k s hk
    have hset := fillSetup_of w sp fill c hx hy hz hin hcol hconn
    have := dispatchStart_count floodfill hK jobFuel hjf w.1 sp fill c (blockOrigins 0 depths)
      hset hpart k _ s hready hk
    exact le_trans (Nat.le_add_right _ _) this

theorem outer_loop_terminates_witness :
    (countColor (sampleWhole, ([] : FileSystem)).1 (sampleWhole, ([] : FileSystem)).1
        ((sampleWhole, ([] : FileSystem)).1.getPixel ⟨1, 0, 3⟩) + 1 ≤ 33 →
      ∃ w2 : World Nat,
        FloodFillCommand.runDistributed (distributeBlocks paintSeeds 3 [2, 2, 4])
          "s1" "s2" 33 (sampleWhole, []) ⟨1, 0, 3⟩ 7 Connectivity.NearestNeighbours
            = some ([], w2)) ∧
    ((sampleWhole, ([] : FileSystem)).1.isInImage ⟨1, 0, 3⟩ = true →
      (sampleWhole, ([] : FileSystem)).1.getPixel ⟨1, 0, 3⟩ ≠ 7 →
      ∀ (k : Nat) (s : LoopState Nat),
        FloodFillCommand.dispatchStart (distributeBlocks paintSeeds 3 [2, 2, 4]) ⟨1, 0, 3⟩
          ((sampleWhole, ([] : FileSystem)).1.getPixel ⟨1, 0, 3⟩) 7
          Connectivity.NearestNeighbours k
          (FloodFillCommand.initialLoopState "s1" "s2" (sampleWhole, []) ⟨1, 0, 3⟩) = some s →
        k ≤ countColor (sampleWhole, ([] : FileSystem)).1 (sampleWhole, ([] : FileSystem)).1
          ((sampleWhole, ([] : FileSystem)).1.getPixel ⟨1, 0, 3⟩)) :=
  outer_loop_terminates paintSeeds
    (by
      intro img seeds origColor fillColor stopColor connectivity x y z
      unfold paintSeeds
      by_cases h : img.pix x y z = origColor ∧
          seeds.any (fun s => decide (s.x.val = x ∧ s.y.val = y ∧ s.z.val = z)) = true
      · rw [if_pos h]
        exact Or.inr ⟨h.1, rfl⟩
      · rw [if_neg h]
        exact Or.inl rfl)
    "s1" "s2" 3 33 (sampleWhole, []) ⟨1, 0, 3⟩ 7 Connectivity.NearestNeighbours [2, 2, 4]
    (by decide) rfl (by decide) (by decide) (by decide) (Or.inl rfl) (by decide) (by decide)
    (by decide)

end progress

/-! ## Block matching and block geometry -/

namespace BlockMatchPartialLoadCommand

theorem callKernel_eq {V : Type} (a : BlockMatchArgs V) (refDT : ImageDataType)
    (log : List BlockMatchEvent) :
    ((refDT ≠ ImageDataType.UInt8 ∧ refDT ≠ ImageDataType.UInt16 ∧
        refDT ≠ ImageDataType.Float32) ∧
      callKernel a refDT log = (Except.error BlockMatchError.unsupportedDataType, log)) ∨
    (¬ (refDT ≠ ImageDataType.UInt8 ∧ refDT ≠ ImageDataType.UInt16 ∧
        refDT ≠ ImageDataType.Float32) ∧
      callKernel a refDT log
        = (Except.ok (), log ++ [BlockMatchEvent.blockMatchPartialLoad refDT
            a.refFile a.defFile])) := by
  unfold callKernel
  by_cases h1 : refDT = ImageDataType.UInt8
  · right
    rw [if_pos h1, h1]
    exact ⟨fun h => h.1 rfl, rfl⟩
  · by_cases h2 : refDT = ImageDataType.UInt16
    · right
      rw [if_neg h1, if_pos h2, h2]
      exact ⟨fun h => h.2.1 rfl, rfl⟩
    · by_cases h3 : refDT = ImageDataType.Float32
      · right
        rw [if_neg h1, if_neg h2, if_pos h3, h3]
        exact ⟨fun h => h.2.2 rfl, rfl⟩
      · left
        rw [if_neg h1, if_neg h2, if_neg h3]
        exact ⟨⟨h1, h2, h3⟩, rfl⟩

/-- C22: `BlockMatchPartialLoadCommand::run` raises an error, with no call of
the kernel and no call of the writer, exactly when the information of the
reference or of the deformed file cannot be obtained, their data types differ,
the coarse or the fine binning is below 1, a minimum of the grid exceeds its
maximum, or the common data type is none of `UInt8`, `UInt16`, `Float32`; in
every other case it calls the kernel once, then the writer once, and returns. -/
theorem run_validation {V : Type} (getInfo : String → Option (Vec3c × ImageDataType))
    (a : BlockMatchArgs V) (log : List BlockMatchEvent) :
    ((∃ e, (run getInfo a log).1 = Except.error e) ↔ Rejected getInfo a) ∧
    (Rejected getInfo a → (run getInfo a log).2 = log) ∧
    (¬ Rejected getInfo a → ∃ pixelType : ImageDataType,
      run getInfo a log
        = (Except.ok (), log ++ [BlockMatchEvent.blockMatchPartialLoad pixelType
            a.refFile a.defFile, BlockMatchEvent.writeBlockMatchResult a.fname])) := by
  have key : (Rejected getInfo a ∧ ∃ e, run getInfo a log = (Except.error e, log)) ∨
      (¬ Rejected getInfo a ∧ ∃ pixelType : ImageDataType,
        run getInfo a log
          = (Except.ok (), log ++ [BlockMatchEvent.blockMatchPartialLoad pixelType
              a.refFile a.defFile, BlockMatchEvent.writeBlockMatchResult a.fname])) := by
    unfold run Rejected
    cases hr : getInfo a.refFile with
    | none => exact Or.inl ⟨Or.inl (Or.inl rfl), _, rfl⟩
    | some r =>
      obtain ⟨rdim, refDT⟩ := r
      cases hd : getInfo a.defFile with
      | none => exact Or.inl ⟨Or.inl (Or.inr rfl), _, rfl⟩
      | some d =>
        obtain ⟨ddim, defDT⟩ := d
        simp only
        by_cases h1 : refDT ≠ defDT
        · rw [if_pos h1]
          exact Or.inl ⟨Or.inr (Or.inl ⟨_, _, rfl, rfl, h1⟩), _, rfl⟩
        · rw [if_neg h1]
          by_cases h2 : a.coarseBinning < 1
          · rw [if_pos h2]
            exact Or.inl ⟨Or.inr (Or.inr (Or.inl h2)), _, rfl⟩
          · rw [if_neg h2]
            by_cases h3 : a.fineBinning < 1
            · rw [if_pos h3]
              exact Or.inl ⟨Or.inr (Or.inr (Or.inr (Or.inl h3))), _, rfl⟩
            · rw [if_neg h3]
              by_cases h4 : a.xmin > a.xmax ∨ a.ymin > a.ymax ∨ a.zmin > a.zmax
              · rw [if_pos h4]
                exact Or.inl ⟨Or.inr (Or.inr (Or.inr (Or.inr (Or.inl h4)))), _, rfl⟩
              · rw [if_neg h4]
                rcases callKernel_eq a refDT log with ⟨h5, hk⟩ | ⟨h5, hk⟩
                · rw [hk]
                  refine Or.inl ⟨Or.inr (Or.inr (Or.inr (Or.inr (Or.inr
                    ⟨_, _, rfl, rfl, not_not.1 h1, h5⟩)))), _, rfl⟩
                · rw [hk]
                  refine Or.inr ⟨?_, refDT, by simp⟩
                  rintro (h | h | h | h | h | h)
                  · rcases h with h | h <;> cases h
                  · obtain ⟨r, d, hr1, hd1, hne⟩ := h
                    simp only [Option.some.injEq] at hr1 hd1
                    rw [← hr1, ← hd1] at hne
                    exact h1 hne
                  · exact h2 h
                  · exact h3 h
                  · exact h4 h
                  · obtain ⟨r, d, hr1, _, _, hne⟩ := h
                    simp only [Option.some.injEq] at hr1
                    rw [← hr1] at hne
                    exact h5 hne
  rcases key with ⟨hrej, e, he⟩ | ⟨hok, pt, hp⟩
  · refine ⟨⟨fun _ => hrej, fun _ => ⟨e, by rw [he]⟩⟩, fun _ => by rw [he], fun h => absurd hrej h⟩
  · refine ⟨⟨fun h => ?_, fun h => absurd h hok⟩, fun h => absurd h hok, fun _ => ⟨pt, hp⟩⟩
    obtain ⟨e, he⟩ := h
    rw [hp] at he
    cases he

end BlockMatchPartialLoadCommand

/-- C23: for every image size, every output region that lies in the image and
every margin that is not negative, `computeRegions` yields the output region as
write region and a read region that contains the write region, has an origin
that is not negative, does not exceed the image, and is the unclipped expansion
of the output region by the margin whenever that expansion lies in the image. -/
theorem region_clipping (outputRegion : Region) (margin imageDimensions : Vec3c)
    (hin : outputRegion.Within imageDimensions)
    (hm : 0 ≤ margin.x ∧ 0 ≤ margin.y ∧ 0 ≤ margin.z) :
    (computeRegions outputRegion margin imageDimensions).2 = outputRegion ∧
    (computeRegions outputRegion margin imageDimensions).1.Contains
      (computeRegions outputRegion margin imageDimensions).2 ∧
    (computeRegions outputRegion margin imageDimensions).1.Within imageDimensions ∧
    ((outputRegion.expand margin).Within imageDimensions →
      (computeRegions outputRegion margin imageDimensions).1 = outputRegion.expand margin) := by
  unfold Region.Within at hin
  refine ⟨rfl, ?_, ?_, ?_⟩
  · simp only [computeRegions, clip, Region.expand, Region.Contains]
    omega
  · simp only [computeRegions, clip, Region.expand, Region.Within]
    omega
  · intro hex
    simp only [Region.expand, Region.Within] at hex
    simp only [computeRegions, clip, Region.expand, Region.mk.injEq, Vec3c.mk.injEq]
    omega

theorem region_clipping_witness :
    (computeRegions ⟨⟨0, 0, 4⟩, ⟨2, 2, 2⟩⟩ ⟨3, 3, 3⟩ ⟨2, 2, 8⟩).2 = ⟨⟨0, 0, 4⟩, ⟨2, 2, 2⟩⟩ ∧
    (computeRegions ⟨⟨0, 0, 4⟩, ⟨2, 2, 2⟩⟩ ⟨3, 3, 3⟩ ⟨2, 2, 8⟩).1.Contains
      (computeRegions ⟨⟨0, 0, 4⟩, ⟨2, 2, 2⟩⟩ ⟨3, 3, 3⟩ ⟨2, 2, 8⟩).2 ∧
    (computeRegions ⟨⟨0, 0, 4⟩, ⟨2, 2, 2⟩⟩ ⟨3, 3, 3⟩ ⟨2, 2, 8⟩).1.Within ⟨2, 2, 8⟩ ∧
    ((Region.expand ⟨⟨0, 0, 4⟩, ⟨2, 2, 2⟩⟩ ⟨3, 3, 3⟩).Within ⟨2, 2, 8⟩ →
      (computeRegions ⟨⟨0, 0, 4⟩, ⟨2, 2, 2⟩⟩ ⟨3, 3, 3⟩ ⟨2, 2, 8⟩).1
        = Region.expand ⟨⟨0, 0, 4⟩, ⟨2, 2, 2⟩⟩ ⟨3, 3, 3⟩) :=
  region_clipping ⟨⟨0, 0, 4⟩, ⟨2, 2, 2⟩⟩ ⟨3, 3, 3⟩ ⟨2, 2, 8⟩ (by decide) (by decide)

/-! ## Inputs on which the comparison or the conversion of the pixel type is not exact -/

/-- The reference flood fill changes no pixel but from the original colour to
the fill colour. -/
theorem onlyFills_referenceFloodFill {P : Type} [DecidableEq P] :
    OnlyFills (referenceFloodFill : FloodFillKernel P) := by
  intro img seeds origColor fillColor stopColor connectivity x y z
  unfold referenceFloodFill
  by_cases h : reachedWithin img (seeds.map Vec3sc.toVec3c) origColor connectivity
      (img.width * img.height * img.depth) ⟨x, y, z⟩ = true
  · rw [if_pos h]
    exact Or.inr ⟨(reachedWithin_inside img _ origColor connectivity _ _ h).2, rfl⟩
  · rw [if_neg h]
    exact Or.inl rfl

namespace FloodFillBlockCommand

/-- C1, at a block that holds a NaN: `nanBlock` is a block of `float32_t`
pixels of width 1, height 1 and depth 2 with a NaN on its last plane, the kernel
changes no pixel, the connectivity is `NearestNeighbours` and the plane `z = 2`
next to the block lies in the image of depth 4. No pixel has another value
after the fill than in the snapshot, so the new-seed list of the last plane
ought to be empty. The test `edgeValues[n] != in(x, y, z)` of line 812 holds for
the NaN, and the derivation of `run` ends with the seed `(0, 0, 2)` in the list
of the last plane. -/
theorem new_seeds_for_unchanged_nan_pixel :
    2 ≤ nanBlock.depth ∧
    (∀ x y z : Int,
      (filledBlock idleKernel [] nanBlock (nanArgs Connectivity.NearestNeighbours)).pix x y z
        = nanBlock.pix x y z) ∧
    (0 ≤ (blockEndZ nanBlock (nanArgs Connectivity.NearestNeighbours) + toInt32 1).val ∧
      (blockEndZ nanBlock (nanArgs Connectivity.NearestNeighbours) + toInt32 1).val
        < (nanArgs Connectivity.NearestNeighbours).origSize.z) ∧
    unequalPixels nanBlock
        (filledBlock idleKernel [] nanBlock (nanArgs Connectivity.NearestNeighbours)) 1
      = [(0, 0)] ∧
    deriveNewSeeds idleKernel 3 [] nanBlock (nanArgs Connectivity.NearestNeighbours)
      = some (⟨2, [], [Vec3sc.ofInts 0 0 2]⟩, none) :=
  ⟨by decide, fun _ _ _ => rfl, by decide, by decide, by decide⟩

/-- C2, at a block that holds a NaN: on `nanBlock` with a kernel that changes no
pixel, so that the number `k` of changed pixels of either boundary plane is 0,
the derivation of `run` still ends with 9 new seeds at `z = 2`, the 3 x 3
neighbourhood of `(0, 0)`, under `AllNeighbours`, and with 1 new seed under
`NearestNeighbours`, where `9 * k` and `k` are 0. -/
theorem footprint_count_without_change :
    2 ≤ nanBlock.depth ∧
    (∀ (connectivity : Connectivity) (x y z : Int),
      (filledBlock idleKernel [] nanBlock (nanArgs connectivity)).pix x y z
        = nanBlock.pix x y z) ∧
    (deriveNewSeeds idleKernel 3 [] nanBlock (nanArgs Connectivity.AllNeighbours)).map
        (fun r => (r.1.beginNewSeeds, r.1.endNewSeeds, r.2))
      = some ([], [Vec3sc.ofInts (-1) (-1) 2, Vec3sc.ofInts 0 (-1) 2, Vec3sc.ofInts 1 (-1) 2,
          Vec3sc.ofInts (-1) 0 2, Vec3sc.ofInts 0 0 2, Vec3sc.ofInts 1 0 2,
          Vec3sc.ofInts (-1) 1 2, Vec3sc.ofInts 0 1 2, Vec3sc.ofInts 1 1 2], none) ∧
    (deriveNewSeeds idleKernel 3 [] nanBlock (nanArgs Connectivity.AllNeighbours)).map
        (fun r => r.1.endNewSeeds.length) = some 9 ∧
    (deriveNewSeeds idleKernel 3 [] nanBlock (nanArgs Connectivity.NearestNeighbours)).map
        (fun r => (r.1.beginNewSeeds.length, r.1.endNewSeeds.length)) = some (0, 1) :=
  ⟨by decide, fun _ _ _ _ => rfl, by decide, by decide, by decide⟩

/-- C8, at a block that holds a NaN: no source file exists and the start point
`(0, 0, 3)` lies outside the block `z = 0, 1`, so `needsToRunBlock` returns false
for `nanBlock`, and the kernel changes no pixel. Yet `run` on that block returns
normally with the target file `s2_2` written, which holds the seed `(0, 0)`:
running is not what skipping is. -/
theorem skipped_block_would_write_seeds :
    2 ≤ nanBlock.depth ∧
    needsToRunBlock [] (nanArgs Connectivity.NearestNeighbours).seedsSourcePrefix
        (nanArgs Connectivity.NearestNeighbours).startPoint
        (nanArgs Connectivity.NearestNeighbours).blockOrigin
        ⟨(nanBlock.width : Int), (nanBlock.height : Int), (nanBlock.depth : Int)⟩ = false ∧
    (∀ (seeds : List Vec3sc) (origColor fillColor stopColor : SampleFloat)
        (connectivity : Connectivity) (x y z : Int),
      idleKernel nanBlock seeds origColor fillColor stopColor connectivity x y z
        = nanBlock.pix x y z) ∧
    (run idleKernel 3 [] nanBlock (nanArgs Connectivity.NearestNeighbours)).map
        (fun res => (res.files, res.error))
      = some ([(⟨"s2", 2⟩, writePoint (Vec3sc.ofInts 0 0 2))], none) ∧
    (run idleKernel 3 [] nanBlock (nanArgs Connectivity.NearestNeighbours)).map
        (fun res => fileExists res.files ⟨"s2", 2⟩) = some true :=
  ⟨by decide, by decide, fun _ _ _ _ _ _ _ _ => rfl, by decide, by decide⟩

end FloodFillBlockCommand

namespace FloodFillCommand

end FloodFillCommand

/-- C13, at a colour above `2 ^ 53`: the image `bigWhole 2` of `uint64_t` pixels
has the colour `2 ^ 53 + 1` everywhere and is processed as one block of depth 2;
the fill colour is 7. The block command gets `2 ^ 53` as original colour, not
the colour of the start point. The distributed flood fill returns after one
dispatch with no file and with both pixels as they were, while the single call
of the kernel with the colour of the start point and the flood fill that is not
distributed give both pixels the colour 7. -/
theorem single_block_differs_above_double_precision :
    (bigWhole 2).isInImage ⟨0, 0, 0⟩ = true ∧
    (bigWhole 2).getPixel ⟨0, 0, 0⟩ ≠ (⟨7⟩ : SampleUInt64) ∧
    (FloodFillCommand.dispatchArgs ⟨0, 0, 0⟩ ((bigWhole 2).getPixel ⟨0, 0, 0⟩)
        (⟨7⟩ : SampleUInt64) Connectivity.NearestNeighbours
        (FloodFillCommand.initialLoopState "s1" "s2" (bigWhole 2, []) ⟨0, 0, 0⟩)).origColor
      = ⟨9007199254740992⟩ ∧
    (FloodFillCommand.runDistributed (distributeBlocks referenceFloodFill 3 [2]) "s1" "s2" 1
        (bigWhole 2, []) ⟨0, 0, 0⟩ ⟨7⟩ Connectivity.NearestNeighbours).map
      (fun r => (r.1, [r.2.1.pix 0 0 0, r.2.1.pix 0 0 1], r.2.2))
        = some ([], [bigColor, bigColor], []) ∧
    [(singleBlockImage referenceFloodFill "s1" "s2" (bigWhole 2, []) ⟨0, 0, 0⟩ ⟨7⟩
        Connectivity.NearestNeighbours 2).pix 0 0 0,
      (singleBlockImage referenceFloodFill "s1" "s2" (bigWhole 2, []) ⟨0, 0, 0⟩ ⟨7⟩
        Connectivity.NearestNeighbours 2).pix 0 0 1] = [⟨7⟩, ⟨7⟩] ∧
    [(FloodFillCommand.run referenceFloodFillFrom (bigWhole 2).toImage ⟨0, 0, 0⟩ ⟨7⟩
        Connectivity.NearestNeighbours).pix 0 0 0,
      (FloodFillCommand.run referenceFloodFillFrom (bigWhole 2).toImage ⟨0, 0, 0⟩ ⟨7⟩
        Connectivity.NearestNeighbours).pix 0 0 1] = [⟨7⟩, ⟨7⟩] :=
  ⟨by decide, by decide, by decide, by decide, by decide, by decide⟩

/-- C14, at a colour above `2 ^ 53`: the image `bigWhole 6` of `uint64_t` pixels
has the one colour `2 ^ 53 + 1` and is divided along `z` into three blocks of
depth 2; the start point `(0, 0, 2)` lies in the middle block and the fill
colour 7 is not the colour of the image. With the reference flood fill as
kernel the outer loop ends in its first iteration and no file remains, but under
either connectivity every pixel of the three blocks still has the colour
`2 ^ 53 + 1` and none the fill colour. -/
theorem uniform_image_left_unfilled :
    (∀ x y z : Int, (bigWhole 6).pix x y z = bigColor) ∧
    bigColor ≠ (⟨7⟩ : SampleUInt64) ∧
    (FloodFillCommand.runDistributed (distributeBlocks referenceFloodFill 3 [2, 2, 2])
        "s1" "s2" 1 (bigWhole 6, []) ⟨0, 0, 2⟩ ⟨7⟩ Connectivity.NearestNeighbours).map
      (fun r => (r.1, (List.range 6).map (fun z => r.2.1.pix 0 0 (z : Int)), r.2.2))
        = some ([], List.replicate 6 bigColor, []) ∧
    (FloodFillCommand.runDistributed (distributeBlocks referenceFloodFill 3 [2, 2, 2])
        "s1" "s2" 1 (bigWhole 6, []) ⟨0, 0, 2⟩ ⟨7⟩ Connectivity.AllNeighbours).map
      (fun r => (r.1, (List.range 6).map (fun z => r.2.1.pix 0 0 (z : Int)), r.2.2))
        = some ([], List.replicate 6 bigColor, []) :=
  ⟨fun _ _ _ => rfl, by decide, by decide, by decide⟩

/-- C15, at a colour above `2 ^ 53`: the image `bigMixed` of `uint64_t` pixels
is divided along `z` into two blocks of depth 2, the start point `(0, 0, 1)`
lies in the image and has the colour `2 ^ 53 + 1`, the fill colour is 7. With
the reference flood fill as kernel `runDistributed` returns with every pixel as
it was, while the flood fill that is not distributed gives the four pixels of
the column `x = 0` the colour 7. -/
theorem distributed_differs_from_plain_flood_fill :
    bigMixed.isInImage ⟨0, 0, 1⟩ = true ∧
    bigMixed.getPixel ⟨0, 0, 1⟩ ≠ (⟨7⟩ : SampleUInt64) ∧
    (FloodFillCommand.runDistributed (distributeBlocks referenceFloodFill 3 [2, 2])
        "s1" "s2" 1 (bigMixed, []) ⟨0, 0, 1⟩ ⟨7⟩ Connectivity.NearestNeighbours).map
      (fun r => (List.range 4).map
        (fun z => (r.2.1.pix 0 0 (z : Int), r.2.1.pix 1 0 (z : Int))))
        = some (List.replicate 4 (bigColor, ⟨5⟩)) ∧
    (List.range 4).map
        (fun z =>
          ((FloodFillCommand.run referenceFloodFillFrom bigMixed.toImage ⟨0, 0, 1⟩ ⟨7⟩
              Connectivity.NearestNeighbours).pix 0 0 (z : Int),
            (FloodFillCommand.run referenceFloodFillFrom bigMixed.toImage ⟨0, 0, 1⟩ ⟨7⟩
              Connectivity.NearestNeighbours).pix 1 0 (z : Int)))
      = List.replicate 4 (⟨7⟩, ⟨5⟩) :=
  ⟨by decide, by decide, by decide, by decide⟩

/-! ## The states of a loop that does not end -/

/-- A block job leaves the dimensions of the image alone and changes no pixel
outside the box of its block, whatever the kernel and the pixel type. -/
theorem blockJob_frame {P : Type} [PixelType P] (floodfill : FloodFillKernel P) (fuel : Nat)
    (o : Int) (d : Nat) (args : BlockArgs P) (w : World P) :
    (blockJob floodfill fuel o d args w).1.dimensions = w.1.dimensions ∧
    ∀ x y z : Int,
      ¬ (0 ≤ x ∧ x < ((w.1.dimensions.x.toNat : Nat) : Int) ∧ 0 ≤ y ∧
        y < ((w.1.dimensions.y.toNat : Nat) : Int) ∧ o ≤ z ∧ z < o + (d : Int)) →
      (blockJob floodfill fuel o d args w).1.pix x y z = w.1.pix x y z := by
  unfold blockJob
  split
  · cases hrun : FloodFillBlockCommand.run floodfill fuel w.2 (readBlock w.1 o d)
        (args.atOrigin o) with
    | none => exact ⟨rfl, fun _ _ _ _ => rfl⟩
    | some res =>
      obtain ⟨image, files, error⟩ := res
      cases error with
      | some e => exact ⟨rfl, fun _ _ _ _ => rfl⟩
      | none =>
        obtain ⟨st, _, hres⟩ := FloodFillBlockCommand.derive_of_run floodfill fuel w.2
          (readBlock w.1 o d) (args.atOrigin o) _ hrun rfl
        have himg : image = FloodFillBlockCommand.filledBlock floodfill w.2
            (readBlock w.1 o d) (args.atOrigin o) := congrArg RunResult.image hres
        refine ⟨rfl, fun x y z hout => ?_⟩
        show (writeBlock w.1 o image).pix x y z = w.1.pix x y z
        rw [himg]
        exact if_neg hout
  · exact ⟨rfl, fun _ _ _ _ => rfl⟩

/-- A dispatch over a list of blocks leaves the dimensions of the image alone,
whatever the kernel and the pixel type. -/
theorem distributeList_dimensions {P : Type} [PixelType P] (floodfill : FloodFillKernel P)
    (fuel : Nat) (args : BlockArgs P) :
    ∀ (bl : List (Int × Nat)) (w : World P),
      (distributeList floodfill fuel bl args w).1.dimensions = w.1.dimensions
  | [], _ => rfl
  | b :: rest, w => by
    have h1 := blockJob_frame floodfill fuel b.1 b.2 args w
    have h2 := distributeList_dimensions floodfill fuel args rest
      (blockJob floodfill fuel b.1 b.2 args w)
    unfold distributeList at h2 ⊢
    rw [List.foldl_cons]
    exact h2.trans h1.1

/-- A dispatch over a list of blocks changes no pixel outside the boxes of the
blocks, whatever the kernel and the pixel type. -/
theorem distributeList_frame {P : Type} [PixelType P] (floodfill : FloodFillKernel P)
    (fuel : Nat) (args : BlockArgs P) (x y z : Int) :
    ∀ (bl : List (Int × Nat)) (w : World P),
      (∀ b ∈ bl, ¬ (0 ≤ x ∧ x < w.1.dimensions.x ∧ 0 ≤ y ∧ y < w.1.dimensions.y ∧
        b.1 ≤ z ∧ z < b.1 + (b.2 : Int))) →
      (distributeList floodfill fuel bl args w).1.pix x y z = w.1.pix x y z
  | [], _, _ => rfl
  | b :: rest, w, hout => by
    have h1 := blockJob_frame floodfill fuel b.1 b.2 args w
    have h2 := distributeList_frame floodfill fuel args x y z rest
      (blockJob floodfill fuel b.1 b.2 args w)
      (by rw [h1.1]; exact fun c hc => hout c (List.mem_cons_of_mem _ hc))
    unfold distributeList at h2 ⊢
    rw [List.foldl_cons]
    refine h2.trans (h1.2 x y z ?_)
    have := hout b (List.mem_cons_self _ _)
    omega

/-- Two states of the outer loop are the same when their prefixes, their files,
the dimensions of their images and all pixels are. -/
theorem loopState_ext {P : Type} (s t : LoopState P)
    (h1 : s.seedsSourceFilenamePrefix = t.seedsSourceFilenamePrefix)
    (h2 : s.seedsTargetFilenamePrefix = t.seedsTargetFilenamePrefix)
    (h3 : s.world.1.dimensions = t.world.1.dimensions)
    (h4 : ∀ x y z : Int, s.world.1.pix x y z = t.world.1.pix x y z)
    (h5 : s.world.2 = t.world.2) : s = t := by
  obtain ⟨a, b, ⟨⟨d, p⟩, f⟩⟩ := s
  obtain ⟨a2, b2, ⟨⟨d2, p2⟩, f2⟩⟩ := t
  simp only at h1 h2 h3 h4 h5
  have h6 : p = p2 := funext fun x => funext fun y => funext fun z => h4 x y z
  subst h1 h2 h3 h5 h6
  rfl

theorem nanBarrierState_dimensions : ∀ k : Nat,
    (nanBarrierState k).world.1.dimensions = ⟨1, 1, 4⟩
  | 0 => rfl
  | k + 1 =>
    (distributeList_dimensions referenceFloodFill 3 _ (blockOrigins 0 [2, 2])
      (nanBarrierState k).world).trans (nanBarrierState_dimensions k)

theorem nanBarrierState_frame (k : Nat) (x y z : Int)
    (h : ¬ (0 ≤ x ∧ x < 1 ∧ 0 ≤ y ∧ y < 1 ∧ 0 ≤ z ∧ z < 4)) :
    (nanBarrierState (k + 1)).world.1.pix x y z = (nanBarrierState k).world.1.pix x y z := by
  apply distributeList_frame referenceFloodFill 3 _ x y z (blockOrigins 0 [2, 2])
    (nanBarrierState k).world
  intro b hb
  rw [nanBarrierState_dimensions]
  simp only [blockOrigins, List.mem_cons, List.mem_singleton, List.not_mem_nil, or_false] at hb
  rcases hb with rfl | rfl
  · simp only [Nat.cast_ofNat]; omega
  · simp only [Nat.cast_ofNat]; omega

/-- On the image `nanBarrier` the state of the outer loop after three dispatches
is the state after one dispatch. -/
theorem nanBarrierState_three : nanBarrierState 3 = nanBarrierState 1 := by
  apply loopState_ext
  · rfl
  · rfl
  · rw [nanBarrierState_dimensions, nanBarrierState_dimensions]
  · intro x y z
    by_cases h : 0 ≤ x ∧ x < 1 ∧ 0 ≤ y ∧ y < 1 ∧ 0 ≤ z ∧ z < 4
    · have hx : x = 0 := by omega
      have hy : y = 0 := by omega
      have hz : z = 0 ∨ z = 1 ∨ z = 2 ∨ z = 3 := by omega
      subst hx hy
      rcases hz with rfl | rfl | rfl | rfl <;> decide
    · exact (nanBarrierState_frame 2 x y z h).trans (nanBarrierState_frame 1 x y z h)
  · decide

theorem nanBarrierState_period : ∀ k : Nat, nanBarrierState (k + 3) = nanBarrierState (k + 1)
  | 0 => nanBarrierState_three
  | k + 1 => by
    show afterDispatch _ _ _ _ _ (nanBarrierState (k + 3)) = afterDispatch _ _ _ _ _ (nanBarrierState (k + 1))
    rw [nanBarrierState_period k]

theorem nanBarrierState_files : ∀ k : Nat,
    ¬ (buildFileList (nanBarrierState (k + 1)).world.2
        (nanBarrierState k).seedsTargetFilenamePrefix).length ≤ 0
  | 0 => by decide
  | 1 => by decide
  | 2 => by decide
  | k + 3 => by
    rw [nanBarrierState_period (k + 1), nanBarrierState_period k]
    exact nanBarrierState_files (k + 1)

theorem loopBody_nanBarrierState (k : Nat) :
    FloodFillCommand.loopBody (distributeBlocks referenceFloodFill 3 [2, 2]) ⟨0, 0, 0⟩
        (nanBarrier.getPixel ⟨0, 0, 0⟩) (SampleFloat.num 7) Connectivity.NearestNeighbours
        (nanBarrierState k)
      = Sum.inl (nanBarrierState (k + 1)) :=
  if_neg (nanBarrierState_files k)

theorem outerLoop_nanBarrierState : ∀ (fuel k : Nat),
    FloodFillCommand.outerLoop (distributeBlocks referenceFloodFill 3 [2, 2]) ⟨0, 0, 0⟩
        (nanBarrier.getPixel ⟨0, 0, 0⟩) (SampleFloat.num 7) Connectivity.NearestNeighbours fuel
        (nanBarrierState k) = none
  | 0, _ => rfl
  | fuel + 1, k => by
    unfold FloodFillCommand.outerLoop
    rw [loopBody_nanBarrierState k]
    exact outerLoop_nanBarrierState fuel (k + 1)

/-- The flood fill of `nanBarrier` does not return, whatever the fuel of its
loop. -/
theorem runDistributed_nanBarrier (fuel : Nat) :
    FloodFillCommand.runDistributed (distributeBlocks referenceFloodFill 3 [2, 2]) "s1" "s2"
      fuel (nanBarrier, []) ⟨0, 0, 0⟩ (SampleFloat.num 7) Connectivity.NearestNeighbours
      = none := by
  unfold FloodFillCommand.runDistributed
  have h1 : (nanBarrier, ([] : FileSystem)).1.isInImage ⟨0, 0, 0⟩ = true := by decide
  have h2 : PixelType.eq ((nanBarrier, ([] : FileSystem)).1.getPixel ⟨0, 0, 0⟩)
      (SampleFloat.num 7) = false := by decide
  rw [h1]
  simp only [Bool.not_true, Bool.false_eq_true, if_false, h2]
  have h3 := outerLoop_nanBarrierState fuel 0
  change FloodFillCommand.outerLoop _ _ _ _ _ fuel
    (FloodFillCommand.initialLoopState "s1" "s2" (nanBarrier, []) ⟨0, 0, 0⟩) = none at h3
  rw [h3]

/-- C26, at an image that holds NaNs: `nanBarrier` is an image of `float32_t`
pixels of size 1 x 1 x 4, divided along `z` into two blocks of depth 2, with two
pixels of the original colour 0; the fill starts at `(0, 0, 0)` with the fill
colour 7 and the reference flood fill, a kernel that changes no pixel but from
the original colour to the fill colour. The loop reaches its sixth dispatch, so
five iterations have left a file under the target prefix, more than the two
pixels of the original colour; the files left are `s2_2` and `s1_1` in turn, and
`runDistributed` does not return, however many iterations its loop may make. -/
theorem outer_loop_keeps_running_on_nan :
    OnlyFills (referenceFloodFill : FloodFillKernel SampleFloat) ∧
    nanBarrier.isInImage ⟨0, 0, 0⟩ = true ∧
    nanBarrier.getPixel ⟨0, 0, 0⟩ = SampleFloat.num 0 ∧
    countColor nanBarrier nanBarrier (SampleFloat.num 0) = 2 ∧
    (List.range 6).map
        (fun k =>
          (FloodFillCommand.dispatchStart (distributeBlocks referenceFloodFill 3 [2, 2])
            ⟨0, 0, 0⟩ (nanBarrier.getPixel ⟨0, 0, 0⟩) (SampleFloat.num 7)
            Connectivity.NearestNeighbours k
            (FloodFillCommand.initialLoopState "s1" "s2" (nanBarrier, []) ⟨0, 0, 0⟩)).map
          (fun s => s.world.2.map (fun f => f.1)))
      = [some [⟨"s1", 0⟩], some [⟨"s2", 2⟩], some [⟨"s1", 1⟩], some [⟨"s2", 2⟩],
          some [⟨"s1", 1⟩], some [⟨"s2", 2⟩]] ∧
    ∀ fuel : Nat,
      FloodFillCommand.runDistributed (distributeBlocks referenceFloodFill 3 [2, 2])
        "s1" "s2" fuel (nanBarrier, []) ⟨0, 0, 0⟩ (SampleFloat.num 7)
        Connectivity.NearestNeighbours = none :=
  ⟨onlyFills_referenceFloodFill, by decide, by decide, by decide, by decide,
    runDistributed_nanBarrier⟩
end Pi2
